import Mathlib

/-!
# A verification development for the chess rules engine (`src/chess`)

The engine façade `Game` (Game.cpp) is embedded as pure functions over an explicit
state record.  Conventions of the embedding:

* A `Piece*` is a piece record carrying an `id` (the object identity); pointer
  comparison is comparison of ids.  The board owns the piece records; the player
  rosters hold ids and are resolved through the board.
* A `Move` is a value object: the pieces it refers to are the records as they were
  when the move was built.
* The two `Player` objects are identified with their colours: `whitePlayer` is the
  White roster, `blackPlayer` the Black roster and `currentPlayer` is the colour of
  the player to move.
* Mutating member functions return the new state.  `Game::makeMove` returns an
  `Outcome`: the state the object is left in together with the exception raised, if
  any.  `const` member functions return `Except Exc _`.
* Behaviour that C++ leaves undefined (dereferencing a null or dangling pointer,
  signed overflow of the two move counters) is an explicit failure of kind
  `Exc.nullDereference` / `Exc.signedOverflow`.  Square coordinates are unbounded
  integers.
-/

namespace Chess

/-! ## Data model -/

/-- Modelled from the spec: Color.h is missing.  The two colours, named as Game.cpp
uses them (`Color::WHITE`, `Color::BLACK`). -/
inductive Color
  | WHITE
  | BLACK
deriving DecidableEq, Repr

/-- Modelled from the spec: PieceType.h is missing.  The enumerators are the keys of
`pieceChars` in GameField.cpp. -/
inductive PieceType
  | NONE
  | PAWN
  | ROOK
  | BISHOP
  | KNIGHT
  | KING
  | QUEEN
deriving DecidableEq, Repr

/-- Position.h: `Position(int row, int col)`, compared by value. -/
structure Position where
  row : Int
  col : Int
deriving DecidableEq, Repr

/-- Modelled from the spec: Piece.h is missing.  §3: a piece object, with its
identity `id`, variant tag, colour, the position of the square it stands on and, for
pawns, the transient flag "is currently an en-passant target". -/
structure Piece where
  id : Nat
  type : PieceType
  color : Color
  position : Position
  isEnPassantTarget : Bool
deriving DecidableEq, Repr

/-- Modelled from the spec: Board.h is missing.  §3: the board owns every piece it
contains; each piece stands on its `position`. -/
structure Board where
  pieces : List Piece
deriving DecidableEq, Repr

/-- Modelled from the spec: Move.h is missing.  §3: a move value, built in Game.cpp
as `Move(from, to, piece, capturedPiece)` with `promoteTo` defaulting to
`PieceType::NONE`. -/
structure Move where
  from_ : Position
  to_ : Position
  piece : Piece
  capturedPiece : Option Piece
  promoteTo : PieceType
deriving DecidableEq, Repr

/-- Modelled from the spec: Player.h is missing.  §3: a player object holds the
roster of references to its pieces. -/
structure Player where
  pieces : List Nat
deriving DecidableEq, Repr

/-- The exceptions Game.cpp raises, and the two kinds of undefined behaviour. -/
inductive Exc
  | IllegalMoveException
  | bad_cast
  | invalid_argument
  | nullDereference
  | signedOverflow
deriving DecidableEq, Repr

/-- Game.h / Game.cpp: the members of `Game`. -/
structure Game where
  board : Board
  whitePlayer : Player
  blackPlayer : Player
  currentPlayer : Color
  moveHistory : List Move
  canWhiteKingsideCastle : Bool
  canWhiteQueensideCastle : Bool
  canBlackKingsideCastle : Bool
  canBlackQueensideCastle : Bool
  enPassantTargetPosition : Option Position
  halfmoveClock : Int
  fullmoveNumber : Int
deriving DecidableEq, Repr

/-- The result of a mutating call: the state the object is left in and the
exception that left the call, if one did. -/
structure Outcome where
  state : Game
  raised : Option Exc
deriving DecidableEq, Repr

/-- Largest value of a C++ `int`. -/
def INT_MAX : Int := 2147483647

/-- The other colour. -/
def Color.opposite : Color → Color
  | Color.WHITE => Color.BLACK
  | Color.BLACK => Color.WHITE

/-- The coordinate lies on the 8×8 grid (§3: rows and columns 1 to 8). -/
def Position.inBounds (p : Position) : Bool :=
  decide (1 ≤ p.row) && decide (p.row ≤ 8) && decide (1 ≤ p.col) && decide (p.col ≤ 8)

/-! ## Move flags -/

/-- Modelled from the spec: Move.cpp is missing.  §3: `isCapture` is derived at
construction time; a move is a capture when it carries a captured piece. -/
def Move.isCapture (m : Move) : Bool := m.capturedPiece.isSome

/-- Modelled from the spec: Move.cpp is missing.  §3: `isDoublePawnMove` (pawn
moved two ranks from its start rank). -/
def Move.isDoublePawnMove (m : Move) : Bool :=
  decide (m.piece.type = PieceType.PAWN) &&
    ((decide (m.piece.color = Color.WHITE) && decide (m.from_.row = 2) && decide (m.to_.row = 4)) ||
     (decide (m.piece.color = Color.BLACK) && decide (m.from_.row = 7) && decide (m.to_.row = 5)))

/-- Modelled from the spec: Move.cpp is missing.  §3: `isCastling` (king moves
two files). -/
def Move.isCastling (m : Move) : Bool :=
  decide (m.piece.type = PieceType.KING) &&
    (decide (m.to_.col = m.from_.col + 2) || decide (m.to_.col + 2 = m.from_.col))

/-! ## Board -/

/-- Modelled from the spec: Board.cpp is missing.  `getField(position)->getPiece()`:
the piece standing on the square, if any. -/
def Board.getPiece (b : Board) (pos : Position) : Option Piece :=
  b.pieces.find? (fun p => decide (p.position = pos))

/-- Dereferencing a piece reference held in a roster: the piece object with that
identity, if the board still owns it. -/
def Board.pieceById (b : Board) (i : Nat) : Option Piece :=
  b.pieces.find? (fun p => decide (p.id = i))

/-- Modelled from the spec: Board.cpp is missing.  `getWhiteKing()` /
`getBlackKing()`: the king of the colour, `none` standing for `nullptr`. -/
def Board.getKing (b : Board) (c : Color) : Option Piece :=
  b.pieces.find? (fun p => decide (p.type = PieceType.KING) && decide (p.color = c))

/-- Every square holds at most one piece and every piece object is distinct. -/
def Board.WellFormed (b : Board) : Prop :=
  (b.pieces.map Piece.position).Nodup ∧ (b.pieces.map Piece.id).Nodup

instance (b : Board) : Decidable b.WellFormed := by
  unfold Board.WellFormed; exact inferInstance

/-- Modelled from the spec: Pawn.cpp is missing.  `Pawn::setIsEnPassantTarget`
called through a pointer to the piece `i`. -/
def Board.setIsEnPassantTarget (b : Board) (i : Nat) (v : Bool) : Board :=
  ⟨b.pieces.map (fun p => if p.id = i then { p with isEnPassantTarget := v } else p)⟩

/-- Modelled from the spec: Board.cpp is missing.  §4.2: the rook that castles with
a king going from `from_` to `to_` is the one on the
corner of the king's row on the side the king moves to, and the square next to the
king's destination it is relocated to. -/
def castlingRookSquares (m : Move) : Position × Position :=
  if m.from_.col < m.to_.col then (⟨m.from_.row, 8⟩, ⟨m.to_.row, m.to_.col - 1⟩)
  else (⟨m.from_.row, 1⟩, ⟨m.to_.row, m.to_.col + 1⟩)

/-- Modelled from the spec: Board.cpp is missing.  §4.2: the moving piece's square
reference is updated to `to`; a captured piece is removed from its square (for an
en-passant capture that is the adjacent pawn) and destroyed; on promotion the moving
piece's kind is replaced in place; on castling the corresponding rook is relocated
to the square adjacent to the king's destination.  No legality is validated. -/
def Board.makeMove (b : Board) (m : Move) : Board :=
  let afterCapture : List Piece :=
    match m.capturedPiece with
    | some c => b.pieces.filter (fun p => decide (p.id ≠ c.id))
    | none => b.pieces
  let rook : Option Piece :=
    if m.isCastling then b.getPiece (castlingRookSquares m).1 else none
  let afterMoving : List Piece :=
    afterCapture.map (fun p =>
      if p.id = m.piece.id then
        { p with position := m.to_,
                 type := if m.promoteTo = PieceType.NONE then p.type else m.promoteTo }
      else p)
  match rook with
  | some r =>
    ⟨afterMoving.map (fun p =>
      if p.id = r.id then { p with position := (castlingRookSquares m).2 } else p)⟩
  | none => ⟨afterMoving⟩

/-! ## Piece move generation -/

/-- Modelled from the spec: Piece.cpp is missing.  §4.1: the walk of a sliding piece
in one direction, `cur` being the last square visited. -/
def walkDirection (b : Board) (piece : Piece) (dr dc : Int) : Nat → Position → List Move
  | 0, _ => []
  | fuel + 1, cur =>
    let next : Position := ⟨cur.row + dr, cur.col + dc⟩
    if next.inBounds then
      match b.getPiece next with
      | none => ⟨piece.position, next, piece, none, PieceType.NONE⟩ ::
          walkDirection b piece dr dc fuel next
      | some q =>
        if q.color ≠ piece.color then [⟨piece.position, next, piece, some q, PieceType.NONE⟩]
        else []
    else []

/-- Modelled from the spec: Piece.cpp is missing.  §4.1, sliding pieces: for each
direction walk squares outward from the piece's square; each empty square yields a
quiet move and the walk continues; the first occupied square yields a capture move
if it holds an opposing piece and the walk in that direction stops. -/
def Piece.getMovesInDirections (b : Board) (piece : Piece) (dirs : List (Int × Int)) :
    List Move :=
  dirs.flatMap (fun d => walkDirection b piece d.1 d.2 8 piece.position)

/-- Bishop.cpp, `Bishop::getMoves`. -/
def Bishop.getMoves (b : Board) (piece : Piece) : List Move :=
  piece.getMovesInDirections b [(1, 1), (1, -1), (-1, 1), (-1, -1)]

/-- Modelled from the spec: Rook.cpp is missing.  §4.1: a sliding piece over the
four orthogonal directions. -/
def Rook.getMoves (b : Board) (piece : Piece) : List Move :=
  piece.getMovesInDirections b [(1, 0), (-1, 0), (0, 1), (0, -1)]

/-- Modelled from the spec: Queen.cpp is missing.  §4.1: a sliding piece over the
eight directions. -/
def Queen.getMoves (b : Board) (piece : Piece) : List Move :=
  piece.getMovesInDirections b
    [(1, 0), (-1, 0), (0, 1), (0, -1), (1, 1), (1, -1), (-1, 1), (-1, -1)]

/-- King.cpp, `King::getMoves`: `return std::vector<Move>();`. -/
def King.getMoves (_b : Board) (_piece : Piece) : List Move := []

/-- Modelled from the spec: Knight.cpp is missing.  §4.1: the candidate of a
fixed-offset piece for one offset. -/
def offsetMove (b : Board) (piece : Piece) (d : Int × Int) : List Move :=
  let target : Position := ⟨piece.position.row + d.1, piece.position.col + d.2⟩
  if target.inBounds then
    match b.getPiece target with
    | none => [⟨piece.position, target, piece, none, PieceType.NONE⟩]
    | some q =>
      if q.color ≠ piece.color then [⟨piece.position, target, piece, some q, PieceType.NONE⟩]
      else []
  else []

/-- Modelled from the spec: Knight.cpp is missing.  §4.1: fixed offset set; each
offset in bounds and not occupied by own colour is a candidate (quiet or capture). -/
def Knight.getMoves (b : Board) (piece : Piece) : List Move :=
  [((1 : Int), (2 : Int)), (2, 1), (2, -1), (1, -2), (-1, -2), (-2, -1), (-2, 1), (-1, 2)].flatMap
    (offsetMove b piece)

/-- Modelled from the spec: Pawn.cpp is missing.  Forward direction of a pawn. -/
def Pawn.direction (c : Color) : Int :=
  match c with
  | Color.WHITE => 1
  | Color.BLACK => -1

/-- Modelled from the spec: Pawn.cpp is missing.  Starting rank of a pawn. -/
def Pawn.startRow (c : Color) : Int :=
  match c with
  | Color.WHITE => 2
  | Color.BLACK => 7

/-- Modelled from the spec: Pawn.cpp is missing.  Farthest rank of a pawn. -/
def Pawn.lastRow (c : Color) : Int :=
  match c with
  | Color.WHITE => 8
  | Color.BLACK => 1

/-- Modelled from the spec: Pawn.cpp is missing.  §4.1: promotion is signalled
whenever a move lands on the farthest rank, producing one move per promotable kind
(Queen, Rook, Bishop, Knight). -/
def Pawn.withPromotions (m : Move) : List Move :=
  if m.to_.row = Pawn.lastRow m.piece.color then
    [{ m with promoteTo := PieceType.QUEEN }, { m with promoteTo := PieceType.ROOK },
     { m with promoteTo := PieceType.BISHOP }, { m with promoteTo := PieceType.KNIGHT }]
  else [m]

/-- Modelled from the spec: Pawn.cpp is missing.  §4.1: one-square forward quiet
move if the target is empty; two-square forward quiet move if the pawn is on its
starting rank and both squares are empty. -/
def Pawn.forwardMoves (b : Board) (piece : Piece) : List Move :=
  let dir := Pawn.direction piece.color
  let one : Position := ⟨piece.position.row + dir, piece.position.col⟩
  let two : Position := ⟨piece.position.row + 2 * dir, piece.position.col⟩
  if one.inBounds && (b.getPiece one).isNone then
    ⟨piece.position, one, piece, none, PieceType.NONE⟩ ::
      (if decide (piece.position.row = Pawn.startRow piece.color) && two.inBounds &&
          (b.getPiece two).isNone then
        [⟨piece.position, two, piece, none, PieceType.NONE⟩]
      else [])
  else []

/-- Modelled from the spec: Pawn.cpp is missing.  §4.1: diagonal-forward capture
if an opposing piece occupies the diagonal target. -/
def Pawn.captureMove (b : Board) (piece : Piece) (dc : Int) : List Move :=
  let target : Position :=
    ⟨piece.position.row + Pawn.direction piece.color, piece.position.col + dc⟩
  if target.inBounds then
    match b.getPiece target with
    | some q =>
      if q.color ≠ piece.color then [⟨piece.position, target, piece, some q, PieceType.NONE⟩]
      else []
    | none => []
  else []

/-- Modelled from the spec: Pawn.cpp is missing.  §4.1: diagonal-forward
en-passant capture if the diagonal target is the tracked en-passant target square;
the captured piece is the pawn adjacent to that square.  A pawn reads the tracked
target off the board, through the transient flag of the adjacent pawn (§3). -/
def Pawn.enPassantMove (b : Board) (piece : Piece) (dc : Int) : List Move :=
  let target : Position :=
    ⟨piece.position.row + Pawn.direction piece.color, piece.position.col + dc⟩
  if target.inBounds then
    match b.getPiece ⟨piece.position.row, piece.position.col + dc⟩ with
    | some q =>
      if decide (q.type = PieceType.PAWN) && decide (q.color ≠ piece.color) &&
          q.isEnPassantTarget then
        [⟨piece.position, target, piece, some q, PieceType.NONE⟩]
      else []
    | none => []
  else []

/-- Modelled from the spec: Pawn.cpp is missing.  §4.1, the pawn's pseudo-legal
moves. -/
def Pawn.getMoves (b : Board) (piece : Piece) : List Move :=
  (Pawn.forwardMoves b piece ++ Pawn.captureMove b piece (-1) ++ Pawn.captureMove b piece 1 ++
    Pawn.enPassantMove b piece (-1) ++ Pawn.enPassantMove b piece 1).flatMap Pawn.withPromotions

/-- Modelled from the spec: Pawn.cpp is missing.  §4.3: the diagonal attack
squares of a pawn, whether or not they are occupied. -/
def Pawn.attackedPositions (piece : Piece) : List Position :=
  ([⟨piece.position.row + Pawn.direction piece.color, piece.position.col - 1⟩,
    ⟨piece.position.row + Pawn.direction piece.color, piece.position.col + 1⟩] :
      List Position).filter Position.inBounds

/-- The virtual call `piece->getMoves()`. -/
def Piece.getMoves (b : Board) (piece : Piece) : List Move :=
  match piece.type with
  | PieceType.PAWN => Pawn.getMoves b piece
  | PieceType.ROOK => Rook.getMoves b piece
  | PieceType.BISHOP => Bishop.getMoves b piece
  | PieceType.KNIGHT => Knight.getMoves b piece
  | PieceType.QUEEN => Queen.getMoves b piece
  | PieceType.KING => King.getMoves b piece
  | PieceType.NONE => []

/-! ### The directional walk as §4.1 states it -/

/-- The square `k` steps away from `p` in direction `d`. -/
def Position.shift (p : Position) (d : Int × Int) (k : Nat) : Position :=
  ⟨p.row + (k : Int) * d.1, p.col + (k : Int) * d.2⟩

/-- The directional walk in the words of §4.1, as a property of a move: `m` goes from
the square of `piece` to the `k`-th square in one of the directions, every square
before it in that direction is on the board and empty, and the `k`-th square is on
the board and either empty (a non-capture move) or holds a piece of the other colour
(a capture of that piece).  This is the specification side of the comparison with
`Piece.getMovesInDirections`. -/
def IsWalkMove (b : Board) (piece : Piece) (dirs : List (Int × Int)) (m : Move) : Prop :=
  ∃ d ∈ dirs, ∃ k : Nat, 1 ≤ k ∧
    (∀ j : Nat, 1 ≤ j → j < k →
      (piece.position.shift d j).inBounds = true ∧ b.getPiece (piece.position.shift d j) = none) ∧
    (piece.position.shift d k).inBounds = true ∧
    m.from_ = piece.position ∧ m.to_ = piece.position.shift d k ∧ m.piece = piece ∧
    m.promoteTo = PieceType.NONE ∧
    ((b.getPiece (piece.position.shift d k) = none ∧ m.capturedPiece = none) ∨
      ∃ q, b.getPiece (piece.position.shift d k) = some q ∧ q.color ≠ piece.color ∧
        m.capturedPiece = some q)

/-! ## Game -/

/-- The roster of the `Player` object of a colour. -/
def Game.player (g : Game) (c : Color) : Player :=
  match c with
  | Color.WHITE => g.whitePlayer
  | Color.BLACK => g.blackPlayer

/-- Game.cpp, `Game::getPiece`. -/
def Game.getPiece (g : Game) (position : Position) : Option Piece :=
  g.board.getPiece position

/-- Modelled from the spec: Player.cpp is missing.  `Player::removePiece`: the
reference is taken out of the roster. -/
def Player.removePiece (p : Player) (i : Nat) : Player :=
  ⟨p.pieces.filter (fun j => decide (j ≠ i))⟩

/-- The columns `lowest, lowest + 1, ...` strictly below `upper`, in the order a
`for (col = lowest; col < upper; col++)` loop visits them. -/
def columnsFrom (lowest upper : Int) : List Int :=
  (List.range (upper - lowest).toNat).map (fun (i : Nat) => lowest + Int.ofNat i)

/-- Game.cpp, `Game::noPiecesBetweenKingAndRook`. -/
def Game.noPiecesBetweenKingAndRook (g : Game) (king rook : Piece) : Except Exc Bool :=
  if king.position.row ≠ rook.position.row then Except.error Exc.invalid_argument
  else
    let row := king.position.row
    let lowestColToCheck := min king.position.col rook.position.col + 1
    let upperLimit := max king.position.col rook.position.col
    Except.ok ((columnsFrom lowestColToCheck upperLimit).all
      (fun currentCol => (g.getPiece ⟨row, currentCol⟩).isNone))

/-- The `currentPlayerBackRank` / `castlingRank` of Game.cpp. -/
def Game.currentPlayerBackRank (g : Game) : Int :=
  if g.currentPlayer = Color.WHITE then 1 else 8

/-- Game.cpp, `Game::possibleKingsideCastlingThisRound`.  The two pieces read off
the board are dereferenced without a null check. -/
def Game.possibleKingsideCastlingThisRound (g : Game) : Except Exc Bool :=
  if (decide (g.currentPlayer = Color.WHITE) && !g.canWhiteKingsideCastle) ||
      (decide (g.currentPlayer = Color.BLACK) && !g.canBlackKingsideCastle) then
    Except.ok false
  else
    match g.getPiece ⟨g.currentPlayerBackRank, 5⟩, g.getPiece ⟨g.currentPlayerBackRank, 8⟩ with
    | some king, some kingSideRook => g.noPiecesBetweenKingAndRook king kingSideRook
    | _, _ => Except.error Exc.nullDereference

/-- Game.cpp, `Game::possibleQueensideCastlingThisRound`. -/
def Game.possibleQueensideCastlingThisRound (g : Game) : Except Exc Bool :=
  if (decide (g.currentPlayer = Color.WHITE) && !g.canWhiteQueensideCastle) ||
      (decide (g.currentPlayer = Color.BLACK) && !g.canBlackQueensideCastle) then
    Except.ok false
  else
    match g.getPiece ⟨g.currentPlayerBackRank, 5⟩, g.getPiece ⟨g.currentPlayerBackRank, 1⟩ with
    | some king, some queenSideRook => g.noPiecesBetweenKingAndRook king queenSideRook
    | _, _ => Except.error Exc.nullDereference

/-- Game.cpp, `Game::generateKingSideCastle`. -/
def Game.generateKingSideCastle (g : Game) : Except Exc Move :=
  match g.getPiece ⟨g.currentPlayerBackRank, 5⟩ with
  | some king =>
    Except.ok ⟨⟨g.currentPlayerBackRank, 5⟩, ⟨g.currentPlayerBackRank, 7⟩, king, none,
      PieceType.NONE⟩
  | none => Except.error Exc.nullDereference

/-- Game.cpp, `Game::generateQueenSideCastle`. -/
def Game.generateQueenSideCastle (g : Game) : Except Exc Move :=
  match g.getPiece ⟨g.currentPlayerBackRank, 5⟩ with
  | some king =>
    Except.ok ⟨⟨g.currentPlayerBackRank, 5⟩, ⟨g.currentPlayerBackRank, 3⟩, king, none,
      PieceType.NONE⟩
  | none => Except.error Exc.nullDereference

/-- Game.cpp, `Game::getMovesFrom`. -/
def Game.getMovesFrom (g : Game) (position : Position) : Except Exc (List Move) :=
  match g.getPiece position with
  | none => Except.ok []
  | some piece =>
    let movesForPiece := piece.getMoves g.board
    if piece.type = PieceType.KING then do
      let kingside ← g.possibleKingsideCastlingThisRound
      let withKingside ←
        if kingside then do
          let castle ← g.generateKingSideCastle
          pure (movesForPiece ++ [castle])
        else pure movesForPiece
      let queenside ← g.possibleQueensideCastlingThisRound
      if queenside then do
        let castle ← g.generateQueenSideCastle
        pure (withKingside ++ [castle])
      else pure withKingside
    else Except.ok movesForPiece

/-- The loop of `getAllMovesForPlayer` over a roster; a reference to a piece that is
no longer on the board is dangling. -/
def Game.movesOfRoster (g : Game) : List Nat → Except Exc (List Move)
  | [] => Except.ok []
  | i :: rest =>
    match g.board.pieceById i with
    | none => Except.error Exc.nullDereference
    | some piece => do
      let pieceMoves ← g.getMovesFrom piece.position
      let others ← g.movesOfRoster rest
      pure (pieceMoves ++ others)

/-- Game.cpp, `Game::getAllMovesForPlayer`. -/
def Game.getAllMovesForPlayer (g : Game) (player : Color) : Except Exc (List Move) :=
  g.movesOfRoster (g.player player).pieces

/-- Game.cpp, `Game::isCheck`: a move of the opposing player whose captured piece
is the king object of the colour (pointer comparison, `nullptr` included). -/
def Game.isCheck (g : Game) (colorOfCheckedKing : Color) : Except Exc Bool := do
  let possiblyCheckedKing := g.board.getKing colorOfCheckedKing
  let movesForCheckingPlayer ← g.getAllMovesForPlayer colorOfCheckedKing.opposite
  pure (movesForCheckingPlayer.any (fun m =>
    decide (m.capturedPiece.map Piece.id = possiblyCheckedKing.map Piece.id)))

/-- Game.cpp, `Game::isFieldControlledByPlayer`. -/
def Game.isFieldControlledByPlayer (g : Game) (pos : Position) (colorOfPlayer : Color) :
    Except Exc Bool := do
  let movesForControllingPlayer ← g.getAllMovesForPlayer colorOfPlayer
  let controlsByNonPawns := movesForControllingPlayer.any (fun m =>
    decide (m.to_ = pos) && decide (m.piece.type ≠ PieceType.PAWN))
  let controlsByPawns := (g.player colorOfPlayer).pieces.any (fun i =>
    match g.board.pieceById i with
    | some piece =>
      if piece.type = PieceType.PAWN then
        (Pawn.attackedPositions piece).any (fun attackedPos => decide (pos = attackedPos))
      else false
    | none => false)
  pure (controlsByNonPawns || controlsByPawns)

/-- Game.cpp, `Game::getEnPassantTargetPiece` (called with a target set): the pawn
one row behind the target square, `bad_cast` when that square holds no pawn. -/
def Game.getEnPassantTargetPiece (g : Game) : Except Exc (Option Piece) :=
  match g.enPassantTargetPosition with
  | none => Except.ok none
  | some target =>
    let rowOffsetFromEPPosition : Int := if g.currentPlayer = Color.WHITE then -1 else 1
    match g.getPiece ⟨target.row + rowOffsetFromEPPosition, target.col⟩ with
    | some piece =>
      if piece.type = PieceType.PAWN then Except.ok (some piece)
      else Except.error Exc.bad_cast
    | none => Except.error Exc.bad_cast

/-- Game.cpp, `Game::refreshEnPassant`. -/
def Game.refreshEnPassant (g : Game) : Except Exc Game :=
  match g.getEnPassantTargetPiece with
  | Except.error e => Except.error e
  | Except.ok none => Except.error Exc.nullDereference
  | Except.ok (some oldEnPassantTarget) =>
    Except.ok { g with
      board := g.board.setIsEnPassantTarget oldEnPassantTarget.id false,
      enPassantTargetPosition := none }

/-- Game.cpp, `Game::refreshCastlingAfterRookCapture`. -/
def Game.refreshCastlingAfterRookCapture (g : Game) (takenRook : Piece) : Game :=
  let g1 :=
    if takenRook.position = ⟨1, 1⟩ then { g with canWhiteQueensideCastle := false }
    else if takenRook.position = ⟨1, 8⟩ then { g with canWhiteKingsideCastle := false }
    else g
  if takenRook.position = ⟨8, 1⟩ then { g1 with canBlackQueensideCastle := false }
  else if takenRook.position = ⟨8, 8⟩ then { g1 with canBlackKingsideCastle := false }
  else g1

/-- Game.cpp, `Game::refreshCastlingPossibilites`. -/
def Game.refreshCastlingPossibilites (g : Game) (move : Move) : Game :=
  let g1 :=
    if move.piece.type = PieceType.KING then
      if move.piece.color = Color.WHITE then
        { g with canWhiteKingsideCastle := false, canWhiteQueensideCastle := false }
      else
        { g with canBlackKingsideCastle := false, canBlackQueensideCastle := false }
    else if move.piece.type = PieceType.ROOK then
      if move.piece.color = Color.WHITE then
        if move.from_.row = 1 ∧ move.from_.col = 1 then
          { g with canWhiteQueensideCastle := false }
        else if move.from_.row = 1 ∧ move.from_.col = 8 then
          { g with canWhiteKingsideCastle := false }
        else g
      else
        if move.from_.row = 8 ∧ move.from_.col = 1 then
          { g with canBlackQueensideCastle := false }
        else if move.from_.row = 8 ∧ move.from_.col = 8 then
          { g with canBlackKingsideCastle := false }
        else g
    else g
  match move.capturedPiece with
  | some captured =>
    if captured.type = PieceType.ROOK then g1.refreshCastlingAfterRookCapture captured else g1
  | none => g1

/-- Replaces the roster of the `Player` object of a colour. -/
def Game.setPlayer (g : Game) (c : Color) (p : Player) : Game :=
  match c with
  | Color.WHITE => { g with whitePlayer := p }
  | Color.BLACK => { g with blackPlayer := p }

/-- Game.cpp, `Game::makeMove`, lines 83-104: the part after the auxiliary state
has been refreshed. -/
def Game.applyToBoard (g : Game) (move : Move) : Game :=
  let g1 : Game := { g with board := g.board.makeMove move }
  let g2 : Game :=
    if move.promoteTo ≠ PieceType.NONE then
      let removed := (g1.player g1.currentPlayer).removePiece move.piece.id
      match g1.getPiece move.to_ with
      | some promoted => g1.setPlayer g1.currentPlayer ⟨removed.pieces ++ [promoted.id]⟩
      | none => g1.setPlayer g1.currentPlayer removed
    else g1
  let g3 : Game :=
    if move.isDoublePawnMove then
      let row := Int.tdiv (move.from_.row + move.to_.row) 2
      let col := move.to_.col
      { g2 with
        enPassantTargetPosition := some ⟨row, col⟩,
        board := g2.board.setIsEnPassantTarget move.piece.id true }
    else g2
  let g4 : Game :=
    match move.capturedPiece with
    | some captured => g3.setPlayer captured.color ((g3.player captured.color).removePiece captured.id)
    | none => g3
  { g4 with
    moveHistory := g4.moveHistory ++ [move],
    currentPlayer := if g4.currentPlayer = Color.WHITE then Color.BLACK else Color.WHITE }

/-- Game.cpp, `Game::makeMove`, lines 69-71 (the same statements as
`GameState::updateFullmoveNumber`). -/
def Game.updateFullmoveNumber (g : Game) : Except Exc Game :=
  if g.currentPlayer = Color.BLACK then
    if g.fullmoveNumber = INT_MAX then Except.error Exc.signedOverflow
    else Except.ok { g with fullmoveNumber := g.fullmoveNumber + 1 }
  else Except.ok g

/-- Game.cpp, `Game::makeMove`, lines 73-76 (the same statements as
`GameState::updateHalfmoveClock`). -/
def Game.updateHalfmoveClock (g : Game) (move : Move) : Except Exc Game :=
  if g.halfmoveClock = INT_MAX then Except.error Exc.signedOverflow
  else
    let g1 : Game := { g with halfmoveClock := g.halfmoveClock + 1 }
    if move.isCapture || decide (move.piece.type = PieceType.PAWN) then
      Except.ok { g1 with halfmoveClock := 0 }
    else Except.ok g1

/-- Game.cpp, `Game::makeMove`, lines 78-80. -/
def Game.updateEnPassantTarget (g : Game) : Except Exc Game :=
  if g.enPassantTargetPosition.isSome then g.refreshEnPassant else Except.ok g

/-- Game.cpp, `Game::makeMove`.  On an exception the state is the one reached when
it was raised. -/
def Game.makeMove (g : Game) (move : Move) : Outcome :=
  if g.currentPlayer ≠ move.piece.color then ⟨g, some Exc.IllegalMoveException⟩
  else
    match g.updateFullmoveNumber with
    | Except.error e => ⟨g, some e⟩
    | Except.ok g1 =>
      match g1.updateHalfmoveClock move with
      | Except.error e => ⟨g1, some e⟩
      | Except.ok g2 =>
        match g2.updateEnPassantTarget with
        | Except.error e => ⟨g2, some e⟩
        | Except.ok g3 => ⟨(g3.refreshCastlingPossibilites move).applyToBoard move, none⟩

/-- A sequence of `makeMove` calls, stopping at the first one that raises. -/
def Game.makeMoves (g : Game) : List Move → Outcome
  | [] => ⟨g, none⟩
  | move :: rest =>
    match (g.makeMove move).raised with
    | some e => ⟨(g.makeMove move).state, some e⟩
    | none => (g.makeMove move).state.makeMoves rest

/-- The value a call returns to its caller: the new state, or the exception. -/
def Outcome.toExcept (o : Outcome) : Except Exc Game :=
  match o.raised with
  | some e => Except.error e
  | none => Except.ok o.state

/-- Modelled from the spec: FENParser.cpp is missing.  §6: the squares in the order
the positional text lists them, rank 8 down to 1, file a to h. -/
def allSquares : List Position :=
  ([8, 7, 6, 5, 4, 3, 2, 1] : List Int).flatMap (fun r =>
    ([1, 2, 3, 4, 5, 6, 7, 8] : List Int).map (fun c => (⟨r, c⟩ : Position)))

/-- Modelled from the spec: FENParser.cpp is missing.  `parseGame(toString(game))`,
§4.3/§6/§9: an independent copy of the position.  The text carries the board
contents square by square, the side to move, the castling rights, the en-passant
target and the two counters; decoding rebuilds fresh piece objects, the rosters of
both players from the board, and the en-passant flag of the pawn behind the target.
The move history is not part of the text. -/
def FENParser.roundTrip (g : Game) : Game :=
  let flagged : Option Position := g.enPassantTargetPosition.map (fun t =>
    ⟨t.row + (if g.currentPlayer = Color.WHITE then -1 else 1), t.col⟩)
  let pieces : List Piece := allSquares.filterMap (fun pos =>
    (g.getPiece pos).map (fun p =>
      ({ id := (8 * (pos.row - 1) + (pos.col - 1)).toNat,
         type := p.type,
         color := p.color,
         position := pos,
         isEnPassantTarget := decide (p.type = PieceType.PAWN) && decide (flagged = some pos) } :
        Piece)))
  { g with
    board := ⟨pieces⟩,
    whitePlayer := ⟨(pieces.filter (fun p => decide (p.color = Color.WHITE))).map Piece.id⟩,
    blackPlayer := ⟨(pieces.filter (fun p => decide (p.color = Color.BLACK))).map Piece.id⟩,
    moveHistory := [] }

/-- Game.cpp, `Game::afterMove`. -/
def Game.afterMove (g : Game) (move : Move) : Except Exc Game :=
  let deepCopy := FENParser.roundTrip g
  match deepCopy.getPiece move.from_ with
  | none => Except.error Exc.nullDereference
  | some sourcePiece =>
    let takenPiece : Option Piece :=
      match move.capturedPiece with
      | none => none
      | some captured => deepCopy.getPiece captured.position
    (deepCopy.makeMove ⟨move.from_, move.to_, sourcePiece, takenPiece, PieceType.NONE⟩).toExcept

/-- The loop of `isCastlingObscuredByOpponent` over the columns. -/
def Game.anyColumnControlled (g : Game) (row : Int) (opponentColor : Color) :
    List Int → Except Exc Bool
  | [] => Except.ok false
  | col :: rest => do
    let controlled ← g.isFieldControlledByPlayer ⟨row, col⟩ opponentColor
    if controlled then pure true else g.anyColumnControlled row opponentColor rest

/-- Game.cpp, `Game::isCastlingObscuredByOpponent`. -/
def Game.isCastlingObscuredByOpponent (g : Game) (move : Move) : Except Exc Bool := do
  let check ← g.isCheck move.piece.color
  if check then pure true
  else
    let row := move.to_.row
    let lowestColToCheck := min move.to_.col move.from_.col + 1
    let upperLimit := max move.to_.col move.from_.col
    let opponentColor :=
      if move.piece.color = Color.WHITE then Color.BLACK else Color.WHITE
    g.anyColumnControlled row opponentColor (columnsFrom lowestColToCheck upperLimit)

/-- The `erase(remove_if(...))` idiom with a predicate that may raise. -/
def removeIf (pred : Move → Except Exc Bool) : List Move → Except Exc (List Move)
  | [] => Except.ok []
  | m :: rest => do
    let remove ← pred m
    let kept ← removeIf pred rest
    pure (if remove then kept else m :: kept)

/-- Game.cpp, `Game::getLegalMovesFrom`. -/
def Game.getLegalMovesFrom (g : Game) (position : Position) : Except Exc (List Move) :=
  match g.getPiece position with
  | none => Except.ok []
  | some piece =>
    if piece.color ≠ g.currentPlayer then Except.ok []
    else do
      let pieceColor := piece.color
      let movesForPiece ← g.getMovesFrom position
      let notSelfCheck ← removeIf (fun m => do
        let deepCopy ← g.afterMove m
        deepCopy.isCheck pieceColor) movesForPiece
      if piece.type = PieceType.KING then
        removeIf (fun move => do
          let obscured ← g.isCastlingObscuredByOpponent move
          pure (obscured && move.isCastling)) notSelfCheck
      else pure notSelfCheck

/-- The loop of `getLegalMovesForPlayer` over a roster. -/
def Game.legalMovesOfRoster (g : Game) : List Nat → Except Exc (List Move)
  | [] => Except.ok []
  | i :: rest =>
    match g.board.pieceById i with
    | none => Except.error Exc.nullDereference
    | some piece => do
      let pieceMoves ← g.getLegalMovesFrom piece.position
      let others ← g.legalMovesOfRoster rest
      pure (pieceMoves ++ others)

/-- Game.cpp, `Game::getLegalMovesForPlayer`. -/
def Game.getLegalMovesForPlayer (g : Game) (player : Color) : Except Exc (List Move) :=
  g.legalMovesOfRoster (g.player player).pieces

/-- Game.cpp, `Game::isMate`; `&&` evaluates its right operand only when the left
one is true. -/
def Game.isMate (g : Game) : Except Exc Bool := do
  let check ← g.isCheck g.currentPlayer
  if check then do
    let moves ← g.getLegalMovesForPlayer g.currentPlayer
    pure moves.isEmpty
  else pure false

/-- Game.cpp, `Game::isStalemate`. -/
def Game.isStalemate (g : Game) : Except Exc Bool := do
  let check ← g.isCheck g.currentPlayer
  if !check then do
    let moves ← g.getLegalMovesForPlayer g.currentPlayer
    pure moves.isEmpty
  else pure false

/-- Modelled from the spec: Board.cpp is missing.  `Board::startingBoard()`: the
standard initial set-up, rank 1 and 2 White, rank 7 and 8 Black. -/
def Board.startingBoard : Board :=
  let backRank : List PieceType :=
    [PieceType.ROOK, PieceType.KNIGHT, PieceType.BISHOP, PieceType.QUEEN, PieceType.KING,
     PieceType.BISHOP, PieceType.KNIGHT, PieceType.ROOK]
  let rank (first : Nat) (row : Int) (c : Color) (kinds : List PieceType) : List Piece :=
    kinds.enum.map (fun (ik : Nat × PieceType) =>
      ({ id := first + ik.1, type := ik.2, color := c, position := ⟨row, (ik.1 : Int) + 1⟩,
         isEnPassantTarget := false } : Piece))
  ⟨rank 0 1 Color.WHITE backRank ++ rank 8 2 Color.WHITE (List.replicate 8 PieceType.PAWN) ++
    rank 16 7 Color.BLACK (List.replicate 8 PieceType.PAWN) ++ rank 24 8 Color.BLACK backRank⟩

/-- Game.cpp, `Game::Game(whiteName, blackName)`.  The names are stored in the two
`Player` objects only; they are not part of the embedded state. -/
def Game.new (_whiteName _blackName : String) : Game :=
  let board := Board.startingBoard
  { board := board,
    whitePlayer := ⟨(board.pieces.filter (fun p => decide (p.color = Color.WHITE))).map Piece.id⟩,
    blackPlayer := ⟨(board.pieces.filter (fun p => decide (p.color = Color.BLACK))).map Piece.id⟩,
    currentPlayer := Color.WHITE,
    moveHistory := [],
    canWhiteKingsideCastle := true,
    canWhiteQueensideCastle := true,
    canBlackKingsideCastle := true,
    canBlackQueensideCastle := true,
    enPassantTargetPosition := none,
    halfmoveClock := 0,
    fullmoveNumber := 1 }

/-- Playing a sequence of moves the way the GUI does (GameHandler.cpp,
`loadMovesFromPosition` / `findMoveTo` / `makeMove`): each move is made only when it
is among the legal moves from its source square. -/
def Game.playLegalMoves (g : Game) : List Move → Option Game
  | [] => some g
  | move :: rest =>
    match g.getLegalMovesFrom move.from_ with
    | Except.ok legal =>
      if move ∈ legal then
        match (g.makeMove move).raised with
        | none => (g.makeMove move).state.playLegalMoves rest
        | some _ => none
      else none
    | Except.error _ => none

/-! ## The text helper of Game.cpp -/

/-- `std::string::npos`, the largest value of a 64-bit `size_t`. -/
def npos : Nat := 2 ^ 64 - 1

/-- The offset of the first occurrence of `ch` in a run of characters. -/
def firstIndex (ch : Char) : List Char → Option Nat
  | [] => none
  | c :: rest => if c = ch then some 0 else (firstIndex ch rest).map (fun i => i + 1)

/-- `std::string::find(ch, start)`: the index of the first occurrence of `ch` at or
after `start`, `npos` when there is none. -/
def find (txt : List Char) (ch : Char) (start : Nat) : Nat :=
  match firstIndex ch (txt.drop start) with
  | some i => start + i
  | none => npos

/-- `std::string::substr(pos, len)`: the characters from `pos` on, at most `len` of
them; `none` stands for `std::out_of_range`, thrown when `pos > size()`. -/
def substr (txt : List Char) (pos len : Nat) : Option (List Char) :=
  if pos > txt.length then none else some ((txt.drop pos).take len)

/-- Game.cpp, `split`: the `while` loop and the statements after it, with the values
of `strings`, `initialPos` and `pos` on entry.  The `size_t` arithmetic is modulo
2^64.  `none` is `std::out_of_range`, or the step bound exhausted. -/
def splitLoop (txt : List Char) (ch : Char) :
    Nat → List (List Char) → Nat → Nat → Option (List (List Char))
  | 0, _, _, _ => none
  | fuel + 1, strings, initialPos, pos =>
    if pos ≠ npos then
      match substr txt initialPos ((pos + 2 ^ 64 - initialPos) % 2 ^ 64) with
      | none => none
      | some piece =>
        splitLoop txt ch fuel (strings ++ [piece]) ((pos + 1) % 2 ^ 64)
          (find txt ch ((pos + 1) % 2 ^ 64))
    else
      match substr txt initialPos
          ((min pos txt.length + 2 ^ 64 - initialPos + 1) % 2 ^ 64) with
      | none => none
      | some piece => some (strings ++ [piece])

/-- Game.cpp, `split(txt, ch)`.  The loop runs once for each occurrence of `ch`, at
most `txt.size()` times. -/
def split (txt : List Char) (ch : Char) : Option (List (List Char)) :=
  splitLoop txt ch (txt.length + 1) [] 0 (find txt ch 0)

/-! ## The condition that revokes a castling right -/

/-- The condition under which `refreshCastlingPossibilites` clears the castling right
of colour `c` on the side whose corner is `corner`. -/
def Move.revokesCastling (m : Move) (c : Color) (corner : Position) : Bool :=
  (decide (m.piece.type = PieceType.KING) && decide (m.piece.color = c)) ||
  (decide (m.piece.type = PieceType.ROOK) && decide (m.piece.color = c) &&
    decide (m.from_ = corner)) ||
  (match m.capturedPiece with
   | some captured => decide (captured.type = PieceType.ROOK) && decide (captured.position = corner)
   | none => false)

/-! ## Data-model invariants used as hypotheses -/

/-- Every reference in the roster of the player of colour `c` that resolves to a
piece on the board resolves to a piece of colour `c` (§3, Player). -/
def Game.rosterHasColor (g : Game) (c : Color) : Bool :=
  (g.player c).pieces.all (fun i =>
    match g.board.pieceById i with
    | some q => decide (q.color = c)
    | none => true)

/-- The roster of the player of colour `c` is exactly the set of pieces of colour
`c` standing on the board (§3, Player): every roster entry is the identity of such a
piece and every such piece is in the roster. -/
def Game.rosterMatchesBoard (g : Game) (c : Color) : Bool :=
  (g.player c).pieces.all (fun i =>
    g.board.pieces.any (fun p => decide (p.id = i) && decide (p.color = c))) &&
  g.board.pieces.all (fun p => !decide (p.color = c) || decide (p.id ∈ (g.player c).pieces))

/-! ## Reachable states and validated moves -/

/-- The four ways a pawn move comes about (§4.1), read off a move `m` of `piece` on
board `b` before the promotion kinds are attached. -/
def Pawn.MoveShape (b : Board) (piece : Piece) (m : Move) : Prop :=
  (m.to_ = ⟨piece.position.row + Pawn.direction piece.color, piece.position.col⟩ ∧
    b.getPiece m.to_ = none ∧ m.capturedPiece = none) ∨
  (piece.position.row = Pawn.startRow piece.color ∧
    m.to_ = ⟨piece.position.row + 2 * Pawn.direction piece.color, piece.position.col⟩ ∧
    b.getPiece ⟨piece.position.row + Pawn.direction piece.color, piece.position.col⟩ = none ∧
    b.getPiece m.to_ = none ∧ m.capturedPiece = none) ∨
  (∃ dc : Int, (dc = -1 ∨ dc = 1) ∧
    m.to_ = ⟨piece.position.row + Pawn.direction piece.color, piece.position.col + dc⟩ ∧
    ∃ q, b.getPiece m.to_ = some q ∧ q.color ≠ piece.color ∧ m.capturedPiece = some q) ∨
  (∃ dc : Int, (dc = -1 ∨ dc = 1) ∧
    m.to_ = ⟨piece.position.row + Pawn.direction piece.color, piece.position.col + dc⟩ ∧
    ∃ q, b.getPiece ⟨piece.position.row, piece.position.col + dc⟩ = some q ∧
      q.type = PieceType.PAWN ∧ q.color ≠ piece.color ∧ q.isEnPassantTarget = true ∧
      m.capturedPiece = some q)

/-- The states reached from `start` by successful `makeMove` calls, each with a move
that is `allowed` in the state it is made in. -/
inductive Reachable (allowed : Game → Move → Prop) (start : Game) : Game → Prop
  | start : Reachable allowed start start
  | step (g : Game) (move : Move) :
      Reachable allowed start g → allowed g move → (g.makeMove move).raised = none →
      Reachable allowed start (g.makeMove move).state

/-- The move is one of those `getMovesFrom` returns for some square. -/
def Game.IsPseudoLegal (g : Game) (move : Move) : Prop :=
  ∃ (p : Position) (moves : List Move), g.getMovesFrom p = Except.ok moves ∧ move ∈ moves

/-- The move is one of those `getLegalMovesFrom` returns for some square. -/
def Game.IsLegal (g : Game) (move : Move) : Prop :=
  ∃ (p : Position) (moves : List Move), g.getLegalMovesFrom p = Except.ok moves ∧ move ∈ moves

/-- The pawn the en-passant target belongs to is where `getEnPassantTargetPiece`
looks for it: one row below the target when White is to move, one row above it when
Black is to move, and it is a pawn of the side that is not to move. -/
def Game.EnPassantConsistent (g : Game) : Prop :=
  ∀ t, g.enPassantTargetPosition = some t →
    ∃ pawn, g.getPiece ⟨t.row + (if g.currentPlayer = Color.WHITE then -1 else 1), t.col⟩ =
        some pawn ∧
      pawn.type = PieceType.PAWN ∧ pawn.color = g.currentPlayer.opposite

/-- The move fits the position it is made in (§3, §4.2: a validated move): its piece
and its captured piece are distinct objects of the board, a promotion kind comes only
with a pawn landing on its farthest rank, and the destination square holds nothing
but the moving piece or the captured piece. -/
def Game.MoveFits (g : Game) (move : Move) : Prop :=
  move.piece ∈ g.board.pieces ∧
  (∀ c, move.capturedPiece = some c → c ∈ g.board.pieces ∧ c.id ≠ move.piece.id) ∧
  (move.promoteTo ≠ PieceType.NONE →
    move.piece.type = PieceType.PAWN ∧ move.to_.row = Pawn.lastRow move.piece.color) ∧
  (∀ x ∈ g.board.pieces, x.position = move.to_ →
    x = move.piece ∨ move.capturedPiece = some x)

/-! ## The invariant behind the castling rights

The properties of a state that a play of legal moves keeps, and the description of
`Board::makeMove` and of the copy `afterMove` works on that their proofs use. -/

/-- What `Board::makeMove` does to the piece `x`, told by squares: the piece on the
source square goes to the destination (and takes the promotion kind), the rook on the
castling corner goes next to the king, every other piece stays. -/
def Move.relocate (m : Move) (x : Piece) : Piece :=
  if x.position = m.from_ then
    { x with position := m.to_,
             type := if m.promoteTo = PieceType.NONE then x.type else m.promoteTo }
  else if m.isCastling = true ∧ x.position = (castlingRookSquares m).1 then
    { x with position := (castlingRookSquares m).2 }
  else x

/-- The move matches the board square by square: its piece is the object on the
source square, its captured piece an object of the board on another square, the
destination holds nothing but the captured piece, and for a castling move the corner
is not the source square. -/
def Board.Admits (b : Board) (m : Move) : Prop :=
  (∃ mover, b.getPiece m.from_ = some mover ∧ mover.id = m.piece.id) ∧
  (∀ c, m.capturedPiece = some c →
    ∃ c0, b.getPiece c.position = some c0 ∧ c0.id = c.id ∧ c.position ≠ m.from_) ∧
  m.to_ ≠ m.from_ ∧
  (b.getPiece m.to_ = none ∨ ∃ c, m.capturedPiece = some c ∧ c.position = m.to_) ∧
  (m.isCastling = true →
    m.capturedPiece = none ∧
    (castlingRookSquares m).1 ≠ m.from_ ∧ (castlingRookSquares m).1 ≠ m.to_ ∧
    (castlingRookSquares m).2 ≠ m.from_ ∧ (castlingRookSquares m).2 ≠ m.to_ ∧
    b.getPiece (castlingRookSquares m).2 = none)

/-- The fresh piece object the round trip through the position text creates for the
piece `p` read on the square `pos`. -/
def Game.copyOf (g : Game) (pos : Position) (p : Piece) : Piece :=
  { id := (8 * (pos.row - 1) + (pos.col - 1)).toNat,
    type := p.type,
    color := p.color,
    position := pos,
    isEnPassantTarget := decide (p.type = PieceType.PAWN) &&
      decide (g.enPassantTargetPosition.map (fun t =>
        (⟨t.row + (if g.currentPlayer = Color.WHITE then -1 else 1), t.col⟩ : Position)) =
          some pos) }

/-- What is seen of a piece on the board: its kind, colour and square. -/
def Piece.look (p : Piece) : PieceType × Color × Position := (p.type, p.color, p.position)

/-- A move that lands on a square the ordinary way: the square is empty and nothing
is captured, or it holds a piece of the other colour, which is captured. -/
def Move.IsPlain (b : Board) (piece : Piece) (m : Move) : Prop :=
  (b.getPiece m.to_ = none ∧ m.capturedPiece = none) ∨
  ∃ q, b.getPiece m.to_ = some q ∧ q.color ≠ piece.color ∧ m.capturedPiece = some q

/-- An en-passant capture: the captured pawn stands beside the capturing pawn and
carries the flag. -/
def Move.IsEnPassantOf (b : Board) (piece : Piece) (m : Move) : Prop :=
  ∃ dc : Int, (dc = -1 ∨ dc = 1) ∧
    m.to_ = ⟨piece.position.row + Pawn.direction piece.color, piece.position.col + dc⟩ ∧
    ∃ q, b.getPiece ⟨piece.position.row, piece.position.col + dc⟩ = some q ∧
      q.type = PieceType.PAWN ∧ q.color ≠ piece.color ∧ q.isEnPassantTarget = true ∧
      m.capturedPiece = some q

/-- The back rank of a colour. -/
def backRank (c : Color) : Int := if c = Color.WHITE then 1 else 8

/-- The home square of the king of a colour. -/
def homeSquare (c : Color) : Position := ⟨backRank c, 5⟩

/-- The corner of a colour on the king's side or the queen's side. -/
def cornerSquare (c : Color) (kingside : Bool) : Position :=
  ⟨backRank c, if kingside then 8 else 1⟩

/-- The castling right of a colour on a side. -/
def Game.castlingRight (g : Game) (c : Color) (kingside : Bool) : Bool :=
  match c, kingside with
  | Color.WHITE, true => g.canWhiteKingsideCastle
  | Color.WHITE, false => g.canWhiteQueensideCastle
  | Color.BLACK, true => g.canBlackKingsideCastle
  | Color.BLACK, false => g.canBlackQueensideCastle

/-- Whenever a castling right is set, the king of the colour stands on its home
square and a rook of the colour on the matching corner. -/
def Game.CastlingConsistent (g : Game) : Prop :=
  ∀ (c : Color) (kingside : Bool), g.castlingRight c kingside = true →
    (∃ k, g.getPiece (homeSquare c) = some k ∧ k.type = PieceType.KING ∧ k.color = c) ∧
    (∃ r, g.getPiece (cornerSquare c kingside) = some r ∧ r.type = PieceType.ROOK ∧ r.color = c)

/-- There is at most one king of each colour. -/
def Game.KingsUnique (g : Game) : Prop :=
  ∀ k ∈ g.board.pieces, ∀ k2 ∈ g.board.pieces,
    k.type = PieceType.KING → k2.type = PieceType.KING → k.color = k2.color → k = k2

/-- No pseudo-legal move of a piece of the side to move captures a king: the side
that has just moved did not leave its king to be taken. -/
def Game.KingSafe (g : Game) : Prop :=
  ∀ p ∈ g.board.pieces, p.color = g.currentPlayer →
    ∀ m ∈ p.getMoves g.board, ∀ q, m.capturedPiece = some q → q.type ≠ PieceType.KING

/-- Only the pawn behind the en-passant target carries the flag, and the target
square itself is empty. -/
def Game.FlagsConsistent (g : Game) : Prop :=
  ∀ q ∈ g.board.pieces, q.isEnPassantTarget = true →
    ∃ t, g.enPassantTargetPosition = some t ∧
      q.position = ⟨t.row + (if g.currentPlayer = Color.WHITE then -1 else 1), t.col⟩ ∧
      g.getPiece t = none

/-- The consistency of a state of play: the data-model invariants of §3 together
with the castling, king and en-passant bookkeeping. -/
def Game.Sound (g : Game) : Prop :=
  g.board.WellFormed ∧ (∀ p ∈ g.board.pieces, p.position.inBounds = true) ∧
  g.CastlingConsistent ∧ g.KingsUnique ∧ g.KingSafe ∧ g.FlagsConsistent ∧
  g.EnPassantConsistent

/-- What is known of a pseudo-legal move of the side to move in a sound state. -/
def Game.Validates (g : Game) (m : Move) : Prop :=
  g.board.Admits m ∧ m.to_.inBounds = true ∧
  g.getPiece m.from_ = some m.piece ∧ m.piece.color = g.currentPlayer ∧
  (∀ q, m.capturedPiece = some q →
    q ∈ g.board.pieces ∧ q.color ≠ g.currentPlayer ∧ q.type ≠ PieceType.KING) ∧
  (m.promoteTo ≠ PieceType.NONE →
    m.piece.type = PieceType.PAWN ∧ m.to_.row = Pawn.lastRow m.piece.color) ∧
  m.promoteTo ≠ PieceType.KING ∧
  (m.piece.type = PieceType.KING → m.isCastling = true) ∧
  (m.isCastling = true →
    m.from_ = homeSquare g.currentPlayer ∧ (castlingRookSquares m).2.inBounds = true ∧
    ∃ r, g.getPiece (castlingRookSquares m).1 = some r ∧ r.color = g.currentPlayer)

/-- Two boards show the same colours square by square. -/
def Board.SameColors (b1 b2 : Board) : Prop :=
  ∀ pos, (b1.getPiece pos).map Piece.color = (b2.getPiece pos).map Piece.color

/-- The move `afterMove` makes on the copy: the same squares, the pieces found on
them in the copy, no promotion kind. -/
def Game.copyMove (g : Game) (m : Move) : Move :=
  ⟨m.from_, m.to_, g.copyOf m.from_ m.piece,
    m.capturedPiece.map (fun q => g.copyOf q.position q), PieceType.NONE⟩

/-- The check `KingSafe` asks for, as a computation. -/
def Game.kingSafeCheck (g : Game) : Bool :=
  g.board.pieces.all (fun p => decide (p.color ≠ g.currentPlayer) ||
    (p.getMoves g.board).all (fun m =>
      match m.capturedPiece with
      | some q => decide (q.type ≠ PieceType.KING)
      | none => true))

/-- The hypotheses on rosters and kings under which the moves of `getLegalMovesFrom`
are examined: both rosters are the sets of the pieces of their colour on the board,
and each colour has a king on the board (§3). -/
def Game.Manned (g : Game) : Prop :=
  g.rosterMatchesBoard Color.WHITE = true ∧ g.rosterMatchesBoard Color.BLACK = true ∧
  ∀ c : Color, ∃ k ∈ g.board.pieces, k.type = PieceType.KING ∧ k.color = c

/-! ## Example positions -/

/-- White king e1, white rooks a1 and h1, black king e8, black rooks a8 and h8;
White to move, all four castling rights. -/
def Examples.rooksAndKings : Game :=
  { board := ⟨[⟨0, PieceType.KING, Color.WHITE, ⟨1, 5⟩, false⟩,
               ⟨1, PieceType.ROOK, Color.WHITE, ⟨1, 1⟩, false⟩,
               ⟨2, PieceType.ROOK, Color.WHITE, ⟨1, 8⟩, false⟩,
               ⟨3, PieceType.KING, Color.BLACK, ⟨8, 5⟩, false⟩,
               ⟨4, PieceType.ROOK, Color.BLACK, ⟨8, 1⟩, false⟩,
               ⟨5, PieceType.ROOK, Color.BLACK, ⟨8, 8⟩, false⟩]⟩,
    whitePlayer := ⟨[0, 1, 2]⟩,
    blackPlayer := ⟨[3, 4, 5]⟩,
    currentPlayer := Color.WHITE,
    moveHistory := [],
    canWhiteKingsideCastle := true,
    canWhiteQueensideCastle := true,
    canBlackKingsideCastle := true,
    canBlackQueensideCastle := true,
    enPassantTargetPosition := none,
    halfmoveClock := 3,
    fullmoveNumber := 20 }

/-- The white king steps e1-e2. -/
def Examples.kingE1E2 : Move :=
  ⟨⟨1, 5⟩, ⟨2, 5⟩, ⟨0, PieceType.KING, Color.WHITE, ⟨1, 5⟩, false⟩, none, PieceType.NONE⟩

/-- The black king steps e8-e7. -/
def Examples.kingE8E7 : Move :=
  ⟨⟨8, 5⟩, ⟨7, 5⟩, ⟨3, PieceType.KING, Color.BLACK, ⟨8, 5⟩, false⟩, none, PieceType.NONE⟩

/-- The white king steps back e2-e1. -/
def Examples.kingE2E1 : Move :=
  ⟨⟨2, 5⟩, ⟨1, 5⟩, ⟨0, PieceType.KING, Color.WHITE, ⟨2, 5⟩, false⟩, none, PieceType.NONE⟩

/-- The white rook moves h1-h2. -/
def Examples.rookH1H2 : Move :=
  ⟨⟨1, 8⟩, ⟨2, 8⟩, ⟨2, PieceType.ROOK, Color.WHITE, ⟨1, 8⟩, false⟩, none, PieceType.NONE⟩

/-- The white rook on a1 captures the black rook on a8. -/
def Examples.rookA1xA8 : Move :=
  ⟨⟨1, 1⟩, ⟨8, 1⟩, ⟨1, PieceType.ROOK, Color.WHITE, ⟨1, 1⟩, false⟩,
    some ⟨4, PieceType.ROOK, Color.BLACK, ⟨8, 1⟩, false⟩, PieceType.NONE⟩

/-- White king e1 and a white knight on the corner h1, black king e8; White to move
with the white kingside castling right still set. -/
def Examples.knightOnCorner : Game :=
  { board := ⟨[⟨0, PieceType.KING, Color.WHITE, ⟨1, 5⟩, false⟩,
               ⟨1, PieceType.KNIGHT, Color.WHITE, ⟨1, 8⟩, false⟩,
               ⟨2, PieceType.KING, Color.BLACK, ⟨8, 5⟩, false⟩]⟩,
    whitePlayer := ⟨[0, 1]⟩,
    blackPlayer := ⟨[2]⟩,
    currentPlayer := Color.WHITE,
    moveHistory := [],
    canWhiteKingsideCastle := true,
    canWhiteQueensideCastle := false,
    canBlackKingsideCastle := false,
    canBlackQueensideCastle := false,
    enPassantTargetPosition := none,
    halfmoveClock := 0,
    fullmoveNumber := 1 }

/-- White king e1 and white rook h1, black king e8; White to move with only the
white kingside castling right. -/
def Examples.kingAndRook : Game :=
  { board := ⟨[⟨0, PieceType.KING, Color.WHITE, ⟨1, 5⟩, false⟩,
               ⟨1, PieceType.ROOK, Color.WHITE, ⟨1, 8⟩, false⟩,
               ⟨2, PieceType.KING, Color.BLACK, ⟨8, 5⟩, false⟩]⟩,
    whitePlayer := ⟨[0, 1]⟩,
    blackPlayer := ⟨[2]⟩,
    currentPlayer := Color.WHITE,
    moveHistory := [],
    canWhiteKingsideCastle := true,
    canWhiteQueensideCastle := false,
    canBlackKingsideCastle := false,
    canBlackQueensideCastle := false,
    enPassantTargetPosition := none,
    halfmoveClock := 0,
    fullmoveNumber := 1 }

/-- White castles kingside, e1-g1. -/
def Examples.castleKingside : Move :=
  ⟨⟨1, 5⟩, ⟨1, 7⟩, ⟨0, PieceType.KING, Color.WHITE, ⟨1, 5⟩, false⟩, none, PieceType.NONE⟩

/-- White king e1 and white rook h1, black king g2, next to f1 and g1; White to move
with only the white kingside castling right (`8/8/8/8/8/8/6k1/4K2R w K - 0 1`). -/
def Examples.kingBesideCastling : Game :=
  { board := ⟨[⟨0, PieceType.KING, Color.WHITE, ⟨1, 5⟩, false⟩,
               ⟨1, PieceType.ROOK, Color.WHITE, ⟨1, 8⟩, false⟩,
               ⟨2, PieceType.KING, Color.BLACK, ⟨2, 7⟩, false⟩]⟩,
    whitePlayer := ⟨[0, 1]⟩,
    blackPlayer := ⟨[2]⟩,
    currentPlayer := Color.WHITE,
    moveHistory := [],
    canWhiteKingsideCastle := true,
    canWhiteQueensideCastle := false,
    canBlackKingsideCastle := false,
    canBlackQueensideCastle := false,
    enPassantTargetPosition := none,
    halfmoveClock := 0,
    fullmoveNumber := 1 }

/-- The starting position, as the default constructor builds it. -/
def Examples.start : Game := Game.new "Player 1" "Player 2"

/-- The double pawn push e2-e4 in the starting position. -/
def Examples.pawnE2E4 : Move :=
  ⟨⟨2, 5⟩, ⟨4, 5⟩, ⟨12, PieceType.PAWN, Color.WHITE, ⟨2, 5⟩, false⟩, none, PieceType.NONE⟩

/-- The knight move g8-f6 in the starting position. -/
def Examples.knightG8F6 : Move :=
  ⟨⟨8, 7⟩, ⟨6, 6⟩, ⟨30, PieceType.KNIGHT, Color.BLACK, ⟨8, 7⟩, false⟩, none, PieceType.NONE⟩

/-- The moves f2-f3, e7-e5, g2-g4, d8-h4 from the starting position. -/
def Examples.foolsMate : List Move :=
  [⟨⟨2, 6⟩, ⟨3, 6⟩, ⟨13, PieceType.PAWN, Color.WHITE, ⟨2, 6⟩, false⟩, none, PieceType.NONE⟩,
   ⟨⟨7, 5⟩, ⟨5, 5⟩, ⟨20, PieceType.PAWN, Color.BLACK, ⟨7, 5⟩, false⟩, none, PieceType.NONE⟩,
   ⟨⟨2, 7⟩, ⟨4, 7⟩, ⟨14, PieceType.PAWN, Color.WHITE, ⟨2, 7⟩, false⟩, none, PieceType.NONE⟩,
   ⟨⟨8, 4⟩, ⟨4, 8⟩, ⟨27, PieceType.QUEEN, Color.BLACK, ⟨8, 4⟩, false⟩, none, PieceType.NONE⟩]

/-- White king e1 and a white pawn on a7, black king e8 and a black rook on b8;
White to move, no castling rights. -/
def Examples.promotionPosition : Game :=
  { board := ⟨[⟨0, PieceType.KING, Color.WHITE, ⟨1, 5⟩, false⟩,
               ⟨1, PieceType.PAWN, Color.WHITE, ⟨7, 1⟩, false⟩,
               ⟨2, PieceType.KING, Color.BLACK, ⟨8, 5⟩, false⟩,
               ⟨3, PieceType.ROOK, Color.BLACK, ⟨8, 2⟩, false⟩]⟩,
    whitePlayer := ⟨[0, 1]⟩,
    blackPlayer := ⟨[2, 3]⟩,
    currentPlayer := Color.WHITE,
    moveHistory := [],
    canWhiteKingsideCastle := false,
    canWhiteQueensideCastle := false,
    canBlackKingsideCastle := false,
    canBlackQueensideCastle := false,
    enPassantTargetPosition := none,
    halfmoveClock := 0,
    fullmoveNumber := 40 }

/-- The pawn on a7 captures the rook on b8 and promotes to a queen. -/
def Examples.pawnA7xB8Queen : Move :=
  ⟨⟨7, 1⟩, ⟨8, 2⟩, ⟨1, PieceType.PAWN, Color.WHITE, ⟨7, 1⟩, false⟩,
    some ⟨3, PieceType.ROOK, Color.BLACK, ⟨8, 2⟩, false⟩, PieceType.QUEEN⟩

/-- The position of `TEST(Queen, getMovesMultipleDirectionsBlockedAndCaptures)`,
`rnbqk1nr/pppp1ppp/3b4/4p3/8/1QP5/PP1PPPPP/RNB1KBNR`. -/
def Examples.queenTestBoard : Board :=
  let row (first : Nat) (r : Int) (c : Color) (kinds : List (Int × PieceType)) : List Piece :=
    kinds.enum.map (fun (ik : Nat × Int × PieceType) =>
      ({ id := first + ik.1, type := ik.2.2, color := c, position := ⟨r, ik.2.1⟩,
         isEnPassantTarget := false } : Piece))
  ⟨row 0 1 Color.WHITE [(1, PieceType.ROOK), (2, PieceType.KNIGHT), (3, PieceType.BISHOP),
      (5, PieceType.KING), (6, PieceType.BISHOP), (7, PieceType.KNIGHT), (8, PieceType.ROOK)] ++
    row 7 2 Color.WHITE [(1, PieceType.PAWN), (2, PieceType.PAWN), (4, PieceType.PAWN),
      (5, PieceType.PAWN), (6, PieceType.PAWN), (7, PieceType.PAWN), (8, PieceType.PAWN)] ++
    row 14 3 Color.WHITE [(2, PieceType.QUEEN), (3, PieceType.PAWN)] ++
    row 16 5 Color.BLACK [(5, PieceType.PAWN)] ++
    row 17 6 Color.BLACK [(4, PieceType.BISHOP)] ++
    row 18 7 Color.BLACK [(1, PieceType.PAWN), (2, PieceType.PAWN), (3, PieceType.PAWN),
      (4, PieceType.PAWN), (6, PieceType.PAWN), (7, PieceType.PAWN), (8, PieceType.PAWN)] ++
    row 25 8 Color.BLACK [(1, PieceType.ROOK), (2, PieceType.KNIGHT), (3, PieceType.BISHOP),
      (4, PieceType.QUEEN), (5, PieceType.KING), (7, PieceType.KNIGHT), (8, PieceType.ROOK)]⟩

/-- The white queen on b3 of `queenTestBoard`. -/
def Examples.queenB3 : Piece := ⟨14, PieceType.QUEEN, Color.WHITE, ⟨3, 2⟩, false⟩

/-- White king e1 and white knight b3, black king e8 and a black rook on a1, the
queenside corner of White; White to move with the white queenside castling right
still set (a position loaded from outside, §3). -/
def Examples.rookOnForeignCorner : Game :=
  { board := ⟨[⟨0, PieceType.KING, Color.WHITE, ⟨1, 5⟩, false⟩,
               ⟨1, PieceType.KNIGHT, Color.WHITE, ⟨3, 2⟩, false⟩,
               ⟨2, PieceType.KING, Color.BLACK, ⟨8, 5⟩, false⟩,
               ⟨3, PieceType.ROOK, Color.BLACK, ⟨1, 1⟩, false⟩]⟩,
    whitePlayer := ⟨[0, 1]⟩,
    blackPlayer := ⟨[2, 3]⟩,
    currentPlayer := Color.WHITE,
    moveHistory := [],
    canWhiteKingsideCastle := false,
    canWhiteQueensideCastle := true,
    canBlackKingsideCastle := false,
    canBlackQueensideCastle := false,
    enPassantTargetPosition := none,
    halfmoveClock := 0,
    fullmoveNumber := 30 }

/-- The knight on b3 captures the rook on a1. -/
def Examples.knightB3xA1 : Move :=
  ⟨⟨3, 2⟩, ⟨1, 1⟩, ⟨1, PieceType.KNIGHT, Color.WHITE, ⟨3, 2⟩, false⟩,
    some ⟨3, PieceType.ROOK, Color.BLACK, ⟨1, 1⟩, false⟩, PieceType.NONE⟩

/-! ## Theorems -/

/-! ### Frame lemmas for the steps of `makeMove` -/

theorem refreshEnPassant_ok (g g4 : Game) (h : g.refreshEnPassant = Except.ok g4) :
    g4.halfmoveClock = g.halfmoveClock ∧ g4.fullmoveNumber = g.fullmoveNumber ∧
    g4.currentPlayer = g.currentPlayer ∧
    g4.canWhiteKingsideCastle = g.canWhiteKingsideCastle ∧
    g4.canWhiteQueensideCastle = g.canWhiteQueensideCastle ∧
    g4.canBlackKingsideCastle = g.canBlackKingsideCastle ∧
    g4.canBlackQueensideCastle = g.canBlackQueensideCastle ∧
    g4.moveHistory = g.moveHistory ∧ g4.whitePlayer = g.whitePlayer ∧
    g4.blackPlayer = g.blackPlayer ∧ g4.enPassantTargetPosition = none := by
  unfold Game.refreshEnPassant at h
  split at h
  · cases h
  · cases h
  · cases h
    simp

theorem getEnPassantTargetPiece_error (g : Game) (e : Exc)
    (h : g.getEnPassantTargetPiece = Except.error e) : e = Exc.bad_cast := by
  unfold Game.getEnPassantTargetPiece at h
  split at h
  · cases h
  · dsimp only at h
    split at h
    · split at h
      · cases h
      · cases h; rfl
    · cases h; rfl

theorem refreshEnPassant_error (g : Game) (e : Exc) (h : g.refreshEnPassant = Except.error e) :
    e = Exc.bad_cast ∨ e = Exc.nullDereference := by
  unfold Game.refreshEnPassant at h
  split at h
  · rename_i e1 h1
    cases h
    exact Or.inl (getEnPassantTargetPiece_error g _ h1)
  · cases h; exact Or.inr rfl
  · cases h

theorem refreshCastlingAfterRookCapture_frame (g : Game) (r : Piece) :
    (g.refreshCastlingAfterRookCapture r).halfmoveClock = g.halfmoveClock ∧
    (g.refreshCastlingAfterRookCapture r).fullmoveNumber = g.fullmoveNumber ∧
    (g.refreshCastlingAfterRookCapture r).currentPlayer = g.currentPlayer ∧
    (g.refreshCastlingAfterRookCapture r).board = g.board ∧
    (g.refreshCastlingAfterRookCapture r).moveHistory = g.moveHistory ∧
    (g.refreshCastlingAfterRookCapture r).whitePlayer = g.whitePlayer ∧
    (g.refreshCastlingAfterRookCapture r).blackPlayer = g.blackPlayer ∧
    (g.refreshCastlingAfterRookCapture r).enPassantTargetPosition = g.enPassantTargetPosition := by
  unfold Game.refreshCastlingAfterRookCapture
  dsimp only
  split_ifs <;> simp

theorem refreshCastlingPossibilites_frame (g : Game) (move : Move) :
    (g.refreshCastlingPossibilites move).halfmoveClock = g.halfmoveClock ∧
    (g.refreshCastlingPossibilites move).fullmoveNumber = g.fullmoveNumber ∧
    (g.refreshCastlingPossibilites move).currentPlayer = g.currentPlayer ∧
    (g.refreshCastlingPossibilites move).board = g.board ∧
    (g.refreshCastlingPossibilites move).moveHistory = g.moveHistory ∧
    (g.refreshCastlingPossibilites move).whitePlayer = g.whitePlayer ∧
    (g.refreshCastlingPossibilites move).blackPlayer = g.blackPlayer ∧
    (g.refreshCastlingPossibilites move).enPassantTargetPosition = g.enPassantTargetPosition := by
  unfold Game.refreshCastlingPossibilites
  dsimp only
  split
  · split
    · rw [(refreshCastlingAfterRookCapture_frame _ _).1, (refreshCastlingAfterRookCapture_frame _ _).2.1,
        (refreshCastlingAfterRookCapture_frame _ _).2.2.1, (refreshCastlingAfterRookCapture_frame _ _).2.2.2.1,
        (refreshCastlingAfterRookCapture_frame _ _).2.2.2.2.1, (refreshCastlingAfterRookCapture_frame _ _).2.2.2.2.2.1,
        (refreshCastlingAfterRookCapture_frame _ _).2.2.2.2.2.2.1, (refreshCastlingAfterRookCapture_frame _ _).2.2.2.2.2.2.2]
      split_ifs <;> simp
    · split_ifs <;> simp
  · split_ifs <;> simp

theorem setPlayer_frame (g : Game) (c : Color) (p : Player) :
    (g.setPlayer c p).halfmoveClock = g.halfmoveClock ∧
    (g.setPlayer c p).fullmoveNumber = g.fullmoveNumber ∧
    (g.setPlayer c p).currentPlayer = g.currentPlayer ∧
    (g.setPlayer c p).board = g.board ∧
    (g.setPlayer c p).moveHistory = g.moveHistory ∧
    (g.setPlayer c p).enPassantTargetPosition = g.enPassantTargetPosition ∧
    (g.setPlayer c p).canWhiteKingsideCastle = g.canWhiteKingsideCastle ∧
    (g.setPlayer c p).canWhiteQueensideCastle = g.canWhiteQueensideCastle ∧
    (g.setPlayer c p).canBlackKingsideCastle = g.canBlackKingsideCastle ∧
    (g.setPlayer c p).canBlackQueensideCastle = g.canBlackQueensideCastle := by
  cases c <;> simp [Game.setPlayer]

theorem applyToBoard_frame (g : Game) (move : Move) :
    (g.applyToBoard move).halfmoveClock = g.halfmoveClock ∧
    (g.applyToBoard move).fullmoveNumber = g.fullmoveNumber ∧
    (g.applyToBoard move).canWhiteKingsideCastle = g.canWhiteKingsideCastle ∧
    (g.applyToBoard move).canWhiteQueensideCastle = g.canWhiteQueensideCastle ∧
    (g.applyToBoard move).canBlackKingsideCastle = g.canBlackKingsideCastle ∧
    (g.applyToBoard move).canBlackQueensideCastle = g.canBlackQueensideCastle := by
  unfold Game.applyToBoard
  dsimp only
  split <;> split_ifs <;> (try split) <;> simp [setPlayer_frame]



theorem updateFullmoveNumber_ok (g g1 : Game) (h : g.updateFullmoveNumber = Except.ok g1) :
    g1 = { g with fullmoveNumber :=
            if g.currentPlayer = Color.BLACK then g.fullmoveNumber + 1 else g.fullmoveNumber } := by
  unfold Game.updateFullmoveNumber at h
  split_ifs at h with h1 h2
  · cases h; simp [h1]
  · cases h; simp [h1]

theorem updateFullmoveNumber_error (g : Game) (e : Exc)
    (h : g.updateFullmoveNumber = Except.error e) : e = Exc.signedOverflow := by
  unfold Game.updateFullmoveNumber at h
  split_ifs at h with h1 h2
  cases h; rfl

theorem updateHalfmoveClock_ok (g g1 : Game) (move : Move)
    (h : g.updateHalfmoveClock move = Except.ok g1) :
    g1 = { g with halfmoveClock :=
            if move.isCapture = true ∨ move.piece.type = PieceType.PAWN then 0
            else g.halfmoveClock + 1 } := by
  unfold Game.updateHalfmoveClock at h
  dsimp only at h
  split_ifs at h with h1 h2
  · cases h
    have : move.isCapture = true ∨ move.piece.type = PieceType.PAWN := by simpa using h2
    simp [this]
  · cases h
    have : ¬ (move.isCapture = true ∨ move.piece.type = PieceType.PAWN) := by simpa using h2
    simp [this]

theorem updateHalfmoveClock_error (g : Game) (move : Move) (e : Exc)
    (h : g.updateHalfmoveClock move = Except.error e) : e = Exc.signedOverflow := by
  unfold Game.updateHalfmoveClock at h
  dsimp only at h
  split_ifs at h with h1 h2
  cases h; rfl

theorem updateEnPassantTarget_ok (g g4 : Game) (h : g.updateEnPassantTarget = Except.ok g4) :
    g4.halfmoveClock = g.halfmoveClock ∧ g4.fullmoveNumber = g.fullmoveNumber ∧
    g4.currentPlayer = g.currentPlayer ∧
    g4.canWhiteKingsideCastle = g.canWhiteKingsideCastle ∧
    g4.canWhiteQueensideCastle = g.canWhiteQueensideCastle ∧
    g4.canBlackKingsideCastle = g.canBlackKingsideCastle ∧
    g4.canBlackQueensideCastle = g.canBlackQueensideCastle ∧
    g4.moveHistory = g.moveHistory ∧ g4.whitePlayer = g.whitePlayer ∧
    g4.blackPlayer = g.blackPlayer ∧ g4.enPassantTargetPosition = none := by
  unfold Game.updateEnPassantTarget at h
  split_ifs at h with h1
  · exact refreshEnPassant_ok g g4 h
  · cases h
    cases hh : g.enPassantTargetPosition <;> simp_all

theorem updateEnPassantTarget_error (g : Game) (e : Exc)
    (h : g.updateEnPassantTarget = Except.error e) :
    e = Exc.bad_cast ∨ e = Exc.nullDereference := by
  unfold Game.updateEnPassantTarget at h
  split_ifs at h with h1
  exact refreshEnPassant_error g e h

theorem makeMove_success (g : Game) (move : Move) (h : (g.makeMove move).raised = none) :
    g.currentPlayer = move.piece.color ∧
    ∃ g3 : Game,
      (g.makeMove move).state = (g3.refreshCastlingPossibilites move).applyToBoard move ∧
      g3.halfmoveClock =
        (if move.isCapture = true ∨ move.piece.type = PieceType.PAWN then 0
         else g.halfmoveClock + 1) ∧
      g3.fullmoveNumber =
        (if g.currentPlayer = Color.BLACK then g.fullmoveNumber + 1 else g.fullmoveNumber) ∧
      g3.currentPlayer = g.currentPlayer ∧
      g3.canWhiteKingsideCastle = g.canWhiteKingsideCastle ∧
      g3.canWhiteQueensideCastle = g.canWhiteQueensideCastle ∧
      g3.canBlackKingsideCastle = g.canBlackKingsideCastle ∧
      g3.canBlackQueensideCastle = g.canBlackQueensideCastle ∧
      g3.moveHistory = g.moveHistory ∧ g3.whitePlayer = g.whitePlayer ∧
      g3.blackPlayer = g.blackPlayer ∧ g3.enPassantTargetPosition = none := by
  unfold Game.makeMove at h ⊢
  by_cases h1 : g.currentPlayer ≠ move.piece.color
  · simp [h1] at h
  · rw [if_neg h1] at h ⊢
    refine ⟨by simpa using h1, ?_⟩
    cases hg1 : g.updateFullmoveNumber with
    | error e => simp [hg1] at h
    | ok g1 =>
      simp only [hg1] at h ⊢
      cases hg2 : g1.updateHalfmoveClock move with
      | error e => simp [hg2] at h
      | ok g2 =>
        simp only [hg2] at h ⊢
        cases hg3 : g2.updateEnPassantTarget with
        | error e => simp [hg3] at h
        | ok g3 =>
          simp only [hg3] at h ⊢
          refine ⟨g3, rfl, ?_⟩
          obtain ⟨a1, a2, a3, a4, a5, a6, a7, a8, a9, a10, a11⟩ := updateEnPassantTarget_ok _ _ hg3
          rw [a1, a2, a3, a4, a5, a6, a7, a8, a9, a10, a11]
          rw [updateHalfmoveClock_ok _ _ _ hg2, updateFullmoveNumber_ok _ _ hg1]
          simp

theorem makeMove_raised_illegal (g : Game) (move : Move) :
    (g.makeMove move).raised = some Exc.IllegalMoveException ↔
      g.currentPlayer ≠ move.piece.color := by
  unfold Game.makeMove
  split_ifs with h1
  · simp [h1]
  · simp only [h1, iff_false]
    split
    · rename_i e he
      have := updateFullmoveNumber_error _ _ he
      simp [this]
    · split
      · rename_i e he
        have := updateHalfmoveClock_error _ _ _ he
        simp [this]
      · split
        · rename_i e he
          rcases updateEnPassantTarget_error _ _ he with h | h <;> simp [h]
        · simp


theorem refreshCastlingAfterRookCapture_mono (g : Game) (r : Piece) :
    ((g.refreshCastlingAfterRookCapture r).canWhiteKingsideCastle = true →
      g.canWhiteKingsideCastle = true) ∧
    ((g.refreshCastlingAfterRookCapture r).canWhiteQueensideCastle = true →
      g.canWhiteQueensideCastle = true) ∧
    ((g.refreshCastlingAfterRookCapture r).canBlackKingsideCastle = true →
      g.canBlackKingsideCastle = true) ∧
    ((g.refreshCastlingAfterRookCapture r).canBlackQueensideCastle = true →
      g.canBlackQueensideCastle = true) := by
  unfold Game.refreshCastlingAfterRookCapture
  dsimp only
  split_ifs <;> simp

theorem refreshCastlingAfterRookCapture_corner (g : Game) (r : Piece) :
    (r.position = ⟨1, 8⟩ → (g.refreshCastlingAfterRookCapture r).canWhiteKingsideCastle = false) ∧
    (r.position = ⟨1, 1⟩ → (g.refreshCastlingAfterRookCapture r).canWhiteQueensideCastle = false) ∧
    (r.position = ⟨8, 8⟩ → (g.refreshCastlingAfterRookCapture r).canBlackKingsideCastle = false) ∧
    (r.position = ⟨8, 1⟩ → (g.refreshCastlingAfterRookCapture r).canBlackQueensideCastle = false) := by
  unfold Game.refreshCastlingAfterRookCapture
  dsimp only
  refine ⟨?_, ?_, ?_, ?_⟩ <;> intro h <;> simp [h]

theorem refreshCastlingPossibilites_mono (g : Game) (move : Move) :
    ((g.refreshCastlingPossibilites move).canWhiteKingsideCastle = true →
      g.canWhiteKingsideCastle = true) ∧
    ((g.refreshCastlingPossibilites move).canWhiteQueensideCastle = true →
      g.canWhiteQueensideCastle = true) ∧
    ((g.refreshCastlingPossibilites move).canBlackKingsideCastle = true →
      g.canBlackKingsideCastle = true) ∧
    ((g.refreshCastlingPossibilites move).canBlackQueensideCastle = true →
      g.canBlackQueensideCastle = true) := by
  unfold Game.refreshCastlingPossibilites
  dsimp only
  split
  · split
    · refine ⟨fun h => ?_, fun h => ?_, fun h => ?_, fun h => ?_⟩
      · have := (refreshCastlingAfterRookCapture_mono _ _).1 h
        revert this; split_ifs <;> simp
      · have := (refreshCastlingAfterRookCapture_mono _ _).2.1 h
        revert this; split_ifs <;> simp
      · have := (refreshCastlingAfterRookCapture_mono _ _).2.2.1 h
        revert this; split_ifs <;> simp
      · have := (refreshCastlingAfterRookCapture_mono _ _).2.2.2 h
        revert this; split_ifs <;> simp
    · split_ifs <;> simp
  · split_ifs <;> simp

theorem refreshCastlingPossibilites_king (g : Game) (move : Move)
    (hk : move.piece.type = PieceType.KING) :
    (move.piece.color = Color.WHITE →
      (g.refreshCastlingPossibilites move).canWhiteKingsideCastle = false ∧
      (g.refreshCastlingPossibilites move).canWhiteQueensideCastle = false) ∧
    (move.piece.color = Color.BLACK →
      (g.refreshCastlingPossibilites move).canBlackKingsideCastle = false ∧
      (g.refreshCastlingPossibilites move).canBlackQueensideCastle = false) := by
  constructor
  · intro hc
    have h1 := (refreshCastlingPossibilites_mono
      { g with canWhiteKingsideCastle := false, canWhiteQueensideCastle := false } move)
    have e : g.refreshCastlingPossibilites move =
        Game.refreshCastlingPossibilites
          { g with canWhiteKingsideCastle := false, canWhiteQueensideCastle := false } move := by
      unfold Game.refreshCastlingPossibilites
      simp [hk, hc]
    rw [e]
    constructor
    · cases hh : (Game.refreshCastlingPossibilites
          { g with canWhiteKingsideCastle := false, canWhiteQueensideCastle := false }
          move).canWhiteKingsideCastle
      · rfl
      · exact absurd (h1.1 hh) (by simp)
    · cases hh : (Game.refreshCastlingPossibilites
          { g with canWhiteKingsideCastle := false, canWhiteQueensideCastle := false }
          move).canWhiteQueensideCastle
      · rfl
      · exact absurd (h1.2.1 hh) (by simp)
  · intro hc
    have h1 := (refreshCastlingPossibilites_mono
      { g with canBlackKingsideCastle := false, canBlackQueensideCastle := false } move)
    have e : g.refreshCastlingPossibilites move =
        Game.refreshCastlingPossibilites
          { g with canBlackKingsideCastle := false, canBlackQueensideCastle := false } move := by
      unfold Game.refreshCastlingPossibilites
      simp [hk, hc]
    rw [e]
    constructor
    · cases hh : (Game.refreshCastlingPossibilites
          { g with canBlackKingsideCastle := false, canBlackQueensideCastle := false }
          move).canBlackKingsideCastle
      · rfl
      · exact absurd (h1.2.2.1 hh) (by simp)
    · cases hh : (Game.refreshCastlingPossibilites
          { g with canBlackKingsideCastle := false, canBlackQueensideCastle := false }
          move).canBlackQueensideCastle
      · rfl
      · exact absurd (h1.2.2.2 hh) (by simp)


theorem refreshCastlingPossibilites_rook (g : Game) (move : Move)
    (hr : move.piece.type = PieceType.ROOK) :
    (move.piece.color = Color.WHITE → move.from_ = ⟨1, 8⟩ →
      (g.refreshCastlingPossibilites move).canWhiteKingsideCastle = false) ∧
    (move.piece.color = Color.WHITE → move.from_ = ⟨1, 1⟩ →
      (g.refreshCastlingPossibilites move).canWhiteQueensideCastle = false) ∧
    (move.piece.color = Color.BLACK → move.from_ = ⟨8, 8⟩ →
      (g.refreshCastlingPossibilites move).canBlackKingsideCastle = false) ∧
    (move.piece.color = Color.BLACK → move.from_ = ⟨8, 1⟩ →
      (g.refreshCastlingPossibilites move).canBlackQueensideCastle = false) := by
  refine ⟨fun hc hf => ?_, fun hc hf => ?_, fun hc hf => ?_, fun hc hf => ?_⟩
  · have h1 := (refreshCastlingPossibilites_mono { g with canWhiteKingsideCastle := false } move).1
    have e : g.refreshCastlingPossibilites move =
        Game.refreshCastlingPossibilites { g with canWhiteKingsideCastle := false } move := by
      unfold Game.refreshCastlingPossibilites
      simp [hr, hc, hf]
    rw [e]
    cases hh : (Game.refreshCastlingPossibilites { g with canWhiteKingsideCastle := false }
        move).canWhiteKingsideCastle
    · rfl
    · exact absurd (h1 hh) (by simp)
  · have h1 := (refreshCastlingPossibilites_mono { g with canWhiteQueensideCastle := false } move).2.1
    have e : g.refreshCastlingPossibilites move =
        Game.refreshCastlingPossibilites { g with canWhiteQueensideCastle := false } move := by
      unfold Game.refreshCastlingPossibilites
      simp [hr, hc, hf]
    rw [e]
    cases hh : (Game.refreshCastlingPossibilites { g with canWhiteQueensideCastle := false }
        move).canWhiteQueensideCastle
    · rfl
    · exact absurd (h1 hh) (by simp)
  · have h1 := (refreshCastlingPossibilites_mono { g with canBlackKingsideCastle := false } move).2.2.1
    have e : g.refreshCastlingPossibilites move =
        Game.refreshCastlingPossibilites { g with canBlackKingsideCastle := false } move := by
      unfold Game.refreshCastlingPossibilites
      simp [hr, hc, hf]
    rw [e]
    cases hh : (Game.refreshCastlingPossibilites { g with canBlackKingsideCastle := false }
        move).canBlackKingsideCastle
    · rfl
    · exact absurd (h1 hh) (by simp)
  · have h1 := (refreshCastlingPossibilites_mono { g with canBlackQueensideCastle := false } move).2.2.2
    have e : g.refreshCastlingPossibilites move =
        Game.refreshCastlingPossibilites { g with canBlackQueensideCastle := false } move := by
      unfold Game.refreshCastlingPossibilites
      simp [hr, hc, hf]
    rw [e]
    cases hh : (Game.refreshCastlingPossibilites { g with canBlackQueensideCastle := false }
        move).canBlackQueensideCastle
    · rfl
    · exact absurd (h1 hh) (by simp)

theorem refreshCastlingPossibilites_capturedRook (g : Game) (move : Move) (r : Piece)
    (hc : move.capturedPiece = some r) (hr : r.type = PieceType.ROOK) :
    (r.position = ⟨1, 8⟩ → (g.refreshCastlingPossibilites move).canWhiteKingsideCastle = false) ∧
    (r.position = ⟨1, 1⟩ → (g.refreshCastlingPossibilites move).canWhiteQueensideCastle = false) ∧
    (r.position = ⟨8, 8⟩ → (g.refreshCastlingPossibilites move).canBlackKingsideCastle = false) ∧
    (r.position = ⟨8, 1⟩ → (g.refreshCastlingPossibilites move).canBlackQueensideCastle = false) := by
  unfold Game.refreshCastlingPossibilites
  simp only [hc, hr, if_true]
  exact refreshCastlingAfterRookCapture_corner _ r

theorem makeMove_mono (g : Game) (move : Move) :
    ((g.makeMove move).state.canWhiteKingsideCastle = true → g.canWhiteKingsideCastle = true) ∧
    ((g.makeMove move).state.canWhiteQueensideCastle = true → g.canWhiteQueensideCastle = true) ∧
    ((g.makeMove move).state.canBlackKingsideCastle = true → g.canBlackKingsideCastle = true) ∧
    ((g.makeMove move).state.canBlackQueensideCastle = true → g.canBlackQueensideCastle = true) := by
  cases hr : (g.makeMove move).raised with
  | none =>
    obtain ⟨_, g3, hs, _, _, _, b1, b2, b3, b4, _⟩ := makeMove_success g move hr
    obtain ⟨_, _, c1, c2, c3, c4⟩ := applyToBoard_frame (g3.refreshCastlingPossibilites move) move
    obtain ⟨d1, d2, d3, d4⟩ := refreshCastlingPossibilites_mono g3 move
    rw [hs, c1, c2, c3, c4, ← b1, ← b2, ← b3, ← b4]
    exact ⟨d1, d2, d3, d4⟩
  | some e =>
    unfold Game.makeMove at hr ⊢
    by_cases h1 : g.currentPlayer ≠ move.piece.color
    · simp [h1]
    · rw [if_neg h1] at hr ⊢
      cases hg1 : g.updateFullmoveNumber with
      | error e => simp [hg1]
      | ok g1 =>
        simp only [hg1] at hr ⊢
        have e1 := updateFullmoveNumber_ok _ _ hg1
        cases hg2 : g1.updateHalfmoveClock move with
        | error e => simp [hg2, e1]
        | ok g2 =>
          simp only [hg2] at hr ⊢
          have e2 := updateHalfmoveClock_ok _ _ _ hg2
          cases hg3 : g2.updateEnPassantTarget with
          | error e => simp [hg3, e2, e1]
          | ok g3 => simp [hg3] at hr

theorem makeMoves_mono (rest : List Move) : ∀ g : Game,
    ((g.makeMoves rest).state.canWhiteKingsideCastle = true → g.canWhiteKingsideCastle = true) ∧
    ((g.makeMoves rest).state.canWhiteQueensideCastle = true → g.canWhiteQueensideCastle = true) ∧
    ((g.makeMoves rest).state.canBlackKingsideCastle = true → g.canBlackKingsideCastle = true) ∧
    ((g.makeMoves rest).state.canBlackQueensideCastle = true → g.canBlackQueensideCastle = true) := by
  induction rest with
  | nil => intro g; simp [Game.makeMoves]
  | cons move rest ih =>
    intro g
    obtain ⟨d1, d2, d3, d4⟩ := makeMove_mono g move
    unfold Game.makeMoves
    cases hr : (g.makeMove move).raised with
    | some e => exact ⟨d1, d2, d3, d4⟩
    | none =>
      obtain ⟨i1, i2, i3, i4⟩ := ih (g.makeMove move).state
      exact ⟨fun h => d1 (i1 h), fun h => d2 (i2 h), fun h => d3 (i3 h), fun h => d4 (i4 h)⟩

/-! ### The `makeMove` contract -/

/-- C1: `makeMove` raises `IllegalMoveException` exactly when the colour of the
move's piece differs from the colour of the side to move, and when it does the game
state (board, rosters, castling rights, en-passant target, both counters, side to
move, history) is the one before the call. -/
theorem makeMove_illegal_iff_and_state_unchanged (g : Game) (move : Move) :
    ((g.makeMove move).raised = some Exc.IllegalMoveException ↔
      move.piece.color ≠ g.currentPlayer) ∧
    ((g.makeMove move).raised = some Exc.IllegalMoveException → (g.makeMove move).state = g) := by
  have key := makeMove_raised_illegal g move
  refine ⟨key.trans ⟨fun h e => h e.symm, fun h e => h e.symm⟩, fun h => ?_⟩
  have hne := key.1 h
  unfold Game.makeMove
  rw [if_pos hne]

theorem makeMove_illegal_witness :
    (Examples.rooksAndKings.makeMove Examples.kingE8E7).raised =
        some Exc.IllegalMoveException ∧
      (Examples.rooksAndKings.makeMove Examples.kingE8E7).state = Examples.rooksAndKings :=
  ⟨(makeMove_illegal_iff_and_state_unchanged Examples.rooksAndKings Examples.kingE8E7).1.2
      (by decide),
    (makeMove_illegal_iff_and_state_unchanged Examples.rooksAndKings Examples.kingE8E7).2
      ((makeMove_illegal_iff_and_state_unchanged Examples.rooksAndKings Examples.kingE8E7).1.2
        (by decide))⟩

/-- C10: after a successful `makeMove` the halfmove clock is 0 if the move is a
capture or the moving piece is a pawn, and the previous clock plus 1 otherwise. -/
theorem makeMove_halfmoveClock (g : Game) (move : Move)
    (h : (g.makeMove move).raised = none) :
    (g.makeMove move).state.halfmoveClock =
      if move.isCapture = true ∨ move.piece.type = PieceType.PAWN then 0
      else g.halfmoveClock + 1 := by
  obtain ⟨_, g3, hs, hh, _⟩ := makeMove_success g move h
  rw [hs, (applyToBoard_frame _ _).1, (refreshCastlingPossibilites_frame _ _).1, hh]

theorem makeMove_halfmoveClock_witness :
    (Examples.rooksAndKings.makeMove Examples.kingE1E2).state.halfmoveClock = 4 ∧
      (Examples.rooksAndKings.makeMove Examples.rookA1xA8).state.halfmoveClock = 0 :=
  ⟨(makeMove_halfmoveClock Examples.rooksAndKings Examples.kingE1E2 (by decide)).trans
      (by decide),
    (makeMove_halfmoveClock Examples.rooksAndKings Examples.rookA1xA8 (by decide)).trans
      (by decide)⟩

/-- C7: after a successful `makeMove` whose moving piece is the king of a colour
both castling rights of that colour are false, and they are still false after any
further sequence of `makeMove` calls (so also when the king has returned to its
original square); no `makeMove` turns any castling right from false to true. -/
theorem king_move_revokes_castling_for_good (g : Game) (move : Move) (rest : List Move)
    (hk : move.piece.type = PieceType.KING) (h : (g.makeMove move).raised = none) :
    (move.piece.color = Color.WHITE →
      (g.makeMove move).state.canWhiteKingsideCastle = false ∧
      (g.makeMove move).state.canWhiteQueensideCastle = false ∧
      ((g.makeMove move).state.makeMoves rest).state.canWhiteKingsideCastle = false ∧
      ((g.makeMove move).state.makeMoves rest).state.canWhiteQueensideCastle = false) ∧
    (move.piece.color = Color.BLACK →
      (g.makeMove move).state.canBlackKingsideCastle = false ∧
      (g.makeMove move).state.canBlackQueensideCastle = false ∧
      ((g.makeMove move).state.makeMoves rest).state.canBlackKingsideCastle = false ∧
      ((g.makeMove move).state.makeMoves rest).state.canBlackQueensideCastle = false) ∧
    (∀ (g0 : Game) (m : Move),
      (g0.canWhiteKingsideCastle = false → (g0.makeMove m).state.canWhiteKingsideCastle = false) ∧
      (g0.canWhiteQueensideCastle = false →
        (g0.makeMove m).state.canWhiteQueensideCastle = false) ∧
      (g0.canBlackKingsideCastle = false → (g0.makeMove m).state.canBlackKingsideCastle = false) ∧
      (g0.canBlackQueensideCastle = false →
        (g0.makeMove m).state.canBlackQueensideCastle = false)) := by
  have stays : ∀ b : Bool, (b = true → False) → b = false := by
    intro b hb; cases b <;> simp_all
  obtain ⟨_, g3, hs, _⟩ := makeMove_success g move h
  obtain ⟨_, _, c1, c2, c3, c4⟩ := applyToBoard_frame (g3.refreshCastlingPossibilites move) move
  obtain ⟨kw, kb⟩ := refreshCastlingPossibilites_king g3 move hk
  obtain ⟨m1, m2, m3, m4⟩ := makeMoves_mono rest (g.makeMove move).state
  refine ⟨fun hc => ?_, fun hc => ?_, fun g0 m => ?_⟩
  · have a1 : (g.makeMove move).state.canWhiteKingsideCastle = false := by
      rw [hs, c1]; exact (kw hc).1
    have a2 : (g.makeMove move).state.canWhiteQueensideCastle = false := by
      rw [hs, c2]; exact (kw hc).2
    exact ⟨a1, a2, stays _ (fun t => by have u := m1 t; rw [a1] at u; exact Bool.noConfusion u),
      stays _ (fun t => by have u := m2 t; rw [a2] at u; exact Bool.noConfusion u)⟩
  · have a1 : (g.makeMove move).state.canBlackKingsideCastle = false := by
      rw [hs, c3]; exact (kb hc).1
    have a2 : (g.makeMove move).state.canBlackQueensideCastle = false := by
      rw [hs, c4]; exact (kb hc).2
    exact ⟨a1, a2, stays _ (fun t => by have u := m3 t; rw [a1] at u; exact Bool.noConfusion u),
      stays _ (fun t => by have u := m4 t; rw [a2] at u; exact Bool.noConfusion u)⟩
  · obtain ⟨d1, d2, d3, d4⟩ := makeMove_mono g0 m
    exact ⟨fun hf => stays _ (fun t => by simp [d1 t] at hf),
      fun hf => stays _ (fun t => by simp [d2 t] at hf),
      fun hf => stays _ (fun t => by simp [d3 t] at hf),
      fun hf => stays _ (fun t => by simp [d4 t] at hf)⟩

theorem king_move_revokes_castling_for_good_witness :
    (Examples.rooksAndKings.makeMove Examples.kingE1E2).state.canWhiteKingsideCastle = false ∧
    (Examples.rooksAndKings.makeMove Examples.kingE1E2).state.canWhiteQueensideCastle = false ∧
    (((Examples.rooksAndKings.makeMove Examples.kingE1E2).state.makeMoves
      [Examples.kingE8E7, Examples.kingE2E1]).state.canWhiteKingsideCastle = false) ∧
    (((Examples.rooksAndKings.makeMove Examples.kingE1E2).state.makeMoves
      [Examples.kingE8E7, Examples.kingE2E1]).state.canWhiteQueensideCastle = false) :=
  (king_move_revokes_castling_for_good Examples.rooksAndKings Examples.kingE1E2
    [Examples.kingE8E7, Examples.kingE2E1] (by decide) (by decide)).1 (by decide)

/-- C8: after a successful `makeMove` whose moving piece is a rook of colour c that
starts on c's own corner square (White: (1,1) queenside, (1,8) kingside; Black: (8,1)
queenside, (8,8) kingside) the matching castling right of colour c is false. -/
theorem rook_move_from_corner_revokes_right (g : Game) (move : Move)
    (hr : move.piece.type = PieceType.ROOK) (h : (g.makeMove move).raised = none) :
    (move.piece.color = Color.WHITE → move.from_ = ⟨1, 8⟩ →
      (g.makeMove move).state.canWhiteKingsideCastle = false) ∧
    (move.piece.color = Color.WHITE → move.from_ = ⟨1, 1⟩ →
      (g.makeMove move).state.canWhiteQueensideCastle = false) ∧
    (move.piece.color = Color.BLACK → move.from_ = ⟨8, 8⟩ →
      (g.makeMove move).state.canBlackKingsideCastle = false) ∧
    (move.piece.color = Color.BLACK → move.from_ = ⟨8, 1⟩ →
      (g.makeMove move).state.canBlackQueensideCastle = false) := by
  obtain ⟨_, g3, hs, _⟩ := makeMove_success g move h
  obtain ⟨_, _, c1, c2, c3, c4⟩ := applyToBoard_frame (g3.refreshCastlingPossibilites move) move
  rw [hs, c1, c2, c3, c4]
  exact refreshCastlingPossibilites_rook g3 move hr

theorem rook_move_from_corner_revokes_right_witness :
    (Examples.rooksAndKings.makeMove Examples.rookH1H2).state.canWhiteKingsideCastle = false :=
  (rook_move_from_corner_revokes_right Examples.rooksAndKings Examples.rookH1H2
    (by decide) (by decide)).1 (by decide) (by decide)

/-- C9: after a successful `makeMove` that captures a rook standing on its own
original corner square, the matching castling right of the captured rook's colour is
false, whatever piece made the capture. -/
theorem rook_captured_on_corner_revokes_right (g : Game) (move : Move) (rook : Piece)
    (hc : move.capturedPiece = some rook) (hr : rook.type = PieceType.ROOK)
    (h : (g.makeMove move).raised = none) :
    (rook.color = Color.WHITE → rook.position = ⟨1, 8⟩ →
      (g.makeMove move).state.canWhiteKingsideCastle = false) ∧
    (rook.color = Color.WHITE → rook.position = ⟨1, 1⟩ →
      (g.makeMove move).state.canWhiteQueensideCastle = false) ∧
    (rook.color = Color.BLACK → rook.position = ⟨8, 8⟩ →
      (g.makeMove move).state.canBlackKingsideCastle = false) ∧
    (rook.color = Color.BLACK → rook.position = ⟨8, 1⟩ →
      (g.makeMove move).state.canBlackQueensideCastle = false) := by
  obtain ⟨_, g3, hs, _⟩ := makeMove_success g move h
  obtain ⟨_, _, c1, c2, c3, c4⟩ := applyToBoard_frame (g3.refreshCastlingPossibilites move) move
  obtain ⟨r1, r2, r3, r4⟩ := refreshCastlingPossibilites_capturedRook g3 move rook hc hr
  rw [hs, c1, c2, c3, c4]
  exact ⟨fun _ => r1, fun _ => r2, fun _ => r3, fun _ => r4⟩

theorem rook_captured_on_corner_revokes_right_witness :
    (Examples.rooksAndKings.makeMove Examples.rookA1xA8).state.canBlackQueensideCastle = false :=
  (rook_captured_on_corner_revokes_right Examples.rooksAndKings Examples.rookA1xA8
    ⟨4, PieceType.ROOK, Color.BLACK, ⟨8, 1⟩, false⟩ (by decide) (by decide) (by decide)).2.2.2
    (by decide) (by decide)

/-! ### Legal moves, mate and stalemate -/

theorem removeIf_ok_mem (pred : Move → Except Exc Bool) :
    ∀ (l r : List Move), removeIf pred l = Except.ok r →
      ∀ m ∈ r, m ∈ l ∧ pred m = Except.ok false := by
  intro l
  induction l with
  | nil =>
    intro r h m hm
    simp [removeIf] at h
    subst h
    simp at hm
  | cons a rest ih =>
    intro r h m hm
    unfold removeIf at h
    cases hp : pred a with
    | error e => simp [hp, bind, Except.bind] at h
    | ok b =>
      cases hk : removeIf pred rest with
      | error e => simp [hp, hk, bind, Except.bind] at h
      | ok kept =>
        simp only [hp, hk, bind, Except.bind, pure, Except.pure] at h
        cases b with
        | true =>
          simp at h
          subst h
          obtain ⟨h1, h2⟩ := ih kept hk m hm
          exact ⟨List.mem_cons_of_mem _ h1, h2⟩
        | false =>
          simp at h
          subst h
          rcases List.mem_cons.1 hm with h0 | h0
          · subst h0
            exact ⟨List.mem_cons_self _ _, hp⟩
          · obtain ⟨h1, h2⟩ := ih kept hk m h0
            exact ⟨List.mem_cons_of_mem _ h1, h2⟩

/-- C4: `isMate()` is true exactly when the side to move is in check and has no
legal move, `isStalemate()` exactly when it is not in check and has no legal move. -/
theorem isMate_isStalemate_iff (g : Game) :
    (g.isMate = Except.ok true ↔
      g.isCheck g.currentPlayer = Except.ok true ∧
      g.getLegalMovesForPlayer g.currentPlayer = Except.ok []) ∧
    (g.isStalemate = Except.ok true ↔
      g.isCheck g.currentPlayer = Except.ok false ∧
      g.getLegalMovesForPlayer g.currentPlayer = Except.ok []) := by
  unfold Game.isMate Game.isStalemate
  cases hc : g.isCheck g.currentPlayer with
  | error e => simp [bind, Except.bind]
  | ok b =>
    cases hl : g.getLegalMovesForPlayer g.currentPlayer with
    | error e => cases b <;> simp [bind, Except.bind, pure, Except.pure]
    | ok ms => cases b <;> cases ms <;> simp [bind, Except.bind, pure, Except.pure]

/-- What a move that survives both `remove_if` passes of `getLegalMovesFrom` has
gone through. -/
theorem getLegalMovesFrom_survivor (g : Game) (p : Position) (piece : Piece)
    (moves : List Move) (m : Move) (hp : g.getPiece p = some piece)
    (h : g.getLegalMovesFrom p = Except.ok moves) (hm : m ∈ moves) :
    piece.color = g.currentPlayer ∧
    (∃ all, g.getMovesFrom p = Except.ok all ∧ m ∈ all) ∧
    (∃ after, g.afterMove m = Except.ok after ∧ after.isCheck piece.color = Except.ok false) ∧
    (piece.type = PieceType.KING →
      ∃ obscured, g.isCastlingObscuredByOpponent m = Except.ok obscured ∧
        (obscured && m.isCastling) = false) := by
  unfold Game.getLegalMovesFrom at h
  simp only [hp] at h
  by_cases hc : piece.color ≠ g.currentPlayer
  · rw [if_pos hc] at h; simp at h; subst h; simp at hm
  · rw [if_neg hc] at h
    cases hmv : g.getMovesFrom p with
    | error e => simp [hmv, bind, Except.bind] at h
    | ok all =>
      simp only [hmv, bind, Except.bind] at h
      split at h
      · cases h
      · rename_i safe hf
        have second : m ∈ safe ∧ (piece.type = PieceType.KING →
            ∃ obscured, g.isCastlingObscuredByOpponent m = Except.ok obscured ∧
              (obscured && m.isCastling) = false) := by
          split_ifs at h with hk
          · obtain ⟨hsafe, hpred⟩ := removeIf_ok_mem _ _ _ h m hm
            refine ⟨hsafe, fun _ => ?_⟩
            cases ho : g.isCastlingObscuredByOpponent m with
            | error e => simp [ho] at hpred
            | ok o =>
              simp [ho, pure, Except.pure] at hpred
              exact ⟨o, rfl, by simpa using hpred⟩
          · simp [pure, Except.pure] at h
            subst h
            exact ⟨hm, fun hk1 => absurd hk1 hk⟩
        obtain ⟨hsafe, hking⟩ := second
        obtain ⟨hall, h2⟩ := removeIf_ok_mem _ _ _ hf m hsafe
        refine ⟨by simpa using hc, ⟨all, rfl, hall⟩, ?_, hking⟩
        cases ha : g.afterMove m with
        | error e => simp [ha] at h2
        | ok after =>
          simp only [ha] at h2
          exact ⟨after, rfl, h2⟩

/-! ### Castling candidates -/

theorem Board.getPiece_position (b : Board) (pos : Position) (q : Piece)
    (h : b.getPiece pos = some q) : q.position = pos := by
  unfold Board.getPiece at h
  have := List.find?_some h
  simpa using this

theorem Board.getPiece_mem (b : Board) (pos : Position) (q : Piece)
    (h : b.getPiece pos = some q) : q ∈ b.pieces := by
  unfold Board.getPiece at h
  exact List.mem_of_find?_eq_some h

theorem columnsFrom_kingside : columnsFrom (min 5 8 + 1) (max 5 8) = [6, 7] := by decide

theorem columnsFrom_queenside : columnsFrom (min 5 1 + 1) (max 5 1) = [2, 3, 4] := by decide

theorem noPiecesBetweenKingAndRook_kingside (g : Game) (king rook : Piece) (r : Int)
    (pk : king.position = ⟨r, 5⟩) (pr : rook.position = ⟨r, 8⟩) :
    g.noPiecesBetweenKingAndRook king rook =
      Except.ok ((g.getPiece ⟨r, 6⟩).isNone && (g.getPiece ⟨r, 7⟩).isNone) := by
  unfold Game.noPiecesBetweenKingAndRook
  rw [pk, pr]
  simp only [ne_eq, not_true_eq_false, if_false, columnsFrom_kingside]
  simp

theorem noPiecesBetweenKingAndRook_queenside (g : Game) (king rook : Piece) (r : Int)
    (pk : king.position = ⟨r, 5⟩) (pr : rook.position = ⟨r, 1⟩) :
    g.noPiecesBetweenKingAndRook king rook =
      Except.ok ((g.getPiece ⟨r, 2⟩).isNone && (g.getPiece ⟨r, 3⟩).isNone &&
        (g.getPiece ⟨r, 4⟩).isNone) := by
  unfold Game.noPiecesBetweenKingAndRook
  rw [pk, pr]
  simp only [ne_eq, not_true_eq_false, if_false, columnsFrom_queenside]
  simp [Bool.and_assoc]

theorem possibleKingsideCastlingThisRound_eq (g : Game) (king rook : Piece)
    (hk : g.getPiece ⟨g.currentPlayerBackRank, 5⟩ = some king)
    (hr : g.getPiece ⟨g.currentPlayerBackRank, 8⟩ = some rook) :
    g.possibleKingsideCastlingThisRound =
      Except.ok ((if g.currentPlayer = Color.WHITE then g.canWhiteKingsideCastle
                  else g.canBlackKingsideCastle) &&
        ((g.getPiece ⟨g.currentPlayerBackRank, 6⟩).isNone &&
         (g.getPiece ⟨g.currentPlayerBackRank, 7⟩).isNone)) := by
  have pk := Board.getPiece_position _ _ _ hk
  have pr := Board.getPiece_position _ _ _ hr
  unfold Game.possibleKingsideCastlingThisRound
  rw [hk, hr]
  dsimp only
  rw [noPiecesBetweenKingAndRook_kingside g king rook _ pk pr]
  cases hc : g.currentPlayer <;> cases h1 : g.canWhiteKingsideCastle <;>
    cases h2 : g.canBlackKingsideCastle <;> simp

theorem possibleKingsideCastlingThisRound_no_right (g : Game)
    (h : (if g.currentPlayer = Color.WHITE then g.canWhiteKingsideCastle
          else g.canBlackKingsideCastle) = false) :
    g.possibleKingsideCastlingThisRound = Except.ok false := by
  unfold Game.possibleKingsideCastlingThisRound
  cases hc : g.currentPlayer <;> simp_all

theorem possibleQueensideCastlingThisRound_eq (g : Game) (king rook : Piece)
    (hk : g.getPiece ⟨g.currentPlayerBackRank, 5⟩ = some king)
    (hr : g.getPiece ⟨g.currentPlayerBackRank, 1⟩ = some rook) :
    g.possibleQueensideCastlingThisRound =
      Except.ok ((if g.currentPlayer = Color.WHITE then g.canWhiteQueensideCastle
                  else g.canBlackQueensideCastle) &&
        ((g.getPiece ⟨g.currentPlayerBackRank, 2⟩).isNone &&
         (g.getPiece ⟨g.currentPlayerBackRank, 3⟩).isNone &&
         (g.getPiece ⟨g.currentPlayerBackRank, 4⟩).isNone)) := by
  have pk := Board.getPiece_position _ _ _ hk
  have pr := Board.getPiece_position _ _ _ hr
  unfold Game.possibleQueensideCastlingThisRound
  rw [hk, hr]
  dsimp only
  rw [noPiecesBetweenKingAndRook_queenside g king rook _ pk pr]
  cases hc : g.currentPlayer <;> cases h1 : g.canWhiteQueensideCastle <;>
    cases h2 : g.canBlackQueensideCastle <;> simp

theorem possibleQueensideCastlingThisRound_no_right (g : Game)
    (h : (if g.currentPlayer = Color.WHITE then g.canWhiteQueensideCastle
          else g.canBlackQueensideCastle) = false) :
    g.possibleQueensideCastlingThisRound = Except.ok false := by
  unfold Game.possibleQueensideCastlingThisRound
  cases hc : g.currentPlayer <;> simp_all


theorem getMovesFrom_not_king (g : Game) (p : Position) (piece : Piece)
    (hp : g.getPiece p = some piece) (hk : piece.type ≠ PieceType.KING) :
    g.getMovesFrom p = Except.ok (piece.getMoves g.board) := by
  unfold Game.getMovesFrom
  rw [hp]
  simp [hk]

theorem getMovesFrom_king (g : Game) (p : Position) (king home : Piece) (ks qs : Bool)
    (hp : g.getPiece p = some king) (hk : king.type = PieceType.KING)
    (hks : g.possibleKingsideCastlingThisRound = Except.ok ks)
    (hqs : g.possibleQueensideCastlingThisRound = Except.ok qs)
    (hh : ks = true ∨ qs = true → g.getPiece ⟨g.currentPlayerBackRank, 5⟩ = some home) :
    g.getMovesFrom p = Except.ok
      ((if ks then [(⟨⟨g.currentPlayerBackRank, 5⟩, ⟨g.currentPlayerBackRank, 7⟩, home, none,
          PieceType.NONE⟩ : Move)] else []) ++
       (if qs then [(⟨⟨g.currentPlayerBackRank, 5⟩, ⟨g.currentPlayerBackRank, 3⟩, home, none,
          PieceType.NONE⟩ : Move)] else [])) := by
  unfold Game.getMovesFrom
  rw [hp]
  simp only [hk, if_true, hks, hqs, bind, Except.bind, pure, Except.pure]
  have hm : king.getMoves g.board = [] := by
    unfold Piece.getMoves
    rw [hk]
    rfl
  rw [hm]
  cases ks <;> cases qs <;>
    simp [Game.generateKingSideCastle, Game.generateQueenSideCastle] at hh ⊢ <;>
    simp [hh]


/-- C6, amended: for a non-king piece `getMovesFrom` returns exactly the piece's own
pseudo-legal moves.  For the king of the side to move, provided the squares the code
reads (file 5 of its back rank and the corner) are occupied whenever the matching
right is set, `getMovesFrom` of the king's square returns, and its result contains
the kingside (queenside) candidate - from file 5 to file 7 (3) of that back rank,
moving the piece on file 5, capturing nothing - exactly when the matching right is
set and every square strictly between file 5 and the corner is empty. -/
theorem getMovesFrom_castling_candidates (g : Game) (p : Position) (piece : Piece)
    (hp : g.getPiece p = some piece) :
    (piece.type ≠ PieceType.KING → g.getMovesFrom p = Except.ok (piece.getMoves g.board)) ∧
    (piece.type = PieceType.KING → piece.color = g.currentPlayer →
      ((if g.currentPlayer = Color.WHITE then g.canWhiteKingsideCastle
        else g.canBlackKingsideCastle) = true →
        (g.getPiece ⟨g.currentPlayerBackRank, 5⟩).isSome = true ∧
        (g.getPiece ⟨g.currentPlayerBackRank, 8⟩).isSome = true) →
      ((if g.currentPlayer = Color.WHITE then g.canWhiteQueensideCastle
        else g.canBlackQueensideCastle) = true →
        (g.getPiece ⟨g.currentPlayerBackRank, 5⟩).isSome = true ∧
        (g.getPiece ⟨g.currentPlayerBackRank, 1⟩).isSome = true) →
      ∃ moves, g.getMovesFrom p = Except.ok moves ∧
        ((∃ m ∈ moves, m.from_ = ⟨g.currentPlayerBackRank, 5⟩ ∧
            m.to_ = ⟨g.currentPlayerBackRank, 7⟩ ∧ m.capturedPiece = none ∧
            some m.piece = g.getPiece ⟨g.currentPlayerBackRank, 5⟩) ↔
          ((if g.currentPlayer = Color.WHITE then g.canWhiteKingsideCastle
            else g.canBlackKingsideCastle) = true ∧
           g.getPiece ⟨g.currentPlayerBackRank, 6⟩ = none ∧
           g.getPiece ⟨g.currentPlayerBackRank, 7⟩ = none)) ∧
        ((∃ m ∈ moves, m.from_ = ⟨g.currentPlayerBackRank, 5⟩ ∧
            m.to_ = ⟨g.currentPlayerBackRank, 3⟩ ∧ m.capturedPiece = none ∧
            some m.piece = g.getPiece ⟨g.currentPlayerBackRank, 5⟩) ↔
          ((if g.currentPlayer = Color.WHITE then g.canWhiteQueensideCastle
            else g.canBlackQueensideCastle) = true ∧
           g.getPiece ⟨g.currentPlayerBackRank, 2⟩ = none ∧
           g.getPiece ⟨g.currentPlayerBackRank, 3⟩ = none ∧
           g.getPiece ⟨g.currentPlayerBackRank, 4⟩ = none))) := by
  refine ⟨getMovesFrom_not_king g p piece hp, fun hk _ hK hQ => ?_⟩
  -- the two tests of `getMovesFrom`
  have hks : ∃ ks, g.possibleKingsideCastlingThisRound = Except.ok ks ∧
      (ks = true ↔ ((if g.currentPlayer = Color.WHITE then g.canWhiteKingsideCastle
            else g.canBlackKingsideCastle) = true ∧
           g.getPiece ⟨g.currentPlayerBackRank, 6⟩ = none ∧
           g.getPiece ⟨g.currentPlayerBackRank, 7⟩ = none)) ∧
      (ks = true → (g.getPiece ⟨g.currentPlayerBackRank, 5⟩).isSome = true) := by
    cases hr : (if g.currentPlayer = Color.WHITE then g.canWhiteKingsideCastle
        else g.canBlackKingsideCastle) with
    | false =>
      exact ⟨false, possibleKingsideCastlingThisRound_no_right g hr, by simp, by simp⟩
    | true =>
      obtain ⟨h5, h8⟩ := hK hr
      obtain ⟨king, hking⟩ := Option.isSome_iff_exists.1 h5
      obtain ⟨rook, hrook⟩ := Option.isSome_iff_exists.1 h8
      refine ⟨_, possibleKingsideCastlingThisRound_eq g king rook hking hrook, ?_, fun _ => h5⟩
      rw [hr]
      simp [Option.isNone_iff_eq_none]
  have hqs : ∃ qs, g.possibleQueensideCastlingThisRound = Except.ok qs ∧
      (qs = true ↔ ((if g.currentPlayer = Color.WHITE then g.canWhiteQueensideCastle
            else g.canBlackQueensideCastle) = true ∧
           g.getPiece ⟨g.currentPlayerBackRank, 2⟩ = none ∧
           g.getPiece ⟨g.currentPlayerBackRank, 3⟩ = none ∧
           g.getPiece ⟨g.currentPlayerBackRank, 4⟩ = none)) ∧
      (qs = true → (g.getPiece ⟨g.currentPlayerBackRank, 5⟩).isSome = true) := by
    cases hr : (if g.currentPlayer = Color.WHITE then g.canWhiteQueensideCastle
        else g.canBlackQueensideCastle) with
    | false =>
      exact ⟨false, possibleQueensideCastlingThisRound_no_right g hr, by simp, by simp⟩
    | true =>
      obtain ⟨h5, h1⟩ := hQ hr
      obtain ⟨king, hking⟩ := Option.isSome_iff_exists.1 h5
      obtain ⟨rook, hrook⟩ := Option.isSome_iff_exists.1 h1
      refine ⟨_, possibleQueensideCastlingThisRound_eq g king rook hking hrook, ?_, fun _ => h5⟩
      rw [hr]
      simp [Option.isNone_iff_eq_none, and_assoc]
  obtain ⟨ks, eks, iks, sks⟩ := hks
  obtain ⟨qs, eqs, iqs, sqs⟩ := hqs
  rw [← iks, ← iqs]
  cases h5 : g.getPiece ⟨g.currentPlayerBackRank, 5⟩ with
  | none =>
    have k0 : ks = false := by cases ks <;> simp_all
    have q0 : qs = false := by cases qs <;> simp_all
    subst k0; subst q0
    refine ⟨_, getMovesFrom_king g p piece piece false false hp hk eks eqs (by simp), ?_, ?_⟩ <;>
      simp
  | some home =>
    refine ⟨_, getMovesFrom_king g p piece home ks qs hp hk eks eqs (fun _ => h5), ?_, ?_⟩
    · cases ks <;> cases qs <;> simp
    · cases ks <;> cases qs <;> simp

/-- The white king on e1 with White to move, both white rooks on their corners and
both white rights set. -/
theorem getMovesFrom_castling_candidates_witness :
    ∃ moves, Examples.rooksAndKings.getMovesFrom ⟨1, 5⟩ = Except.ok moves ∧
      ((∃ m ∈ moves, m.from_ = ⟨Examples.rooksAndKings.currentPlayerBackRank, 5⟩ ∧
          m.to_ = ⟨Examples.rooksAndKings.currentPlayerBackRank, 7⟩ ∧ m.capturedPiece = none ∧
          some m.piece =
            Examples.rooksAndKings.getPiece ⟨Examples.rooksAndKings.currentPlayerBackRank, 5⟩) ↔
        ((if Examples.rooksAndKings.currentPlayer = Color.WHITE then
            Examples.rooksAndKings.canWhiteKingsideCastle
          else Examples.rooksAndKings.canBlackKingsideCastle) = true ∧
         Examples.rooksAndKings.getPiece ⟨Examples.rooksAndKings.currentPlayerBackRank, 6⟩ = none ∧
         Examples.rooksAndKings.getPiece ⟨Examples.rooksAndKings.currentPlayerBackRank, 7⟩ = none)) ∧
      ((∃ m ∈ moves, m.from_ = ⟨Examples.rooksAndKings.currentPlayerBackRank, 5⟩ ∧
          m.to_ = ⟨Examples.rooksAndKings.currentPlayerBackRank, 3⟩ ∧ m.capturedPiece = none ∧
          some m.piece =
            Examples.rooksAndKings.getPiece ⟨Examples.rooksAndKings.currentPlayerBackRank, 5⟩) ↔
        ((if Examples.rooksAndKings.currentPlayer = Color.WHITE then
            Examples.rooksAndKings.canWhiteQueensideCastle
          else Examples.rooksAndKings.canBlackQueensideCastle) = true ∧
         Examples.rooksAndKings.getPiece ⟨Examples.rooksAndKings.currentPlayerBackRank, 2⟩ = none ∧
         Examples.rooksAndKings.getPiece ⟨Examples.rooksAndKings.currentPlayerBackRank, 3⟩ = none ∧
         Examples.rooksAndKings.getPiece ⟨Examples.rooksAndKings.currentPlayerBackRank, 4⟩ = none)) :=
  (getMovesFrom_castling_candidates Examples.rooksAndKings ⟨1, 5⟩
    ⟨0, PieceType.KING, Color.WHITE, ⟨1, 5⟩, false⟩ (by decide)).2 (by decide) (by decide)
    (by decide) (by decide)

/-- C6 as stated fails: with White to move, the white kingside right set and a white
knight (no rook) on h1, `getMovesFrom` of the white king's square contains the
kingside castling candidate. -/
theorem castling_candidate_without_rook_on_corner :
    Examples.knightOnCorner.currentPlayer = Color.WHITE ∧
    Examples.knightOnCorner.getPiece ⟨1, 5⟩ =
      some ⟨0, PieceType.KING, Color.WHITE, ⟨1, 5⟩, false⟩ ∧
    Examples.knightOnCorner.getMovesFrom ⟨1, 5⟩ =
      Except.ok [⟨⟨1, 5⟩, ⟨1, 7⟩, ⟨0, PieceType.KING, Color.WHITE, ⟨1, 5⟩, false⟩, none,
        PieceType.NONE⟩] ∧
    ¬ (∃ rook, Examples.knightOnCorner.getPiece ⟨1, 8⟩ = some rook ∧
        rook.type = PieceType.ROOK) := by
  refine ⟨rfl, rfl, rfl, ?_⟩
  rintro ⟨rook, h1, h2⟩
  have : Examples.knightOnCorner.getPiece ⟨1, 8⟩ =
      some ⟨1, PieceType.KNIGHT, Color.WHITE, ⟨1, 8⟩, false⟩ := rfl
  rw [this] at h1
  cases h1
  cases h2

/-! ### Check -/

theorem Board.eq_of_id_eq (b : Board) (hwf : b.WellFormed) (q k : Piece)
    (hq : q ∈ b.pieces) (hk : k ∈ b.pieces) (h : q.id = k.id) : q = k :=
  List.inj_on_of_nodup_map hwf.2 hq hk h

theorem Board.eq_of_position_eq (b : Board) (hwf : b.WellFormed) (q k : Piece)
    (hq : q ∈ b.pieces) (hk : k ∈ b.pieces) (h : q.position = k.position) : q = k :=
  List.inj_on_of_nodup_map hwf.1 hq hk h

theorem Board.getPiece_of_mem (b : Board) (hwf : b.WellFormed) (k : Piece)
    (hk : k ∈ b.pieces) : b.getPiece k.position = some k := by
  cases h : b.getPiece k.position with
  | none =>
    unfold Board.getPiece at h
    have := List.find?_eq_none.1 h k hk
    simp at this
  | some q =>
    have e := Board.eq_of_position_eq b hwf q k (Board.getPiece_mem b _ q h) hk
      (Board.getPiece_position b _ q h)
    rw [e]

theorem Board.pieceById_mem (b : Board) (i : Nat) (q : Piece)
    (h : b.pieceById i = some q) : q ∈ b.pieces := by
  unfold Board.pieceById at h
  exact List.mem_of_find?_eq_some h

theorem Board.getKing_spec (b : Board) (c : Color) (k : Piece)
    (h : b.getKing c = some k) : k ∈ b.pieces ∧ k.type = PieceType.KING ∧ k.color = c := by
  unfold Board.getKing at h
  have h1 := List.mem_of_find?_eq_some h
  have h2 := List.find?_some h
  simp at h2
  exact ⟨h1, h2.1, h2.2⟩

theorem capture_iff_of_normal (b : Board) (hwf : b.WellFormed) (k : Piece)
    (hk : k ∈ b.pieces) (m : Move) (hn : m.capturedPiece = b.getPiece m.to_) :
    m.capturedPiece.map Piece.id = some k.id ↔ m.to_ = k.position := by
  constructor
  · intro h
    cases hc : m.capturedPiece with
    | none => simp [hc] at h
    | some q =>
      simp [hc] at h
      rw [hc] at hn
      have e := Board.eq_of_id_eq b hwf q k (Board.getPiece_mem b _ q hn.symm) hk h
      rw [← e]
      exact (Board.getPiece_position b _ q hn.symm).symm
  · intro h
    rw [hn, h, Board.getPiece_of_mem b hwf k hk]
    rfl

theorem walkDirection_normal (b : Board) (piece : Piece) (dr dc : Int) :
    ∀ (fuel : Nat) (cur : Position), ∀ m ∈ walkDirection b piece dr dc fuel cur,
      m.capturedPiece = b.getPiece m.to_ := by
  intro fuel
  induction fuel with
  | zero => intro cur m hm; simp [walkDirection] at hm
  | succ n ih =>
    intro cur m hm
    unfold walkDirection at hm
    dsimp only at hm
    split_ifs at hm with h1
    · split at hm
      · rename_i hnone
        rcases List.mem_cons.1 hm with h0 | h0
        · subst h0; simp [hnone]
        · exact ih _ m h0
      · rename_i q hq
        split_ifs at hm with h2
        · simp at hm; subst hm; simp [hq]
        · simp at hm
    · simp at hm

theorem getMovesInDirections_normal (b : Board) (piece : Piece) (dirs : List (Int × Int)) :
    ∀ m ∈ piece.getMovesInDirections b dirs, m.capturedPiece = b.getPiece m.to_ := by
  intro m hm
  unfold Piece.getMovesInDirections at hm
  obtain ⟨d, _, hd⟩ := List.mem_flatMap.1 hm
  exact walkDirection_normal b piece d.1 d.2 8 piece.position m hd

theorem offsetMove_normal (b : Board) (piece : Piece) (d : Int × Int) :
    ∀ m ∈ offsetMove b piece d, m.capturedPiece = b.getPiece m.to_ := by
  intro m hm
  unfold offsetMove at hm
  dsimp only at hm
  split_ifs at hm with h1
  · split at hm
    · rename_i hnone
      simp at hm; subst hm; simp [hnone]
    · rename_i q hq
      split_ifs at hm with h2
      · simp at hm; subst hm; simp [hq]
      · simp at hm
  · simp at hm

theorem Knight.getMoves_normal (b : Board) (piece : Piece) :
    ∀ m ∈ Knight.getMoves b piece, m.capturedPiece = b.getPiece m.to_ := by
  intro m hm
  unfold Knight.getMoves at hm
  obtain ⟨d, _, hd⟩ := List.mem_flatMap.1 hm
  exact offsetMove_normal b piece d m hd

theorem Pawn.forwardMoves_normal (b : Board) (piece : Piece) :
    ∀ m ∈ Pawn.forwardMoves b piece, m.capturedPiece = b.getPiece m.to_ := by
  intro m hm
  unfold Pawn.forwardMoves at hm
  dsimp only at hm
  split_ifs at hm with h1 h2
  · simp at h1 h2
    rcases List.mem_cons.1 hm with h0 | h0
    · subst h0; simp [h1.2]
    · simp at h0; subst h0; simp [h2.2]
  · simp at h1
    simp at hm; subst hm; simp [h1.2]
  · simp at hm

theorem Pawn.captureMove_normal (b : Board) (piece : Piece) (dc : Int) :
    ∀ m ∈ Pawn.captureMove b piece dc, m.capturedPiece = b.getPiece m.to_ := by
  intro m hm
  unfold Pawn.captureMove at hm
  dsimp only at hm
  split_ifs at hm with h1
  · split at hm
    · rename_i q hq
      split_ifs at hm with h2
      · simp at hm; subst hm; simp [hq]
      · simp at hm
    · simp at hm
  · simp at hm


theorem exists_capture_iff_of_normal (b : Board) (hwf : b.WellFormed) (k : Piece)
    (hk : k ∈ b.pieces) (l : List Move) (hn : ∀ m ∈ l, m.capturedPiece = b.getPiece m.to_) :
    (∃ m ∈ l, m.capturedPiece.map Piece.id = some k.id) ↔ (∃ m ∈ l, m.to_ = k.position) := by
  constructor
  · rintro ⟨m, hm, h⟩
    exact ⟨m, hm, (capture_iff_of_normal b hwf k hk m (hn m hm)).1 h⟩
  · rintro ⟨m, hm, h⟩
    exact ⟨m, hm, (capture_iff_of_normal b hwf k hk m (hn m hm)).2 h⟩

theorem Pawn.enPassantMove_spec (b : Board) (piece : Piece) (dc : Int) :
    ∀ m ∈ Pawn.enPassantMove b piece dc,
      m.to_ = ⟨piece.position.row + Pawn.direction piece.color, piece.position.col + dc⟩ ∧
      m.to_.inBounds = true ∧
      ∃ q, m.capturedPiece = some q ∧ q ∈ b.pieces ∧ q.type = PieceType.PAWN := by
  intro m hm
  unfold Pawn.enPassantMove at hm
  dsimp only at hm
  split_ifs at hm with h1
  · split at hm
    · rename_i q hq
      split_ifs at hm with h2
      · simp at hm; subst hm
        simp at h2
        exact ⟨rfl, h1, q, rfl, Board.getPiece_mem b _ q hq, h2.1.1⟩
      · simp at hm
    · simp at hm
  · simp at hm

theorem Pawn.captureMove_of_occupied (b : Board) (piece : Piece) (dc : Int) (x : Piece)
    (hin : (⟨piece.position.row + Pawn.direction piece.color, piece.position.col + dc⟩ :
      Position).inBounds = true)
    (hx : b.getPiece ⟨piece.position.row + Pawn.direction piece.color,
      piece.position.col + dc⟩ = some x)
    (hcol : x.color ≠ piece.color) :
    (⟨piece.position, ⟨piece.position.row + Pawn.direction piece.color,
        piece.position.col + dc⟩, piece, some x, PieceType.NONE⟩ : Move) ∈
      Pawn.captureMove b piece dc := by
  unfold Pawn.captureMove
  dsimp only
  rw [if_pos hin, hx]
  simp [hcol]

theorem Pawn.withPromotions_spec (m : Move) :
    (∀ m1 ∈ Pawn.withPromotions m, m1.to_ = m.to_ ∧ m1.capturedPiece = m.capturedPiece ∧
      m1.piece = m.piece ∧ m1.from_ = m.from_) ∧
    (∃ m1, m1 ∈ Pawn.withPromotions m) := by
  unfold Pawn.withPromotions
  split_ifs with h
  · constructor
    · intro m1 hm1
      simp at hm1
      rcases hm1 with h0 | h0 | h0 | h0 <;> subst h0 <;> simp
    · exact ⟨_, List.mem_cons_self _ _⟩
  · constructor
    · intro m1 hm1
      simp at hm1
      subst hm1
      simp
    · exact ⟨m, List.mem_cons_self _ _⟩

theorem Pawn.pawnMoves_check_iff (b : Board) (hwf : b.WellFormed) (k : Piece)
    (hk : k ∈ b.pieces) (hking : k.type = PieceType.KING) (piece : Piece)
    (hcol : piece.color ≠ k.color) :
    (∃ m ∈ Pawn.getMoves b piece, m.capturedPiece.map Piece.id = some k.id) ↔
      (∃ m ∈ Pawn.getMoves b piece, m.to_ = k.position) := by
  have normal : ∀ m ∈ Pawn.forwardMoves b piece ++ Pawn.captureMove b piece (-1) ++
      Pawn.captureMove b piece 1, m.capturedPiece = b.getPiece m.to_ := by
    intro m hm
    simp only [List.mem_append] at hm
    rcases hm with (h | h) | h
    · exact Pawn.forwardMoves_normal b piece m h
    · exact Pawn.captureMove_normal b piece _ m h
    · exact Pawn.captureMove_normal b piece _ m h
  -- a capture move whose promotions are all in the result
  have lift : ∀ m0, m0 ∈ Pawn.forwardMoves b piece ++ Pawn.captureMove b piece (-1) ++
      Pawn.captureMove b piece 1 ++ Pawn.enPassantMove b piece (-1) ++
      Pawn.enPassantMove b piece 1 →
      ∃ m1 ∈ Pawn.getMoves b piece, m1.to_ = m0.to_ ∧ m1.capturedPiece = m0.capturedPiece := by
    intro m0 h0
    obtain ⟨hall, m1, hm1⟩ := Pawn.withPromotions_spec m0
    exact ⟨m1, List.mem_flatMap.2 ⟨m0, h0, hm1⟩, (hall m1 hm1).1, (hall m1 hm1).2.1⟩
  have viaCapture : ∀ dc : Int, (dc = -1 ∨ dc = 1) →
      (⟨piece.position.row + Pawn.direction piece.color, piece.position.col + dc⟩ : Position) =
        k.position →
      (⟨piece.position.row + Pawn.direction piece.color, piece.position.col + dc⟩ :
        Position).inBounds = true →
      ∃ m ∈ Pawn.getMoves b piece, m.capturedPiece.map Piece.id = some k.id := by
    intro dc hdc htarget hin
    have hx : b.getPiece ⟨piece.position.row + Pawn.direction piece.color,
        piece.position.col + dc⟩ = some k := by
      rw [htarget]; exact Board.getPiece_of_mem b hwf k hk
    have hmem := Pawn.captureMove_of_occupied b piece dc k hin hx (fun e => hcol e.symm)
    have hbase : (⟨piece.position, ⟨piece.position.row + Pawn.direction piece.color,
        piece.position.col + dc⟩, piece, some k, PieceType.NONE⟩ : Move) ∈
        Pawn.forwardMoves b piece ++ Pawn.captureMove b piece (-1) ++
        Pawn.captureMove b piece 1 ++ Pawn.enPassantMove b piece (-1) ++
        Pawn.enPassantMove b piece 1 := by
      simp only [List.mem_append]
      rcases hdc with h | h
      · subst h; exact Or.inl (Or.inl (Or.inl (Or.inr hmem)))
      · subst h; exact Or.inl (Or.inl (Or.inr hmem))
    obtain ⟨m1, hm1, _, hc1⟩ := lift _ hbase
    exact ⟨m1, hm1, by rw [hc1]; rfl⟩
  constructor
  · rintro ⟨m, hm, h⟩
    unfold Pawn.getMoves at hm
    obtain ⟨m0, h0, hm0⟩ := List.mem_flatMap.1 hm
    obtain ⟨hto, hcap, _, _⟩ := (Pawn.withPromotions_spec m0).1 m hm0
    refine ⟨m, List.mem_flatMap.2 ⟨m0, h0, hm0⟩, ?_⟩
    rw [hto]
    rw [hcap] at h
    simp only [List.mem_append] at h0
    rcases h0 with ((h1 | h1) | h1) | h1
    · exact (capture_iff_of_normal b hwf k hk m0
        (normal m0 (by simp only [List.mem_append]; exact Or.inl h1))).1 h
    · exact (capture_iff_of_normal b hwf k hk m0
        (normal m0 (by simp only [List.mem_append]; exact Or.inr h1))).1 h
    · exfalso
      obtain ⟨_, _, q, hq, hqm, hqt⟩ := Pawn.enPassantMove_spec b piece _ m0 h1
      rw [hq] at h
      simp at h
      have := Board.eq_of_id_eq b hwf q k hqm hk h
      rw [this, hking] at hqt
      cases hqt
    · exfalso
      obtain ⟨_, _, q, hq, hqm, hqt⟩ := Pawn.enPassantMove_spec b piece _ m0 h1
      rw [hq] at h
      simp at h
      have := Board.eq_of_id_eq b hwf q k hqm hk h
      rw [this, hking] at hqt
      cases hqt
  · rintro ⟨m, hm, h⟩
    unfold Pawn.getMoves at hm
    obtain ⟨m0, h0, hm0⟩ := List.mem_flatMap.1 hm
    obtain ⟨hto, hcap, _, _⟩ := (Pawn.withPromotions_spec m0).1 m hm0
    rw [hto] at h
    simp only [List.mem_append] at h0
    rcases h0 with ((h1 | h1) | h1) | h1
    · refine ⟨m, List.mem_flatMap.2 ⟨m0, by simp only [List.mem_append]; exact Or.inl (Or.inl
        (Or.inl h1)), hm0⟩, ?_⟩
      rw [hcap]
      exact (capture_iff_of_normal b hwf k hk m0
        (normal m0 (by simp only [List.mem_append]; exact Or.inl h1))).2 h
    · refine ⟨m, List.mem_flatMap.2 ⟨m0, by simp only [List.mem_append]; exact Or.inl (Or.inl
        (Or.inr h1)), hm0⟩, ?_⟩
      rw [hcap]
      exact (capture_iff_of_normal b hwf k hk m0
        (normal m0 (by simp only [List.mem_append]; exact Or.inr h1))).2 h
    · obtain ⟨ht, hin, _⟩ := Pawn.enPassantMove_spec b piece _ m0 h1
      rw [ht] at h hin
      exact viaCapture (-1) (Or.inl rfl) h hin
    · obtain ⟨ht, hin, _⟩ := Pawn.enPassantMove_spec b piece _ m0 h1
      rw [ht] at h hin
      exact viaCapture 1 (Or.inr rfl) h hin

theorem Piece.pieceMoves_check_iff (b : Board) (hwf : b.WellFormed) (k : Piece)
    (hk : k ∈ b.pieces) (hking : k.type = PieceType.KING) (piece : Piece)
    (hcol : piece.color ≠ k.color) :
    (∃ m ∈ piece.getMoves b, m.capturedPiece.map Piece.id = some k.id) ↔
      (∃ m ∈ piece.getMoves b, m.to_ = k.position) := by
  unfold Piece.getMoves
  split
  · exact Pawn.pawnMoves_check_iff b hwf k hk hking piece hcol
  · exact exists_capture_iff_of_normal b hwf k hk _ (getMovesInDirections_normal b piece _)
  · exact exists_capture_iff_of_normal b hwf k hk _ (getMovesInDirections_normal b piece _)
  · exact exists_capture_iff_of_normal b hwf k hk _ (Knight.getMoves_normal b piece)
  · exact exists_capture_iff_of_normal b hwf k hk _ (getMovesInDirections_normal b piece _)
  · simp [King.getMoves]
  · simp


theorem possibleKingsideCastlingThisRound_true (g : Game)
    (h : g.possibleKingsideCastlingThisRound = Except.ok true) :
    ∃ home, g.getPiece ⟨g.currentPlayerBackRank, 5⟩ = some home ∧
      g.getPiece ⟨g.currentPlayerBackRank, 6⟩ = none ∧
      g.getPiece ⟨g.currentPlayerBackRank, 7⟩ = none := by
  cases h5 : g.getPiece ⟨g.currentPlayerBackRank, 5⟩ with
  | none =>
    unfold Game.possibleKingsideCastlingThisRound at h
    rw [h5] at h
    split_ifs at h
    cases h
  | some home =>
    cases h8 : g.getPiece ⟨g.currentPlayerBackRank, 8⟩ with
    | none =>
      unfold Game.possibleKingsideCastlingThisRound at h
      rw [h5, h8] at h
      split_ifs at h
      cases h
    | some rook =>
      rw [possibleKingsideCastlingThisRound_eq g home rook h5 h8] at h
      simp [Option.isNone_iff_eq_none] at h
      exact ⟨home, rfl, h.2.1, h.2.2⟩

theorem possibleQueensideCastlingThisRound_true (g : Game)
    (h : g.possibleQueensideCastlingThisRound = Except.ok true) :
    ∃ home, g.getPiece ⟨g.currentPlayerBackRank, 5⟩ = some home ∧
      g.getPiece ⟨g.currentPlayerBackRank, 2⟩ = none ∧
      g.getPiece ⟨g.currentPlayerBackRank, 3⟩ = none ∧
      g.getPiece ⟨g.currentPlayerBackRank, 4⟩ = none := by
  cases h5 : g.getPiece ⟨g.currentPlayerBackRank, 5⟩ with
  | none =>
    unfold Game.possibleQueensideCastlingThisRound at h
    rw [h5] at h
    split_ifs at h
    cases h
  | some home =>
    cases h1 : g.getPiece ⟨g.currentPlayerBackRank, 1⟩ with
    | none =>
      unfold Game.possibleQueensideCastlingThisRound at h
      rw [h5, h1] at h
      split_ifs at h
      cases h
    | some rook =>
      rw [possibleQueensideCastlingThisRound_eq g home rook h5 h1] at h
      simp [Option.isNone_iff_eq_none] at h
      exact ⟨home, rfl, h.2.1.1, h.2.1.2, h.2.2⟩

/-- The result of `getMovesFrom` on a king's square: the castling candidates of the
side to move, each to an empty square. -/
theorem getMovesFrom_king_spec (g : Game) (p : Position) (king : Piece) (moves : List Move)
    (hp : g.getPiece p = some king) (hk : king.type = PieceType.KING)
    (h : g.getMovesFrom p = Except.ok moves) :
    ∃ (ks qs : Bool) (home : Piece),
      g.possibleKingsideCastlingThisRound = Except.ok ks ∧
      g.possibleQueensideCastlingThisRound = Except.ok qs ∧
      (ks = true ∨ qs = true → g.getPiece ⟨g.currentPlayerBackRank, 5⟩ = some home) ∧
      moves =
        (if ks then [(⟨⟨g.currentPlayerBackRank, 5⟩, ⟨g.currentPlayerBackRank, 7⟩, home, none,
          PieceType.NONE⟩ : Move)] else []) ++
        (if qs then [(⟨⟨g.currentPlayerBackRank, 5⟩, ⟨g.currentPlayerBackRank, 3⟩, home, none,
          PieceType.NONE⟩ : Move)] else []) := by
  cases hks : g.possibleKingsideCastlingThisRound with
  | error e =>
    unfold Game.getMovesFrom at h
    rw [hp] at h
    simp [hk, hks, bind, Except.bind] at h
  | ok ks =>
    cases hqs : g.possibleQueensideCastlingThisRound with
    | error e =>
      unfold Game.getMovesFrom at h
      rw [hp] at h
      simp only [hk, if_true, hks, hqs, bind, Except.bind, pure, Except.pure] at h
      cases ks with
      | false => simp at h
      | true =>
        simp only [if_true] at h
        cases hg : g.generateKingSideCastle with
        | error e1 => simp [hg] at h
        | ok v => simp [hg] at h
    | ok qs =>
      have hhome : ∃ home, (ks = true ∨ qs = true →
          g.getPiece ⟨g.currentPlayerBackRank, 5⟩ = some home) := by
        cases ks with
        | true =>
          obtain ⟨home, hh, _⟩ := possibleKingsideCastlingThisRound_true g hks
          exact ⟨home, fun _ => hh⟩
        | false =>
          cases qs with
          | true =>
            obtain ⟨home, hh, _⟩ := possibleQueensideCastlingThisRound_true g hqs
            exact ⟨home, fun _ => hh⟩
          | false => exact ⟨king, by simp⟩
      obtain ⟨home, hh⟩ := hhome
      have e := getMovesFrom_king g p king home ks qs hp hk hks hqs hh
      rw [e] at h
      cases h
      exact ⟨ks, qs, home, rfl, rfl, hh, rfl⟩

theorem getMovesFrom_king_normal (g : Game) (p : Position) (king : Piece) (moves : List Move)
    (hp : g.getPiece p = some king) (hk : king.type = PieceType.KING)
    (h : g.getMovesFrom p = Except.ok moves) :
    ∀ m ∈ moves, m.capturedPiece = g.board.getPiece m.to_ := by
  obtain ⟨ks, qs, home, hks, hqs, _, hm⟩ := getMovesFrom_king_spec g p king moves hp hk h
  intro m hmem
  rw [hm] at hmem
  rcases List.mem_append.1 hmem with h1 | h1
  · cases ks with
    | false => simp at h1
    | true =>
      simp at h1
      subst h1
      obtain ⟨_, _, _, h7⟩ := possibleKingsideCastlingThisRound_true g hks
      exact h7.symm
  · cases qs with
    | false => simp at h1
    | true =>
      simp at h1
      subst h1
      obtain ⟨_, _, _, h3, _⟩ := possibleQueensideCastlingThisRound_true g hqs
      exact h3.symm

theorem getMovesFrom_check_iff (g : Game) (hwf : g.board.WellFormed) (k : Piece)
    (hk : k ∈ g.board.pieces) (hking : k.type = PieceType.KING) (p : Position) (piece : Piece)
    (hp : g.getPiece p = some piece) (hcol : piece.color ≠ k.color) (moves : List Move)
    (h : g.getMovesFrom p = Except.ok moves) :
    (∃ m ∈ moves, m.capturedPiece.map Piece.id = some k.id) ↔
      (∃ m ∈ moves, m.to_ = k.position) := by
  by_cases ht : piece.type = PieceType.KING
  · exact exists_capture_iff_of_normal g.board hwf k hk moves
      (getMovesFrom_king_normal g p piece moves hp ht h)
  · rw [getMovesFrom_not_king g p piece hp ht] at h
    cases h
    exact Piece.pieceMoves_check_iff g.board hwf k hk hking piece hcol

theorem movesOfRoster_check_iff (g : Game) (hwf : g.board.WellFormed) (k : Piece)
    (hk : k ∈ g.board.pieces) (hking : k.type = PieceType.KING) :
    ∀ (roster : List Nat) (moves : List Move),
      (∀ i ∈ roster, ∀ q, g.board.pieceById i = some q → q.color ≠ k.color) →
      g.movesOfRoster roster = Except.ok moves →
      ((∃ m ∈ moves, m.capturedPiece.map Piece.id = some k.id) ↔
        (∃ m ∈ moves, m.to_ = k.position)) := by
  intro roster
  induction roster with
  | nil =>
    intro moves _ h
    simp [Game.movesOfRoster] at h
    subst h
    simp
  | cons i rest ih =>
    intro moves hcol h
    unfold Game.movesOfRoster at h
    cases hi : g.board.pieceById i with
    | none => simp [hi] at h
    | some piece =>
      simp only [hi] at h
      cases hm : g.getMovesFrom piece.position with
      | error e => simp [hm, bind, Except.bind] at h
      | ok pieceMoves =>
        cases hr : g.movesOfRoster rest with
        | error e => simp [hm, hr, bind, Except.bind] at h
        | ok others =>
          simp [hm, hr, bind, Except.bind, pure, Except.pure] at h
          subst h
          have hp : g.getPiece piece.position = some piece :=
            Board.getPiece_of_mem g.board hwf piece (Board.pieceById_mem g.board i piece hi)
          have h1 := getMovesFrom_check_iff g hwf k hk hking piece.position piece hp
            (hcol i (List.mem_cons_self _ _) piece hi) pieceMoves hm
          have h2 := ih others (fun j hj q hq => hcol j (List.mem_cons_of_mem _ hj) q hq) hr
          constructor
          · rintro ⟨m, hmem, hA⟩
            rcases List.mem_append.1 hmem with h0 | h0
            · obtain ⟨m1, hm1, hB⟩ := h1.1 ⟨m, h0, hA⟩
              exact ⟨m1, List.mem_append.2 (Or.inl hm1), hB⟩
            · obtain ⟨m1, hm1, hB⟩ := h2.1 ⟨m, h0, hA⟩
              exact ⟨m1, List.mem_append.2 (Or.inr hm1), hB⟩
          · rintro ⟨m, hmem, hB⟩
            rcases List.mem_append.1 hmem with h0 | h0
            · obtain ⟨m1, hm1, hA⟩ := h1.2 ⟨m, h0, hB⟩
              exact ⟨m1, List.mem_append.2 (Or.inl hm1), hA⟩
            · obtain ⟨m1, hm1, hA⟩ := h2.2 ⟨m, h0, hB⟩
              exact ⟨m1, List.mem_append.2 (Or.inr hm1), hA⟩

theorem rosterHasColor_spec (g : Game) (c : Color) (h : g.rosterHasColor c = true) :
    ∀ i ∈ (g.player c).pieces, ∀ q, g.board.pieceById i = some q → q.color = c := by
  intro i hi q hq
  unfold Game.rosterHasColor at h
  have := List.all_eq_true.1 h i hi
  rw [hq] at this
  simpa using this

theorem getAllMovesForPlayer_capture_iff (g : Game) (c : Color) (king : Piece)
    (hwf : g.board.WellFormed) (hroster : g.rosterHasColor c.opposite = true)
    (hking : g.board.getKing c = some king) (moves : List Move)
    (hm : g.getAllMovesForPlayer c.opposite = Except.ok moves) :
    moves.any (fun m => decide (m.capturedPiece.map Piece.id = some king.id)) =
      moves.any (fun m => decide (m.to_ = king.position)) := by
  obtain ⟨hmem, htype, hcolor⟩ := Board.getKing_spec g.board c king hking
  have hne : ∀ i ∈ (g.player c.opposite).pieces, ∀ q, g.board.pieceById i = some q →
      q.color ≠ king.color := by
    intro i hi q hq
    rw [rosterHasColor_spec g c.opposite hroster i hi q hq, hcolor]
    cases c <;> simp [Color.opposite]
  have key := movesOfRoster_check_iff g hwf king hmem htype _ moves hne hm
  rw [Bool.eq_iff_iff, List.any_eq_true, List.any_eq_true]
  constructor
  · rintro ⟨m, h1, h2⟩
    obtain ⟨m1, h3, h4⟩ := key.1 ⟨m, h1, by simpa using h2⟩
    exact ⟨m1, h3, by simpa using h4⟩
  · rintro ⟨m, h1, h2⟩
    obtain ⟨m1, h3, h4⟩ := key.2 ⟨m, h1, by simpa using h2⟩
    exact ⟨m1, h3, by simpa using h4⟩

/-- C3: in a game state whose board is well formed, whose roster of the opposing
player holds pieces of the opposing colour, and where the king of colour c is on
the board, `isCheck(c)` returns exactly when the pseudo-legal moves of the opposing
player can be listed, and its value is whether one of them has its destination equal
to the square of c's king. -/
theorem isCheck_iff_move_to_king_square (g : Game) (c : Color) (king : Piece)
    (hwf : g.board.WellFormed) (hroster : g.rosterHasColor c.opposite = true)
    (hking : g.board.getKing c = some king) :
    g.isCheck c =
      (g.getAllMovesForPlayer c.opposite).map
        (fun moves => moves.any (fun m => decide (m.to_ = king.position))) := by
  unfold Game.isCheck
  rw [hking]
  cases hm : g.getAllMovesForPlayer c.opposite with
  | error e => simp [bind, Except.bind, Except.map]
  | ok moves =>
    simp only [bind, Except.bind, Except.map, pure, Except.pure]
    congr 1
    exact getAllMovesForPlayer_capture_iff g c king hwf hroster hking moves hm

theorem isCheck_iff_move_to_king_square_witness :
    Examples.rooksAndKings.isCheck Color.WHITE =
      (Examples.rooksAndKings.getAllMovesForPlayer Color.WHITE.opposite).map
        (fun moves => moves.any (fun m => decide (m.to_ =
          (⟨0, PieceType.KING, Color.WHITE, ⟨1, 5⟩, false⟩ : Piece).position))) :=
  isCheck_iff_move_to_king_square Examples.rooksAndKings Color.WHITE
    ⟨0, PieceType.KING, Color.WHITE, ⟨1, 5⟩, false⟩ (by decide) (by decide) (by decide)

/-! ### Castling through controlled squares -/

theorem mem_columnsFrom (lowest upper col : Int) :
    col ∈ columnsFrom lowest upper ↔ lowest ≤ col ∧ col < upper := by
  unfold columnsFrom
  simp only [List.mem_map, List.mem_range]
  constructor
  · rintro ⟨i, hi, rfl⟩
    simp only [Int.ofNat_eq_coe]
    omega
  · rintro ⟨h1, h2⟩
    refine ⟨(col - lowest).toNat, ?_, ?_⟩
    · omega
    · simp only [Int.ofNat_eq_coe]
      omega

theorem anyColumnControlled_false (g : Game) (row : Int) (opponentColor : Color) :
    ∀ cols : List Int, g.anyColumnControlled row opponentColor cols = Except.ok false →
      ∀ col ∈ cols, g.isFieldControlledByPlayer ⟨row, col⟩ opponentColor = Except.ok false := by
  intro cols
  induction cols with
  | nil => intro _ col hc; simp at hc
  | cons a rest ih =>
    intro h col hc
    unfold Game.anyColumnControlled at h
    cases hf : g.isFieldControlledByPlayer ⟨row, a⟩ opponentColor with
    | error e => simp [hf, bind, Except.bind] at h
    | ok b =>
      cases b with
      | true => simp [hf, bind, Except.bind, pure, Except.pure] at h
      | false =>
        simp only [hf, bind, Except.bind] at h
        rcases List.mem_cons.1 hc with h0 | h0
        · subst h0; exact hf
        · exact ih (by simpa using h) col h0

theorem isCastlingObscuredByOpponent_false (g : Game) (move : Move)
    (h : g.isCastlingObscuredByOpponent move = Except.ok false) :
    g.isCheck move.piece.color = Except.ok false ∧
    ∀ col : Int, min move.to_.col move.from_.col < col → col < max move.to_.col move.from_.col →
      g.isFieldControlledByPlayer ⟨move.to_.row, col⟩ move.piece.color.opposite =
        Except.ok false := by
  unfold Game.isCastlingObscuredByOpponent at h
  cases hc : g.isCheck move.piece.color with
  | error e => simp [hc, bind, Except.bind] at h
  | ok b =>
    cases b with
    | true => simp [hc, bind, Except.bind, pure, Except.pure] at h
    | false =>
      simp only [hc, bind, Except.bind] at h
      refine ⟨rfl, fun col h1 h2 => ?_⟩
      have e : (if move.piece.color = Color.WHITE then Color.BLACK else Color.WHITE) =
          move.piece.color.opposite := by
        cases move.piece.color <;> simp [Color.opposite]
      have := anyColumnControlled_false g _ _ _ (by simpa using h) col
        ((mem_columnsFrom _ _ _).2 ⟨by omega, h2⟩)
      rw [e] at this
      exact this


theorem movesOfRoster_mem (g : Game) :
    ∀ (roster : List Nat) (moves : List Move), g.movesOfRoster roster = Except.ok moves →
      ∀ i ∈ roster, ∃ (piece : Piece) (pieceMoves : List Move),
        g.board.pieceById i = some piece ∧
        g.getMovesFrom piece.position = Except.ok pieceMoves ∧
        ∀ m ∈ pieceMoves, m ∈ moves := by
  intro roster
  induction roster with
  | nil => intro _ _ i hi; simp at hi
  | cons j rest ih =>
    intro moves h i hi
    unfold Game.movesOfRoster at h
    cases hj : g.board.pieceById j with
    | none => simp [hj] at h
    | some piece =>
      simp only [hj] at h
      cases hm : g.getMovesFrom piece.position with
      | error e => simp [hm, bind, Except.bind] at h
      | ok pieceMoves =>
        cases hr : g.movesOfRoster rest with
        | error e => simp [hm, hr, bind, Except.bind] at h
        | ok others =>
          simp [hm, hr, bind, Except.bind, pure, Except.pure] at h
          subst h
          rcases List.mem_cons.1 hi with h0 | h0
          · subst h0
            exact ⟨piece, pieceMoves, hj, hm, fun m hmem => List.mem_append.2 (Or.inl hmem)⟩
          · obtain ⟨q, qm, h1, h2, h3⟩ := ih others hr i h0
            exact ⟨q, qm, h1, h2, fun m hmem => List.mem_append.2 (Or.inr (h3 m hmem))⟩

theorem Pawn.getMoves_of_attacked (b : Board) (piece x : Piece) (pos : Position)
    (hpos : pos ∈ Pawn.attackedPositions piece) (hx : b.getPiece pos = some x)
    (hcol : x.color ≠ piece.color) :
    ∃ m ∈ Pawn.getMoves b piece, m.to_ = pos := by
  unfold Pawn.attackedPositions at hpos
  obtain ⟨hmem, hin⟩ := List.mem_filter.1 hpos
  have key : ∀ dc : Int, (dc = -1 ∨ dc = 1) →
      pos = ⟨piece.position.row + Pawn.direction piece.color, piece.position.col + dc⟩ →
      ∃ m ∈ Pawn.getMoves b piece, m.to_ = pos := by
    intro dc hdc e
    rw [e] at hin hx
    have hcap := Pawn.captureMove_of_occupied b piece dc x hin hx hcol
    obtain ⟨hall, m1, hm1⟩ := Pawn.withPromotions_spec
      (⟨piece.position, ⟨piece.position.row + Pawn.direction piece.color,
        piece.position.col + dc⟩, piece, some x, PieceType.NONE⟩ : Move)
    refine ⟨m1, ?_, ?_⟩
    · unfold Pawn.getMoves
      refine List.mem_flatMap.2 ⟨_, ?_, hm1⟩
      simp only [List.mem_append]
      rcases hdc with h | h
      · subst h; exact Or.inl (Or.inl (Or.inl (Or.inr hcap)))
      · subst h; exact Or.inl (Or.inl (Or.inr hcap))
    · rw [(hall m1 hm1).1, e]
  simp only [List.mem_cons, List.mem_singleton, List.not_mem_nil, or_false] at hmem
  rcases hmem with h | h
  · exact key (-1) (Or.inl rfl) (by rw [h]; rfl)
  · exact key 1 (Or.inr rfl) h

/-- When the king of colour `c` is not in check, the square it stands on is not
controlled by the opposing player. -/
theorem isFieldControlledByPlayer_king_square (g : Game) (c : Color) (king : Piece)
    (hwf : g.board.WellFormed) (hroster : g.rosterHasColor c.opposite = true)
    (hking : g.board.getKing c = some king) (hcheck : g.isCheck c = Except.ok false) :
    g.isFieldControlledByPlayer king.position c.opposite = Except.ok false := by
  obtain ⟨hmem, htype, hcolor⟩ := Board.getKing_spec g.board c king hking
  unfold Game.isCheck at hcheck
  rw [hking] at hcheck
  cases hm : g.getAllMovesForPlayer c.opposite with
  | error e => simp [hm, bind, Except.bind] at hcheck
  | ok moves =>
    simp only [hm, bind, Except.bind, pure, Except.pure] at hcheck
    have hany : moves.any (fun m => decide (m.to_ = king.position)) = false := by
      rw [← getAllMovesForPlayer_capture_iff g c king hwf hroster hking moves hm]
      simpa using hcheck
    have hnone : ∀ m ∈ moves, m.to_ ≠ king.position := by
      intro m hmm e
      have : moves.any (fun m => decide (m.to_ = king.position)) = true :=
        List.any_eq_true.2 ⟨m, hmm, by simpa using e⟩
      rw [hany] at this
      cases this
    unfold Game.isFieldControlledByPlayer
    simp only [hm, bind, Except.bind, pure, Except.pure]
    congr 1
    rw [Bool.or_eq_false_iff]
    constructor
    · rw [Bool.eq_false_iff]
      intro h
      obtain ⟨m, hmm, hb⟩ := List.any_eq_true.1 h
      simp at hb
      exact hnone m hmm hb.1
    · rw [Bool.eq_false_iff]
      intro h
      obtain ⟨i, hi, hb⟩ := List.any_eq_true.1 h
      cases hp : g.board.pieceById i with
      | none => simp [hp] at hb
      | some pawn =>
        simp only [hp] at hb
        split_ifs at hb with hpawn
        · obtain ⟨pos, hpos, he⟩ := List.any_eq_true.1 hb
          simp at he
          subst he
          have hpc : pawn.color = c.opposite := rosterHasColor_spec g c.opposite hroster i hi pawn hp
          have hne : king.color ≠ pawn.color := by
            rw [hpc, hcolor]; cases c <;> simp [Color.opposite]
          obtain ⟨m, hmm, hto⟩ := Pawn.getMoves_of_attacked g.board pawn king king.position hpos
            (Board.getPiece_of_mem g.board hwf king hmem) hne
          obtain ⟨q, qm, h1, h2, h3⟩ := movesOfRoster_mem g _ moves hm i hi
          rw [hp] at h1
          cases h1
          have hgp : g.getPiece pawn.position = some pawn :=
            Board.getPiece_of_mem g.board hwf pawn (Board.pieceById_mem g.board i pawn hp)
          rw [getMovesFrom_not_king g pawn.position pawn hgp (by rw [hpawn]; simp)] at h2
          cases h2
          have : m ∈ pawn.getMoves g.board := by
            unfold Piece.getMoves
            rw [hpawn]
            exact hmm
          exact hnone m (h3 m this) hto


/-- What the two filters of `getLegalMovesFrom` have tested for a castling move they
keep: `isCheck` is false in the current position, `isFieldControlledByPlayer` is false
on every square strictly between the start and the end square and (board well
formed, opposing roster of the opposing colour, the castling piece being the king of
its colour) on the start square, and `isCheck` is false in the position `afterMove`
builds. -/
theorem castling_among_legal_moves (g : Game) (p : Position) (king : Piece)
    (moves : List Move) (m : Move)
    (hp : g.getPiece p = some king) (hk : king.type = PieceType.KING)
    (h : g.getLegalMovesFrom p = Except.ok moves) (hm : m ∈ moves)
    (hc : m.isCastling = true) :
    g.isCheck m.piece.color = Except.ok false ∧
    (∀ col : Int, min m.to_.col m.from_.col < col → col < max m.to_.col m.from_.col →
      g.isFieldControlledByPlayer ⟨m.to_.row, col⟩ m.piece.color.opposite = Except.ok false) ∧
    (g.board.WellFormed → g.rosterHasColor m.piece.color.opposite = true →
      g.board.getKing m.piece.color = some m.piece →
      g.isFieldControlledByPlayer m.from_ m.piece.color.opposite = Except.ok false) ∧
    g.getPiece m.from_ = some m.piece ∧
    (∃ after, g.afterMove m = Except.ok after ∧ after.isCheck king.color = Except.ok false) := by
  obtain ⟨_, ⟨all, hall, hmall⟩, ⟨after, h3, h4⟩, hsecond⟩ :=
    getLegalMovesFrom_survivor g p king moves m hp h hm
  have hobs : g.isCastlingObscuredByOpponent m = Except.ok false := by
    obtain ⟨obscured, ho, hb⟩ := hsecond hk
    rw [hc] at hb
    rw [ho]
    simpa using hb
  obtain ⟨hcheck, hbetween⟩ := isCastlingObscuredByOpponent_false g m hobs
  have hfrom : g.getPiece m.from_ = some m.piece := by
    obtain ⟨ks, qs, home, _, _, hh, hl⟩ := getMovesFrom_king_spec g p king all hp hk hall
    rw [hl] at hmall
    rcases List.mem_append.1 hmall with h0 | h0
    · cases ks with
      | false => simp at h0
      | true => simp at h0; subst h0; exact hh (Or.inl rfl)
    · cases qs with
      | false => simp at h0
      | true => simp at h0; subst h0; exact hh (Or.inr rfl)
  refine ⟨hcheck, hbetween, fun hwf hroster hking => ?_, hfrom, after, h3, h4⟩
  have := isFieldControlledByPlayer_king_square g m.piece.color m.piece hwf hroster hking hcheck
  rw [Board.getPiece_position g.board m.from_ m.piece hfrom] at this
  exact this


set_option maxRecDepth 100000 in
/-- The tests at the castling move e1-g1 of White with the black king far away on
e8. -/
theorem castling_among_legal_moves_witness :
    Examples.kingAndRook.isCheck Color.WHITE = Except.ok false ∧
    Examples.kingAndRook.isFieldControlledByPlayer ⟨1, 6⟩ Color.BLACK = Except.ok false ∧
    Examples.kingAndRook.isFieldControlledByPlayer ⟨1, 5⟩ Color.BLACK = Except.ok false ∧
    (∃ after, Examples.kingAndRook.afterMove Examples.castleKingside = Except.ok after ∧
      after.isCheck Color.WHITE = Except.ok false) :=
  ⟨(castling_among_legal_moves Examples.kingAndRook ⟨1, 5⟩
      ⟨0, PieceType.KING, Color.WHITE, ⟨1, 5⟩, false⟩ [Examples.castleKingside]
      Examples.castleKingside (by decide) (by decide) (by rfl) (by decide) (by decide)).1,
    (castling_among_legal_moves Examples.kingAndRook ⟨1, 5⟩
      ⟨0, PieceType.KING, Color.WHITE, ⟨1, 5⟩, false⟩ [Examples.castleKingside]
      Examples.castleKingside (by decide) (by decide) (by rfl) (by decide) (by decide)).2.1 6
      (by decide) (by decide),
    (castling_among_legal_moves Examples.kingAndRook ⟨1, 5⟩
      ⟨0, PieceType.KING, Color.WHITE, ⟨1, 5⟩, false⟩ [Examples.castleKingside]
      Examples.castleKingside (by decide) (by decide) (by rfl) (by decide) (by decide)).2.2.1
      (by decide) (by decide) (by decide),
    (castling_among_legal_moves Examples.kingAndRook ⟨1, 5⟩
      ⟨0, PieceType.KING, Color.WHITE, ⟨1, 5⟩, false⟩ [Examples.castleKingside]
      Examples.castleKingside (by decide) (by decide) (by rfl) (by decide) (by decide)).2.2.2.2⟩

set_option maxRecDepth 1000000 in
/-- C5 fails on the code: with White Ke1, Rh1 and the black king on g2, next to f1 and
g1, White's castling e1-g1 is the move `getLegalMovesFrom(e1)` returns.  The black
king has no moves (`King::getMoves` returns nothing), so `isCheck` and
`isFieldControlledByPlayer` do not see that it attacks the squares the white king
crosses and lands on; after the move the two kings stand side by side on g1 and
g2. -/
theorem castling_next_to_opposing_king :
    Examples.kingBesideCastling.getPiece ⟨2, 7⟩ =
      some ⟨2, PieceType.KING, Color.BLACK, ⟨2, 7⟩, false⟩ ∧
    Examples.kingBesideCastling.getLegalMovesFrom ⟨1, 5⟩ =
      Except.ok [Examples.castleKingside] ∧
    Examples.castleKingside.isCastling = true ∧
    Examples.castleKingside.from_ = ⟨1, 5⟩ ∧ Examples.castleKingside.to_ = ⟨1, 7⟩ ∧
    Examples.kingBesideCastling.isCheck Color.WHITE = Except.ok false ∧
    Examples.kingBesideCastling.isFieldControlledByPlayer ⟨1, 6⟩ Color.BLACK =
      Except.ok false ∧
    Piece.getMoves Examples.kingBesideCastling.board
      ⟨2, PieceType.KING, Color.BLACK, ⟨2, 7⟩, false⟩ = [] ∧
    ((Examples.kingBesideCastling.makeMove Examples.castleKingside).state.getPiece ⟨1, 7⟩).map
      (fun p => (p.type, p.color)) = some (PieceType.KING, Color.WHITE) ∧
    ((Examples.kingBesideCastling.makeMove Examples.castleKingside).state.getPiece ⟨2, 7⟩).map
      (fun p => (p.type, p.color)) = some (PieceType.KING, Color.BLACK) :=
  ⟨by rfl, by rfl, by decide, by rfl, by rfl, by rfl, by rfl, by rfl, by rfl, by rfl⟩

/-! ### Counters, turn and history -/

theorem setPlayer_player (g : Game) (c : Color) (p : Player) :
    (g.setPlayer c p).player c = p ∧ (g.setPlayer c p).player c.opposite = g.player c.opposite := by
  cases c <;> simp [Game.setPlayer, Game.player, Color.opposite]

theorem applyToBoard_state (g : Game) (move : Move) :
    (g.applyToBoard move).board =
      (if move.isDoublePawnMove = true then
        (g.board.makeMove move).setIsEnPassantTarget move.piece.id true
       else g.board.makeMove move) ∧
    (g.applyToBoard move).enPassantTargetPosition =
      (if move.isDoublePawnMove = true then
        some ⟨Int.tdiv (move.from_.row + move.to_.row) 2, move.to_.col⟩
       else g.enPassantTargetPosition) ∧
    (g.applyToBoard move).moveHistory = g.moveHistory ++ [move] ∧
    (g.applyToBoard move).currentPlayer =
      (if g.currentPlayer = Color.WHITE then Color.BLACK else Color.WHITE) := by
  unfold Game.applyToBoard
  dsimp only
  cases hcap : move.capturedPiece <;> by_cases hp : move.promoteTo = PieceType.NONE <;>
    by_cases hd : move.isDoublePawnMove = true <;>
    cases hget : Game.getPiece { g with board := g.board.makeMove move } move.to_ <;>
    simp [hp, hd, hget, setPlayer_frame]


theorem updateEnPassantTarget_board (g g3 : Game) (h : g.updateEnPassantTarget = Except.ok g3) :
    (g.enPassantTargetPosition = none ∧ g3.board = g.board) ∨
    (∃ old, g.getEnPassantTargetPiece = Except.ok (some old) ∧
      g3.board = g.board.setIsEnPassantTarget old.id false) := by
  unfold Game.updateEnPassantTarget at h
  split_ifs at h with h1
  · right
    unfold Game.refreshEnPassant at h
    split at h
    · cases h
    · cases h
    · rename_i old hold
      cases h
      exact ⟨old, hold, rfl⟩
  · left
    cases h
    cases hh : g.enPassantTargetPosition <;> simp_all

/-- The state a successful `makeMove` starts the board step from: the counters are
updated, the en-passant target is cleared and the flag of the pawn behind it is
reset. -/
theorem makeMove_success_full (g : Game) (move : Move) (h : (g.makeMove move).raised = none) :
    g.currentPlayer = move.piece.color ∧
    ∃ g3 : Game,
      (g.makeMove move).state = (g3.refreshCastlingPossibilites move).applyToBoard move ∧
      g3.halfmoveClock =
        (if move.isCapture = true ∨ move.piece.type = PieceType.PAWN then 0
         else g.halfmoveClock + 1) ∧
      g3.fullmoveNumber =
        (if g.currentPlayer = Color.BLACK then g.fullmoveNumber + 1 else g.fullmoveNumber) ∧
      g3.currentPlayer = g.currentPlayer ∧
      g3.moveHistory = g.moveHistory ∧ g3.whitePlayer = g.whitePlayer ∧
      g3.blackPlayer = g.blackPlayer ∧ g3.enPassantTargetPosition = none ∧
      ((g.enPassantTargetPosition = none ∧ g3.board = g.board) ∨
       (∃ old, g.getEnPassantTargetPiece = Except.ok (some old) ∧
         g3.board = g.board.setIsEnPassantTarget old.id false)) := by
  unfold Game.makeMove at h ⊢
  by_cases h1 : g.currentPlayer ≠ move.piece.color
  · simp [h1] at h
  · rw [if_neg h1] at h ⊢
    refine ⟨by simpa using h1, ?_⟩
    cases hg1 : g.updateFullmoveNumber with
    | error e => simp [hg1] at h
    | ok g1 =>
      simp only [hg1] at h ⊢
      cases hg2 : g1.updateHalfmoveClock move with
      | error e => simp [hg2] at h
      | ok g2 =>
        simp only [hg2] at h ⊢
        cases hg3 : g2.updateEnPassantTarget with
        | error e => simp [hg3] at h
        | ok g3 =>
          simp only [hg3] at h ⊢
          refine ⟨g3, rfl, ?_⟩
          obtain ⟨a1, a2, a3, a4, a5, a6, a7, a8, a9, a10, a11⟩ := updateEnPassantTarget_ok _ _ hg3
          have hb := updateEnPassantTarget_board _ _ hg3
          have e2 := updateHalfmoveClock_ok _ _ _ hg2
          have e1 := updateFullmoveNumber_ok _ _ hg1
          rw [a1, a2, a3, a8, a9, a10, a11]
          subst e2
          subst e1
          refine ⟨by simp, by simp, rfl, rfl, rfl, rfl, rfl, ?_⟩
          exact hb


/-- What `Board::makeMove` does to the list of pieces: the captured piece is taken
out and every other piece keeps its identity, colour and en-passant flag. -/
theorem Board.makeMove_pieces (b : Board) (m : Move) :
    ∃ f : Piece → Piece,
      (∀ p, (f p).id = p.id ∧ (f p).color = p.color ∧
        (f p).isEnPassantTarget = p.isEnPassantTarget) ∧
      (m.isCastling = false → ∀ p : Piece, f p =
        if p.id = m.piece.id then
          { p with position := m.to_,
                   type := if m.promoteTo = PieceType.NONE then p.type else m.promoteTo }
        else p) ∧
      (b.makeMove m).pieces =
        (match m.capturedPiece with
          | some c => b.pieces.filter (fun p : Piece => decide (p.id ≠ c.id))
          | none => b.pieces).map f := by
  unfold Board.makeMove
  dsimp only
  cases hrook : (if m.isCastling = true then b.getPiece (castlingRookSquares m).1 else none) with
  | none =>
    refine ⟨fun (p : Piece) => if p.id = m.piece.id then
          { p with position := m.to_,
                   type := if m.promoteTo = PieceType.NONE then p.type else m.promoteTo }
        else p, ?_, fun _ _ => rfl, rfl⟩
    intro p
    by_cases hp : p.id = m.piece.id <;> simp [hp]
  | some r =>
    refine ⟨(fun (q : Piece) => if q.id = r.id then
          { q with position := (castlingRookSquares m).2 } else q) ∘
        (fun (p : Piece) => if p.id = m.piece.id then
          { p with position := m.to_,
                   type := if m.promoteTo = PieceType.NONE then p.type else m.promoteTo }
        else p), ?_, ?_, ?_⟩
    · intro p
      simp only [Function.comp]
      split_ifs <;> simp
    · intro hc
      rw [hc] at hrook
      simp at hrook
    · dsimp only
      refine (List.map_map _ _ _).trans ?_
      cases m.capturedPiece <;> rfl

theorem Board.setIsEnPassantTarget_mem (b : Board) (i : Nat) (v : Bool) (q : Piece) :
    q ∈ (b.setIsEnPassantTarget i v).pieces ↔
      ∃ p ∈ b.pieces, q = if p.id = i then { p with isEnPassantTarget := v } else p := by
  unfold Board.setIsEnPassantTarget
  simp only [List.mem_map]
  constructor
  · rintro ⟨p, hp, rfl⟩; exact ⟨p, hp, rfl⟩
  · rintro ⟨p, hp, rfl⟩; exact ⟨p, hp, rfl⟩

/-- C11: after a successful `makeMove` the fullmove number is the previous one plus
1 when the mover was Black and the previous one when the mover was White. -/
theorem makeMove_fullmoveNumber (g : Game) (move : Move)
    (h : (g.makeMove move).raised = none) :
    (move.piece.color = Color.BLACK →
      (g.makeMove move).state.fullmoveNumber = g.fullmoveNumber + 1) ∧
    (move.piece.color = Color.WHITE →
      (g.makeMove move).state.fullmoveNumber = g.fullmoveNumber) := by
  obtain ⟨hc, g3, hs, _, hf, _⟩ := makeMove_success_full g move h
  rw [hs, (applyToBoard_frame _ _).2.1, (refreshCastlingPossibilites_frame _ _).2.1, hf, hc]
  constructor
  · intro hb; simp [hb]
  · intro hw; simp [hw]

theorem makeMove_fullmoveNumber_witness :
    (Examples.rooksAndKings.makeMove Examples.kingE1E2).state.fullmoveNumber = 20 ∧
    ((Examples.rooksAndKings.makeMove Examples.kingE1E2).state.makeMove
      Examples.kingE8E7).state.fullmoveNumber = 21 :=
  ⟨((makeMove_fullmoveNumber Examples.rooksAndKings Examples.kingE1E2 (by decide)).2
      (by decide)).trans (by decide),
    ((makeMove_fullmoveNumber (Examples.rooksAndKings.makeMove Examples.kingE1E2).state
      Examples.kingE8E7 (by decide)).1 (by decide)).trans (by decide)⟩

/-- C15: after a successful `makeMove` the side to move is the colour opposite to
the mover's, and the move history is the previous history with the move appended at
the end. -/
theorem makeMove_turn_and_history (g : Game) (move : Move)
    (h : (g.makeMove move).raised = none) :
    (g.makeMove move).state.currentPlayer = move.piece.color.opposite ∧
    (g.makeMove move).state.currentPlayer = g.currentPlayer.opposite ∧
    (g.makeMove move).state.moveHistory = g.moveHistory ++ [move] := by
  obtain ⟨hc, g3, hs, _, _, hcur, hhist, _⟩ := makeMove_success_full g move h
  obtain ⟨_, _, s3, s4⟩ := applyToBoard_state (g3.refreshCastlingPossibilites move) move
  obtain ⟨_, _, f3, _, f5, _⟩ := refreshCastlingPossibilites_frame g3 move
  rw [hs, s3, s4, f3, f5, hcur, hhist, ← hc]
  refine ⟨?_, ?_, rfl⟩ <;> cases g.currentPlayer <;> simp [Color.opposite]

theorem makeMove_turn_and_history_witness :
    (Examples.rooksAndKings.makeMove Examples.kingE1E2).state.currentPlayer = Color.BLACK ∧
    (Examples.rooksAndKings.makeMove Examples.kingE1E2).state.moveHistory =
      [Examples.kingE1E2] :=
  ⟨(makeMove_turn_and_history Examples.rooksAndKings Examples.kingE1E2 (by decide)).1,
    (makeMove_turn_and_history Examples.rooksAndKings Examples.kingE1E2 (by decide)).2.2⟩

/-! ### The en-passant target -/

theorem isDoublePawnMove_spec (m : Move) (h : m.isDoublePawnMove = true) :
    m.piece.type = PieceType.PAWN ∧ m.isCastling = false := by
  unfold Move.isDoublePawnMove at h
  have hp : m.piece.type = PieceType.PAWN := by
    simp at h
    exact h.1
  refine ⟨hp, ?_⟩
  unfold Move.isCastling
  simp [hp]

/-- C12: after a successful `makeMove` that is a double pawn push the en-passant
target is the square passed over - row (from.row + to.row) / 2, column of the
destination - and every piece object with the identity of the moved pawn is flagged
as en-passant target; the moved pawn, when it was on the board and is not the
captured piece of the move, stands flagged on the destination square. -/
theorem makeMove_double_pawn_push (g : Game) (move : Move)
    (hd : move.isDoublePawnMove = true) (h : (g.makeMove move).raised = none) :
    (g.makeMove move).state.enPassantTargetPosition =
      some ⟨Int.tdiv (move.from_.row + move.to_.row) 2, move.to_.col⟩ ∧
    (∀ q ∈ (g.makeMove move).state.board.pieces, q.id = move.piece.id →
      q.isEnPassantTarget = true) ∧
    ((∃ p ∈ g.board.pieces, p.id = move.piece.id) →
      (∀ c, move.capturedPiece = some c → c.id ≠ move.piece.id) →
      ∃ q ∈ (g.makeMove move).state.board.pieces,
        q.id = move.piece.id ∧ q.position = move.to_ ∧ q.isEnPassantTarget = true) := by
  obtain ⟨hc, g3, hs, _, _, _, _, _, _, _, hboard⟩ := makeMove_success_full g move h
  obtain ⟨s1, s2, _, _⟩ := applyToBoard_state (g3.refreshCastlingPossibilites move) move
  obtain ⟨_, _, _, f4, _⟩ := refreshCastlingPossibilites_frame g3 move
  rw [hs, s1, s2, if_pos hd, if_pos hd, f4]
  refine ⟨rfl, ?_, ?_⟩
  · intro q hq hid
    obtain ⟨p, _, rfl⟩ := (Board.setIsEnPassantTarget_mem _ _ _ q).1 hq
    by_cases hp : p.id = move.piece.id
    · simp [hp]
    · rw [if_neg hp] at hid
      exact absurd hid hp
  · rintro ⟨p, hp, hpid⟩ hcap
    -- the pawn in the board the move is applied to
    have h3 : ∃ p3 ∈ g3.board.pieces, p3.id = move.piece.id := by
      rcases hboard with ⟨_, hb⟩ | ⟨old, _, hb⟩
      · rw [hb]; exact ⟨p, hp, hpid⟩
      · rw [hb]
        refine ⟨_, (Board.setIsEnPassantTarget_mem _ _ _ _).2 ⟨p, hp, rfl⟩, ?_⟩
        split_ifs <;> simpa using hpid
    obtain ⟨p3, hp3, hid3⟩ := h3
    obtain ⟨f, hf, hfn, hpieces⟩ := Board.makeMove_pieces g3.board move
    have hkept : p3 ∈ (match move.capturedPiece with
        | some c => g3.board.pieces.filter (fun p : Piece => decide (p.id ≠ c.id))
        | none => g3.board.pieces) := by
      cases hcp : move.capturedPiece with
      | none => exact hp3
      | some c =>
        refine List.mem_filter.2 ⟨hp3, ?_⟩
        have := hcap c hcp
        simp [hid3]
        exact fun e => this e.symm
    have hmoved : f p3 ∈ (g3.board.makeMove move).pieces := by
      rw [hpieces]
      exact List.mem_map.2 ⟨p3, hkept, rfl⟩
    refine ⟨_, (Board.setIsEnPassantTarget_mem _ _ _ _).2 ⟨f p3, hmoved, rfl⟩, ?_⟩
    have hfid : (f p3).id = move.piece.id := by rw [(hf p3).1, hid3]
    rw [if_pos hfid]
    refine ⟨hfid, ?_, rfl⟩
    show (f p3).position = move.to_
    rw [hfn (isDoublePawnMove_spec move hd).2 p3, if_pos hid3]

set_option maxRecDepth 100000 in
theorem makeMove_double_pawn_push_witness :
    (Examples.start.makeMove Examples.pawnE2E4).state.enPassantTargetPosition = some ⟨3, 5⟩ ∧
    ∃ q ∈ (Examples.start.makeMove Examples.pawnE2E4).state.board.pieces,
      q.id = 12 ∧ q.position = ⟨4, 5⟩ ∧ q.isEnPassantTarget = true :=
  ⟨(makeMove_double_pawn_push Examples.start Examples.pawnE2E4 (by decide) (by decide)).1,
    (makeMove_double_pawn_push Examples.start Examples.pawnE2E4 (by decide) (by decide)).2.2
      (by decide) (by decide)⟩


/-- C13: after a successful `makeMove` that is not a double pawn push the
en-passant target is empty and the pawn the target belonged to (the one
`getEnPassantTargetPiece` finds behind it) is not flagged any more; when before the
move no other piece carried the flag, no piece on the board carries it afterwards. -/
theorem makeMove_clears_en_passant (g : Game) (move : Move)
    (hd : move.isDoublePawnMove = false) (h : (g.makeMove move).raised = none) :
    (g.makeMove move).state.enPassantTargetPosition = none ∧
    (∀ old, g.getEnPassantTargetPiece = Except.ok (some old) →
      ∀ q ∈ (g.makeMove move).state.board.pieces, q.id = old.id →
        q.isEnPassantTarget = false) ∧
    ((∀ p ∈ g.board.pieces, p.isEnPassantTarget = true →
        ∃ old, g.getEnPassantTargetPiece = Except.ok (some old) ∧ p.id = old.id) →
      ∀ q ∈ (g.makeMove move).state.board.pieces, q.isEnPassantTarget = false) := by
  obtain ⟨hc, g3, hs, _, _, _, _, _, _, hep, hboard⟩ := makeMove_success_full g move h
  obtain ⟨s1, s2, _, _⟩ := applyToBoard_state (g3.refreshCastlingPossibilites move) move
  obtain ⟨_, _, _, f4, _, _, _, f8⟩ := refreshCastlingPossibilites_frame g3 move
  have hdn : ¬ move.isDoublePawnMove = true := by simp [hd]
  rw [hs, s1, s2, if_neg hdn, if_neg hdn, f4, f8]
  obtain ⟨f, hf, _, hpieces⟩ := Board.makeMove_pieces g3.board move
  -- every piece after the board step comes from a piece before it
  have origin : ∀ q ∈ (g3.board.makeMove move).pieces, ∃ p3 ∈ g3.board.pieces,
      q.id = p3.id ∧ q.isEnPassantTarget = p3.isEnPassantTarget := by
    intro q hq
    rw [hpieces] at hq
    obtain ⟨p3, hp3, rfl⟩ := List.mem_map.1 hq
    refine ⟨p3, ?_, (hf p3).1, (hf p3).2.2⟩
    cases hcp : move.capturedPiece with
    | none => simpa [hcp] using hp3
    | some c =>
      rw [hcp] at hp3
      exact (List.mem_filter.1 hp3).1
  refine ⟨hep, ?_, ?_⟩
  · intro old hold q hq hid
    obtain ⟨p3, hp3, hid3, hflag3⟩ := origin q hq
    rw [hflag3]
    rcases hboard with ⟨hnone, _⟩ | ⟨old1, hold1, hb⟩
    · unfold Game.getEnPassantTargetPiece at hold
      rw [hnone] at hold
      cases hold
    · rw [hold] at hold1
      cases hold1
      rw [hb] at hp3
      obtain ⟨p, _, rfl⟩ := (Board.setIsEnPassantTarget_mem _ _ _ p3).1 hp3
      by_cases hp : p.id = old.id
      · simp [hp]
      · rw [if_neg hp] at hid3
        rw [hid] at hid3
        exact absurd hid3.symm hp
  · intro hcons q hq
    obtain ⟨p3, hp3, _, hflag3⟩ := origin q hq
    rw [hflag3]
    rcases hboard with ⟨hnone, hb⟩ | ⟨old1, hold1, hb⟩
    · rw [hb] at hp3
      cases hfl : p3.isEnPassantTarget with
      | false => rfl
      | true =>
        obtain ⟨old, hold, _⟩ := hcons p3 hp3 hfl
        unfold Game.getEnPassantTargetPiece at hold
        rw [hnone] at hold
        cases hold
    · rw [hb] at hp3
      obtain ⟨p, hp, rfl⟩ := (Board.setIsEnPassantTarget_mem _ _ _ p3).1 hp3
      by_cases hpid : p.id = old1.id
      · simp [hpid]
      · rw [if_neg hpid]
        cases hfl : p.isEnPassantTarget with
        | false => rfl
        | true =>
          obtain ⟨old, hold, hid⟩ := hcons p hp hfl
          rw [hold1] at hold
          cases hold
          exact absurd hid hpid

set_option maxRecDepth 100000 in
theorem makeMove_clears_en_passant_witness :
    ((Examples.start.makeMove Examples.pawnE2E4).state.makeMove
      Examples.knightG8F6).state.enPassantTargetPosition = none ∧
    ∀ q ∈ ((Examples.start.makeMove Examples.pawnE2E4).state.makeMove
      Examples.knightG8F6).state.board.pieces, q.isEnPassantTarget = false :=
  ⟨(makeMove_clears_en_passant (Examples.start.makeMove Examples.pawnE2E4).state
      Examples.knightG8F6 (by decide) (by decide)).1,
    (makeMove_clears_en_passant (Examples.start.makeMove Examples.pawnE2E4).state
      Examples.knightG8F6 (by decide) (by decide)).2.2
      (fun p hp hflag =>
        ⟨⟨12, PieceType.PAWN, Color.WHITE, ⟨4, 5⟩, true⟩, by rfl,
          (by decide : ∀ p ∈ (Examples.start.makeMove Examples.pawnE2E4).state.board.pieces,
            p.isEnPassantTarget = true → p.id = 12) p hp hflag⟩)⟩

/-! ### Rosters -/

theorem rosterMatchesBoard_iff (g : Game) (c : Color) :
    g.rosterMatchesBoard c = true ↔
      ∀ i : Nat, i ∈ (g.player c).pieces ↔ ∃ p ∈ g.board.pieces, p.id = i ∧ p.color = c := by
  unfold Game.rosterMatchesBoard
  simp only [Bool.and_eq_true, List.all_eq_true, List.any_eq_true, decide_eq_true_eq,
    Bool.or_eq_true, Bool.not_eq_true', decide_eq_false_iff_not]
  constructor
  · rintro ⟨h1, h2⟩ i
    constructor
    · intro hi; exact h1 i hi
    · rintro ⟨p, hp, rfl, hc⟩
      rcases h2 p hp with h | h
      · exact absurd hc h
      · exact h
  · intro h
    constructor
    · intro i hi; exact (h i).1 hi
    · intro p hp
      by_cases hc : p.color = c
      · exact Or.inr ((h p.id).2 ⟨p, hp, rfl, hc⟩)
      · exact Or.inl hc

theorem applyToBoard_player (g : Game) (move : Move) (c : Color) :
    ∃ r : List Nat,
      r = (if move.promoteTo ≠ PieceType.NONE ∧ c = g.currentPlayer then
        match (g.board.makeMove move).getPiece move.to_ with
        | some promoted =>
          (g.player c).pieces.filter (fun j => decide (j ≠ move.piece.id)) ++ [promoted.id]
        | none => (g.player c).pieces.filter (fun j => decide (j ≠ move.piece.id))
       else (g.player c).pieces) ∧
      ((g.applyToBoard move).player c).pieces =
        match move.capturedPiece with
        | some captured =>
          if c = captured.color then r.filter (fun j => decide (j ≠ captured.id)) else r
        | none => r := by
  refine ⟨_, rfl, ?_⟩
  unfold Game.applyToBoard
  dsimp only
  cases hcap : move.capturedPiece with
  | none =>
    by_cases hp : move.promoteTo = PieceType.NONE <;>
      by_cases hd : move.isDoublePawnMove = true <;>
      cases hget : (g.board.makeMove move).getPiece move.to_ <;>
      cases c <;> cases hcur : g.currentPlayer <;>
      simp [hp, hd, hget, hcur, Game.getPiece, Game.setPlayer, Game.player, Player.removePiece]
  | some cp =>
    cases hcc : cp.color <;>
      by_cases hp : move.promoteTo = PieceType.NONE <;>
      by_cases hd : move.isDoublePawnMove = true <;>
      cases hget : (g.board.makeMove move).getPiece move.to_ <;>
      cases c <;> cases hcur : g.currentPlayer <;>
      simp [hp, hd, hget, hcur, hcc, Game.getPiece, Game.setPlayer, Game.player,
        Player.removePiece]


theorem Board.makeMove_owner (b : Board) (m : Move) (i : Nat) (c : Color) :
    (∃ q ∈ (b.makeMove m).pieces, q.id = i ∧ q.color = c) ↔
      (∃ p ∈ b.pieces, p.id = i ∧ p.color = c) ∧
        ∀ cp, m.capturedPiece = some cp → i ≠ cp.id := by
  obtain ⟨f, hf, _, hpieces⟩ := Board.makeMove_pieces b m
  rw [hpieces]
  cases hcp : m.capturedPiece with
  | none =>
    simp only [List.mem_map]
    constructor
    · rintro ⟨q, ⟨p, hp, rfl⟩, hi, hc⟩
      exact ⟨⟨p, hp, by rw [← (hf p).1]; exact hi, by rw [← (hf p).2.1]; exact hc⟩,
        fun cp h => by cases h⟩
    · rintro ⟨⟨p, hp, hi, hc⟩, _⟩
      exact ⟨f p, ⟨p, hp, rfl⟩, by rw [(hf p).1]; exact hi, by rw [(hf p).2.1]; exact hc⟩
  | some cp =>
    simp only [List.mem_map, List.mem_filter]
    constructor
    · rintro ⟨q, ⟨p, ⟨hp, hne⟩, rfl⟩, hi, hc⟩
      refine ⟨⟨p, hp, by rw [← (hf p).1]; exact hi, by rw [← (hf p).2.1]; exact hc⟩, ?_⟩
      intro cp1 h1
      cases h1
      rw [(hf p).1] at hi
      rw [← hi]
      simpa using hne
    · rintro ⟨⟨p, hp, hi, hc⟩, hne⟩
      refine ⟨f p, ⟨p, ⟨hp, ?_⟩, rfl⟩, by rw [(hf p).1]; exact hi, by rw [(hf p).2.1]; exact hc⟩
      have := hne cp rfl
      rw [← hi] at this
      simpa using this

theorem Board.setIsEnPassantTarget_owner (b : Board) (j : Nat) (v : Bool) (i : Nat) (c : Color) :
    (∃ q ∈ (b.setIsEnPassantTarget j v).pieces, q.id = i ∧ q.color = c) ↔
      (∃ p ∈ b.pieces, p.id = i ∧ p.color = c) := by
  constructor
  · rintro ⟨q, hq, hi, hc⟩
    obtain ⟨p, hp, rfl⟩ := (Board.setIsEnPassantTarget_mem b j v q).1 hq
    refine ⟨p, hp, ?_, ?_⟩
    · split_ifs at hi <;> simpa using hi
    · split_ifs at hc <;> simpa using hc
  · rintro ⟨p, hp, hi, hc⟩
    refine ⟨_, (Board.setIsEnPassantTarget_mem b j v _).2 ⟨p, hp, rfl⟩, ?_, ?_⟩
    · split_ifs <;> simpa using hi
    · split_ifs <;> simpa using hc

theorem Board.setIsEnPassantTarget_at (b : Board) (j : Nat) (v : Bool) (i : Nat)
    (pos : Position) :
    (∃ q ∈ (b.setIsEnPassantTarget j v).pieces, q.id = i ∧ q.position = pos) ↔
      (∃ p ∈ b.pieces, p.id = i ∧ p.position = pos) := by
  constructor
  · rintro ⟨q, hq, hi, hc⟩
    obtain ⟨p, hp, rfl⟩ := (Board.setIsEnPassantTarget_mem b j v q).1 hq
    refine ⟨p, hp, ?_, ?_⟩
    · split_ifs at hi <;> simpa using hi
    · split_ifs at hc <;> simpa using hc
  · rintro ⟨p, hp, hi, hc⟩
    refine ⟨_, (Board.setIsEnPassantTarget_mem b j v _).2 ⟨p, hp, rfl⟩, ?_, ?_⟩
    · split_ifs <;> simpa using hi
    · split_ifs <;> simpa using hc

/-- After a move that is not a castling, the piece found on the destination is the
moving piece, provided nothing else is left standing there. -/
theorem Board.makeMove_getPiece_to (b : Board) (m : Move) (hcast : m.isCastling = false)
    (hmem : ∃ p ∈ b.pieces, p.id = m.piece.id)
    (hcap : ∀ c, m.capturedPiece = some c → c.id ≠ m.piece.id)
    (hdest : ∀ x ∈ b.pieces, x.position = m.to_ →
      x.id = m.piece.id ∨ ∃ c, m.capturedPiece = some c ∧ x.id = c.id) :
    ∃ q, (b.makeMove m).getPiece m.to_ = some q ∧ q.id = m.piece.id := by
  obtain ⟨f, hf, hfn, hpieces⟩ := Board.makeMove_pieces b m
  have hkept : ∀ p, p ∈ (match m.capturedPiece with
        | some c => b.pieces.filter (fun p : Piece => decide (p.id ≠ c.id))
        | none => b.pieces) ↔ p ∈ b.pieces ∧ ∀ c, m.capturedPiece = some c → p.id ≠ c.id := by
    intro p
    cases hcp : m.capturedPiece with
    | none => simp
    | some c => simp [List.mem_filter]
  obtain ⟨p0, hp0, hid0⟩ := hmem
  have hin : f p0 ∈ (b.makeMove m).pieces := by
    rw [hpieces]
    refine List.mem_map.2 ⟨p0, (hkept p0).2 ⟨hp0, fun c hc => ?_⟩, rfl⟩
    rw [hid0]
    exact fun e => hcap c hc e.symm
  have hpos0 : (f p0).position = m.to_ := by
    rw [hfn hcast p0, if_pos hid0]
  cases hget : (b.makeMove m).getPiece m.to_ with
  | none =>
    unfold Board.getPiece at hget
    have := List.find?_eq_none.1 hget (f p0) hin
    simp [hpos0] at this
  | some q =>
    refine ⟨q, rfl, ?_⟩
    have hqmem := Board.getPiece_mem _ _ q hget
    have hqpos := Board.getPiece_position _ _ q hget
    rw [hpieces] at hqmem
    obtain ⟨p, hp, rfl⟩ := List.mem_map.1 hqmem
    obtain ⟨hpb, hpc⟩ := (hkept p).1 hp
    by_cases hid : p.id = m.piece.id
    · rw [(hf p).1, hid]
    · exfalso
      rw [hfn hcast p, if_neg hid] at hqpos
      rcases hdest p hpb hqpos with h1 | ⟨c, hc, h1⟩
      · exact hid h1
      · exact hpc c hc h1

theorem Board.setIsEnPassantTarget_getPiece (b : Board) (j : Nat) (v : Bool) (pos : Position) :
    (b.setIsEnPassantTarget j v).getPiece pos =
      (b.getPiece pos).map (fun p => if p.id = j then { p with isEnPassantTarget := v } else p) := by
  unfold Board.getPiece Board.setIsEnPassantTarget
  simp only [List.find?_map]
  congr 1
  induction b.pieces with
  | nil => rfl
  | cons p rest ih =>
    simp only [List.find?_cons, Function.comp]
    rw [ih]
    by_cases hp : p.id = j <;> simp [hp]

/-- C14: a successful `makeMove` with a move that fits the position (its piece and
its captured piece are objects of the board, and on promotion the mover is a pawn
and nothing but the captured piece stood on the destination) keeps both rosters
equal to the sets of the pieces of their colour on the board: the captured piece is
no longer in its owner's roster and, on promotion, the piece standing on the
destination square is in the mover's roster. -/
theorem makeMove_keeps_rosters (g : Game) (move : Move)
    (hwf : g.board.WellFormed)
    (hpiece : move.piece ∈ g.board.pieces)
    (hcap : ∀ c, move.capturedPiece = some c → c ∈ g.board.pieces ∧ c.id ≠ move.piece.id)
    (hpromo : move.promoteTo ≠ PieceType.NONE → move.piece.type = PieceType.PAWN ∧
      ∀ x ∈ g.board.pieces, x.position = move.to_ →
        x = move.piece ∨ move.capturedPiece = some x)
    (hW : g.rosterMatchesBoard Color.WHITE = true)
    (hB : g.rosterMatchesBoard Color.BLACK = true)
    (h : (g.makeMove move).raised = none) :
    (g.makeMove move).state.rosterMatchesBoard Color.WHITE = true ∧
    (g.makeMove move).state.rosterMatchesBoard Color.BLACK = true ∧
    (∀ c, move.capturedPiece = some c →
      c.id ∉ ((g.makeMove move).state.player c.color).pieces ∧
      ∀ q ∈ (g.makeMove move).state.board.pieces, q.id ≠ c.id) ∧
    (move.promoteTo ≠ PieceType.NONE →
      ∃ q, (g.makeMove move).state.getPiece move.to_ = some q ∧ q.id = move.piece.id ∧
        q.id ∈ ((g.makeMove move).state.player move.piece.color).pieces) := by
  have inv : ∀ (c : Color) (i : Nat), i ∈ (g.player c).pieces ↔
      ∃ p ∈ g.board.pieces, p.id = i ∧ p.color = c := by
    intro c
    cases c
    · exact (rosterMatchesBoard_iff g Color.WHITE).1 hW
    · exact (rosterMatchesBoard_iff g Color.BLACK).1 hB
  obtain ⟨hc, g3, hs, _, _, hcur, _, hwp, hbp, _, hboard⟩ := makeMove_success_full g move h
  obtain ⟨s1, _, _, _⟩ := applyToBoard_state (g3.refreshCastlingPossibilites move) move
  obtain ⟨_, _, f3, f4, _, f6, f7, _⟩ := refreshCastlingPossibilites_frame g3 move
  rw [f4] at s1
  have hplayer : ∀ c, (g3.refreshCastlingPossibilites move).player c = g.player c := by
    intro c
    cases c
    · show (g3.refreshCastlingPossibilites move).whitePlayer = g.whitePlayer
      rw [f6, hwp]
    · show (g3.refreshCastlingPossibilites move).blackPlayer = g.blackPlayer
      rw [f7, hbp]
  -- the board before the board step has the same pieces up to the en-passant flag
  have own3 : ∀ (i : Nat) (c : Color), (∃ p ∈ g3.board.pieces, p.id = i ∧ p.color = c) ↔
      (∃ p ∈ g.board.pieces, p.id = i ∧ p.color = c) := by
    intro i c
    rcases hboard with ⟨_, hb⟩ | ⟨old, _, hb⟩
    · rw [hb]
    · rw [hb]; exact Board.setIsEnPassantTarget_owner _ _ _ _ _
  have at3 : ∀ (i : Nat) (pos : Position),
      (∃ p ∈ g3.board.pieces, p.id = i ∧ p.position = pos) ↔
      (∃ p ∈ g.board.pieces, p.id = i ∧ p.position = pos) := by
    intro i pos
    rcases hboard with ⟨_, hb⟩ | ⟨old, _, hb⟩
    · rw [hb]
    · rw [hb]; exact Board.setIsEnPassantTarget_at _ _ _ _ _
  -- the pieces of the final board
  have ownF : ∀ (i : Nat) (c : Color),
      (∃ q ∈ (g.makeMove move).state.board.pieces, q.id = i ∧ q.color = c) ↔
        (∃ p ∈ g.board.pieces, p.id = i ∧ p.color = c) ∧
          ∀ cp, move.capturedPiece = some cp → i ≠ cp.id := by
    intro i c
    rw [hs, s1]
    split_ifs
    · rw [Board.setIsEnPassantTarget_owner, Board.makeMove_owner, own3]
    · rw [Board.makeMove_owner, own3]
  -- the piece found on the destination after a promotion
  have hdest : move.promoteTo ≠ PieceType.NONE →
      ∃ q, (g3.board.makeMove move).getPiece move.to_ = some q ∧ q.id = move.piece.id := by
    intro hp
    obtain ⟨hpawn, hfree⟩ := hpromo hp
    have hcast : move.isCastling = false := by
      unfold Move.isCastling
      simp [hpawn]
    refine Board.makeMove_getPiece_to g3.board move hcast
      ((own3 _ _).2 ⟨move.piece, hpiece, rfl, rfl⟩ |>.imp fun p hp => ⟨hp.1, hp.2.1⟩)
      (fun c hcp => (hcap c hcp).2) ?_
    intro x hx hxpos
    obtain ⟨y, hy, hyid, hypos⟩ := (at3 x.id move.to_).1 ⟨x, hx, rfl, hxpos⟩
    rcases hfree y hy hypos with h1 | h1
    · left; rw [← hyid, h1]
    · right; exact ⟨y, h1, hyid.symm⟩
  have hpid : move.piece.id ∈ (g.player g.currentPlayer).pieces :=
    (inv _ _).2 ⟨move.piece, hpiece, rfl, hc.symm⟩
  -- the rosters after the call
  have roster : ∀ (c : Color) (i : Nat), i ∈ ((g.makeMove move).state.player c).pieces ↔
      i ∈ (g.player c).pieces ∧
        ∀ cp, move.capturedPiece = some cp → c = cp.color → i ≠ cp.id := by
    intro c i
    obtain ⟨r, hr, hroster⟩ := applyToBoard_player (g3.refreshCastlingPossibilites move) move c
    rw [hplayer, f3, hcur, f4] at hr
    rw [hs, hroster]
    have r2 : i ∈ r ↔ i ∈ (g.player c).pieces := by
      rw [hr]
      split_ifs with hp
      · obtain ⟨q, hq, hqid⟩ := hdest hp.1
        rw [hq]
        simp only [List.mem_append, List.mem_filter, List.mem_singleton, hqid]
        rw [hp.2]
        constructor
        · rintro (⟨h1, _⟩ | h1)
          · exact h1
          · rw [h1]; exact hpid
        · intro h1
          by_cases e : i = move.piece.id
          · exact Or.inr e
          · exact Or.inl ⟨h1, by simpa using e⟩
      · rfl
    cases hcp : move.capturedPiece with
    | none =>
      simp only []
      rw [r2]
      simp
    | some cp =>
      simp only []
      split_ifs with hcc
      · rw [List.mem_filter, r2]
        simp [hcc]
      · rw [r2]
        constructor
        · intro h1
          exact ⟨h1, fun cp1 e1 e2 => by cases e1; exact absurd e2 hcc⟩
        · exact fun h1 => h1.1
  have final : ∀ c, (g.makeMove move).state.rosterMatchesBoard c = true := by
    intro c
    rw [rosterMatchesBoard_iff]
    intro i
    rw [roster, ownF, inv]
    constructor
    · rintro ⟨⟨p, hp, hid, hcol⟩, hne⟩
      refine ⟨⟨p, hp, hid, hcol⟩, fun cp hcp => ?_⟩
      by_cases hcc : c = cp.color
      · exact hne cp hcp hcc
      · intro e
        have := Board.eq_of_id_eq g.board hwf p cp hp (hcap cp hcp).1 (hid.trans e)
        rw [this] at hcol
        exact hcc hcol.symm
    · rintro ⟨hex, hne⟩
      exact ⟨hex, fun cp hcp _ => hne cp hcp⟩
  refine ⟨final _, final _, ?_, ?_⟩
  · intro cp hcp
    constructor
    · intro hin
      exact ((roster cp.color cp.id).1 hin).2 cp hcp rfl rfl
    · intro q hq hid
      exact ((ownF q.id q.color).1 ⟨q, hq, rfl, rfl⟩).2 cp hcp hid
  · intro hp
    obtain ⟨q, hq, hqid⟩ := hdest hp
    have hget : ∃ q1, (g.makeMove move).state.getPiece move.to_ = some q1 ∧
        q1.id = move.piece.id := by
      unfold Game.getPiece
      rw [hs, s1]
      split_ifs
      · rw [Board.setIsEnPassantTarget_getPiece, hq]
        refine ⟨_, rfl, ?_⟩
        simp only []
        by_cases e : q.id = move.piece.id
        · rw [if_pos e]; exact hqid
        · exact absurd hqid e
      · exact ⟨q, hq, hqid⟩
    obtain ⟨q1, hq1, hq1id⟩ := hget
    refine ⟨q1, hq1, hq1id, ?_⟩
    rw [hq1id, roster, ← hc]
    refine ⟨hpid, fun cp hcp _ e => (hcap cp hcp).2 e.symm⟩

set_option maxRecDepth 100000 in
/-- The roster property at the capture-promotion a7xb8=Q in the position K e1, P a7
against k e8, r b8. -/
theorem makeMove_keeps_rosters_witness :
    (Examples.promotionPosition.makeMove Examples.pawnA7xB8Queen).state.rosterMatchesBoard
      Color.WHITE = true ∧
    (Examples.promotionPosition.makeMove Examples.pawnA7xB8Queen).state.rosterMatchesBoard
      Color.BLACK = true ∧
    (3 ∉ ((Examples.promotionPosition.makeMove Examples.pawnA7xB8Queen).state.player
      Color.BLACK).pieces) ∧
    (∃ q, (Examples.promotionPosition.makeMove Examples.pawnA7xB8Queen).state.getPiece ⟨8, 2⟩ =
        some q ∧ q.id = 1 ∧
      q.id ∈ ((Examples.promotionPosition.makeMove Examples.pawnA7xB8Queen).state.player
        Color.WHITE).pieces) :=
  have key := makeMove_keeps_rosters Examples.promotionPosition Examples.pawnA7xB8Queen
    (by decide) (by decide)
    (fun c hc => by
      have e : (⟨3, PieceType.ROOK, Color.BLACK, ⟨8, 2⟩, false⟩ : Piece) = c := Option.some.inj hc
      subst e
      exact ⟨by decide, by decide⟩)
    (fun _ => ⟨by decide, by decide⟩) (by decide) (by decide) (by decide)
  ⟨key.1, key.2.1, (key.2.2.1 ⟨3, PieceType.ROOK, Color.BLACK, ⟨8, 2⟩, false⟩ rfl).1,
    key.2.2.2 (by decide)⟩

/-! ### Controlled squares -/

set_option maxRecDepth 1000000 in
/-- C16 fails on the code: with White Ke1, Rh1 against the lone black king on e8,
White to move, `isFieldControlledByPlayer((1,7), BLACK)` is true although no
non-pawn piece of Black has a pseudo-legal move to g1 and Black has no pawn: the
move list of the black player consists of White's castling candidate e1-g1. -/
theorem isFieldControlledByPlayer_counts_castling_of_opponent :
    Examples.kingAndRook.isFieldControlledByPlayer ⟨1, 7⟩ Color.BLACK = Except.ok true ∧
    (∀ p ∈ Examples.kingAndRook.board.pieces, p.color = Color.BLACK →
      p.type ≠ PieceType.PAWN ∧ ∀ m ∈ p.getMoves Examples.kingAndRook.board, m.to_ ≠ ⟨1, 7⟩) ∧
    Examples.kingAndRook.getAllMovesForPlayer Color.BLACK =
      Except.ok [Examples.castleKingside] ∧
    Examples.castleKingside.piece.color = Color.WHITE :=
  ⟨by rfl, by decide, by rfl, by rfl⟩

/-! ### The starting position -/

/-- The constructor ignores the player names as far as the embedded state goes. -/
theorem Game.new_eq_start (whiteName blackName : String) :
    Game.new whiteName blackName = Examples.start := rfl

set_option maxRecDepth 1000000 in
/-- C18: a newly constructed `Game`, whatever the player names, has an empty move
history, White to move, for each player a roster of exactly 16 distinct pieces that
is the set of the pieces of that colour on the board, all four castling rights, no
en-passant target, halfmove clock 0 and fullmove number 1. -/
theorem new_game (whiteName blackName : String) :
    (Game.new whiteName blackName).moveHistory = [] ∧
    (Game.new whiteName blackName).currentPlayer = Color.WHITE ∧
    (Game.new whiteName blackName).whitePlayer.pieces.length = 16 ∧
    (Game.new whiteName blackName).blackPlayer.pieces.length = 16 ∧
    (Game.new whiteName blackName).whitePlayer.pieces.Nodup ∧
    (Game.new whiteName blackName).blackPlayer.pieces.Nodup ∧
    (Game.new whiteName blackName).rosterMatchesBoard Color.WHITE = true ∧
    (Game.new whiteName blackName).rosterMatchesBoard Color.BLACK = true ∧
    (Game.new whiteName blackName).board = Board.startingBoard ∧
    (Game.new whiteName blackName).canWhiteKingsideCastle = true ∧
    (Game.new whiteName blackName).canWhiteQueensideCastle = true ∧
    (Game.new whiteName blackName).canBlackKingsideCastle = true ∧
    (Game.new whiteName blackName).canBlackQueensideCastle = true ∧
    (Game.new whiteName blackName).enPassantTargetPosition = none ∧
    (Game.new whiteName blackName).halfmoveClock = 0 ∧
    (Game.new whiteName blackName).fullmoveNumber = 1 :=
  ⟨rfl, rfl, by rfl, by rfl,
    (by decide : (Game.new "" "").whitePlayer.pieces.Nodup),
    (by decide : (Game.new "" "").blackPlayer.pieces.Nodup),
    by rfl, by rfl, rfl, rfl, rfl, rfl, rfl, rfl, rfl, rfl⟩

set_option maxRecDepth 1000000 in
set_option maxHeartbeats 4000000 in
/-- C17 as stated fails: in the starting position, White to move,
`getLegalMovesForPlayer` returns no move for Black. -/
theorem starting_position_no_legal_moves_for_black :
    Examples.start.getLegalMovesForPlayer Color.BLACK = Except.ok [] ∧
    Examples.start.currentPlayer = Color.WHITE := ⟨by rfl, by rfl⟩

set_option maxRecDepth 1000000 in
set_option maxHeartbeats 4000000 in
/-- C17, amended: in the starting position `getLegalMovesForPlayer` returns exactly
20 moves for White, the side to move, and none for Black; the black pieces have 20
pseudo-legal moves, which are the legal moves of Black once White has moved (here
e2-e4); `isCheck(White)`, `isCheck(Black)`, `isMate()` and `isStalemate()` are all
false. -/
theorem starting_position (whiteName blackName : String) :
    ((Game.new whiteName blackName).getLegalMovesForPlayer Color.WHITE).map List.length =
      Except.ok 20 ∧
    (Game.new whiteName blackName).getLegalMovesForPlayer Color.BLACK = Except.ok [] ∧
    ((Game.new whiteName blackName).getAllMovesForPlayer Color.BLACK).map List.length =
      Except.ok 20 ∧
    (((Game.new whiteName blackName).makeMove Examples.pawnE2E4).state.getLegalMovesForPlayer
      Color.BLACK).map List.length = Except.ok 20 ∧
    (Game.new whiteName blackName).isCheck Color.WHITE = Except.ok false ∧
    (Game.new whiteName blackName).isCheck Color.BLACK = Except.ok false ∧
    (Game.new whiteName blackName).isMate = Except.ok false ∧
    (Game.new whiteName blackName).isStalemate = Except.ok false := by
  rw [Game.new_eq_start]
  exact ⟨by rfl, by rfl, by rfl, by rfl, by rfl, by rfl, by rfl, by rfl⟩

set_option maxRecDepth 1000000 in
set_option maxHeartbeats 4000000 in
/-- C19: from a newly constructed game the moves f2f3, e7e5, g2g4, d8h4, each among
the legal moves when it is made, lead to a game with White to move in which
`isMate()` is true, `isCheck(White)` is true and White has no legal move. -/
theorem fools_mate (whiteName blackName : String) :
    ∃ final, (Game.new whiteName blackName).playLegalMoves Examples.foolsMate = some final ∧
      final.currentPlayer = Color.WHITE ∧
      final.isMate = Except.ok true ∧
      final.isCheck Color.WHITE = Except.ok true ∧
      final.getLegalMovesForPlayer Color.WHITE = Except.ok [] := by
  rw [Game.new_eq_start]
  exact ⟨(Examples.start.makeMoves Examples.foolsMate).state,
    by rfl, by rfl, by rfl, by rfl, by rfl⟩

/-! ### Sliding pieces -/

/-- Stepping once and then `k` times is stepping `k + 1` times. -/
theorem Position.shift_succ (p : Position) (d : Int × Int) (k : Nat) :
    (Position.shift ⟨p.row + d.1, p.col + d.2⟩ d k) = p.shift d (k + 1) := by
  unfold Position.shift
  simp only [Position.mk.injEq]
  constructor <;> push_cast <;> ring

/-- One step in direction `d`. -/
theorem Position.shift_one (p : Position) (d : Int × Int) :
    p.shift d 1 = ⟨p.row + d.1, p.col + d.2⟩ := by
  unfold Position.shift
  simp

/-- Membership in the walk from `cur` with `fuel` steps left. -/
theorem walkDirection_mem (b : Board) (piece : Piece) (d : Int × Int) (m : Move) :
    ∀ (fuel : Nat) (cur : Position),
      m ∈ walkDirection b piece d.1 d.2 fuel cur ↔
        ∃ k : Nat, 1 ≤ k ∧ k ≤ fuel ∧
          (∀ j : Nat, 1 ≤ j → j < k →
            (cur.shift d j).inBounds = true ∧ b.getPiece (cur.shift d j) = none) ∧
          (cur.shift d k).inBounds = true ∧
          m.from_ = piece.position ∧ m.to_ = cur.shift d k ∧ m.piece = piece ∧
          m.promoteTo = PieceType.NONE ∧
          ((b.getPiece (cur.shift d k) = none ∧ m.capturedPiece = none) ∨
            ∃ q, b.getPiece (cur.shift d k) = some q ∧ q.color ≠ piece.color ∧
              m.capturedPiece = some q) := by
  intro fuel
  induction fuel with
  | zero =>
    intro cur
    simp only [walkDirection, List.not_mem_nil, false_iff]
    rintro ⟨k, h1, h2, _⟩
    omega
  | succ fuel ih =>
    intro cur
    unfold walkDirection
    simp only []
    rw [← Position.shift_one cur d]
    by_cases hin : (cur.shift d 1).inBounds = true
    · rw [if_pos hin]
      cases hget : b.getPiece (cur.shift d 1) with
      | none =>
        simp only [List.mem_cons]
        rw [Position.shift_one, ih, ← Position.shift_one cur d]
        constructor
        · rintro (rfl | ⟨k, hk1, hk2, hbefore, hkin, hrest⟩)
          · exact ⟨1, le_refl 1, by omega, fun j h1 h2 => by omega, hin, rfl, rfl, rfl, rfl,
              Or.inl ⟨hget, rfl⟩⟩
          · rw [Position.shift_one, Position.shift_succ] at hkin hrest
            refine ⟨k + 1, by omega, by omega, ?_, hkin, hrest⟩
            intro j hj1 hj2
            by_cases hj : j = 1
            · subst hj; exact ⟨hin, hget⟩
            · have := hbefore (j - 1) (by omega) (by omega)
              rw [Position.shift_one, Position.shift_succ] at this
              have e : j - 1 + 1 = j := by omega
              rwa [e] at this
        · rintro ⟨k, hk1, hk2, hbefore, hkin, hfrom, hto, hpiece, hpromo, hcap⟩
          by_cases hk : k = 1
          · subst hk
            left
            rcases hcap with ⟨_, hc⟩ | ⟨q, hq, _⟩
            · cases m
              simp only at hfrom hto hpiece hpromo hc
              subst hfrom hto hpiece hpromo hc
              rfl
            · rw [hget] at hq; cases hq
          · right
            refine ⟨k - 1, by omega, by omega, ?_, ?_⟩
            · intro j hj1 hj2
              rw [Position.shift_one, Position.shift_succ]
              exact hbefore (j + 1) (by omega) (by omega)
            · rw [Position.shift_one, Position.shift_succ]
              have e : k - 1 + 1 = k := by omega
              rw [e]
              exact ⟨hkin, hfrom, hto, hpiece, hpromo, hcap⟩
      | some q =>
        simp only []
        have hk1 : ∀ k : Nat, 1 ≤ k →
            (∀ j : Nat, 1 ≤ j → j < k →
              (cur.shift d j).inBounds = true ∧ b.getPiece (cur.shift d j) = none) → k = 1 := by
          intro k hk hbefore
          by_contra hne
          have := (hbefore 1 (le_refl 1) (by omega)).2
          rw [hget] at this; cases this
        by_cases hcol : q.color ≠ piece.color
        · rw [if_pos hcol]
          simp only [List.mem_singleton]
          constructor
          · rintro rfl
            exact ⟨1, le_refl 1, by omega, fun j h1 h2 => by omega, hin, rfl, rfl, rfl, rfl,
              Or.inr ⟨q, hget, hcol, rfl⟩⟩
          · rintro ⟨k, hk1', hk2, hbefore, hkin, hfrom, hto, hpiece, hpromo, hcap⟩
            have hk := hk1 k hk1' hbefore
            subst hk
            rcases hcap with ⟨hn, _⟩ | ⟨q1, hq1, _, hc⟩
            · rw [hget] at hn; cases hn
            · rw [hget] at hq1
              cases hq1
              cases m
              simp only at hfrom hto hpiece hpromo hc
              subst hfrom hto hpiece hpromo hc
              rfl
        · rw [if_neg hcol]
          simp only [List.not_mem_nil, false_iff]
          rintro ⟨k, hk1', hk2, hbefore, hkin, hfrom, hto, hpiece, hpromo, hcap⟩
          have hk := hk1 k hk1' hbefore
          subst hk
          rcases hcap with ⟨hn, _⟩ | ⟨q1, hq1, hc1, _⟩
          · rw [hget] at hn; cases hn
          · rw [hget] at hq1
            cases hq1
            exact hcol hc1
    · rw [if_neg hin]
      simp only [List.not_mem_nil, false_iff]
      rintro ⟨k, hk1, hk2, hbefore, hkin, _⟩
      by_cases hk : k = 1
      · subst hk; exact hin hkin
      · exact hin (hbefore 1 (le_refl 1) (by omega)).1

/-- A board run in one of the eight directions that starts and ends on the board has
at most eight squares. -/
theorem Position.shift_inBounds_le (p : Position) (d : Int × Int)
    (hd : d ∈ [((1 : Int), (0 : Int)), (-1, 0), (0, 1), (0, -1), (1, 1), (1, -1), (-1, 1), (-1, -1)])
    (k : Nat) (h1 : (p.shift d 1).inBounds = true) (hk : (p.shift d k).inBounds = true) :
    k ≤ 8 := by
  unfold Position.inBounds Position.shift at h1 hk
  simp only [Bool.and_eq_true, decide_eq_true_eq] at h1 hk
  simp only [List.mem_cons, List.mem_singleton, List.not_mem_nil, or_false] at hd
  rcases hd with rfl | rfl | rfl | rfl | rfl | rfl | rfl | rfl <;> simp only [] at h1 hk <;> omega

/-- Two runs in the eight directions from the same square meet only when they are the
same run at the same distance. -/
theorem Position.shift_injective (p : Position) (d e : Int × Int)
    (hd : d ∈ [((1 : Int), (0 : Int)), (-1, 0), (0, 1), (0, -1), (1, 1), (1, -1), (-1, 1), (-1, -1)])
    (he : e ∈ [((1 : Int), (0 : Int)), (-1, 0), (0, 1), (0, -1), (1, 1), (1, -1), (-1, 1), (-1, -1)])
    (j k : Nat) (hj : 1 ≤ j) (hk : 1 ≤ k) (h : p.shift d j = p.shift e k) : d = e ∧ j = k := by
  unfold Position.shift at h
  simp only [Position.mk.injEq] at h
  simp only [List.mem_cons, List.mem_singleton, List.not_mem_nil, or_false] at hd he
  rcases hd with rfl | rfl | rfl | rfl | rfl | rfl | rfl | rfl <;>
    rcases he with rfl | rfl | rfl | rfl | rfl | rfl | rfl | rfl <;>
    simp only [] at h <;>
    first
      | (exact ⟨rfl, by omega⟩)
      | (exfalso; omega)

/-- The moves of `getMovesInDirections` over a set of the eight directions are the
moves of the directional walk: the eight steps of each walk cover the board. -/
theorem getMovesInDirections_mem (b : Board) (piece : Piece) (dirs : List (Int × Int))
    (hdirs : ∀ d ∈ dirs,
      d ∈ [((1 : Int), (0 : Int)), (-1, 0), (0, 1), (0, -1), (1, 1), (1, -1), (-1, 1), (-1, -1)])
    (m : Move) : m ∈ piece.getMovesInDirections b dirs ↔ IsWalkMove b piece dirs m := by
  unfold Piece.getMovesInDirections IsWalkMove
  rw [List.mem_flatMap]
  constructor
  · rintro ⟨d, hd, hm⟩
    obtain ⟨k, hk1, _, hrest⟩ := (walkDirection_mem b piece d m 8 piece.position).1 hm
    exact ⟨d, hd, k, hk1, hrest⟩
  · rintro ⟨d, hd, k, hk1, hbefore, hkin, hrest⟩
    refine ⟨d, hd, (walkDirection_mem b piece d m 8 piece.position).2
      ⟨k, hk1, ?_, hbefore, hkin, hrest⟩⟩
    by_cases hk : k = 1
    · omega
    · exact Position.shift_inBounds_le piece.position d (hdirs d hd) k
        (hbefore 1 (le_refl 1) (by omega)).1 hkin

/-- A walk in one of the eight directions visits no square twice. -/
theorem walkDirection_nodup (b : Board) (piece : Piece) (d : Int × Int)
    (hd : d ∈ [((1 : Int), (0 : Int)), (-1, 0), (0, 1), (0, -1), (1, 1), (1, -1), (-1, 1), (-1, -1)]) :
    ∀ (fuel : Nat) (cur : Position), (walkDirection b piece d.1 d.2 fuel cur).Nodup := by
  intro fuel
  induction fuel with
  | zero => intro cur; simp [walkDirection]
  | succ fuel ih =>
    intro cur
    unfold walkDirection
    simp only []
    split_ifs with hin
    · cases hget : b.getPiece ⟨cur.row + d.1, cur.col + d.2⟩ with
      | none =>
        simp only []
        refine List.nodup_cons.2 ⟨?_, ih _⟩
        intro hmem
        obtain ⟨k, hk1, _, _, _, _, hto, _⟩ :=
          (walkDirection_mem b piece d _ fuel _).1 hmem
        simp only [] at hto
        rw [Position.shift_succ, ← Position.shift_one] at hto
        have := (Position.shift_injective cur d d hd hd 1 (k + 1) (le_refl 1) (by omega) hto).2
        omega
      | some q =>
        simp only []
        split_ifs
        · exact List.nodup_singleton _
        · exact List.nodup_nil
    · exact List.nodup_nil

/-- Walks in distinct directions share no move. -/
theorem getMovesInDirections_nodup (b : Board) (piece : Piece) (dirs : List (Int × Int))
    (hdirs : ∀ d ∈ dirs,
      d ∈ [((1 : Int), (0 : Int)), (-1, 0), (0, 1), (0, -1), (1, 1), (1, -1), (-1, 1), (-1, -1)])
    (hnodup : dirs.Nodup) : (piece.getMovesInDirections b dirs).Nodup := by
  unfold Piece.getMovesInDirections
  rw [List.nodup_flatMap]
  refine ⟨fun d hd => walkDirection_nodup b piece d (hdirs d hd) 8 piece.position, ?_⟩
  refine List.Pairwise.imp_of_mem ?_ hnodup
  intro d e hd he hne m hmd hme
  obtain ⟨j, hj1, _, _, _, _, htoj, _⟩ := (walkDirection_mem b piece d m 8 piece.position).1 hmd
  obtain ⟨k, hk1, _, _, _, _, htok, _⟩ := (walkDirection_mem b piece e m 8 piece.position).1 hme
  exact hne (Position.shift_injective piece.position d e (hdirs d hd) (hdirs e he) j k hj1 hk1
    (htoj.symm.trans htok)).1

/-- C20: for every board and every piece, the moves `Bishop::getMoves` returns are
exactly the moves of the directional walk over the four diagonal directions, and the
moves `Queen::getMoves` returns are exactly those of the walk over the eight
directions: in each direction every empty square before the first occupied square
gives a non-capture move, the first occupied square gives a capture move if and only
if it holds an opposing piece, and no square beyond it or off the board gives a move;
neither list has duplicates.  The queens in the starting position have no moves, and
on the position of the repository's queen test the queen on b3 has the twelve
expected moves. -/
theorem sliding_pieces_getMoves (b : Board) (piece : Piece) :
    (∀ m, m ∈ Bishop.getMoves b piece ↔
      IsWalkMove b piece [(1, 1), (1, -1), (-1, 1), (-1, -1)] m) ∧
    (Bishop.getMoves b piece).Nodup ∧
    (∀ m, m ∈ Queen.getMoves b piece ↔
      IsWalkMove b piece
        [(1, 0), (-1, 0), (0, 1), (0, -1), (1, 1), (1, -1), (-1, 1), (-1, -1)] m) ∧
    (Queen.getMoves b piece).Nodup ∧
    Board.startingBoard.getPiece ⟨1, 4⟩ =
      some ⟨3, PieceType.QUEEN, Color.WHITE, ⟨1, 4⟩, false⟩ ∧
    Piece.getMoves Board.startingBoard ⟨3, PieceType.QUEEN, Color.WHITE, ⟨1, 4⟩, false⟩ = [] ∧
    Board.startingBoard.getPiece ⟨8, 4⟩ =
      some ⟨27, PieceType.QUEEN, Color.BLACK, ⟨8, 4⟩, false⟩ ∧
    Piece.getMoves Board.startingBoard ⟨27, PieceType.QUEEN, Color.BLACK, ⟨8, 4⟩, false⟩ = [] ∧
    Examples.queenTestBoard.getPiece ⟨3, 2⟩ = some Examples.queenB3 ∧
    ((Examples.queenB3.getMoves Examples.queenTestBoard).map
        (fun m => (m.to_, m.isCapture))).Perm
      [(⟨2, 3⟩, false), (⟨1, 4⟩, false), (⟨3, 1⟩, false), (⟨4, 1⟩, false), (⟨4, 2⟩, false),
       (⟨5, 2⟩, false), (⟨6, 2⟩, false), (⟨7, 2⟩, true), (⟨4, 3⟩, false), (⟨5, 4⟩, false),
       (⟨6, 5⟩, false), (⟨7, 6⟩, true)] :=
  ⟨getMovesInDirections_mem b piece _ (by decide),
    getMovesInDirections_nodup b piece _ (by decide) (by decide),
    getMovesInDirections_mem b piece _ (by decide),
    getMovesInDirections_nodup b piece _ (by decide) (by decide),
    by rfl, by rfl, by rfl, by rfl, by rfl, by decide⟩

/-! ### King moves -/

/-- C21 failson the code: `King::getMoves` returns no move at all, whatever the board
and the king.  For the white king on e1 of the position K e1, R h1 against k e8 the
adjacent square e2 is on the board and empty, and the king's move list is empty. -/
theorem king_getMoves_returns_nothing :
    (∀ (b : Board) (piece : Piece), King.getMoves b piece = []) ∧
    Examples.kingAndRook.board.getPiece ⟨1, 5⟩ =
      some ⟨0, PieceType.KING, Color.WHITE, ⟨1, 5⟩, false⟩ ∧
    Position.inBounds ⟨2, 5⟩ = true ∧
    Examples.kingAndRook.board.getPiece ⟨2, 5⟩ = none ∧
    Piece.getMoves Examples.kingAndRook.board ⟨0, PieceType.KING, Color.WHITE, ⟨1, 5⟩, false⟩ =
      [] :=
  ⟨fun _ _ => rfl, by rfl, by rfl, by rfl, by rfl⟩

/-! ### The source square of a move -/

/-- Every move of the walk starts on the piece's square and is made by the piece. -/
theorem walkDirection_source (b : Board) (piece : Piece) (dr dc : Int) :
    ∀ (fuel : Nat) (cur : Position), ∀ m ∈ walkDirection b piece dr dc fuel cur,
      m.from_ = piece.position ∧ m.piece = piece ∧ m.promoteTo = PieceType.NONE := by
  intro fuel
  induction fuel with
  | zero => intro cur m hm; simp [walkDirection] at hm
  | succ n ih =>
    intro cur m hm
    unfold walkDirection at hm
    dsimp only at hm
    split_ifs at hm with h1
    · split at hm
      · rcases List.mem_cons.1 hm with h0 | h0
        · subst h0; exact ⟨rfl, rfl, rfl⟩
        · exact ih _ m h0
      · split_ifs at hm with h2
        · simp at hm; subst hm; exact ⟨rfl, rfl, rfl⟩
        · simp at hm
    · simp at hm

/-- Every pseudo-legal move a piece generates starts on the piece's square and is
made by the piece. -/
theorem Piece.getMoves_source (b : Board) (piece : Piece) :
    ∀ m ∈ piece.getMoves b, m.from_ = piece.position ∧ m.piece = piece := by
  intro m hm
  have walk : ∀ dirs, m ∈ piece.getMovesInDirections b dirs →
      m.from_ = piece.position ∧ m.piece = piece := by
    intro dirs h
    unfold Piece.getMovesInDirections at h
    obtain ⟨d, _, hd⟩ := List.mem_flatMap.1 h
    exact ⟨(walkDirection_source b piece d.1 d.2 8 piece.position m hd).1,
      (walkDirection_source b piece d.1 d.2 8 piece.position m hd).2.1⟩
  unfold Piece.getMoves at hm
  split at hm
  · unfold Pawn.getMoves at hm
    obtain ⟨m0, hm0, hm1⟩ := List.mem_flatMap.1 hm
    obtain ⟨_, _, hp, hf⟩ := (Pawn.withPromotions_spec m0).1 m hm1
    rw [hp, hf]
    simp only [List.mem_append] at hm0
    rcases hm0 with (((h | h) | h) | h) | h
    · unfold Pawn.forwardMoves at h
      dsimp only at h
      split_ifs at h
      · rcases List.mem_cons.1 h with h0 | h0
        · subst h0; exact ⟨rfl, rfl⟩
        · simp at h0; subst h0; exact ⟨rfl, rfl⟩
      · simp at h; subst h; exact ⟨rfl, rfl⟩
      · simp at h
    · unfold Pawn.captureMove at h
      dsimp only at h
      split_ifs at h
      · split at h
        · split_ifs at h
          · simp at h; subst h; exact ⟨rfl, rfl⟩
          · simp at h
        · simp at h
      · simp at h
    · unfold Pawn.captureMove at h
      dsimp only at h
      split_ifs at h
      · split at h
        · split_ifs at h
          · simp at h; subst h; exact ⟨rfl, rfl⟩
          · simp at h
        · simp at h
      · simp at h
    · unfold Pawn.enPassantMove at h
      dsimp only at h
      split_ifs at h
      · split at h
        · split_ifs at h
          · simp at h; subst h; exact ⟨rfl, rfl⟩
          · simp at h
        · simp at h
      · simp at h
    · unfold Pawn.enPassantMove at h
      dsimp only at h
      split_ifs at h
      · split at h
        · split_ifs at h
          · simp at h; subst h; exact ⟨rfl, rfl⟩
          · simp at h
        · simp at h
      · simp at h
  · exact walk _ hm
  · exact walk _ hm
  · unfold Knight.getMoves at hm
    obtain ⟨d, _, hd⟩ := List.mem_flatMap.1 hm
    unfold offsetMove at hd
    dsimp only at hd
    split_ifs at hd
    · split at hd
      · simp at hd; subst hd; exact ⟨rfl, rfl⟩
      · split_ifs at hd
        · simp at hd; subst hd; exact ⟨rfl, rfl⟩
        · simp at hd
    · simp at hd
  · exact walk _ hm
  · simp [King.getMoves] at hm
  · simp at hm

/-- C25 failson the code for kings: `getMovesFrom` of an empty square is empty and
every move returned for a piece that is not a king starts on the square asked about
and is made by the piece standing there; but for the black king on e8 of the position
K e1, R h1 against k e8, White to move, `getMovesFrom(e8)` returns White's castling
move, whose source square is e1 and whose piece is the white king. -/
theorem getMovesFrom_source_except_kings :
    (∀ (g : Game) (p : Position), g.getPiece p = none → g.getMovesFrom p = Except.ok []) ∧
    (∀ (g : Game) (p : Position) (piece : Piece), g.getPiece p = some piece →
      piece.type ≠ PieceType.KING →
      ∃ moves, g.getMovesFrom p = Except.ok moves ∧
        ∀ m ∈ moves, m.from_ = p ∧ m.piece = piece) ∧
    Examples.kingAndRook.getPiece ⟨8, 5⟩ =
      some ⟨2, PieceType.KING, Color.BLACK, ⟨8, 5⟩, false⟩ ∧
    Examples.kingAndRook.getMovesFrom ⟨8, 5⟩ = Except.ok [Examples.castleKingside] ∧
    Examples.castleKingside.from_ = ⟨1, 5⟩ ∧
    Examples.castleKingside.piece = ⟨0, PieceType.KING, Color.WHITE, ⟨1, 5⟩, false⟩ := by
  refine ⟨?_, ?_, by rfl, by rfl, by rfl, by rfl⟩
  · intro g p h
    unfold Game.getMovesFrom
    rw [h]
  · intro g p piece hp hk
    refine ⟨_, getMovesFrom_not_king g p piece hp hk, ?_⟩
    intro m hm
    have hpos : piece.position = p := Board.getPiece_position g.board p piece hp
    rw [← hpos]
    exact Piece.getMoves_source g.board piece m hm

/-! ### Simulation of a move -/

set_option maxRecDepth 100000 in
/-- C22 fails on the code for promotions: in the position K e1, P a7 against k e8,
r b8 the capture-promotion a7xb8=Q is a move of `getMovesFrom(a7)`; `makeMove` leaves
a queen on b8 while the game `afterMove` returns has a pawn there. -/
theorem afterMove_drops_promotion :
    (Examples.promotionPosition.getMovesFrom ⟨7, 1⟩).map
      (fun moves => decide (Examples.pawnA7xB8Queen ∈ moves)) = Except.ok true ∧
    (Examples.promotionPosition.makeMove Examples.pawnA7xB8Queen).raised = none ∧
    ((Examples.promotionPosition.makeMove Examples.pawnA7xB8Queen).state.getPiece ⟨8, 2⟩).map
      (fun p => (p.type, p.color)) = some (PieceType.QUEEN, Color.WHITE) ∧
    (Examples.promotionPosition.afterMove Examples.pawnA7xB8Queen).map
      (fun copy => (copy.getPiece ⟨8, 2⟩).map (fun p => (p.type, p.color))) =
        Except.ok (some (PieceType.PAWN, Color.WHITE)) :=
  ⟨by rfl, by rfl, by rfl, by rfl⟩

/-! ### The frame of the castling rights -/

/-- The rights after `refreshCastlingAfterRookCapture`: only the square of the taken
rook is tested. -/
theorem refreshCastlingAfterRookCapture_rights (g : Game) (r : Piece) :
    ((g.refreshCastlingAfterRookCapture r).canWhiteKingsideCastle =
      (g.canWhiteKingsideCastle && !decide (r.position = ⟨1, 8⟩))) ∧
    ((g.refreshCastlingAfterRookCapture r).canWhiteQueensideCastle =
      (g.canWhiteQueensideCastle && !decide (r.position = ⟨1, 1⟩))) ∧
    ((g.refreshCastlingAfterRookCapture r).canBlackKingsideCastle =
      (g.canBlackKingsideCastle && !decide (r.position = ⟨8, 8⟩))) ∧
    ((g.refreshCastlingAfterRookCapture r).canBlackQueensideCastle =
      (g.canBlackQueensideCastle && !decide (r.position = ⟨8, 1⟩))) := by
  unfold Game.refreshCastlingAfterRookCapture
  dsimp only
  by_cases h1 : r.position = ⟨1, 1⟩
  · simp [h1]
  · by_cases h2 : r.position = ⟨1, 8⟩
    · simp [h2]
    · by_cases h3 : r.position = ⟨8, 1⟩
      · simp [h3]
      · by_cases h4 : r.position = ⟨8, 8⟩
        · simp [h4]
        · simp [h1, h2, h3, h4]

/-- The rights after `refreshCastlingPossibilites` for a move without capture. -/
theorem refreshCastlingPossibilites_rights_quiet (g : Game) (m : Move)
    (hcap : m.capturedPiece = none) :
    ((g.refreshCastlingPossibilites m).canWhiteKingsideCastle =
      (g.canWhiteKingsideCastle && !m.revokesCastling Color.WHITE ⟨1, 8⟩)) ∧
    ((g.refreshCastlingPossibilites m).canWhiteQueensideCastle =
      (g.canWhiteQueensideCastle && !m.revokesCastling Color.WHITE ⟨1, 1⟩)) ∧
    ((g.refreshCastlingPossibilites m).canBlackKingsideCastle =
      (g.canBlackKingsideCastle && !m.revokesCastling Color.BLACK ⟨8, 8⟩)) ∧
    ((g.refreshCastlingPossibilites m).canBlackQueensideCastle =
      (g.canBlackQueensideCastle && !m.revokesCastling Color.BLACK ⟨8, 1⟩)) := by
  have hpos : ∀ (p : Position) (r c : Int), (p.row = r ∧ p.col = c) ↔ p = ⟨r, c⟩ := by
    intro p r c
    cases p
    simp
  unfold Game.refreshCastlingPossibilites Move.revokesCastling
  dsimp only
  simp only [hpos, hcap]
  by_cases hk : m.piece.type = PieceType.KING
  · cases hc : m.piece.color <;> simp [hk, hc]
  · by_cases hr : m.piece.type = PieceType.ROOK
    · cases hc : m.piece.color
      · by_cases h1 : m.from_ = ⟨1, 1⟩
        · simp [hk, hr, hc, h1]
        · by_cases h2 : m.from_ = ⟨1, 8⟩ <;> simp [hk, hr, hc, h1, h2]
      · by_cases h1 : m.from_ = ⟨8, 1⟩
        · simp [hk, hr, hc, h1]
        · by_cases h2 : m.from_ = ⟨8, 8⟩ <;> simp [hk, hr, hc, h1, h2]
    · simp [hk, hr]

/-- The capture branch of `refreshCastlingPossibilites`. -/
theorem refreshCastlingPossibilites_capture (g : Game) (m : Move) (captured : Piece)
    (hcap : m.capturedPiece = some captured) :
    g.refreshCastlingPossibilites m =
      if captured.type = PieceType.ROOK then
        (g.refreshCastlingPossibilites { m with capturedPiece := none }).refreshCastlingAfterRookCapture
          captured
      else g.refreshCastlingPossibilites { m with capturedPiece := none } := by
  unfold Game.refreshCastlingPossibilites
  simp only [hcap]

/-- The castling rights after `refreshCastlingPossibilites`: a right stays set exactly
when it was set and the move does not revoke it. -/
theorem refreshCastlingPossibilites_rights (g : Game) (m : Move) :
    ((g.refreshCastlingPossibilites m).canWhiteKingsideCastle =
      (g.canWhiteKingsideCastle && !m.revokesCastling Color.WHITE ⟨1, 8⟩)) ∧
    ((g.refreshCastlingPossibilites m).canWhiteQueensideCastle =
      (g.canWhiteQueensideCastle && !m.revokesCastling Color.WHITE ⟨1, 1⟩)) ∧
    ((g.refreshCastlingPossibilites m).canBlackKingsideCastle =
      (g.canBlackKingsideCastle && !m.revokesCastling Color.BLACK ⟨8, 8⟩)) ∧
    ((g.refreshCastlingPossibilites m).canBlackQueensideCastle =
      (g.canBlackQueensideCastle && !m.revokesCastling Color.BLACK ⟨8, 1⟩)) := by
  cases hcap : m.capturedPiece with
  | none => exact refreshCastlingPossibilites_rights_quiet g m hcap
  | some captured =>
    obtain ⟨q1, q2, q3, q4⟩ :=
      refreshCastlingPossibilites_rights_quiet g { m with capturedPiece := none } rfl
    rw [refreshCastlingPossibilites_capture g m captured hcap]
    have hrev : ∀ (c : Color) (corner : Position),
        m.revokesCastling c corner =
          (Move.revokesCastling { m with capturedPiece := none } c corner ||
            (decide (captured.type = PieceType.ROOK) && decide (captured.position = corner))) := by
      intro c corner
      unfold Move.revokesCastling
      simp [hcap]
    by_cases hct : captured.type = PieceType.ROOK
    · rw [if_pos hct]
      obtain ⟨e1, e2, e3, e4⟩ := refreshCastlingAfterRookCapture_rights
        (g.refreshCastlingPossibilites { m with capturedPiece := none }) captured
      rw [e1, e2, e3, e4, q1, q2, q3, q4]
      simp only [hrev, hct, decide_True, Bool.true_and, Bool.not_or, Bool.and_assoc]
      exact ⟨trivial, trivial, trivial, trivial⟩
    · rw [if_neg hct, q1, q2, q3, q4]
      simp [hrev, hct]

/-- C26: after a successful `makeMove` each castling right is its previous value
unless the move revokes it, in which case it is false: the right of colour `c` on a
side is revoked exactly when the move is made by a king of colour `c`, or by a rook
of colour `c` leaving `c`'s corner on that side, or captures a rook, of either
colour, standing on `c`'s corner on that side. -/
theorem makeMove_castling_rights (g : Game) (move : Move)
    (h : (g.makeMove move).raised = none) :
    (g.makeMove move).state.canWhiteKingsideCastle =
      (g.canWhiteKingsideCastle && !move.revokesCastling Color.WHITE ⟨1, 8⟩) ∧
    (g.makeMove move).state.canWhiteQueensideCastle =
      (g.canWhiteQueensideCastle && !move.revokesCastling Color.WHITE ⟨1, 1⟩) ∧
    (g.makeMove move).state.canBlackKingsideCastle =
      (g.canBlackKingsideCastle && !move.revokesCastling Color.BLACK ⟨8, 8⟩) ∧
    (g.makeMove move).state.canBlackQueensideCastle =
      (g.canBlackQueensideCastle && !move.revokesCastling Color.BLACK ⟨8, 1⟩) ∧
    (∀ r, move.capturedPiece = some r → move.piece.type ≠ PieceType.KING →
      move.piece.type ≠ PieceType.ROOK →
      (r.position ≠ ⟨1, 8⟩ →
        (g.makeMove move).state.canWhiteKingsideCastle = g.canWhiteKingsideCastle) ∧
      (r.position ≠ ⟨1, 1⟩ →
        (g.makeMove move).state.canWhiteQueensideCastle = g.canWhiteQueensideCastle) ∧
      (r.position ≠ ⟨8, 8⟩ →
        (g.makeMove move).state.canBlackKingsideCastle = g.canBlackKingsideCastle) ∧
      (r.position ≠ ⟨8, 1⟩ →
        (g.makeMove move).state.canBlackQueensideCastle = g.canBlackQueensideCastle)) := by
  obtain ⟨_, g3, hs, _, _, _, r1, r2, r3, r4, _⟩ := makeMove_success g move h
  obtain ⟨_, _, a1, a2, a3, a4⟩ := applyToBoard_frame (g3.refreshCastlingPossibilites move) move
  obtain ⟨q1, q2, q3, q4⟩ := refreshCastlingPossibilites_rights g3 move
  have e1 := (congrArg Game.canWhiteKingsideCastle hs).trans (a1.trans (q1.trans (by rw [r1])))
  have e2 := (congrArg Game.canWhiteQueensideCastle hs).trans (a2.trans (q2.trans (by rw [r2])))
  have e3 := (congrArg Game.canBlackKingsideCastle hs).trans (a3.trans (q3.trans (by rw [r3])))
  have e4 := (congrArg Game.canBlackQueensideCastle hs).trans (a4.trans (q4.trans (by rw [r4])))
  refine ⟨e1, e2, e3, e4, ?_⟩
  intro r hr hk hrook
  have hrev : ∀ (c : Color) (corner : Position), r.position ≠ corner →
      move.revokesCastling c corner = false := by
    intro c corner hne
    unfold Move.revokesCastling
    simp [hr, hk, hrook, hne]
  refine ⟨fun hne => ?_, fun hne => ?_, fun hne => ?_, fun hne => ?_⟩
  · rw [e1, hrev _ _ hne]; simp
  · rw [e2, hrev _ _ hne]; simp
  · rw [e3, hrev _ _ hne]; simp
  · rw [e4, hrev _ _ hne]; simp

/-- The rights after the white rook on a1 captures the black rook on a8. -/
theorem makeMove_castling_rights_witness :
    (Examples.rooksAndKings.makeMove Examples.rookA1xA8).state.canWhiteKingsideCastle = true ∧
    (Examples.rooksAndKings.makeMove Examples.rookA1xA8).state.canWhiteQueensideCastle = false ∧
    (Examples.rooksAndKings.makeMove Examples.rookA1xA8).state.canBlackKingsideCastle = true ∧
    (Examples.rooksAndKings.makeMove Examples.rookA1xA8).state.canBlackQueensideCastle = false :=
  have key := makeMove_castling_rights Examples.rooksAndKings Examples.rookA1xA8 (by decide)
  ⟨key.1.trans (by decide), key.2.1.trans (by decide), key.2.2.1.trans (by decide),
    key.2.2.2.1.trans (by decide)⟩

set_option maxRecDepth 100000 in
/-- C26 as stated fails: with a black rook on a1 and the white queenside right set,
the white knight's capture of that rook - a move of `getLegalMovesFrom`, not made by a
king or a rook, capturing no white rook - clears the white queenside right, a right
of the colour opposite to the captured rook. -/
theorem capture_on_foreign_corner_revokes_right :
    (Examples.rookOnForeignCorner.getLegalMovesFrom ⟨3, 2⟩).map
      (fun moves => decide (Examples.knightB3xA1 ∈ moves)) = Except.ok true ∧
    (Examples.rookOnForeignCorner.makeMove Examples.knightB3xA1).raised = none ∧
    Examples.knightB3xA1.piece.type = PieceType.KNIGHT ∧
    Examples.knightB3xA1.capturedPiece =
      some ⟨3, PieceType.ROOK, Color.BLACK, ⟨1, 1⟩, false⟩ ∧
    Examples.rookOnForeignCorner.canWhiteQueensideCastle = true ∧
    (Examples.rookOnForeignCorner.makeMove Examples.knightB3xA1).state.canWhiteQueensideCastle =
      false := ⟨by rfl, by rfl, by rfl, by rfl, by rfl, by rfl⟩

/-! ### The text helper `split` -/

/-- No index: the character does not occur. -/
theorem firstIndex_none (ch : Char) :
    ∀ l : List Char, firstIndex ch l = none → ch ∉ l := by
  intro l
  induction l with
  | nil => intro _; simp
  | cons c rest ih =>
    intro h
    unfold firstIndex at h
    split_ifs at h with hc
    cases hr : firstIndex ch rest with
    | none =>
      simp only [List.mem_cons, not_or]
      exact ⟨fun e => hc e.symm, ih hr⟩
    | some i => simp [hr] at h

/-- An index: the character occurs there and not before. -/
theorem firstIndex_some (ch : Char) :
    ∀ (l : List Char) (i : Nat), firstIndex ch l = some i →
      i < l.length ∧ ch ∉ l.take i ∧ l = l.take i ++ ch :: l.drop (i + 1) := by
  intro l
  induction l with
  | nil => intro i h; simp [firstIndex] at h
  | cons c rest ih =>
    intro i h
    unfold firstIndex at h
    split_ifs at h with hc
    · cases h
      subst hc
      simp
    · cases hr : firstIndex ch rest with
      | none => simp [hr] at h
      | some j =>
        simp [hr] at h
        subst h
        obtain ⟨h1, h2, h3⟩ := ih j hr
        refine ⟨by simp; omega, ?_, ?_⟩
        · simp only [List.take_succ_cons, List.mem_cons, not_or]
          exact ⟨fun e => hc e.symm, h2⟩
        · simp only [List.take_succ_cons, List.drop_succ_cons, List.cons_append]
          rw [← h3]

/-- The loop of `split`, entered at `initialPos` with `pos` the next occurrence of the
separator, appends to `strings` the pieces of the rest of the text. -/
theorem splitLoop_spec (txt : List Char) (ch : Char) (hlen : txt.length < npos) :
    ∀ (fuel : Nat) (strings : List (List Char)) (initialPos : Nat),
      initialPos ≤ txt.length → txt.length - initialPos < fuel →
      ∃ pieces : List (List Char),
        splitLoop txt ch fuel strings initialPos (find txt ch initialPos) =
          some (strings ++ pieces) ∧
        pieces.length = (txt.drop initialPos).count ch + 1 ∧
        (∀ s ∈ pieces, ch ∉ s) ∧
        List.intercalate [ch] pieces = txt.drop initialPos := by
  have hn : npos = 2 ^ 64 - 1 := rfl
  intro fuel
  induction fuel with
  | zero => intro _ _ _ h; omega
  | succ fuel ih =>
    intro strings initialPos hle hfuel
    unfold splitLoop
    cases hf : firstIndex ch (txt.drop initialPos) with
    | none =>
      have hfind : find txt ch initialPos = npos := by unfold find; rw [hf]
      have hno := firstIndex_none ch _ hf
      rw [hfind]
      simp only [ne_eq, not_true_eq_false, if_false]
      have hsub : substr txt initialPos
          ((min npos txt.length + 2 ^ 64 - initialPos + 1) % 2 ^ 64) =
            some (txt.drop initialPos) := by
        unfold substr
        rw [if_neg (by omega)]
        congr 1
        apply List.take_of_length_le
        rw [List.length_drop]
        have e : min npos txt.length = txt.length := by omega
        rw [e]
        have e2 : (txt.length + 2 ^ 64 - initialPos + 1) % 2 ^ 64 =
            txt.length - initialPos + 1 := by
          have : txt.length + 2 ^ 64 - initialPos + 1 =
              (txt.length - initialPos + 1) + 2 ^ 64 := by omega
          rw [this, Nat.add_mod_right]
          apply Nat.mod_eq_of_lt
          omega
        rw [e2]
        omega
      rw [hsub]
      refine ⟨[txt.drop initialPos], rfl, ?_, ?_, ?_⟩
      · rw [List.count_eq_zero_of_not_mem hno]; rfl
      · intro s hs
        simp at hs
        subst hs
        exact hno
      · simp [List.intercalate]
    | some i =>
      obtain ⟨hi, hnot, hsplit⟩ := firstIndex_some ch _ i hf
      rw [List.length_drop] at hi
      have hfind : find txt ch initialPos = initialPos + i := by unfold find; rw [hf]
      rw [hfind]
      have hne : initialPos + i ≠ npos := by omega
      rw [if_pos hne]
      have hsub : substr txt initialPos ((initialPos + i + 2 ^ 64 - initialPos) % 2 ^ 64) =
          some ((txt.drop initialPos).take i) := by
        unfold substr
        rw [if_neg (by omega)]
        have : initialPos + i + 2 ^ 64 - initialPos = i + 2 ^ 64 := by omega
        rw [this, Nat.add_mod_right, Nat.mod_eq_of_lt (by omega)]
      rw [hsub]
      have hnext : (initialPos + i + 1) % 2 ^ 64 = initialPos + i + 1 :=
        Nat.mod_eq_of_lt (by omega)
      simp only [hnext]
      obtain ⟨pieces, h1, h2, h3, h4⟩ :=
        ih (strings ++ [(txt.drop initialPos).take i]) (initialPos + i + 1) (by omega) (by omega)
      have hdrop : (txt.drop initialPos).drop (i + 1) = txt.drop (initialPos + i + 1) := by
        rw [List.drop_drop]
        congr 1
      rw [hdrop] at hsplit
      refine ⟨(txt.drop initialPos).take i :: pieces, ?_, ?_, ?_, ?_⟩
      · rw [h1]; simp
      · rw [List.length_cons, h2]
        conv_rhs => rw [hsplit]
        rw [List.count_append, List.count_eq_zero_of_not_mem hnot, List.count_cons_self]
        omega
      · intro s hs
        rcases List.mem_cons.1 hs with rfl | h
        · exact hnot
        · exact h3 s h
      · cases pieces with
        | nil => simp at h2
        | cons p rest =>
          conv_rhs => rw [hsplit, ← h4]
          simp [List.intercalate, List.intersperse]

/-- C27: for every text shorter than `npos` and every character, `split` returns a
list of exactly (number of occurrences of the character) + 1 pieces, none of which
contains the character, and joining them with the character between consecutive
pieces gives back the text. -/
theorem split_spec (txt : List Char) (ch : Char) (hlen : txt.length < npos) :
    ∃ pieces : List (List Char),
      split txt ch = some pieces ∧
      pieces.length = txt.count ch + 1 ∧
      (∀ s ∈ pieces, ch ∉ s) ∧
      List.intercalate [ch] pieces = txt := by
  obtain ⟨pieces, h1, h2, h3, h4⟩ :=
    splitLoop_spec txt ch hlen (txt.length + 1) [] 0 (Nat.zero_le _) (by omega)
  exact ⟨pieces, by unfold split; simpa using h1, by simpa using h2, h3, by simpa using h4⟩

/-- The text `a/b//c` split at `/`. -/
theorem split_spec_witness :
    ∃ pieces : List (List Char),
      split ['a', '/', 'b', '/', '/', 'c'] '/' = some pieces ∧
      pieces.length = 4 ∧
      (∀ s ∈ pieces, '/' ∉ s) ∧
      List.intercalate ['/'] pieces = ['a', '/', 'b', '/', '/', 'c'] :=
  split_spec ['a', '/', 'b', '/', '/', 'c'] '/' (by decide)

/-! ### The en-passant target along a play -/

/-- The shape of the forward moves of a pawn. -/
theorem Pawn.forwardMoves_shape (b : Board) (piece : Piece) :
    ∀ m ∈ Pawn.forwardMoves b piece,
      m.from_ = piece.position ∧ m.piece = piece ∧ m.promoteTo = PieceType.NONE ∧
      m.to_.inBounds = true ∧ Pawn.MoveShape b piece m := by
  intro m hm
  unfold Pawn.forwardMoves at hm
  dsimp only at hm
  split_ifs at hm with h1 h2
  · simp only [Bool.and_eq_true, decide_eq_true_eq, Option.isNone_iff_eq_none] at h1 h2
    rcases List.mem_cons.1 hm with h0 | h0
    · subst h0
      exact ⟨rfl, rfl, rfl, h1.1, Or.inl ⟨rfl, h1.2, rfl⟩⟩
    · simp only [List.mem_singleton] at h0
      subst h0
      exact ⟨rfl, rfl, rfl, h2.1.2, Or.inr (Or.inl ⟨h2.1.1, rfl, h1.2, h2.2, rfl⟩)⟩
  · simp only [Bool.and_eq_true, decide_eq_true_eq, Option.isNone_iff_eq_none] at h1
    simp only [List.mem_singleton] at hm
    subst hm
    exact ⟨rfl, rfl, rfl, h1.1, Or.inl ⟨rfl, h1.2, rfl⟩⟩
  · simp at hm

/-- The shape of the diagonal captures of a pawn. -/
theorem Pawn.captureMove_shape (b : Board) (piece : Piece) (dc : Int) (hdc : dc = -1 ∨ dc = 1) :
    ∀ m ∈ Pawn.captureMove b piece dc,
      m.from_ = piece.position ∧ m.piece = piece ∧ m.promoteTo = PieceType.NONE ∧
      m.to_.inBounds = true ∧ Pawn.MoveShape b piece m := by
  intro m hm
  unfold Pawn.captureMove at hm
  dsimp only at hm
  split_ifs at hm with h1
  · split at hm
    · rename_i q hq
      split_ifs at hm with h2
      · simp only [List.mem_singleton] at hm
        subst hm
        exact ⟨rfl, rfl, rfl, h1, Or.inr (Or.inr (Or.inl ⟨dc, hdc, rfl, q, hq, h2, rfl⟩))⟩
      · simp at hm
    · simp at hm
  · simp at hm

/-- The shape of the en-passant captures of a pawn. -/
theorem Pawn.enPassantMove_shape (b : Board) (piece : Piece) (dc : Int)
    (hdc : dc = -1 ∨ dc = 1) :
    ∀ m ∈ Pawn.enPassantMove b piece dc,
      m.from_ = piece.position ∧ m.piece = piece ∧ m.promoteTo = PieceType.NONE ∧
      m.to_.inBounds = true ∧ Pawn.MoveShape b piece m := by
  intro m hm
  unfold Pawn.enPassantMove at hm
  dsimp only at hm
  split_ifs at hm with h1
  · split at hm
    · rename_i q hq
      split_ifs at hm with h2
      · simp only [List.mem_singleton] at hm
        subst hm
        simp only [Bool.and_eq_true, decide_eq_true_eq] at h2
        exact ⟨rfl, rfl, rfl, h1,
          Or.inr (Or.inr (Or.inr ⟨dc, hdc, rfl, q, hq, h2.1.1, h2.1.2, h2.2, rfl⟩))⟩
      · simp at hm
    · simp at hm
  · simp at hm

/-- The shape of the pseudo-legal moves of a pawn. -/
theorem Pawn.getMoves_shape (b : Board) (piece : Piece) :
    ∀ m ∈ Pawn.getMoves b piece,
      m.from_ = piece.position ∧ m.piece = piece ∧ m.to_.inBounds = true ∧
      Pawn.MoveShape b piece m ∧
      (m.promoteTo = PieceType.NONE ∨ m.to_.row = Pawn.lastRow piece.color) ∧
      m.promoteTo ≠ PieceType.KING ∧ m.promoteTo ≠ PieceType.PAWN := by
  intro m hm
  unfold Pawn.getMoves at hm
  obtain ⟨m0, hm0, hm1⟩ := List.mem_flatMap.1 hm
  have base : m0.from_ = piece.position ∧ m0.piece = piece ∧ m0.promoteTo = PieceType.NONE ∧
      m0.to_.inBounds = true ∧ Pawn.MoveShape b piece m0 := by
    simp only [List.mem_append] at hm0
    rcases hm0 with (((h | h) | h) | h) | h
    · exact Pawn.forwardMoves_shape b piece m0 h
    · exact Pawn.captureMove_shape b piece (-1) (Or.inl rfl) m0 h
    · exact Pawn.captureMove_shape b piece 1 (Or.inr rfl) m0 h
    · exact Pawn.enPassantMove_shape b piece (-1) (Or.inl rfl) m0 h
    · exact Pawn.enPassantMove_shape b piece 1 (Or.inr rfl) m0 h
  obtain ⟨bf, bp, bn, bi, bs⟩ := base
  have key : m.from_ = m0.from_ ∧ m.to_ = m0.to_ ∧ m.piece = m0.piece ∧
      m.capturedPiece = m0.capturedPiece ∧
      (m.promoteTo = PieceType.NONE ∨ m.to_.row = Pawn.lastRow piece.color) ∧
      m.promoteTo ≠ PieceType.KING ∧ m.promoteTo ≠ PieceType.PAWN := by
    unfold Pawn.withPromotions at hm1
    split_ifs at hm1 with hl
    · rw [bp] at hl
      simp only [List.mem_cons, List.mem_singleton, List.not_mem_nil, or_false] at hm1
      rcases hm1 with h | h | h | h <;> subst h <;>
        exact ⟨rfl, rfl, rfl, rfl, Or.inr hl, by simp, by simp⟩
    · simp only [List.mem_singleton] at hm1
      subst hm1
      exact ⟨rfl, rfl, rfl, rfl, Or.inl bn, by simp [bn], by simp [bn]⟩
  obtain ⟨kf, kt, kp, kc, kpr, kk, kpw⟩ := key
  refine ⟨kf.trans bf, kp.trans bp, by rw [kt]; exact bi, ?_, kpr, kk, kpw⟩
  unfold Pawn.MoveShape at bs ⊢
  rw [kt, kc]
  exact bs

/-- A double pawn push among the moves of `getMovesFrom` is made by a pawn of the
board to an empty square, without capture or promotion. -/
theorem getMovesFrom_double_pawn_push (g : Game) (p : Position) (moves : List Move)
    (h : g.getMovesFrom p = Except.ok moves) (m : Move) (hm : m ∈ moves)
    (hd : m.isDoublePawnMove = true) :
    m.piece ∈ g.board.pieces ∧ m.capturedPiece = none ∧ m.promoteTo = PieceType.NONE ∧
    g.board.getPiece m.to_ = none := by
  have hrows : m.piece.type = PieceType.PAWN ∧
      ((m.piece.color = Color.WHITE ∧ m.from_.row = 2 ∧ m.to_.row = 4) ∨
       (m.piece.color = Color.BLACK ∧ m.from_.row = 7 ∧ m.to_.row = 5)) := by
    unfold Move.isDoublePawnMove at hd
    simp only [Bool.and_eq_true, Bool.or_eq_true, decide_eq_true_eq] at hd
    exact ⟨hd.1, hd.2.imp (fun h => ⟨h.1.1, h.1.2, h.2⟩) (fun h => ⟨h.1.1, h.1.2, h.2⟩)⟩
  cases hp : g.getPiece p with
  | none =>
    unfold Game.getMovesFrom at h
    rw [hp] at h
    cases h
    simp at hm
  | some piece =>
    by_cases hk : piece.type = PieceType.KING
    · obtain ⟨ks, qs, home, _, _, _, hmoves⟩ := getMovesFrom_king_spec g p piece moves hp hk h
      exfalso
      rw [hmoves] at hm
      have hrow : m.from_.row = m.to_.row := by
        rcases List.mem_append.1 hm with h1 | h1
        · cases ks with
          | false => simp at h1
          | true => simp at h1; subst h1; rfl
        · cases qs with
          | false => simp at h1
          | true => simp at h1; subst h1; rfl
      rcases hrows.2 with ⟨_, h2, h4⟩ | ⟨_, h7, h5⟩ <;> omega
    · rw [getMovesFrom_not_king g p piece hp hk] at h
      cases h
      have hsrc := Piece.getMoves_source g.board piece m hm
      have hty : piece.type = PieceType.PAWN := by rw [← hsrc.2]; exact hrows.1
      unfold Piece.getMoves at hm
      rw [hty] at hm
      simp only [] at hm
      obtain ⟨hf, hpc, _, hshape, hpromo, _, _⟩ := Pawn.getMoves_shape g.board piece m hm
      have hmem : m.piece ∈ g.board.pieces := by
        rw [hpc]; exact Board.getPiece_mem g.board p piece hp
      rw [hpc, hf] at hrows
      unfold Pawn.MoveShape at hshape
      have hnum : (Pawn.direction piece.color = 1 ∧ Pawn.lastRow piece.color = 8 ∧
            piece.position.row = 2 ∧ m.to_.row = 4) ∨
          (Pawn.direction piece.color = -1 ∧ Pawn.lastRow piece.color = 1 ∧
            piece.position.row = 7 ∧ m.to_.row = 5) := by
        rcases hrows.2 with ⟨hc, h2, h4⟩ | ⟨hc, h7, h5⟩
        · rw [hc]; exact Or.inl ⟨rfl, rfl, h2, h4⟩
        · rw [hc]; exact Or.inr ⟨rfl, rfl, h7, h5⟩
      have hnp : m.promoteTo = PieceType.NONE := by
        rcases hpromo with h0 | h0
        · exact h0
        · exfalso
          rcases hnum with ⟨_, hl, _, h4⟩ | ⟨_, hl, _, h5⟩ <;> rw [hl] at h0 <;> omega
      have hone : ∀ c : Int,
          m.to_ ≠ ⟨piece.position.row + Pawn.direction piece.color, c⟩ := by
        intro c e
        have hr : m.to_.row = piece.position.row + Pawn.direction piece.color := by rw [e]
        rcases hnum with ⟨hdr, _, h2, h4⟩ | ⟨hdr, _, h7, h5⟩ <;> rw [hdr] at hr <;> omega
      rcases hshape with ⟨e, _, _⟩ | ⟨_, _, _, hempty, hcap⟩ | ⟨dc, _, e, _⟩ | ⟨dc, _, e, _⟩
      · exact absurd e (hone _)
      · exact ⟨hmem, hcap, hnp, hempty⟩
      · exact absurd e (hone _)
      · exact absurd e (hone _)

/-- Flagging a pawn changes no identity. -/
theorem Board.setIsEnPassantTarget_ids (b : Board) (i : Nat) (v : Bool) :
    (b.setIsEnPassantTarget i v).pieces.map Piece.id = b.pieces.map Piece.id := by
  unfold Board.setIsEnPassantTarget
  simp only [List.map_map]
  apply List.map_congr_left
  intro p _
  simp only [Function.comp]
  split_ifs <;> rfl

/-- Flagging a pawn moves no piece. -/
theorem Board.setIsEnPassantTarget_positions (b : Board) (i : Nat) (v : Bool) :
    (b.setIsEnPassantTarget i v).pieces.map Piece.position = b.pieces.map Piece.position := by
  unfold Board.setIsEnPassantTarget
  simp only [List.map_map]
  apply List.map_congr_left
  intro p _
  simp only [Function.comp]
  split_ifs <;> rfl

/-- `Board::makeMove` creates no piece object: the identities after the move are
among those before it, in the same order. -/
theorem Board.makeMove_ids (b : Board) (m : Move) :
    ((b.makeMove m).pieces.map Piece.id).Sublist (b.pieces.map Piece.id) := by
  obtain ⟨f, hf, _, hpieces⟩ := Board.makeMove_pieces b m
  rw [hpieces, List.map_map]
  have hid : (Piece.id ∘ f) = Piece.id := by
    funext p
    exact (hf p).1
  rw [hid]
  cases m.capturedPiece with
  | none => exact List.Sublist.refl _
  | some c => exact (List.filter_sublist _).map _

/-- A square is empty when no piece of the board stands on it. -/
theorem Board.getPiece_eq_none (b : Board) (pos : Position) :
    b.getPiece pos = none ↔ ∀ x ∈ b.pieces, x.position ≠ pos := by
  unfold Board.getPiece
  simp [List.find?_eq_none]

/-- The step of the en-passant invariant: after a successful `makeMove` with a move
of `getMovesFrom` the identities are still distinct and the pawn behind the target is
where `getEnPassantTargetPiece` looks for it. -/
theorem makeMove_enPassantConsistent (g : Game) (m : Move)
    (hids : (g.board.pieces.map Piece.id).Nodup)
    (hfit : m.isDoublePawnMove = true →
      m.piece ∈ g.board.pieces ∧ (∀ c, m.capturedPiece = some c → c.id ≠ m.piece.id) ∧
      m.promoteTo = PieceType.NONE ∧
      ∀ x ∈ g.board.pieces, x.position = m.to_ →
        x.id = m.piece.id ∨ ∃ c, m.capturedPiece = some c ∧ x.id = c.id)
    (h : (g.makeMove m).raised = none) :
    ((g.makeMove m).state.board.pieces.map Piece.id).Nodup ∧
    (g.makeMove m).state.EnPassantConsistent := by
  obtain ⟨hc, g3, hs, _, _, hcur, _, _, _, hep3, hboard⟩ := makeMove_success_full g m h
  obtain ⟨s1, s2, _, s4⟩ := applyToBoard_state (g3.refreshCastlingPossibilites m) m
  obtain ⟨_, _, f3, f4, _, _, _, f8⟩ := refreshCastlingPossibilites_frame g3 m
  rw [f4] at s1
  rw [f8, hep3] at s2
  rw [f3, hcur] at s4
  have hids3 : g3.board.pieces.map Piece.id = g.board.pieces.map Piece.id := by
    rcases hboard with ⟨_, e⟩ | ⟨old, _, e⟩
    · rw [e]
    · rw [e, Board.setIsEnPassantTarget_ids]
  have hpos3 : g3.board.pieces.map Piece.position = g.board.pieces.map Piece.position := by
    rcases hboard with ⟨_, e⟩ | ⟨old, _, e⟩
    · rw [e]
    · rw [e, Board.setIsEnPassantTarget_positions]
  constructor
  · rw [hs, s1]
    have hsub := Board.makeMove_ids g3.board m
    rw [hids3] at hsub
    split_ifs
    · rw [Board.setIsEnPassantTarget_ids]
      exact hids.sublist hsub
    · exact hids.sublist hsub
  · intro t ht
    rw [hs, s2] at ht
    by_cases hd : m.isDoublePawnMove = true
    · rw [if_pos hd] at ht
      obtain ⟨hpiece, hcap, hpromo, hdest0⟩ := hfit hd
      have hrows : m.piece.type = PieceType.PAWN ∧
          ((m.piece.color = Color.WHITE ∧ m.from_.row = 2 ∧ m.to_.row = 4) ∨
           (m.piece.color = Color.BLACK ∧ m.from_.row = 7 ∧ m.to_.row = 5)) := by
        unfold Move.isDoublePawnMove at hd
        simp only [Bool.and_eq_true, Bool.or_eq_true, decide_eq_true_eq] at hd
        exact ⟨hd.1, hd.2.imp (fun h => ⟨h.1.1, h.1.2, h.2⟩) (fun h => ⟨h.1.1, h.1.2, h.2⟩)⟩
      have hsq : (⟨t.row + (if (g.makeMove m).state.currentPlayer = Color.WHITE then -1 else 1),
          t.col⟩ : Position) = m.to_ ∧
          (g.makeMove m).state.currentPlayer.opposite = m.piece.color := by
        have ht2 := (Option.some.inj ht).symm
        rw [hs, s4, hc]
        rcases hrows.2 with ⟨hcol, h2, h4⟩ | ⟨hcol, h7, h5⟩
        · rw [hcol, ht2, h2, h4]
          refine ⟨?_, rfl⟩
          cases hto : m.to_ with
          | mk r c =>
            rw [hto] at h4
            simp only [] at h4
            subst h4
            simp
            decide
        · rw [hcol, ht2, h7, h5]
          refine ⟨?_, rfl⟩
          cases hto : m.to_ with
          | mk r c =>
            rw [hto] at h5
            simp only [] at h5
            subst h5
            simp
            decide
      rw [hsq.1, hsq.2]
      -- the piece on the destination square
      have hmem3 : ∃ p ∈ g3.board.pieces, p.id = m.piece.id := by
        have : m.piece.id ∈ g3.board.pieces.map Piece.id := by
          rw [hids3]; exact List.mem_map_of_mem _ hpiece
        obtain ⟨p, hp, e⟩ := List.mem_map.1 this
        exact ⟨p, hp, e⟩
      have hdest : ∀ x ∈ g3.board.pieces, x.position = m.to_ →
          x.id = m.piece.id ∨ ∃ c, m.capturedPiece = some c ∧ x.id = c.id := by
        intro x hx hxpos
        rcases hboard with ⟨_, eb⟩ | ⟨old, _, eb⟩
        · rw [eb] at hx
          exact hdest0 x hx hxpos
        · rw [eb] at hx
          obtain ⟨y, hy, e⟩ := (Board.setIsEnPassantTarget_mem _ _ _ _).1 hx
          have hyx : y.id = x.id ∧ y.position = x.position := by
            rw [e]; split_ifs <;> exact ⟨rfl, rfl⟩
          rw [← hyx.1]
          exact hdest0 y hy (hyx.2.trans hxpos)
      obtain ⟨q, hq, hqid⟩ := Board.makeMove_getPiece_to g3.board m (isDoublePawnMove_spec m hd).2
        hmem3 hcap hdest
      have hqt : q.type = PieceType.PAWN ∧ q.color = m.piece.color := by
        have hqmem := Board.getPiece_mem _ _ q hq
        obtain ⟨f, hf, hfm, hpieces⟩ := Board.makeMove_pieces g3.board m
        rw [hpieces] at hqmem
        obtain ⟨p0, hp0f, e⟩ := List.mem_map.1 hqmem
        have hp0 : p0 ∈ g3.board.pieces := by
          cases hcp : m.capturedPiece with
          | none => rw [hcp] at hp0f; exact hp0f
          | some c => rw [hcp] at hp0f; exact List.mem_of_mem_filter hp0f
        have hp0id : p0.id = m.piece.id := by rw [← (hf p0).1, e]; exact hqid
        have hfq := hfm (isDoublePawnMove_spec m hd).2 p0
        rw [if_pos hp0id, hpromo, if_pos rfl] at hfq
        -- `p0` carries the type and colour of the move's piece
        have hp0tc : p0.type = m.piece.type ∧ p0.color = m.piece.color := by
          rcases hboard with ⟨_, eb⟩ | ⟨old, _, eb⟩
          · rw [eb] at hp0
            have := (List.inj_on_of_nodup_map hids) hp0 hpiece hp0id
            rw [this]; exact ⟨rfl, rfl⟩
          · rw [eb] at hp0
            obtain ⟨p1, hp1, e1⟩ := (Board.setIsEnPassantTarget_mem _ _ _ _).1 hp0
            have hid1 : p1.id = m.piece.id := by
              rw [← hp0id, e1]; split_ifs <;> rfl
            have := (List.inj_on_of_nodup_map hids) hp1 hpiece hid1
            rw [e1, this]
            split_ifs <;> exact ⟨rfl, rfl⟩
        rw [← e, hfq]
        exact ⟨hp0tc.1.trans hrows.1, hp0tc.2⟩
      unfold Game.getPiece
      rw [hs, s1, if_pos hd, Board.setIsEnPassantTarget_getPiece, hq]
      refine ⟨_, rfl, ?_, ?_⟩
      · simp only []
        split_ifs
        all_goals exact hqt.1
      · simp only []
        split_ifs
        all_goals exact hqt.2
    · rw [if_neg hd] at ht
      cases ht

/-- The en-passant invariant holds along every play of moves that fit the position
or are returned by `getMovesFrom`. -/
theorem reachable_enPassantConsistent (start g : Game)
    (hids : (start.board.pieces.map Piece.id).Nodup) (hep : start.EnPassantConsistent)
    (h : Reachable (fun g0 move => g0.MoveFits move ∨ g0.IsPseudoLegal move) start g) :
    (g.board.pieces.map Piece.id).Nodup ∧ g.EnPassantConsistent := by
  induction h with
  | start => exact ⟨hids, hep⟩
  | step g0 move _ hallowed hok ih =>
    refine makeMove_enPassantConsistent g0 move ih.1 ?_ hok
    intro hd
    rcases hallowed with ⟨w1, w2, w3, w4⟩ | ⟨p, moves, hmoves, hmem⟩
    · refine ⟨w1, fun c hc => (w2 c hc).2, ?_, ?_⟩
      · by_contra hne
        have hl := (w3 hne).2
        unfold Move.isDoublePawnMove at hd
        simp only [Bool.and_eq_true, Bool.or_eq_true, decide_eq_true_eq] at hd
        rcases hd.2 with ⟨⟨hc, _⟩, h4⟩ | ⟨⟨hc, _⟩, h5⟩
        · rw [hc] at hl; simp only [Pawn.lastRow] at hl; omega
        · rw [hc] at hl; simp only [Pawn.lastRow] at hl; omega
      · intro x hx hxpos
        rcases w4 x hx hxpos with e | e
        · exact Or.inl (by rw [e])
        · exact Or.inr ⟨x, e, rfl⟩
    · obtain ⟨hpiece, hcap, hpromo, hempty⟩ :=
        getMovesFrom_double_pawn_push g0 p moves hmoves move hmem hd
      refine ⟨hpiece, ?_, hpromo, ?_⟩
      · intro c hc
        rw [hcap] at hc
        cases hc
      · intro x hx hxpos
        exact absurd hxpos ((Board.getPiece_eq_none g0.board move.to_).1 hempty x hx)

/-- With the pawn behind the target in place `getEnPassantTargetPiece` returns. -/
theorem getEnPassantTargetPiece_of_consistent (g : Game) (h : g.EnPassantConsistent) :
    (g.enPassantTargetPosition = none ∧ g.getEnPassantTargetPiece = Except.ok none) ∨
    (∃ pawn, g.getEnPassantTargetPiece = Except.ok (some pawn) ∧
      pawn.type = PieceType.PAWN ∧ pawn.color = g.currentPlayer.opposite) := by
  unfold Game.getEnPassantTargetPiece
  cases ht : g.enPassantTargetPosition with
  | none => exact Or.inl ⟨rfl, rfl⟩
  | some t =>
    obtain ⟨pawn, hp, hty, hcol⟩ := h t ht
    right
    refine ⟨pawn, ?_, hty, hcol⟩
    simp only [hp, hty, if_true]

/-- With the pawn behind the target in place, the en-passant step of `makeMove`
succeeds. -/
theorem updateEnPassantTarget_of_consistent (g : Game) (h : g.EnPassantConsistent) :
    ∃ g3, g.updateEnPassantTarget = Except.ok g3 := by
  unfold Game.updateEnPassantTarget Game.refreshEnPassant
  cases ht : g.enPassantTargetPosition with
  | none => exact ⟨g, by simp⟩
  | some t =>
    rcases getEnPassantTargetPiece_of_consistent g h with ⟨hn, _⟩ | ⟨pawn, hp, _, _⟩
    · rw [ht] at hn; cases hn
    · simp only [Option.isSome_some, if_true, hp]
      exact ⟨_, rfl⟩

/-- With the pawn behind the target in place, `makeMove` raises neither `bad_cast`
nor a null dereference. -/
theorem makeMove_raised_of_consistent (g : Game) (h : g.EnPassantConsistent) (move : Move) :
    (g.makeMove move).raised = none ∨
    (g.makeMove move).raised = some Exc.IllegalMoveException ∨
    (g.makeMove move).raised = some Exc.signedOverflow := by
  unfold Game.makeMove
  by_cases h1 : g.currentPlayer ≠ move.piece.color
  · rw [if_pos h1]
    exact Or.inr (Or.inl rfl)
  · rw [if_neg h1]
    cases hg1 : g.updateFullmoveNumber with
    | error e =>
      simp only []
      rw [updateFullmoveNumber_error g e hg1]
      exact Or.inr (Or.inr rfl)
    | ok g1 =>
      simp only []
      cases hg2 : g1.updateHalfmoveClock move with
      | error e =>
        simp only []
        rw [updateHalfmoveClock_error g1 move e hg2]
        exact Or.inr (Or.inr rfl)
      | ok g2 =>
        simp only []
        have e1 := updateFullmoveNumber_ok g g1 hg1
        have e2 := updateHalfmoveClock_ok g1 g2 move hg2
        have hcons : g2.EnPassantConsistent := by
          rw [e2, e1]
          exact h
        obtain ⟨g3, hg3⟩ := updateEnPassantTarget_of_consistent g2 hcons
        rw [hg3]
        exact Or.inl rfl

/-- C24: in every state reached from the starting position by successful `makeMove`
calls with validated moves - moves that fit the position they are made in, or moves
returned by `getMovesFrom` - whenever the en-passant target is set, a pawn of the
side that is not to move stands in the target's column one row below the target
(White to move) or one row above it (Black to move); hence
`getEnPassantTargetPiece` returns, the en-passant step of `makeMove` succeeds, and no
`makeMove` call raises `bad_cast` or dereferences a null pointer. -/
theorem reachable_en_passant_target (whiteName blackName : String) (g : Game)
    (h : Reachable (fun g0 move => g0.MoveFits move ∨ g0.IsPseudoLegal move)
      (Game.new whiteName blackName) g) :
    (∀ t, g.enPassantTargetPosition = some t →
      ∃ pawn,
        g.getPiece ⟨t.row + (if g.currentPlayer = Color.WHITE then -1 else 1), t.col⟩ =
          some pawn ∧
        pawn.type = PieceType.PAWN ∧ pawn.color = g.currentPlayer.opposite) ∧
    (∃ r, g.getEnPassantTargetPiece = Except.ok r) ∧
    (∃ g3, g.updateEnPassantTarget = Except.ok g3) ∧
    (∀ move, (g.makeMove move).raised ≠ some Exc.bad_cast ∧
      (g.makeMove move).raised ≠ some Exc.nullDereference) := by
  rw [Game.new_eq_start] at h
  have hstart : Examples.start.EnPassantConsistent := by
    intro t ht
    exact absurd ht (by simp [Examples.start, Game.new])
  obtain ⟨_, hcons⟩ := reachable_enPassantConsistent Examples.start g (by decide) hstart h
  refine ⟨hcons, ?_, updateEnPassantTarget_of_consistent g hcons, ?_⟩
  · rcases getEnPassantTargetPiece_of_consistent g hcons with ⟨_, e⟩ | ⟨pawn, e, _⟩
    · exact ⟨_, e⟩
    · exact ⟨_, e⟩
  · intro move
    rcases makeMove_raised_of_consistent g hcons move with e | e | e <;> rw [e] <;> simp

set_option maxRecDepth 100000 in
/-- The state after 1. e2-e4 from the starting position. -/
theorem reachable_en_passant_target_witness :
    (∀ t, (Examples.start.makeMove Examples.pawnE2E4).state.enPassantTargetPosition = some t →
      ∃ pawn,
        (Examples.start.makeMove Examples.pawnE2E4).state.getPiece
          ⟨t.row + (if (Examples.start.makeMove Examples.pawnE2E4).state.currentPlayer =
            Color.WHITE then -1 else 1), t.col⟩ = some pawn ∧
        pawn.type = PieceType.PAWN ∧
        pawn.color = (Examples.start.makeMove Examples.pawnE2E4).state.currentPlayer.opposite) ∧
    (∃ r, (Examples.start.makeMove Examples.pawnE2E4).state.getEnPassantTargetPiece =
      Except.ok r) ∧
    (∃ g3, (Examples.start.makeMove Examples.pawnE2E4).state.updateEnPassantTarget =
      Except.ok g3) ∧
    (∀ move,
      ((Examples.start.makeMove Examples.pawnE2E4).state.makeMove move).raised ≠
        some Exc.bad_cast ∧
      ((Examples.start.makeMove Examples.pawnE2E4).state.makeMove move).raised ≠
        some Exc.nullDereference) :=
  reachable_en_passant_target "Player 1" "Player 2"
    (Examples.start.makeMove Examples.pawnE2E4).state
    (Reachable.step Examples.start Examples.pawnE2E4 Reachable.start
      (Or.inr ⟨⟨2, 5⟩,
        [⟨⟨2, 5⟩, ⟨3, 5⟩, ⟨12, PieceType.PAWN, Color.WHITE, ⟨2, 5⟩, false⟩, none, PieceType.NONE⟩,
         Examples.pawnE2E4], by rfl, by decide⟩)
      (by decide))

/-! ### The castling rights along a play of legal moves -/

theorem Board.id_eq_iff_position_eq (b : Board) (hwf : b.WellFormed) (x y : Piece)
    (hx : x ∈ b.pieces) (hy : y ∈ b.pieces) : x.id = y.id ↔ x.position = y.position :=
  ⟨fun h => by rw [Board.eq_of_id_eq b hwf x y hx hy h],
   fun h => by rw [Board.eq_of_position_eq b hwf x y hx hy h]⟩

/-- `Board::makeMove` on a board that admits the move, as a list: the captured piece
is dropped and every other piece relocated. -/
theorem Board.makeMove_eq_relocate (b : Board) (hwf : b.WellFormed) (m : Move)
    (hadm : b.Admits m) :
    (b.makeMove m).pieces =
      (b.pieces.filter (fun x => decide (∀ c, m.capturedPiece = some c →
        x.position ≠ c.position))).map m.relocate := by
  obtain ⟨⟨mover, hmover, hmid⟩, hcap, hne, hdest, hcast⟩ := hadm
  have hmm := Board.getPiece_mem b _ _ hmover
  have hmp := Board.getPiece_position b _ _ hmover
  have hmv : ∀ x ∈ b.pieces, (x.id = m.piece.id ↔ x.position = m.from_) := by
    intro x hx
    rw [← hmid, ← hmp]
    exact Board.id_eq_iff_position_eq b hwf x mover hx hmm
  -- piece by piece
  have elem : ∀ x ∈ b.pieces,
      (match (if m.isCastling = true then b.getPiece (castlingRookSquares m).1 else none) with
        | some r =>
          (fun p : Piece =>
            if p.id = r.id then { p with position := (castlingRookSquares m).2 } else p)
            (if x.id = m.piece.id then
              { x with position := m.to_,
                       type := if m.promoteTo = PieceType.NONE then x.type else m.promoteTo }
             else x)
        | none =>
          (if x.id = m.piece.id then
            { x with position := m.to_,
                     type := if m.promoteTo = PieceType.NONE then x.type else m.promoteTo }
           else x)) = m.relocate x := by
    intro x hxb
    unfold Move.relocate
    by_cases hc : m.isCastling = true
    · obtain ⟨_, hr1, _, _, _, _⟩ := hcast hc
      rw [if_pos hc]
      cases hrook : b.getPiece (castlingRookSquares m).1 with
      | none =>
        simp only []
        by_cases h1 : x.position = m.from_
        · rw [if_pos ((hmv x hxb).2 h1), if_pos h1]
        · rw [if_neg (fun e => h1 ((hmv x hxb).1 e)), if_neg h1, if_neg]
          rintro ⟨_, e⟩
          exact (Board.getPiece_eq_none b _).1 hrook x hxb e
      | some r =>
        simp only []
        have hrm := Board.getPiece_mem b _ _ hrook
        have hrp := Board.getPiece_position b _ _ hrook
        by_cases h1 : x.position = m.from_
        · rw [if_pos ((hmv x hxb).2 h1), if_pos h1]
          have : ¬ x.id = r.id := fun e => by
            have := (Board.id_eq_iff_position_eq b hwf x r hxb hrm).1 e
            rw [h1, hrp] at this
            exact hr1 this.symm
          simp only []
          rw [if_neg this]
        · rw [if_neg (fun e => h1 ((hmv x hxb).1 e)), if_neg h1]
          by_cases h2 : x.position = (castlingRookSquares m).1
          · have : x.id = r.id :=
              (Board.id_eq_iff_position_eq b hwf x r hxb hrm).2 (h2.trans hrp.symm)
            rw [if_pos this, if_pos ⟨hc, h2⟩]
          · have : ¬ x.id = r.id := fun e =>
              h2 (((Board.id_eq_iff_position_eq b hwf x r hxb hrm).1 e).trans hrp)
            rw [if_neg this, if_neg (fun e => h2 e.2)]
    · rw [if_neg hc]
      simp only []
      by_cases h1 : x.position = m.from_
      · rw [if_pos ((hmv x hxb).2 h1), if_pos h1]
      · rw [if_neg (fun e => h1 ((hmv x hxb).1 e)), if_neg h1, if_neg (fun e => hc e.1)]
  -- the list after the capture
  have hlist : ∀ L : List Piece, (∀ x ∈ L, x ∈ b.pieces) →
      (match (if m.isCastling = true then b.getPiece (castlingRookSquares m).1 else none) with
        | some r =>
          (⟨(L.map (fun p : Piece =>
              if p.id = m.piece.id then
                { p with position := m.to_,
                         type := if m.promoteTo = PieceType.NONE then p.type else m.promoteTo }
              else p)).map (fun p : Piece =>
              if p.id = r.id then { p with position := (castlingRookSquares m).2 } else p)⟩ :
            Board)
        | none =>
          ⟨L.map (fun p : Piece =>
              if p.id = m.piece.id then
                { p with position := m.to_,
                         type := if m.promoteTo = PieceType.NONE then p.type else m.promoteTo }
              else p)⟩).pieces = L.map m.relocate := by
    intro L hL
    cases hrk : (if m.isCastling = true then b.getPiece (castlingRookSquares m).1 else none) with
    | none =>
      simp only []
      apply List.map_congr_left
      intro x hx
      have := elem x (hL x hx)
      rw [hrk] at this
      exact this
    | some r =>
      simp only [List.map_map]
      apply List.map_congr_left
      intro x hx
      have := elem x (hL x hx)
      rw [hrk] at this
      exact this
  unfold Board.makeMove
  simp only []
  cases hcp : m.capturedPiece with
  | none =>
    have := hlist b.pieces (fun x hx => hx)
    simp only [Bool.decide_eq_true] at this ⊢
    simpa using this
  | some c =>
    obtain ⟨c0, hc0, hcid, _⟩ := hcap c hcp
    have hc0m := Board.getPiece_mem b _ _ hc0
    have hc0p := Board.getPiece_position b _ _ hc0
    have hfilter : b.pieces.filter (fun p : Piece => decide (p.id ≠ c.id)) =
        b.pieces.filter (fun x => decide (∀ c1, some c = some c1 → x.position ≠ c1.position)) := by
      apply List.filter_congr
      intro x hx
      simp only [Option.some.injEq, forall_eq', ne_eq, decide_not]
      congr 1
      rw [← hcid, ← hc0p]
      exact decide_eq_decide.2 (Board.id_eq_iff_position_eq b hwf x c0 hx hc0m)
    have := hlist (b.pieces.filter (fun p : Piece => decide (p.id ≠ c.id)))
      (fun x hx => List.mem_of_mem_filter hx)
    rw [← hfilter]
    exact this

theorem Board.getPiece_eq_some (b : Board) (hwf : b.WellFormed) (pos : Position) (p : Piece) :
    b.getPiece pos = some p ↔ p ∈ b.pieces ∧ p.position = pos := by
  constructor
  · intro h
    exact ⟨Board.getPiece_mem b pos p h, Board.getPiece_position b pos p h⟩
  · rintro ⟨h1, h2⟩
    rw [← h2]
    exact Board.getPiece_of_mem b hwf p h1

/-- Membership after `Board::makeMove` on a board that admits the move. -/
theorem Board.mem_makeMove (b : Board) (hwf : b.WellFormed) (m : Move) (hadm : b.Admits m)
    (y : Piece) :
    y ∈ (b.makeMove m).pieces ↔
      ∃ x ∈ b.pieces, (∀ c, m.capturedPiece = some c → x.position ≠ c.position) ∧
        y = m.relocate x := by
  rw [Board.makeMove_eq_relocate b hwf m hadm]
  simp only [List.mem_map, List.mem_filter, decide_eq_true_eq]
  constructor
  · rintro ⟨x, ⟨hx, hc⟩, rfl⟩
    exact ⟨x, hx, hc, rfl⟩
  · rintro ⟨x, hx, hc, rfl⟩
    exact ⟨x, ⟨hx, hc⟩, rfl⟩

/-- A board that admits the move is well formed after it. -/
theorem Board.makeMove_wellFormed (b : Board) (hwf : b.WellFormed) (m : Move)
    (hadm : b.Admits m) : (b.makeMove m).WellFormed := by
  refine ⟨?_, hwf.2.sublist (Board.makeMove_ids b m)⟩
  rw [Board.makeMove_eq_relocate b hwf m hadm, List.map_map]
  obtain ⟨⟨mover, hmover, hmid⟩, hcap, hne, hdest, hcast⟩ := hadm
  have hnd : (b.pieces.filter (fun x => decide (∀ c, m.capturedPiece = some c →
      x.position ≠ c.position))).Nodup := (List.Nodup.of_map _ hwf.1).filter _
  refine List.Nodup.map_on ?_ hnd
  -- the squares after the move, by cases
  have hpos : ∀ x ∈ b.pieces, (∀ c, m.capturedPiece = some c → x.position ≠ c.position) →
      (x.position = m.from_ ∧ (m.relocate x).position = m.to_) ∨
      (x.position ≠ m.from_ ∧ m.isCastling = true ∧ x.position = (castlingRookSquares m).1 ∧
        (m.relocate x).position = (castlingRookSquares m).2) ∨
      (x.position ≠ m.from_ ∧ (m.relocate x).position = x.position ∧
        x.position ≠ m.to_ ∧ (m.isCastling = true → x.position ≠ (castlingRookSquares m).2)) := by
    intro x hx hxc
    unfold Move.relocate
    by_cases h1 : x.position = m.from_
    · left
      rw [if_pos h1]
      exact ⟨h1, rfl⟩
    · right
      rw [if_neg h1]
      by_cases h2 : m.isCastling = true ∧ x.position = (castlingRookSquares m).1
      · left
        rw [if_pos h2]
        exact ⟨h1, h2.1, h2.2, rfl⟩
      · right
        rw [if_neg h2]
        refine ⟨h1, rfl, ?_, ?_⟩
        · intro e
          rcases hdest with hn | ⟨c, hc, hcp⟩
          · exact (Board.getPiece_eq_none b _).1 hn x hx e
          · exact hxc c hc (e.trans hcp.symm)
        · intro hc e
          exact (Board.getPiece_eq_none b _).1 (hcast hc).2.2.2.2.2 x hx e
  intro x hx y hy hxy
  simp only [List.mem_filter, decide_eq_true_eq] at hx hy
  simp only [Function.comp] at hxy
  have same : x.position = y.position → x = y :=
    Board.eq_of_position_eq b hwf x y hx.1 hy.1
  rcases hpos x hx.1 hx.2 with ⟨x1, x2⟩ | ⟨x1, xc, x2, x3⟩ | ⟨x1, x2, x3, x4⟩ <;>
    rcases hpos y hy.1 hy.2 with ⟨y1, y2⟩ | ⟨y1, yc, y2, y3⟩ | ⟨y1, y2, y3, y4⟩
  · exact same (x1.trans y1.symm)
  · rw [x2, y3] at hxy
    exact absurd hxy.symm (hcast yc).2.2.2.2.1
  · rw [x2, y2] at hxy
    exact absurd hxy.symm y3
  · rw [x3, y2] at hxy
    exact absurd hxy (hcast xc).2.2.2.2.1
  · exact same (x2.trans y2.symm)
  · rw [x3, y2] at hxy
    exact absurd hxy.symm (y4 xc)
  · rw [x2, y2] at hxy
    exact absurd hxy x3
  · rw [x2, y3] at hxy
    exact absurd hxy (x4 yc)
  · rw [x2, y2] at hxy
    exact same hxy

theorem FENParser.roundTrip_pieces (g : Game) :
    (FENParser.roundTrip g).board.pieces =
      allSquares.filterMap (fun pos => (g.getPiece pos).map (g.copyOf pos)) := rfl

theorem mem_allSquares (pos : Position) : pos ∈ allSquares ↔ pos.inBounds = true := by
  constructor
  · intro h
    have : ∀ p ∈ allSquares, p.inBounds = true := by decide
    exact this pos h
  · intro h
    unfold Position.inBounds at h
    simp only [Bool.and_eq_true, decide_eq_true_eq] at h
    obtain ⟨⟨⟨h1, h2⟩, h3⟩, h4⟩ := h
    cases pos with
    | mk r c =>
      simp only at h1 h2 h3 h4
      have hr : r = 1 ∨ r = 2 ∨ r = 3 ∨ r = 4 ∨ r = 5 ∨ r = 6 ∨ r = 7 ∨ r = 8 := by omega
      have hc : c = 1 ∨ c = 2 ∨ c = 3 ∨ c = 4 ∨ c = 5 ∨ c = 6 ∨ c = 7 ∨ c = 8 := by omega
      rcases hr with rfl | rfl | rfl | rfl | rfl | rfl | rfl | rfl <;>
        rcases hc with rfl | rfl | rfl | rfl | rfl | rfl | rfl | rfl <;> decide

theorem allSquares_nodup : allSquares.Nodup := by decide

/-- Membership in the board of the copy. -/
theorem FENParser.mem_roundTrip (g : Game) (y : Piece) :
    y ∈ (FENParser.roundTrip g).board.pieces ↔
      ∃ pos p, pos.inBounds = true ∧ g.getPiece pos = some p ∧ y = g.copyOf pos p := by
  rw [FENParser.roundTrip_pieces, List.mem_filterMap]
  constructor
  · rintro ⟨pos, hpos, h⟩
    cases hp : g.getPiece pos with
    | none => rw [hp] at h; cases h
    | some p =>
      rw [hp] at h
      simp only [Option.map_some', Option.some.injEq] at h
      exact ⟨pos, p, (mem_allSquares pos).1 hpos, hp, h.symm⟩
  · rintro ⟨pos, p, hpos, hp, rfl⟩
    exact ⟨pos, (mem_allSquares pos).2 hpos, by rw [hp]; rfl⟩

/-- The board of the copy is well formed. -/
theorem FENParser.roundTrip_wellFormed (g : Game) : (FENParser.roundTrip g).board.WellFormed := by
  have hpos : (FENParser.roundTrip g).board.pieces.map Piece.position =
      allSquares.filter (fun pos => (g.getPiece pos).isSome) := by
    rw [FENParser.roundTrip_pieces]
    induction allSquares with
    | nil => rfl
    | cons a rest ih =>
      cases ha : g.getPiece a with
      | none => simp [List.filterMap_cons, List.filter_cons, ha, ih]
      | some p => simp [List.filterMap_cons, List.filter_cons, ha, ih, Game.copyOf]
  have hid : (FENParser.roundTrip g).board.pieces.map Piece.id =
      ((FENParser.roundTrip g).board.pieces.map Piece.position).map
        (fun pos => (8 * (pos.row - 1) + (pos.col - 1)).toNat) := by
    rw [List.map_map]
    apply List.map_congr_left
    intro y hy
    obtain ⟨pos, p, _, _, rfl⟩ := (FENParser.mem_roundTrip g y).1 hy
    rfl
  have hnd : ((FENParser.roundTrip g).board.pieces.map Piece.position).Nodup := by
    rw [hpos]
    exact allSquares_nodup.filter _
  refine ⟨hnd, ?_⟩
  rw [hid]
  refine List.Nodup.map_on ?_ hnd
  intro x hx y hy hxy
  rw [hpos] at hx hy
  have hx1 := (mem_allSquares x).1 (List.mem_of_mem_filter hx)
  have hy1 := (mem_allSquares y).1 (List.mem_of_mem_filter hy)
  unfold Position.inBounds at hx1 hy1
  simp only [Bool.and_eq_true, decide_eq_true_eq] at hx1 hy1
  cases x with
  | mk r c =>
    cases y with
    | mk r2 c2 =>
      simp only at hx1 hy1 hxy
      simp only [Position.mk.injEq]
      omega

/-- The square-by-square content of the copy. -/
theorem FENParser.roundTrip_getPiece (g : Game) (pos : Position) :
    (FENParser.roundTrip g).board.getPiece pos =
      if pos.inBounds = true then (g.getPiece pos).map (g.copyOf pos) else none := by
  by_cases hin : pos.inBounds = true
  · rw [if_pos hin]
    cases hp : g.getPiece pos with
    | none =>
      rw [Option.map_none', Board.getPiece_eq_none]
      intro y hy e
      obtain ⟨pos1, p, _, hp1, rfl⟩ := (FENParser.mem_roundTrip g y).1 hy
      have : pos1 = pos := e
      rw [this, hp] at hp1
      cases hp1
    | some p =>
      rw [Option.map_some', Board.getPiece_eq_some _ (FENParser.roundTrip_wellFormed g)]
      exact ⟨(FENParser.mem_roundTrip g _).2 ⟨pos, p, hin, hp, rfl⟩, rfl⟩
  · rw [if_neg hin, Board.getPiece_eq_none]
    intro y hy e
    obtain ⟨pos1, p, hin1, _, rfl⟩ := (FENParser.mem_roundTrip g y).1 hy
    have : pos1 = pos := e
    rw [this] at hin1
    exact hin hin1

theorem Piece.look_eq (p q : Piece) :
    p.look = q.look ↔ p.type = q.type ∧ p.color = q.color ∧ p.position = q.position := by
  unfold Piece.look
  simp only [Prod.mk.injEq]

theorem Move.relocate_id (m : Move) (x : Piece) : (m.relocate x).id = x.id := by
  unfold Move.relocate
  split_ifs <;> rfl

theorem Move.relocate_color (m : Move) (x : Piece) : (m.relocate x).color = x.color := by
  unfold Move.relocate
  split_ifs <;> rfl

theorem Move.relocate_flag (m : Move) (x : Piece) :
    (m.relocate x).isEnPassantTarget = x.isEnPassantTarget := by
  unfold Move.relocate
  split_ifs <;> rfl

/-- Relocation reads only the square of the piece. -/
theorem Move.relocate_look (m : Move) (x y : Piece) (h : x.look = y.look) :
    (m.relocate x).look = (m.relocate y).look := by
  obtain ⟨h1, h2, h3⟩ := (Piece.look_eq x y).1 h
  unfold Move.relocate
  rw [h3]
  split_ifs <;> simp [Piece.look, h1, h2, h3]

theorem Board.setIsEnPassantTarget_wellFormed (b : Board) (j : Nat) (v : Bool)
    (hwf : b.WellFormed) : (b.setIsEnPassantTarget j v).WellFormed := by
  unfold Board.WellFormed
  rw [Board.setIsEnPassantTarget_ids, Board.setIsEnPassantTarget_positions]
  exact hwf

theorem Board.setIsEnPassantTarget_admits (b : Board) (j : Nat) (v : Bool) (m : Move)
    (h : b.Admits m) : (b.setIsEnPassantTarget j v).Admits m := by
  obtain ⟨⟨mover, hmover, hmid⟩, hcap, hne, hdest, hcast⟩ := h
  refine ⟨?_, ?_, hne, ?_, ?_⟩
  · rw [Board.setIsEnPassantTarget_getPiece, hmover]
    refine ⟨_, rfl, ?_⟩
    rw [← hmid]
    simp only []
    split_ifs <;> rfl
  · intro c hc
    obtain ⟨c0, hc0, hcid, hcf⟩ := hcap c hc
    rw [Board.setIsEnPassantTarget_getPiece, hc0]
    refine ⟨_, rfl, ?_, hcf⟩
    rw [← hcid]
    simp only []
    split_ifs <;> rfl
  · rcases hdest with hn | hs
    · left
      rw [Board.setIsEnPassantTarget_getPiece, hn]
      rfl
    · exact Or.inr hs
  · intro hc
    obtain ⟨h1, h2, h3, h4, h5, h6⟩ := hcast hc
    refine ⟨h1, h2, h3, h4, h5, ?_⟩
    rw [Board.setIsEnPassantTarget_getPiece, h6]
    rfl

/-- Membership after flagging, up to the flag. -/
theorem Board.setIsEnPassantTarget_look (b : Board) (j : Nat) (v : Bool) :
    (∀ y ∈ (b.setIsEnPassantTarget j v).pieces, ∃ x ∈ b.pieces, y.id = x.id ∧ y.look = x.look) ∧
    (∀ x ∈ b.pieces, ∃ y ∈ (b.setIsEnPassantTarget j v).pieces, y.id = x.id ∧ y.look = x.look) := by
  constructor
  · intro y hy
    obtain ⟨x, hx, e⟩ := (Board.setIsEnPassantTarget_mem b j v y).1 hy
    refine ⟨x, hx, ?_⟩
    rw [e]
    split_ifs <;> exact ⟨rfl, rfl⟩
  · intro x hx
    refine ⟨_, (Board.setIsEnPassantTarget_mem b j v _).2 ⟨x, hx, rfl⟩, ?_⟩
    split_ifs <;> exact ⟨rfl, rfl⟩

/-- The board after a successful `makeMove` with a move the board admits: it is well
formed, and its pieces are the pieces of the board before, the captured one left out,
each relocated by the move. -/
theorem makeMove_board (g : Game) (m : Move) (hwf : g.board.WellFormed)
    (hadm : g.board.Admits m) (h : (g.makeMove m).raised = none) :
    (g.makeMove m).state.board.WellFormed ∧
    (∀ y ∈ (g.makeMove m).state.board.pieces, ∃ x ∈ g.board.pieces,
      (∀ c, m.capturedPiece = some c → x.position ≠ c.position) ∧
      y.id = x.id ∧ y.look = (m.relocate x).look) ∧
    (∀ x ∈ g.board.pieces, (∀ c, m.capturedPiece = some c → x.position ≠ c.position) →
      ∃ y ∈ (g.makeMove m).state.board.pieces, y.id = x.id ∧ y.look = (m.relocate x).look) := by
  obtain ⟨_, g3, hs, _, _, _, _, _, _, _, hboard⟩ := makeMove_success_full g m h
  obtain ⟨s1, _, _, _⟩ := applyToBoard_state (g3.refreshCastlingPossibilites m) m
  obtain ⟨_, _, _, f4, _, _, _, _⟩ := refreshCastlingPossibilites_frame g3 m
  rw [f4] at s1
  -- the board the move is applied to
  have h3 : g3.board.WellFormed ∧ g3.board.Admits m ∧
      (∀ y ∈ g3.board.pieces, ∃ x ∈ g.board.pieces, y.id = x.id ∧ y.look = x.look) ∧
      (∀ x ∈ g.board.pieces, ∃ y ∈ g3.board.pieces, y.id = x.id ∧ y.look = x.look) := by
    rcases hboard with ⟨_, e⟩ | ⟨old, _, e⟩
    · rw [e]
      exact ⟨hwf, hadm, fun y hy => ⟨y, hy, rfl, rfl⟩, fun x hx => ⟨x, hx, rfl, rfl⟩⟩
    · rw [e]
      exact ⟨Board.setIsEnPassantTarget_wellFormed _ _ _ hwf,
        Board.setIsEnPassantTarget_admits _ _ _ m hadm,
        (Board.setIsEnPassantTarget_look _ _ _).1, (Board.setIsEnPassantTarget_look _ _ _).2⟩
  obtain ⟨hwf3, hadm3, h3a, h3b⟩ := h3
  have hwf4 := Board.makeMove_wellFormed g3.board hwf3 m hadm3
  -- the board after the move, before the flag of a double push
  have h4a : ∀ y ∈ (g3.board.makeMove m).pieces, ∃ x ∈ g.board.pieces,
      (∀ c, m.capturedPiece = some c → x.position ≠ c.position) ∧
      y.id = x.id ∧ y.look = (m.relocate x).look := by
    intro y hy
    obtain ⟨x3, hx3, hc3, rfl⟩ := (Board.mem_makeMove g3.board hwf3 m hadm3 y).1 hy
    obtain ⟨x, hx, hid, hlook⟩ := h3a x3 hx3
    refine ⟨x, hx, ?_, ?_, Move.relocate_look m x3 x hlook⟩
    · intro c hc
      rw [← ((Piece.look_eq x3 x).1 hlook).2.2]
      exact hc3 c hc
    · rw [Move.relocate_id]; exact hid
  have h4b : ∀ x ∈ g.board.pieces, (∀ c, m.capturedPiece = some c → x.position ≠ c.position) →
      ∃ y ∈ (g3.board.makeMove m).pieces, y.id = x.id ∧ y.look = (m.relocate x).look := by
    intro x hx hc
    obtain ⟨x3, hx3, hid, hlook⟩ := h3b x hx
    refine ⟨m.relocate x3, (Board.mem_makeMove g3.board hwf3 m hadm3 _).2 ⟨x3, hx3, ?_, rfl⟩, ?_,
      Move.relocate_look m x3 x hlook⟩
    · intro c hcc
      rw [((Piece.look_eq x3 x).1 hlook).2.2]
      exact hc c hcc
    · rw [Move.relocate_id]; exact hid
  rw [hs, s1]
  split_ifs
  · refine ⟨Board.setIsEnPassantTarget_wellFormed _ _ _ hwf4, ?_, ?_⟩
    · intro y hy
      obtain ⟨y4, hy4, hid, hlook⟩ := (Board.setIsEnPassantTarget_look _ _ _).1 y hy
      obtain ⟨x, hx, hc, hid2, hlook2⟩ := h4a y4 hy4
      exact ⟨x, hx, hc, hid.trans hid2, hlook.trans hlook2⟩
    · intro x hx hc
      obtain ⟨y4, hy4, hid, hlook⟩ := h4b x hx hc
      obtain ⟨y, hy, hid2, hlook2⟩ := (Board.setIsEnPassantTarget_look _ _ _).2 y4 hy4
      exact ⟨y, hy, hid2.trans hid, hlook2.trans hlook⟩
  · exact ⟨hwf4, h4a, h4b⟩

/-- The shape of the moves of the walk over some directions. -/
theorem getMovesInDirections_shape (b : Board) (piece : Piece) (dirs : List (Int × Int)) :
    ∀ m ∈ piece.getMovesInDirections b dirs,
      m.from_ = piece.position ∧ m.piece = piece ∧ m.to_.inBounds = true ∧
      m.promoteTo = PieceType.NONE ∧ m.IsPlain b piece := by
  intro m hm
  unfold Piece.getMovesInDirections at hm
  obtain ⟨d, _, hd⟩ := List.mem_flatMap.1 hm
  obtain ⟨k, _, _, _, hin, hf, hto, hp, hpr, hcap⟩ :=
    (walkDirection_mem b piece d m 8 piece.position).1 hd
  refine ⟨hf, hp, by rw [hto]; exact hin, hpr, ?_⟩
  unfold Move.IsPlain
  rw [hto]
  exact hcap

/-- The shape of the moves of a knight. -/
theorem Knight.getMoves_knight_shape (b : Board) (piece : Piece) :
    ∀ m ∈ Knight.getMoves b piece,
      m.from_ = piece.position ∧ m.piece = piece ∧ m.to_.inBounds = true ∧
      m.promoteTo = PieceType.NONE ∧ m.IsPlain b piece := by
  intro m hm
  unfold Knight.getMoves at hm
  obtain ⟨d, _, hd⟩ := List.mem_flatMap.1 hm
  unfold offsetMove at hd
  dsimp only at hd
  split_ifs at hd with h1
  · split at hd
    · rename_i hnone
      simp only [List.mem_singleton] at hd
      subst hd
      exact ⟨rfl, rfl, h1, rfl, Or.inl ⟨hnone, rfl⟩⟩
    · rename_i q hq
      split_ifs at hd with h2
      · simp only [List.mem_singleton] at hd
        subst hd
        exact ⟨rfl, rfl, h1, rfl, Or.inr ⟨q, hq, h2, rfl⟩⟩
      · simp at hd
  · simp at hd

/-- The shape of the pseudo-legal moves of any piece: an ordinary move or an
en-passant capture, with a promotion kind only for a pawn on its farthest rank. -/
theorem Piece.getMoves_piece_shape (b : Board) (piece : Piece) :
    ∀ m ∈ piece.getMoves b,
      m.from_ = piece.position ∧ m.piece = piece ∧ m.to_.inBounds = true ∧
      piece.type ≠ PieceType.KING ∧
      (m.IsPlain b piece ∨ (piece.type = PieceType.PAWN ∧ m.IsEnPassantOf b piece)) ∧
      (m.promoteTo = PieceType.NONE ∨
        (piece.type = PieceType.PAWN ∧ m.to_.row = Pawn.lastRow piece.color)) ∧
      m.promoteTo ≠ PieceType.KING ∧ m.promoteTo ≠ PieceType.PAWN := by
  intro m hm
  have walk : ∀ dirs, m ∈ piece.getMovesInDirections b dirs → piece.type ≠ PieceType.KING →
      m.from_ = piece.position ∧ m.piece = piece ∧ m.to_.inBounds = true ∧
      piece.type ≠ PieceType.KING ∧
      (m.IsPlain b piece ∨ (piece.type = PieceType.PAWN ∧ m.IsEnPassantOf b piece)) ∧
      (m.promoteTo = PieceType.NONE ∨
        (piece.type = PieceType.PAWN ∧ m.to_.row = Pawn.lastRow piece.color)) ∧
      m.promoteTo ≠ PieceType.KING ∧ m.promoteTo ≠ PieceType.PAWN := by
    intro dirs h hk
    obtain ⟨h1, h2, h3, h4, h5⟩ := getMovesInDirections_shape b piece dirs m h
    exact ⟨h1, h2, h3, hk, Or.inl h5, Or.inl h4, by rw [h4]; simp, by rw [h4]; simp⟩
  unfold Piece.getMoves at hm
  split at hm
  · rename_i hty
    obtain ⟨h1, h2, h3, hshape, hpr, hk, hpw⟩ := Pawn.getMoves_shape b piece m hm
    refine ⟨h1, h2, h3, by rw [hty]; simp, ?_, ?_, hk, hpw⟩
    · unfold Pawn.MoveShape at hshape
      rcases hshape with ⟨_, hn, hc⟩ | ⟨_, _, _, hn, hc⟩ | ⟨dc, _, _, q, hq, hcol, hc⟩ |
          ⟨dc, hdc, hto, q, hq, hqt, hcol, hfl, hc⟩
      · exact Or.inl (Or.inl ⟨hn, hc⟩)
      · exact Or.inl (Or.inl ⟨hn, hc⟩)
      · exact Or.inl (Or.inr ⟨q, hq, hcol, hc⟩)
      · exact Or.inr ⟨hty, dc, hdc, hto, q, hq, hqt, hcol, hfl, hc⟩
    · exact hpr.imp (fun h => h) (fun h => ⟨hty, h⟩)
  · rename_i hty
    exact walk _ hm (by rw [hty]; simp)
  · rename_i hty
    exact walk _ hm (by rw [hty]; simp)
  · rename_i hty
    obtain ⟨h1, h2, h3, h4, h5⟩ := Knight.getMoves_knight_shape b piece m hm
    exact ⟨h1, h2, h3, by rw [hty]; simp, Or.inl h5, Or.inl h4, by rw [h4]; simp,
      by rw [h4]; simp⟩
  · rename_i hty
    exact walk _ hm (by rw [hty]; simp)
  · simp [King.getMoves] at hm
  · simp at hm

theorem Game.currentPlayerBackRank_eq (g : Game) :
    g.currentPlayerBackRank = backRank g.currentPlayer := rfl

theorem Game.castlingRight_kingside (g : Game) :
    (if g.currentPlayer = Color.WHITE then g.canWhiteKingsideCastle
      else g.canBlackKingsideCastle) = g.castlingRight g.currentPlayer true := by
  cases g.currentPlayer <;> rfl

theorem Game.castlingRight_queenside (g : Game) :
    (if g.currentPlayer = Color.WHITE then g.canWhiteQueensideCastle
      else g.canBlackQueensideCastle) = g.castlingRight g.currentPlayer false := by
  cases g.currentPlayer <;> rfl

/-- The facts about a castling candidate, with the columns as parameters. -/
theorem castling_candidate_core (g : Game) (home r : Piece) (rank toCol rookCol rookTo : Int)
    (hcols : (toCol = 7 ∧ rookCol = 8 ∧ rookTo = 6) ∨ (toCol = 3 ∧ rookCol = 1 ∧ rookTo = 4))
    (hrank : rank = backRank g.currentPlayer)
    (hhome : g.board.getPiece ⟨rank, 5⟩ = some home) (hkt : home.type = PieceType.KING)
    (hkc : home.color = g.currentPlayer)
    (hr : g.board.getPiece ⟨rank, rookCol⟩ = some r) (hrc : r.color = g.currentPlayer)
    (hto : g.board.getPiece ⟨rank, toCol⟩ = none)
    (hrto : g.board.getPiece ⟨rank, rookTo⟩ = none) :
    g.Validates ⟨⟨rank, 5⟩, ⟨rank, toCol⟩, home, none, PieceType.NONE⟩ := by
  have hr18 : rank = 1 ∨ rank = 8 := by
    rw [hrank]
    unfold backRank
    split_ifs
    · exact Or.inl rfl
    · exact Or.inr rfl
  have hcastle : Move.isCastling ⟨⟨rank, 5⟩, ⟨rank, toCol⟩, home, none, PieceType.NONE⟩ =
      true := by
    unfold Move.isCastling
    rcases hcols with ⟨e, _, _⟩ | ⟨e, _, _⟩ <;> simp [hkt, e]
  have hsq : castlingRookSquares ⟨⟨rank, 5⟩, ⟨rank, toCol⟩, home, none, PieceType.NONE⟩ =
      (⟨rank, rookCol⟩, ⟨rank, rookTo⟩) := by
    unfold castlingRookSquares
    rcases hcols with ⟨e1, e2, e3⟩ | ⟨e1, e2, e3⟩ <;> simp [e1, e2, e3]
  have hne : ∀ a b : Int, a ≠ b → (⟨rank, a⟩ : Position) ≠ ⟨rank, b⟩ := by
    intro a b hab e
    exact hab (Position.mk.inj e).2
  have hin : ∀ c : Int, 1 ≤ c → c ≤ 8 → Position.inBounds ⟨rank, c⟩ = true := by
    intro c h1 h8
    unfold Position.inBounds
    simp only [Bool.and_eq_true, decide_eq_true_eq]
    rcases hr18 with e | e <;> rw [e] <;> omega
  unfold Game.Validates
  refine ⟨⟨⟨home, hhome, rfl⟩, ?_, ?_, Or.inl hto, ?_⟩, ?_, hhome, hkc, ?_, ?_, ?_, ?_, ?_⟩
  · intro c hc
    cases hc
  · rcases hcols with ⟨e, _, _⟩ | ⟨e, _, _⟩ <;> rw [e] <;> exact hne _ _ (by decide)
  · intro _
    rw [hsq]
    refine ⟨rfl, ?_, ?_, ?_, ?_, hrto⟩ <;>
      rcases hcols with ⟨e1, e2, e3⟩ | ⟨e1, e2, e3⟩ <;> rw [e1, e2, e3] <;> try rw [e1]
    all_goals exact hne _ _ (by decide)
  · rcases hcols with ⟨e, _, _⟩ | ⟨e, _, _⟩ <;> rw [e] <;> exact hin _ (by decide) (by decide)
  · intro q hq
    cases hq
  · intro h
    exact absurd rfl h
  · intro h
    cases h
  · intro _
    exact hcastle
  · intro _
    rw [hsq]
    refine ⟨?_, ?_, r, hr, hrc⟩
    · unfold homeSquare
      rw [hrank]
    · rcases hcols with ⟨_, _, e⟩ | ⟨_, _, e⟩ <;> rw [e] <;> exact hin _ (by decide) (by decide)

/-- A castling candidate of the side to move in a state with consistent castling
rights is a validated move. -/
theorem castling_candidate_validates (g : Game)
    (hcc : g.CastlingConsistent) (home : Piece) (kingside : Bool)
    (hhome : g.getPiece ⟨g.currentPlayerBackRank, 5⟩ = some home)
    (hpossible : (if kingside = true then g.possibleKingsideCastlingThisRound
      else g.possibleQueensideCastlingThisRound) = Except.ok true) :
    g.Validates ⟨⟨g.currentPlayerBackRank, 5⟩,
      ⟨g.currentPlayerBackRank, if kingside = true then 7 else 3⟩, home, none,
      PieceType.NONE⟩ := by
  -- the right is set
  have hright : g.castlingRight g.currentPlayer kingside = true := by
    by_contra hne
    have hf : g.castlingRight g.currentPlayer kingside = false := by simpa using hne
    cases kingside with
    | true =>
      rw [← Game.castlingRight_kingside] at hf
      have := possibleKingsideCastlingThisRound_no_right g hf
      simp only [if_true] at hpossible
      rw [this] at hpossible
      cases hpossible
    | false =>
      rw [← Game.castlingRight_queenside] at hf
      have := possibleQueensideCastlingThisRound_no_right g hf
      simp only [Bool.false_eq_true, if_false] at hpossible
      rw [this] at hpossible
      cases hpossible
  obtain ⟨⟨k, hk, hkt, hkc⟩, ⟨r, hr, _, hrc⟩⟩ := hcc g.currentPlayer kingside hright
  unfold homeSquare at hk
  rw [← Game.currentPlayerBackRank_eq] at hk
  unfold cornerSquare at hr
  rw [← Game.currentPlayerBackRank_eq] at hr
  have hkh : home = k := by
    rw [hhome] at hk
    exact Option.some.inj hk
  subst hkh
  unfold Game.getPiece at hhome hr
  cases kingside with
  | true =>
    simp only [if_true] at hpossible hr ⊢
    obtain ⟨_, _, h6, h7⟩ := possibleKingsideCastlingThisRound_true g hpossible
    exact castling_candidate_core g home r _ 7 8 6 (Or.inl ⟨rfl, rfl, rfl⟩)
      (Game.currentPlayerBackRank_eq g) hhome hkt hkc hr hrc h7 h6
  | false =>
    simp only [Bool.false_eq_true, if_false] at hpossible hr ⊢
    obtain ⟨_, _, _, h3, h4⟩ := possibleQueensideCastlingThisRound_true g hpossible
    exact castling_candidate_core g home r _ 3 1 4 (Or.inr ⟨rfl, rfl, rfl⟩)
      (Game.currentPlayerBackRank_eq g) hhome hkt hkc hr hrc h3 h4

/-- A pseudo-legal move of a piece of the side to move, other than a king, is a
validated move in a sound state. -/
theorem getMoves_validates (g : Game) (hs : g.Sound) (p : Position) (piece : Piece)
    (hp : g.getPiece p = some piece) (hcol : piece.color = g.currentPlayer)
    (m : Move) (hm : m ∈ piece.getMoves g.board) : g.Validates m := by
  obtain ⟨hwf, _, _, _, hsafe, hflags, _⟩ := hs
  unfold Game.getPiece at hp
  have hmem := Board.getPiece_mem g.board p piece hp
  have hpos := Board.getPiece_position g.board p piece hp
  obtain ⟨hf, hpc, hin, hnk, hshape, hpromo, hpk, _⟩ := Piece.getMoves_piece_shape g.board piece m hm
  have hfrom : g.board.getPiece m.from_ = some piece := by rw [hf, hpos]; exact hp
  have hncast : m.isCastling = false := by
    unfold Move.isCastling
    rw [hpc]
    simp [hnk]
  have hdir : Pawn.direction piece.color = 1 ∨ Pawn.direction piece.color = -1 := by
    cases piece.color
    · exact Or.inl rfl
    · exact Or.inr rfl
  unfold Game.Validates
  refine ⟨?_, hin, by rw [hpc]; exact hfrom, by rw [hpc]; exact hcol, ?_, ?_, hpk, ?_, ?_⟩
  · -- the board admits the move
    refine ⟨⟨piece, hfrom, by rw [hpc]⟩, ?_, ?_, ?_, fun h => by rw [hncast] at h; cases h⟩
    · intro c hc
      rcases hshape with (⟨_, hn⟩ | ⟨q, hq, hqc, hcap⟩) | ⟨_, dc, hdc, hto, q, hq, _, _, _, hcap⟩
      · rw [hn] at hc; cases hc
      · rw [hcap] at hc
        have e0 := Option.some.inj hc
        subst e0
        have hqp := Board.getPiece_position g.board _ q hq
        refine ⟨q, by rw [hqp]; exact hq, rfl, ?_⟩
        intro e
        rw [hqp.symm.trans e, hfrom] at hq
        have e1 := Option.some.inj hq
        subst e1
        exact hqc rfl
      · rw [hcap] at hc
        have e0 := Option.some.inj hc
        subst e0
        have hqp := Board.getPiece_position g.board _ q hq
        refine ⟨q, by rw [hqp]; exact hq, rfl, ?_⟩
        rw [hqp, hf]
        intro e
        have := (Position.mk.inj (e.trans (by cases h : piece.position; rfl :
          piece.position = ⟨piece.position.row, piece.position.col⟩))).2
        rcases hdc with e1 | e1 <;> rw [e1] at this <;> omega
    · rcases hshape with (⟨hn, _⟩ | ⟨q, hq, hqc, _⟩) | ⟨_, dc, _, hto, _⟩
      · intro e
        rw [e, hfrom] at hn
        cases hn
      · intro e
        rw [e, hfrom] at hq
        cases hq
        exact hqc rfl
      · intro e
        rw [hto, hf] at e
        have : piece.position.row + Pawn.direction piece.color = piece.position.row := by
          have := congrArg Position.row e
          exact this
        rcases hdir with e1 | e1 <;> rw [e1] at this <;> omega
    · rcases hshape with (⟨hn, _⟩ | ⟨q, hq, _, hcap⟩) | ⟨_, dc, _, hto, q, hq, _, hqc, hfl, _⟩
      · exact Or.inl hn
      · exact Or.inr ⟨q, hcap, Board.getPiece_position g.board _ q hq⟩
      · left
        obtain ⟨t, _, hqt, hempty⟩ := hflags q (Board.getPiece_mem g.board _ q hq) hfl
        have hqp := Board.getPiece_position g.board _ q hq
        rw [hqp] at hqt
        have ht : m.to_ = t := by
          rw [hto]
          cases t with
          | mk tr tc =>
            simp only [Position.mk.injEq] at hqt ⊢
            rw [← hcol] at hqt
            cases hc : piece.color <;> rw [hc] at hqt <;>
              simp [Pawn.direction] at hqt ⊢ <;> omega
        rw [ht]
        exact hempty
  · intro q hq
    rcases hshape with (⟨_, hn⟩ | ⟨q1, hq1, hqc, hcap⟩) | ⟨_, dc, _, _, q1, hq1, _, hqc, _, hcap⟩
    · rw [hn] at hq; cases hq
    · rw [hcap] at hq
      cases hq
      exact ⟨Board.getPiece_mem g.board _ _ hq1, by rw [← hcol]; exact hqc,
        hsafe piece hmem hcol m hm _ hcap⟩
    · rw [hcap] at hq
      cases hq
      exact ⟨Board.getPiece_mem g.board _ _ hq1, by rw [← hcol]; exact hqc,
        hsafe piece hmem hcol m hm _ hcap⟩
  · intro hne
    rcases hpromo with h0 | ⟨h1, h2⟩
    · exact absurd h0 hne
    · rw [hpc]
      exact ⟨h1, h2⟩
  · intro hk
    rw [hpc] at hk
    exact absurd hk hnk
  · intro hc
    rw [hncast] at hc
    cases hc

/-- A move of `getMovesFrom` for a piece of the side to move is a validated move in
a sound state. -/
theorem getMovesFrom_validates (g : Game) (hs : g.Sound) (p : Position) (piece : Piece)
    (hp : g.getPiece p = some piece) (hcol : piece.color = g.currentPlayer)
    (moves : List Move) (h : g.getMovesFrom p = Except.ok moves) (m : Move) (hm : m ∈ moves) :
    g.Validates m := by
  by_cases hk : piece.type = PieceType.KING
  · obtain ⟨ks, qs, home, hks, hqs, hhome, hmoves⟩ := getMovesFrom_king_spec g p piece moves hp hk h
    rw [hmoves] at hm
    rcases List.mem_append.1 hm with h1 | h1
    · cases ks with
      | false => simp at h1
      | true =>
        simp only [if_true, List.mem_singleton] at h1
        subst h1
        exact castling_candidate_validates g hs.2.2.1 home true (hhome (Or.inl rfl))
          (by simpa using hks)
    · cases qs with
      | false => simp at h1
      | true =>
        simp only [if_true, List.mem_singleton] at h1
        subst h1
        exact castling_candidate_validates g hs.2.2.1 home false (hhome (Or.inr rfl))
          (by simpa using hqs)
  · rw [getMovesFrom_not_king g p piece hp hk] at h
    cases h
    exact getMoves_validates g hs p piece hp hcol m hm

/-- The three ways `relocate` treats a piece. -/
theorem Move.relocate_cases (m : Move) (x : Piece) :
    (x.position = m.from_ ∧ (m.relocate x).position = m.to_ ∧
      (m.relocate x).type = (if m.promoteTo = PieceType.NONE then x.type else m.promoteTo)) ∨
    (x.position ≠ m.from_ ∧ m.isCastling = true ∧ x.position = (castlingRookSquares m).1 ∧
      (m.relocate x).position = (castlingRookSquares m).2 ∧ (m.relocate x).type = x.type) ∨
    (x.position ≠ m.from_ ∧ ¬(m.isCastling = true ∧ x.position = (castlingRookSquares m).1) ∧
      m.relocate x = x) := by
  unfold Move.relocate
  by_cases h1 : x.position = m.from_
  · left
    rw [if_pos h1]
    exact ⟨h1, rfl, rfl⟩
  · right
    rw [if_neg h1]
    by_cases h2 : m.isCastling = true ∧ x.position = (castlingRookSquares m).1
    · left
      rw [if_pos h2]
      exact ⟨h1, h2.1, h2.2, rfl, rfl⟩
    · right
      rw [if_neg h2]
      exact ⟨h1, h2, rfl⟩

/-- The castling rights after a successful `makeMove`, by colour and side. -/
theorem makeMove_castlingRight (g : Game) (m : Move) (h : (g.makeMove m).raised = none)
    (c : Color) (kingside : Bool) :
    (g.makeMove m).state.castlingRight c kingside =
      (g.castlingRight c kingside && !m.revokesCastling c (cornerSquare c kingside)) := by
  obtain ⟨_, g3, hs, _, _, _, r1, r2, r3, r4, _⟩ := makeMove_success g m h
  obtain ⟨_, _, a1, a2, a3, a4⟩ := applyToBoard_frame (g3.refreshCastlingPossibilites m) m
  obtain ⟨q1, q2, q3, q4⟩ := refreshCastlingPossibilites_rights g3 m
  rw [hs]
  cases c <;> cases kingside <;>
    simp only [Game.castlingRight, cornerSquare, backRank, if_true, if_false,
      Bool.false_eq_true, a1, a2, a3, a4, q1, q2, q3, q4, r1, r2, r3, r4] <;> rfl

/-- After a validated move every piece is on the board. -/
theorem makeMove_inBounds (g : Game) (m : Move) (hs : g.Sound) (hv : g.Validates m)
    (h : (g.makeMove m).raised = none) :
    ∀ y ∈ (g.makeMove m).state.board.pieces, y.position.inBounds = true := by
  obtain ⟨hwf, hin, _⟩ := hs
  obtain ⟨hadm, hto, _, _, _, _, _, _, hcast⟩ := hv
  obtain ⟨_, hfate, _⟩ := makeMove_board g m hwf hadm h
  intro y hy
  obtain ⟨x, hx, _, _, hlook⟩ := hfate y hy
  rw [((Piece.look_eq _ _).1 hlook).2.2]
  rcases Move.relocate_cases m x with ⟨_, e, _⟩ | ⟨_, hc, _, e, _⟩ | ⟨_, _, e⟩
  · rw [e]; exact hto
  · rw [e]; exact (hcast hc).2.1
  · rw [e]; exact hin x hx

/-- After a validated move there is still at most one king of each colour. -/
theorem makeMove_kingsUnique (g : Game) (m : Move) (hwf : g.board.WellFormed)
    (huniq : g.KingsUnique) (hadm : g.board.Admits m) (hpk : m.promoteTo ≠ PieceType.KING)
    (h : (g.makeMove m).raised = none) : (g.makeMove m).state.KingsUnique := by
  obtain ⟨hwf2, hfate, _⟩ := makeMove_board g m hwf hadm h
  have key : ∀ y ∈ (g.makeMove m).state.board.pieces, y.type = PieceType.KING →
      ∃ x ∈ g.board.pieces, y.id = x.id ∧ x.type = PieceType.KING ∧ x.color = y.color := by
    intro y hy hk
    obtain ⟨x, hx, _, hid, hlook⟩ := hfate y hy
    obtain ⟨ht, hc, _⟩ := (Piece.look_eq _ _).1 hlook
    rw [Move.relocate_color] at hc
    refine ⟨x, hx, hid, ?_, hc.symm⟩
    rw [hk] at ht
    rcases Move.relocate_cases m x with ⟨_, _, e⟩ | ⟨_, _, _, _, e⟩ | ⟨_, _, e⟩
    · rw [e] at ht
      split_ifs at ht
      · exact ht.symm
      · exact absurd ht.symm hpk
    · rw [e] at ht; exact ht.symm
    · rw [e] at ht; exact ht.symm
  intro y1 hy1 y2 hy2 hk1 hk2 hcol
  obtain ⟨x1, hx1, hid1, hkx1, hc1⟩ := key y1 hy1 hk1
  obtain ⟨x2, hx2, hid2, hkx2, hc2⟩ := key y2 hy2 hk2
  have := huniq x1 hx1 x2 hx2 hkx1 hkx2 (by rw [hc1, hc2, hcol])
  exact Board.eq_of_id_eq _ hwf2 y1 y2 hy1 hy2 (by rw [hid1, hid2, this])

/-- A piece a validated move neither captures nor moves is found on its square after
the move. -/
theorem makeMove_keeps_piece (g : Game) (m : Move) (hs : g.Sound) (hv : g.Validates m)
    (h : (g.makeMove m).raised = none) (x : Piece) (hx : x ∈ g.board.pieces)
    (hcap : ∀ q, m.capturedPiece = some q → x.position ≠ q.position)
    (hfrom : x.position ≠ m.from_)
    (hrook : ¬(m.isCastling = true ∧ x.position = (castlingRookSquares m).1)) :
    ∃ y, (g.makeMove m).state.getPiece x.position = some y ∧ y.id = x.id ∧
      y.type = x.type ∧ y.color = x.color := by
  obtain ⟨hwf2, _, hfate⟩ := makeMove_board g m hs.1 hv.1 h
  obtain ⟨y, hy, hid, hlook⟩ := hfate x hx hcap
  have hrel : m.relocate x = x := by
    rcases Move.relocate_cases m x with ⟨e, _⟩ | ⟨_, hc, e, _⟩ | ⟨_, _, e⟩
    · exact absurd e hfrom
    · exact absurd ⟨hc, e⟩ hrook
    · exact e
  rw [hrel] at hlook
  obtain ⟨ht, hc, hp⟩ := (Piece.look_eq _ _).1 hlook
  exact ⟨y, (Board.getPiece_eq_some _ hwf2 _ _).2 ⟨hy, hp⟩, hid, ht, hc⟩

theorem backRank_injective (c d : Color) (h : backRank c = backRank d) : c = d := by
  cases c <;> cases d <;> simp [backRank] at h ⊢

/-- After a legal-shaped move the castling rights still match the board. -/
theorem makeMove_castlingConsistent (g : Game) (m : Move) (hs : g.Sound) (hv : g.Validates m)
    (h : (g.makeMove m).raised = none) : (g.makeMove m).state.CastlingConsistent := by
  have hwf := hs.1
  have hcc := hs.2.2.1
  have hv0 := hv
  obtain ⟨_, _, hpiece, hpcol, hcapt, _, _, _, hcast⟩ := hv0
  intro c kingside hright
  rw [makeMove_castlingRight g m h, Bool.and_eq_true] at hright
  obtain ⟨hold, hrev⟩ := hright
  have hrev2 : m.revokesCastling c (cornerSquare c kingside) = false := by simpa using hrev
  unfold Move.revokesCastling at hrev2
  simp only [Bool.or_eq_false_iff, Bool.and_eq_false_iff, decide_eq_false_iff_not] at hrev2
  obtain ⟨⟨hnk, hnr⟩, hncap⟩ := hrev2
  obtain ⟨⟨k, hk, hkt, hkc⟩, ⟨r, hr, hrt, hrc⟩⟩ := hcc c kingside hold
  unfold Game.getPiece at hk hr hpiece
  have hkm := Board.getPiece_mem _ _ _ hk
  have hkp := Board.getPiece_position _ _ _ hk
  have hrm := Board.getPiece_mem _ _ _ hr
  have hrp := Board.getPiece_position _ _ _ hr
  -- a castling move is made by the king of the side to move from its home square
  have hcastle : m.isCastling = true → m.piece.type = PieceType.KING := by
    intro hc
    unfold Move.isCastling at hc
    simp only [Bool.and_eq_true, decide_eq_true_eq] at hc
    exact hc.1
  have hrooksq : ∀ y : Position, m.isCastling = true → y = (castlingRookSquares m).1 →
      y.row = backRank g.currentPlayer ∧ y.col ≠ 5 := by
    intro y hc hy
    have hf := (hcast hc).1
    unfold castlingRookSquares at hy
    unfold homeSquare at hf
    rw [hy, hf]
    split_ifs <;> simp
  constructor
  · -- the king
    have := makeMove_keeps_piece g m hs hv h k hkm ?_ ?_ ?_
    · obtain ⟨y, hy, _, ht, hcol⟩ := this
      rw [hkp] at hy
      exact ⟨y, hy, ht.trans hkt, hcol.trans hkc⟩
    · intro q hq e
      obtain ⟨hqm, _, hqk⟩ := hcapt q hq
      exact hqk (by rw [← Board.eq_of_position_eq _ hwf k q hkm hqm e]; exact hkt)
    · intro e
      rw [← e, hkp, hk] at hpiece
      have := Option.some.inj hpiece
      rcases hnk with h1 | h1
      · exact h1 (by rw [← this]; exact hkt)
      · exact h1 (by rw [← this]; exact hkc)
    · rintro ⟨hc, e⟩
      have := (hrooksq _ hc e).2
      rw [hkp] at this
      exact this rfl
  · -- the rook
    have := makeMove_keeps_piece g m hs hv h r hrm ?_ ?_ ?_
    · obtain ⟨y, hy, _, ht, hcol⟩ := this
      rw [hrp] at hy
      exact ⟨y, hy, ht.trans hrt, hcol.trans hrc⟩
    · intro q hq e
      obtain ⟨hqm, _, _⟩ := hcapt q hq
      have e2 := Board.eq_of_position_eq _ hwf r q hrm hqm e
      rw [hq] at hncap
      simp only [Bool.and_eq_false_iff, decide_eq_false_iff_not] at hncap
      rcases hncap with h1 | h1
      · exact h1 (by rw [← e2]; exact hrt)
      · exact h1 (by rw [← e2]; exact hrp)
    · intro e
      rw [← e, hrp, hr] at hpiece
      have := Option.some.inj hpiece
      rcases hnr with (h1 | h1) | h1
      · exact h1 (by rw [← this]; exact hrt)
      · exact h1 (by rw [← this]; exact hrc)
      · exact h1 (by rw [← e]; exact hrp)
    · rintro ⟨hc, e⟩
      have hrow := (hrooksq _ hc e).1
      rw [hrp] at hrow
      have hcc2 : c = g.currentPlayer := backRank_injective _ _ hrow
      rcases hnk with h1 | h1
      · exact h1 (hcastle hc)
      · exact h1 (by rw [hcc2]; exact hpcol)

/-- The rows of a double pawn push. -/
theorem isDoublePawnMove_rows (m : Move) (hd : m.isDoublePawnMove = true) :
    m.piece.type = PieceType.PAWN ∧
    ((m.piece.color = Color.WHITE ∧ m.from_.row = 2 ∧ m.to_.row = 4) ∨
     (m.piece.color = Color.BLACK ∧ m.from_.row = 7 ∧ m.to_.row = 5)) := by
  unfold Move.isDoublePawnMove at hd
  simp only [Bool.and_eq_true, Bool.or_eq_true, decide_eq_true_eq] at hd
  exact ⟨hd.1, hd.2.imp (fun h => ⟨h.1.1, h.1.2, h.2⟩) (fun h => ⟨h.1.1, h.1.2, h.2⟩)⟩

/-- The square a double pawn push of `getMovesFrom` passes over is empty. -/
theorem getMovesFrom_double_pawn_push_mid (g : Game) (p : Position) (moves : List Move)
    (h : g.getMovesFrom p = Except.ok moves) (m : Move) (hm : m ∈ moves)
    (hd : m.isDoublePawnMove = true) :
    g.board.getPiece ⟨Int.tdiv (m.from_.row + m.to_.row) 2, m.to_.col⟩ = none := by
  have hrows := isDoublePawnMove_rows m hd
  cases hp : g.getPiece p with
  | none =>
    unfold Game.getMovesFrom at h
    rw [hp] at h
    cases h
    simp at hm
  | some piece =>
    by_cases hk : piece.type = PieceType.KING
    · obtain ⟨ks, qs, home, _, _, _, hmoves⟩ := getMovesFrom_king_spec g p piece moves hp hk h
      exfalso
      rw [hmoves] at hm
      have hrow : m.from_.row = m.to_.row := by
        rcases List.mem_append.1 hm with h1 | h1
        · cases ks with
          | false => simp at h1
          | true => simp at h1; subst h1; rfl
        · cases qs with
          | false => simp at h1
          | true => simp at h1; subst h1; rfl
      rcases hrows.2 with ⟨_, h2, h4⟩ | ⟨_, h7, h5⟩ <;> omega
    · rw [getMovesFrom_not_king g p piece hp hk] at h
      cases h
      have hsrc := Piece.getMoves_source g.board piece m hm
      have hty : piece.type = PieceType.PAWN := by rw [← hsrc.2]; exact hrows.1
      unfold Piece.getMoves at hm
      rw [hty] at hm
      simp only [] at hm
      obtain ⟨hf, hpc, _, hshape, _, _, _⟩ := Pawn.getMoves_shape g.board piece m hm
      rw [hpc, hf] at hrows
      unfold Pawn.MoveShape at hshape
      have hnum : (Pawn.direction piece.color = 1 ∧ piece.position.row = 2 ∧ m.to_.row = 4) ∨
          (Pawn.direction piece.color = -1 ∧ piece.position.row = 7 ∧ m.to_.row = 5) := by
        rcases hrows.2 with ⟨hc, h2, h4⟩ | ⟨hc, h7, h5⟩
        · rw [hc]; exact Or.inl ⟨rfl, h2, h4⟩
        · rw [hc]; exact Or.inr ⟨rfl, h7, h5⟩
      have hone : ∀ c : Int,
          m.to_ ≠ ⟨piece.position.row + Pawn.direction piece.color, c⟩ := by
        intro c e
        have hr : m.to_.row = piece.position.row + Pawn.direction piece.color := by rw [e]
        rcases hnum with ⟨hdr, h2, h4⟩ | ⟨hdr, h7, h5⟩ <;> rw [hdr] at hr <;> omega
      rcases hshape with ⟨e, _, _⟩ | ⟨_, hto, hmid, _, _⟩ | ⟨dc, _, e, _⟩ | ⟨dc, _, e, _⟩
      · exact absurd e (hone _)
      · have hsq : (⟨Int.tdiv (m.from_.row + m.to_.row) 2, m.to_.col⟩ : Position) =
            ⟨piece.position.row + Pawn.direction piece.color, piece.position.col⟩ := by
          rw [hf, hto]
          simp only [Position.mk.injEq, and_true]
          rcases hnum with ⟨hdr, h2, _⟩ | ⟨hdr, h7, _⟩ <;> rw [hdr] <;>
            first
              | (rw [h2]; decide)
              | (rw [h7]; decide)
        rw [hsq]
        exact hmid
      · exact absurd e (hone _)
      · exact absurd e (hone _)

/-- After a successful `makeMove` in a sound state only the pawn of a double push
carries the flag. -/
theorem makeMove_flags (g : Game) (m : Move) (hs : g.Sound) (hv : g.Validates m)
    (h : (g.makeMove m).raised = none) :
    ∀ y ∈ (g.makeMove m).state.board.pieces, y.isEnPassantTarget = true →
      m.isDoublePawnMove = true ∧ y.id = m.piece.id := by
  obtain ⟨hwf, _, _, _, _, hflags, _⟩ := hs
  obtain ⟨_, g3, hst, _, _, _, _, _, _, _, hboard⟩ := makeMove_success_full g m h
  obtain ⟨s1, _, _, _⟩ := applyToBoard_state (g3.refreshCastlingPossibilites m) m
  obtain ⟨_, _, _, f4, _, _, _, _⟩ := refreshCastlingPossibilites_frame g3 m
  rw [f4] at s1
  -- no flag is left after the refresh
  have h3 : g3.board.WellFormed ∧ g3.board.Admits m ∧
      ∀ x ∈ g3.board.pieces, x.isEnPassantTarget = false := by
    rcases hboard with ⟨hnone, e⟩ | ⟨old, hold, e⟩
    · rw [e]
      refine ⟨hwf, hv.1, ?_⟩
      intro x hx
      by_contra hne
      obtain ⟨t, ht, _⟩ := hflags x hx (by simpa using hne)
      rw [hnone] at ht
      cases ht
    · rw [e]
      refine ⟨Board.setIsEnPassantTarget_wellFormed _ _ _ hwf,
        Board.setIsEnPassantTarget_admits _ _ _ m hv.1, ?_⟩
      intro x3 hx3
      obtain ⟨x, hx, ex⟩ := (Board.setIsEnPassantTarget_mem _ _ _ _).1 hx3
      rw [ex]
      by_cases hid : x.id = old.id
      · rw [if_pos hid]
      · rw [if_neg hid]
        by_contra hne
        obtain ⟨t, ht, hpos, _⟩ := hflags x hx (by simpa using hne)
        unfold Game.getEnPassantTargetPiece at hold
        rw [ht] at hold
        simp only [] at hold
        cases hget : g.getPiece ⟨t.row + (if g.currentPlayer = Color.WHITE then -1 else 1),
            t.col⟩ with
        | none => rw [hget] at hold; cases hold
        | some o =>
          rw [hget] at hold
          simp only [] at hold
          split_ifs at hold
          have eo : o = old := Option.some.inj (Except.ok.inj hold)
          unfold Game.getPiece at hget
          have hop := Board.getPiece_position _ _ _ hget
          have hom := Board.getPiece_mem _ _ _ hget
          have := Board.eq_of_position_eq _ hwf x o hx hom (hpos.trans hop.symm)
          exact hid (by rw [this, eo])
  obtain ⟨hwf3, hadm3, hnoflag⟩ := h3
  have h4 : ∀ y ∈ (g3.board.makeMove m).pieces, y.isEnPassantTarget = false := by
    intro y hy
    obtain ⟨x3, hx3, _, rfl⟩ := (Board.mem_makeMove g3.board hwf3 m hadm3 y).1 hy
    rw [Move.relocate_flag]
    exact hnoflag x3 hx3
  intro y hy hfl
  rw [hst, s1] at hy
  by_cases hd : m.isDoublePawnMove = true
  · rw [if_pos hd] at hy
    obtain ⟨y4, hy4, e⟩ := (Board.setIsEnPassantTarget_mem _ _ _ _).1 hy
    by_cases hid : y4.id = m.piece.id
    · rw [if_pos hid] at e
      exact ⟨hd, by rw [e]; exact hid⟩
    · rw [if_neg hid] at e
      rw [e, h4 y4 hy4] at hfl
      cases hfl
  · rw [if_neg hd] at hy
    rw [h4 y hy] at hfl
    cases hfl

/-- After a move of `getMovesFrom` in a sound state the flags match the en-passant
target again. -/
theorem makeMove_flagsConsistent (g : Game) (m : Move) (hs : g.Sound) (hv : g.Validates m)
    (p : Position) (moves : List Move) (hmoves : g.getMovesFrom p = Except.ok moves)
    (hm : m ∈ moves) (h : (g.makeMove m).raised = none) :
    (g.makeMove m).state.FlagsConsistent := by
  intro y hy hfl
  obtain ⟨hd, hid⟩ := makeMove_flags g m hs hv h y hy hfl
  obtain ⟨hwf2, hfate, _⟩ := makeMove_board g m hs.1 hv.1 h
  obtain ⟨hc, g3, hst, _, _, hcur, _, _, _, hep3, _⟩ := makeMove_success_full g m h
  obtain ⟨_, s2, _, s4⟩ := applyToBoard_state (g3.refreshCastlingPossibilites m) m
  obtain ⟨_, _, f3, _, _, _, _, f8⟩ := refreshCastlingPossibilites_frame g3 m
  rw [f8, hep3, if_pos hd] at s2
  rw [f3, hcur] at s4
  have hrows := isDoublePawnMove_rows m hd
  have hmid := getMovesFrom_double_pawn_push_mid g p moves hmoves m hm hd
  -- the flagged piece is the moved pawn, on the destination square
  have hypos : y.position = m.to_ := by
    obtain ⟨x, hx, _, hxid, hlook⟩ := hfate y hy
    have hpm := Board.getPiece_mem _ _ _ hv.2.2.1
    have hpp := Board.getPiece_position _ _ _ hv.2.2.1
    have hxe : x = m.piece := Board.eq_of_id_eq _ hs.1 x m.piece hx hpm (by rw [← hxid, hid])
    rw [((Piece.look_eq _ _).1 hlook).2.2]
    rcases Move.relocate_cases m x with ⟨_, e, _⟩ | ⟨e, _⟩ | ⟨e, _⟩
    · exact e
    · exact absurd (by rw [hxe]; exact hpp) e
    · exact absurd (by rw [hxe]; exact hpp) e
  refine ⟨⟨Int.tdiv (m.from_.row + m.to_.row) 2, m.to_.col⟩, by rw [hst, s2], ?_, ?_⟩
  · rw [hypos, hst, s4, hc]
    cases hto : m.to_ with
    | mk r c =>
      rw [hto] at hrows
      simp only [Position.mk.injEq, and_true]
      rcases hrows.2 with ⟨hcol, h2, h4⟩ | ⟨hcol, h7, h5⟩
      · simp only at h4
        rw [hcol, h2, h4]
        decide
      · simp only at h5
        rw [hcol, h7, h5]
        decide
  · unfold Game.getPiece
    rw [Board.getPiece_eq_none]
    intro y2 hy2 e
    obtain ⟨x, hx, _, _, hlook⟩ := hfate y2 hy2
    rw [((Piece.look_eq _ _).1 hlook).2.2] at e
    rcases Move.relocate_cases m x with ⟨_, e1, _⟩ | ⟨_, hcst, _⟩ | ⟨_, _, e1⟩
    · rw [e1] at e
      have := congrArg Position.row e
      simp only at this
      rcases hrows.2 with ⟨_, h2, h4⟩ | ⟨_, h7, h5⟩
      · rw [h2, h4] at this; revert this; decide
      · rw [h7, h5] at this; revert this; decide
    · rw [(isDoublePawnMove_spec m hd).2] at hcst
      cases hcst
    · rw [e1] at e
      exact (Board.getPiece_eq_none _ _).1 hmid x hx e

theorem Board.sameColors_none (b1 b2 : Board) (h : b1.SameColors b2) (pos : Position)
    (hn : b1.getPiece pos = none) : b2.getPiece pos = none := by
  have := h pos
  rw [hn] at this
  simpa using this.symm

theorem Board.sameColors_some (b1 b2 : Board) (h : b1.SameColors b2) (pos : Position)
    (q1 : Piece) (hq : b1.getPiece pos = some q1) :
    ∃ q2, b2.getPiece pos = some q2 ∧ q2.color = q1.color := by
  have := h pos
  rw [hq] at this
  cases h2 : b2.getPiece pos with
  | none => rw [h2] at this; cases this
  | some q2 =>
    rw [h2] at this
    exact ⟨q2, rfl, (Option.some.inj this).symm⟩

/-- A capture of the walk is seen alike on two boards that show the same colours. -/
theorem getMovesInDirections_transfer (b1 b2 : Board) (hview : b1.SameColors b2)
    (p1 p2 : Piece) (hlook : p1.look = p2.look) (dirs : List (Int × Int))
    (hdirs : ∀ d ∈ dirs,
      d ∈ [((1 : Int), (0 : Int)), (-1, 0), (0, 1), (0, -1), (1, 1), (1, -1), (-1, 1), (-1, -1)])
    (m1 : Move) (hm1 : m1 ∈ p1.getMovesInDirections b1 dirs) (q1 : Piece)
    (hc1 : m1.capturedPiece = some q1) :
    ∃ m2 ∈ p2.getMovesInDirections b2 dirs, m2.to_ = m1.to_ ∧
      ∃ q2, b2.getPiece m1.to_ = some q2 ∧ m2.capturedPiece = some q2 := by
  obtain ⟨_, hcol, hpos⟩ := (Piece.look_eq _ _).1 hlook
  obtain ⟨d, hd, k, hk, hbefore, hin, _, hto, _, _, hcap⟩ :=
    (getMovesInDirections_mem b1 p1 dirs hdirs m1).1 hm1
  rcases hcap with ⟨_, hn⟩ | ⟨q, hq, hqc, _⟩
  · rw [hn] at hc1; cases hc1
  · obtain ⟨q2, hq2, hq2c⟩ := Board.sameColors_some b1 b2 hview _ q hq
    refine ⟨⟨p2.position, p2.position.shift d k, p2, some q2, PieceType.NONE⟩, ?_, ?_, q2, ?_, rfl⟩
    · refine (getMovesInDirections_mem b2 p2 dirs hdirs _).2
        ⟨d, hd, k, hk, ?_, ?_, rfl, rfl, rfl, rfl, Or.inr ⟨q2, ?_, ?_, rfl⟩⟩
      · intro j hj1 hj2
        rw [← hpos]
        exact ⟨(hbefore j hj1 hj2).1, Board.sameColors_none b1 b2 hview _ (hbefore j hj1 hj2).2⟩
      · rw [← hpos]; exact hin
      · rw [← hpos]; exact hq2
      · rw [hq2c, ← hcol]; exact hqc
    · rw [hto, hpos]
    · rw [hto]; exact hq2

/-- A capture by a knight is seen alike on two boards that show the same colours. -/
theorem Knight.getMoves_knight_transfer (b1 b2 : Board) (hview : b1.SameColors b2)
    (p1 p2 : Piece) (hlook : p1.look = p2.look)
    (m1 : Move) (hm1 : m1 ∈ Knight.getMoves b1 p1) (q1 : Piece)
    (hc1 : m1.capturedPiece = some q1) :
    ∃ m2 ∈ Knight.getMoves b2 p2, m2.to_ = m1.to_ ∧
      ∃ q2, b2.getPiece m1.to_ = some q2 ∧ m2.capturedPiece = some q2 := by
  obtain ⟨_, hcol, hpos⟩ := (Piece.look_eq _ _).1 hlook
  unfold Knight.getMoves at hm1 ⊢
  obtain ⟨d, hd, hmd⟩ := List.mem_flatMap.1 hm1
  unfold offsetMove at hmd
  dsimp only at hmd
  split_ifs at hmd with h1
  · split at hmd
    · simp only [List.mem_singleton] at hmd
      subst hmd
      cases hc1
    · rename_i q hq
      split_ifs at hmd with h2
      · simp only [List.mem_singleton] at hmd
        subst hmd
        obtain ⟨q2, hq2, hq2c⟩ := Board.sameColors_some b1 b2 hview _ q hq
        refine ⟨⟨p2.position, ⟨p2.position.row + d.1, p2.position.col + d.2⟩, p2, some q2,
          PieceType.NONE⟩, ?_, ?_, q2, hq2, rfl⟩
        · refine List.mem_flatMap.2 ⟨d, hd, ?_⟩
          unfold offsetMove
          dsimp only
          rw [← hpos, if_pos h1, hq2]
          simp only []
          rw [if_pos (by rw [hq2c, ← hcol]; exact h2)]
          exact List.mem_singleton.2 rfl
        · simp only []
          rw [hpos]
      · simp at hmd
  · simp at hmd

/-- A capture on the destination square by a pawn is seen alike on two boards that
show the same colours. -/
theorem Pawn.getMoves_pawn_transfer (b1 b2 : Board) (hview : b1.SameColors b2)
    (p1 p2 : Piece) (hlook : p1.look = p2.look)
    (m1 : Move) (hm1 : m1 ∈ Pawn.getMoves b1 p1) (q1 : Piece)
    (hq1 : b1.getPiece m1.to_ = some q1) (hc1 : m1.capturedPiece = some q1) :
    ∃ m2 ∈ Pawn.getMoves b2 p2, m2.to_ = m1.to_ ∧
      ∃ q2, b2.getPiece m1.to_ = some q2 ∧ m2.capturedPiece = some q2 := by
  obtain ⟨_, hcol, hpos⟩ := (Piece.look_eq _ _).1 hlook
  obtain ⟨_, _, hin, hshape, _⟩ := Pawn.getMoves_shape b1 p1 m1 hm1
  unfold Pawn.MoveShape at hshape
  have hdir : Pawn.direction p1.color = 1 ∨ Pawn.direction p1.color = -1 := by
    cases p1.color
    · exact Or.inl rfl
    · exact Or.inr rfl
  rcases hshape with ⟨_, _, hn⟩ | ⟨_, _, _, _, hn⟩ | ⟨dc, hdc, hto, q, hq, hqc, _⟩ |
      ⟨dc, _, hto, q, hq, _, _, _, hcq⟩
  · rw [hn] at hc1; cases hc1
  · rw [hn] at hc1; cases hc1
  · obtain ⟨q2, hq2, hq2c⟩ := Board.sameColors_some b1 b2 hview _ q hq
    -- the capture on the second board, before the promotion kinds are attached
    have hbase : (⟨p2.position, m1.to_, p2, some q2, PieceType.NONE⟩ : Move) ∈
        Pawn.captureMove b2 p2 dc := by
      unfold Pawn.captureMove
      dsimp only
      rw [← hpos, ← hcol, ← hto, if_pos hin, hq2]
      simp only []
      rw [if_pos (by rw [hq2c]; exact hqc)]
      exact List.mem_singleton.2 rfl
    obtain ⟨m2, hm2⟩ := (Pawn.withPromotions_spec
      (⟨p2.position, m1.to_, p2, some q2, PieceType.NONE⟩ : Move)).2
    obtain ⟨e1, e2, _, _⟩ := (Pawn.withPromotions_spec
      (⟨p2.position, m1.to_, p2, some q2, PieceType.NONE⟩ : Move)).1 m2 hm2
    refine ⟨m2, ?_, e1, q2, hq2, e2⟩
    unfold Pawn.getMoves
    refine List.mem_flatMap.2 ⟨_, ?_, hm2⟩
    simp only [List.mem_append]
    rcases hdc with e | e
    · rw [e] at hbase
      exact Or.inl (Or.inl (Or.inl (Or.inr hbase)))
    · rw [e] at hbase
      exact Or.inl (Or.inl (Or.inr hbase))
  · exfalso
    rw [hcq] at hc1
    have e := Option.some.inj hc1
    subst e
    have hp1 := Board.getPiece_position _ _ _ hq
    have hp2 := Board.getPiece_position _ _ _ hq1
    rw [hto] at hp2
    have := congrArg Position.row (hp1.symm.trans hp2)
    simp only at this
    rcases hdir with e | e <;> rw [e] at this <;> omega

/-- A capture on the destination square by any piece is seen alike on two boards that
show the same colours. -/
theorem Piece.getMoves_piece_transfer (b1 b2 : Board) (hview : b1.SameColors b2)
    (p1 p2 : Piece) (hlook : p1.look = p2.look)
    (m1 : Move) (hm1 : m1 ∈ p1.getMoves b1) (q1 : Piece)
    (hq1 : b1.getPiece m1.to_ = some q1) (hc1 : m1.capturedPiece = some q1) :
    ∃ m2 ∈ p2.getMoves b2, m2.to_ = m1.to_ ∧
      ∃ q2, b2.getPiece m1.to_ = some q2 ∧ m2.capturedPiece = some q2 := by
  have hty : p1.type = p2.type := ((Piece.look_eq _ _).1 hlook).1
  unfold Piece.getMoves at hm1 ⊢
  rw [← hty]
  split at hm1
  · exact Pawn.getMoves_pawn_transfer b1 b2 hview p1 p2 hlook m1 hm1 q1 hq1 hc1
  · exact getMovesInDirections_transfer b1 b2 hview p1 p2 hlook _ (by decide) m1 hm1 q1 hc1
  · exact getMovesInDirections_transfer b1 b2 hview p1 p2 hlook _ (by decide) m1 hm1 q1 hc1
  · exact Knight.getMoves_knight_transfer b1 b2 hview p1 p2 hlook m1 hm1 q1 hc1
  · exact getMovesInDirections_transfer b1 b2 hview p1 p2 hlook _ (by decide) m1 hm1 q1 hc1
  · simp [King.getMoves] at hm1
  · simp at hm1

theorem Game.copyOf_look (g : Game) (pos : Position) (p : Piece) (h : p.position = pos) :
    (g.copyOf pos p).look = p.look := by
  unfold Game.copyOf Piece.look
  simp [h]

theorem castlingRookSquares_congr (m m2 : Move) (hf : m2.from_ = m.from_)
    (ht : m2.to_ = m.to_) : castlingRookSquares m2 = castlingRookSquares m := by
  unfold castlingRookSquares
  rw [hf, ht]

theorem Move.isCastling_congr (m m2 : Move) (hf : m2.from_ = m.from_) (ht : m2.to_ = m.to_)
    (hty : m2.piece.type = m.piece.type) : m2.isCastling = m.isCastling := by
  unfold Move.isCastling
  rw [hf, ht, hty]

/-- The board of the copy admits the move made on it. -/
theorem copyMove_admits (g : Game) (m : Move) (hs : g.Sound) (hv : g.Validates m) :
    (FENParser.roundTrip g).board.Admits (g.copyMove m) := by
  obtain ⟨hwf, hin, _⟩ := hs
  obtain ⟨⟨_, hcap, hne, hdest, hcast⟩, _, hpiece, _, hcapt, _, _, _, _⟩ := hv
  unfold Game.getPiece at hpiece
  have hpm := Board.getPiece_mem _ _ _ hpiece
  have hpp := Board.getPiece_position _ _ _ hpiece
  have hfin : m.from_.inBounds = true := by rw [← hpp]; exact hin _ hpm
  have hempty : ∀ pos, g.board.getPiece pos = none →
      (FENParser.roundTrip g).board.getPiece pos = none := by
    intro pos hn
    rw [FENParser.roundTrip_getPiece]
    unfold Game.getPiece
    rw [hn]
    split_ifs <;> rfl
  have hcst : (g.copyMove m).isCastling = m.isCastling :=
    Move.isCastling_congr m (g.copyMove m) rfl rfl rfl
  have hsq : castlingRookSquares (g.copyMove m) = castlingRookSquares m :=
    castlingRookSquares_congr m (g.copyMove m) rfl rfl
  refine ⟨⟨g.copyOf m.from_ m.piece, ?_, rfl⟩, ?_, hne, ?_, ?_⟩
  · show (FENParser.roundTrip g).board.getPiece m.from_ = _
    rw [FENParser.roundTrip_getPiece, if_pos hfin]
    unfold Game.getPiece
    rw [hpiece]
    rfl
  · intro c hc
    cases hq : m.capturedPiece with
    | none =>
      unfold Game.copyMove at hc
      rw [hq] at hc
      cases hc
    | some q =>
      unfold Game.copyMove at hc
      rw [hq] at hc
      simp only [Option.map_some', Option.some.injEq] at hc
      subst hc
      obtain ⟨hqm, _, _⟩ := hcapt q hq
      obtain ⟨_, _, _, hqf⟩ := hcap q hq
      refine ⟨_, ?_, rfl, hqf⟩
      show (FENParser.roundTrip g).board.getPiece q.position = _
      rw [FENParser.roundTrip_getPiece, if_pos (hin q hqm)]
      unfold Game.getPiece
      rw [Board.getPiece_of_mem _ hwf q hqm]
      rfl
  · rcases hdest with hn | ⟨c, hc, hp⟩
    · exact Or.inl (hempty _ hn)
    · right
      refine ⟨g.copyOf c.position c, ?_, hp⟩
      unfold Game.copyMove
      rw [hc]
      rfl
  · intro hc
    rw [hcst] at hc
    obtain ⟨h1, h2, h3, h4, h5, h6⟩ := hcast hc
    rw [hsq]
    refine ⟨?_, h2, h3, h4, h5, hempty _ h6⟩
    unfold Game.copyMove
    rw [h1]
    rfl

/-- The game `afterMove` returns is the copy after `makeMove` with the move of the
copy. -/
theorem afterMove_spec (g : Game) (m : Move) (hs : g.Sound) (hv : g.Validates m)
    (after : Game) (ha : g.afterMove m = Except.ok after) :
    ((FENParser.roundTrip g).makeMove (g.copyMove m)).raised = none ∧
    ((FENParser.roundTrip g).makeMove (g.copyMove m)).state = after := by
  obtain ⟨hwf, hin, _⟩ := hs
  obtain ⟨_, _, hpiece, _, hcapt, _, _, _, _⟩ := hv
  unfold Game.getPiece at hpiece
  have hpm := Board.getPiece_mem _ _ _ hpiece
  have hpp := Board.getPiece_position _ _ _ hpiece
  have hfin : m.from_.inBounds = true := by rw [← hpp]; exact hin _ hpm
  have hsrc : (FENParser.roundTrip g).getPiece m.from_ = some (g.copyOf m.from_ m.piece) := by
    unfold Game.getPiece
    rw [FENParser.roundTrip_getPiece, if_pos hfin]
    unfold Game.getPiece
    rw [hpiece]
    rfl
  have hfinish : ∀ m2 : Move, m2 = g.copyMove m →
      ((FENParser.roundTrip g).makeMove m2).toExcept = Except.ok after →
      ((FENParser.roundTrip g).makeMove (g.copyMove m)).raised = none ∧
      ((FENParser.roundTrip g).makeMove (g.copyMove m)).state = after := by
    intro m2 e hout
    subst e
    unfold Outcome.toExcept at hout
    split at hout
    · cases hout
    · rename_i hr
      exact ⟨hr, Except.ok.inj hout⟩
  unfold Game.afterMove at ha
  simp only [hsrc] at ha
  cases hq : m.capturedPiece with
  | none =>
    rw [hq] at ha
    simp only [] at ha
    refine hfinish _ ?_ ha
    unfold Game.copyMove
    rw [hq]
    rfl
  | some q =>
    obtain ⟨hqm, _, _⟩ := hcapt q hq
    have htk : (FENParser.roundTrip g).getPiece q.position = some (g.copyOf q.position q) := by
      unfold Game.getPiece
      rw [FENParser.roundTrip_getPiece, if_pos (hin q hqm)]
      unfold Game.getPiece
      rw [Board.getPiece_of_mem _ hwf q hqm]
      rfl
    rw [hq] at ha
    simp only [htk] at ha
    refine hfinish _ ?_ ha
    unfold Game.copyMove
    rw [hq]
    rfl

/-- The move of the copy relocates a piece as the move itself does, up to the
promotion kind. -/
theorem copyMove_relocate (g : Game) (m : Move) (x : Piece) :
    ((g.copyMove m).relocate x).position = (m.relocate x).position ∧
    ((g.copyMove m).relocate x).color = (m.relocate x).color ∧
    (x.position ≠ m.from_ ∨ m.promoteTo = PieceType.NONE →
      ((g.copyMove m).relocate x).type = (m.relocate x).type) := by
  have hcst : (g.copyMove m).isCastling = m.isCastling :=
    Move.isCastling_congr m (g.copyMove m) rfl rfl rfl
  have hsq : castlingRookSquares (g.copyMove m) = castlingRookSquares m :=
    castlingRookSquares_congr m (g.copyMove m) rfl rfl
  have hf : (g.copyMove m).from_ = m.from_ := rfl
  have ht : (g.copyMove m).to_ = m.to_ := rfl
  have hp : (g.copyMove m).promoteTo = PieceType.NONE := rfl
  unfold Move.relocate
  rw [hcst, hsq, hf, ht, hp]
  by_cases h1 : x.position = m.from_
  · rw [if_pos h1, if_pos h1]
    refine ⟨rfl, rfl, ?_⟩
    rintro (h | h)
    · exact absurd h1 h
    · rw [h]
  · rw [if_neg h1, if_neg h1]
    split_ifs <;> exact ⟨rfl, rfl, fun _ => rfl⟩

/-- The pieces left out by the capture are the same for the move and for the move of
the copy. -/
theorem copyMove_captured (g : Game) (m : Move) (pos : Position) :
    (∀ c, (g.copyMove m).capturedPiece = some c → pos ≠ c.position) ↔
      (∀ c, m.capturedPiece = some c → pos ≠ c.position) := by
  unfold Game.copyMove
  cases m.capturedPiece with
  | none => simp
  | some q =>
    simp only [Option.map_some', Option.some.injEq, forall_eq']
    rfl

/-- The board after the real move and the board of the game `afterMove` returns hold
pieces of the same colours on the same squares, of the same kinds except for a
promoted pawn. -/
theorem real_vs_copy (g : Game) (m : Move) (hs : g.Sound) (hv : g.Validates m)
    (h : (g.makeMove m).raised = none) (after : Game) (ha : g.afterMove m = Except.ok after) :
    after.board.WellFormed ∧
    (∀ y ∈ (g.makeMove m).state.board.pieces, ∃ y2 ∈ after.board.pieces,
      y2.color = y.color ∧ y2.position = y.position ∧
      (y.color ≠ m.piece.color ∨ y.type = PieceType.KING ∨ m.promoteTo = PieceType.NONE →
        y2.type = y.type)) ∧
    (∀ y2 ∈ after.board.pieces, ∃ y ∈ (g.makeMove m).state.board.pieces,
      y2.color = y.color ∧ y2.position = y.position) := by
  obtain ⟨hr2, hst2⟩ := afterMove_spec g m hs hv after ha
  obtain ⟨hwfc, hfc1, hfc2⟩ := makeMove_board (FENParser.roundTrip g) (g.copyMove m)
    (FENParser.roundTrip_wellFormed g) (copyMove_admits g m hs hv) hr2
  rw [hst2] at hwfc hfc1 hfc2
  obtain ⟨_, hf1, hf2⟩ := makeMove_board g m hs.1 hv.1 h
  refine ⟨hwfc, ?_, ?_⟩
  · intro y hy
    obtain ⟨x, hx, hxc, _, hlook⟩ := hf1 y hy
    obtain ⟨hyt, hyc, hyp⟩ := (Piece.look_eq _ _).1 hlook
    -- the copy of `x`
    have hx0 : g.copyOf x.position x ∈ (FENParser.roundTrip g).board.pieces :=
      (FENParser.mem_roundTrip g _).2 ⟨x.position, x, hs.2.1 x hx,
        Board.getPiece_of_mem _ hs.1 x hx, rfl⟩
    obtain ⟨y2, hy2, _, hlook2⟩ := hfc2 _ hx0
      ((copyMove_captured g m _).2 hxc)
    rw [Move.relocate_look _ _ x (Game.copyOf_look g x.position x rfl)] at hlook2
    obtain ⟨hy2t, hy2c, hy2p⟩ := (Piece.look_eq _ _).1 hlook2
    obtain ⟨e1, e2, e3⟩ := copyMove_relocate g m x
    refine ⟨y2, hy2, by rw [hy2c, e2, hyc], by rw [hy2p, e1, hyp], ?_⟩
    intro hcond
    rw [hy2t, hyt]
    apply e3
    by_cases hxf : x.position = m.from_
    · right
      -- `x` is the moving piece
      have hpiece := hv.2.2.1
      unfold Game.getPiece at hpiece
      have hxe : x = m.piece := Board.eq_of_position_eq _ hs.1 x m.piece hx
        (Board.getPiece_mem _ _ _ hpiece) (hxf.trans (Board.getPiece_position _ _ _ hpiece).symm)
      rcases hcond with hc | hc | hc
      · exact absurd (by rw [hyc, Move.relocate_color, hxe]) hc
      · by_contra hne
        rw [hyt] at hc
        rcases Move.relocate_cases m x with ⟨_, _, e⟩ | ⟨e, _⟩ | ⟨e, _⟩
        · rw [e, if_neg hne] at hc
          exact hv.2.2.2.2.2.2.1 hc
        · exact e hxf
        · exact e hxf
      · exact hc
    · exact Or.inl hxf
  · intro y2 hy2
    obtain ⟨x0, hx0, hx0c, _, hlook2⟩ := hfc1 y2 hy2
    obtain ⟨pos, x, hpin, hxg, rfl⟩ := (FENParser.mem_roundTrip g x0).1 hx0
    have hxm := Board.getPiece_mem _ _ _ hxg
    have hxp := Board.getPiece_position _ _ _ hxg
    rw [Move.relocate_look _ _ x (Game.copyOf_look g pos x hxp)] at hlook2
    obtain ⟨_, hy2c, hy2p⟩ := (Piece.look_eq _ _).1 hlook2
    have hxc : ∀ c, m.capturedPiece = some c → x.position ≠ c.position := by
      rw [hxp]
      exact (copyMove_captured g m _).1 hx0c
    obtain ⟨y, hy, _, hlook⟩ := hf2 x hxm hxc
    obtain ⟨_, hyc, hyp⟩ := (Piece.look_eq _ _).1 hlook
    obtain ⟨e1, e2, _⟩ := copyMove_relocate g m x
    exact ⟨y, hy, by rw [hy2c, e2, hyc], by rw [hy2p, e1, hyp]⟩

/-- The two boards show the same colours. -/
theorem real_vs_copy_colors (g : Game) (m : Move) (hs : g.Sound) (hv : g.Validates m)
    (h : (g.makeMove m).raised = none) (after : Game) (ha : g.afterMove m = Except.ok after) :
    (g.makeMove m).state.board.SameColors after.board := by
  obtain ⟨hwfc, h1, h2⟩ := real_vs_copy g m hs hv h after ha
  obtain ⟨hwf2, _, _⟩ := makeMove_board g m hs.1 hv.1 h
  intro pos
  cases hy : (g.makeMove m).state.board.getPiece pos with
  | some y =>
    obtain ⟨hym, hyp⟩ := (Board.getPiece_eq_some _ hwf2 _ _).1 hy
    obtain ⟨y2, hy2, hc, hp, _⟩ := h1 y hym
    rw [(Board.getPiece_eq_some _ hwfc pos y2).2 ⟨hy2, hp.trans hyp⟩]
    simp [hc]
  | none =>
    cases hy2 : after.board.getPiece pos with
    | none => rfl
    | some y2 =>
      exfalso
      obtain ⟨hy2m, hy2p⟩ := (Board.getPiece_eq_some _ hwfc _ _).1 hy2
      obtain ⟨y, hym, _, hp⟩ := h2 y2 hy2m
      exact (Board.getPiece_eq_none _ _).1 hy y hym (hp.symm.trans hy2p)

theorem FENParser.roundTrip_player (g : Game) (c : Color) :
    ((FENParser.roundTrip g).player c).pieces =
      ((FENParser.roundTrip g).board.pieces.filter (fun p => decide (p.color = c))).map
        Piece.id := by
  cases c <;> rfl

/-- In the game `afterMove` returns every piece of the board is in the roster of its
colour. -/
theorem copy_roster (g : Game) (m : Move) (hs : g.Sound) (hv : g.Validates m)
    (after : Game) (ha : g.afterMove m = Except.ok after) :
    ∀ y2 ∈ after.board.pieces, y2.id ∈ (after.player y2.color).pieces := by
  obtain ⟨hr2, hst2⟩ := afterMove_spec g m hs hv after ha
  have hadm := copyMove_admits g m hs hv
  have hwf0 := FENParser.roundTrip_wellFormed g
  obtain ⟨_, hfc1, _⟩ := makeMove_board (FENParser.roundTrip g) (g.copyMove m) hwf0 hadm hr2
  obtain ⟨_, g3, hst, _, _, _, _, hw3, hb3, _, _⟩ :=
    makeMove_success_full (FENParser.roundTrip g) (g.copyMove m) hr2
  obtain ⟨_, _, _, _, _, fw, fb, _⟩ := refreshCastlingPossibilites_frame g3 (g.copyMove m)
  intro y2 hy2
  rw [← hst2] at hy2 ⊢
  obtain ⟨x0, hx0, hx0c, hid, hlook⟩ := hfc1 y2 hy2
  have hcol : y2.color = x0.color := by
    rw [((Piece.look_eq _ _).1 hlook).2.1, Move.relocate_color]
  obtain ⟨r, hr, hroster⟩ := applyToBoard_player (g3.refreshCastlingPossibilites (g.copyMove m))
    (g.copyMove m) y2.color
  have hpromo : (g.copyMove m).promoteTo = PieceType.NONE := rfl
  rw [hpromo] at hr
  simp only [ne_eq, not_true_eq_false, false_and, if_false] at hr
  have hplayer : ((g3.refreshCastlingPossibilites (g.copyMove m)).player y2.color).pieces =
      ((FENParser.roundTrip g).player y2.color).pieces := by
    unfold Game.player
    cases y2.color
    · simp only []; rw [fw, hw3]
    · simp only []; rw [fb, hb3]
  rw [hplayer, FENParser.roundTrip_player] at hr
  have hin : y2.id ∈ r := by
    rw [hr, hid]
    refine List.mem_map.2 ⟨x0, List.mem_filter.2 ⟨hx0, ?_⟩, rfl⟩
    simp [hcol]
  rw [hst, hroster]
  cases hcap : (g.copyMove m).capturedPiece with
  | none => exact hin
  | some cap =>
    simp only []
    split_ifs
    · refine List.mem_filter.2 ⟨hin, ?_⟩
      simp only [ne_eq, decide_not, Bool.not_eq_true', decide_eq_false_iff_not]
      obtain ⟨c0, hc0, hc0id, _⟩ := hadm.2.1 cap hcap
      have hc0m := Board.getPiece_mem _ _ _ hc0
      have hc0p := Board.getPiece_position _ _ _ hc0
      rw [hid, ← hc0id]
      intro e
      have := (Board.id_eq_iff_position_eq _ hwf0 x0 c0 hx0 hc0m).1 e
      exact hx0c cap hcap (this.trans hc0p)
    · exact hin

/-- After a successful move the turn belongs to the other colour. -/
theorem makeMove_currentPlayer (g : Game) (m : Move) (h : (g.makeMove m).raised = none) :
    (g.makeMove m).state.currentPlayer = m.piece.color.opposite := by
  obtain ⟨hc, g3, hst, _, _, hcur, _⟩ := makeMove_success_full g m h
  obtain ⟨_, _, _, s4⟩ := applyToBoard_state (g3.refreshCastlingPossibilites m) m
  obtain ⟨_, _, f3, _⟩ := refreshCastlingPossibilites_frame g3 m
  rw [f3, hcur, hc] at s4
  rw [hst, s4]
  cases m.piece.color <;> rfl

theorem Board.pieceById_id (b : Board) (i : Nat) (q : Piece)
    (h : b.pieceById i = some q) : q.id = i := by
  unfold Board.pieceById at h
  have := List.find?_some h
  simpa using this

/-- The position fed to the parser has one king of each colour at most when the game
has. -/
theorem FENParser.roundTrip_kingsUnique (g : Game) (hu : g.KingsUnique) :
    (FENParser.roundTrip g).KingsUnique := by
  intro k hk k2 hk2 ht ht2 hc
  obtain ⟨pos, p, _, hp, rfl⟩ := (FENParser.mem_roundTrip g k).1 hk
  obtain ⟨pos2, p2, _, hp2, rfl⟩ := (FENParser.mem_roundTrip g k2).1 hk2
  unfold Game.getPiece at hp hp2
  have e : p = p2 := hu p (Board.getPiece_mem _ _ _ hp) p2 (Board.getPiece_mem _ _ _ hp2)
    ht ht2 hc
  subst e
  have : pos = pos2 := (Board.getPiece_position _ _ _ hp).symm.trans
    (Board.getPiece_position _ _ _ hp2)
  subst this
  rfl

/-- A move that `getLegalMovesFrom` keeps leaves no king of the mover to be taken:
the state after it is safe for the king of the side that has moved. -/
theorem makeMove_kingSafe (g : Game) (m : Move) (hs : g.Sound) (hv : g.Validates m)
    (h : (g.makeMove m).raised = none) (after : Game) (ha : g.afterMove m = Except.ok after)
    (hck : after.isCheck m.piece.color = Except.ok false) :
    (g.makeMove m).state.KingSafe := by
  intro p1 hp1 hcol1 m1 hm1 q1 hcap1 hking
  rw [makeMove_currentPlayer g m h] at hcol1
  obtain ⟨hwfc, hcorr, _⟩ := real_vs_copy g m hs hv h after ha
  have hview := real_vs_copy_colors g m hs hv h after ha
  obtain ⟨hwf2, _, _⟩ := makeMove_board g m hs.1 hv.1 h
  obtain ⟨hr2, hst2⟩ := afterMove_spec g m hs hv after ha
  -- the capture is a plain one, of the piece on the destination square
  obtain ⟨_, _, _, hnk, hshape, _⟩ := Piece.getMoves_piece_shape _ p1 m1 hm1
  have hplain : (g.makeMove m).state.board.getPiece m1.to_ = some q1 ∧ q1.color ≠ p1.color := by
    rcases hshape with (⟨_, e⟩ | ⟨q, e1, e2, e3⟩) | ⟨_, _, _, _, q, _, e1, _, _, e2⟩
    · rw [e] at hcap1; cases hcap1
    · rw [e3] at hcap1
      have := Option.some.inj hcap1
      subst this
      exact ⟨e1, e2⟩
    · rw [e2] at hcap1
      have := Option.some.inj hcap1
      subst this
      rw [hking] at e1
      cases e1
  obtain ⟨hq1, hq1c⟩ := hplain
  have hq1col : q1.color = m.piece.color := by
    rw [hcol1] at hq1c
    revert hq1c
    cases q1.color <;> cases m.piece.color <;> simp [Color.opposite]
  have hp1ne : p1.color ≠ m.piece.color := by
    rw [hcol1]
    cases m.piece.color <;> simp [Color.opposite]
  -- the attacker and the king in the copy
  obtain ⟨p2, hp2, hp2c, hp2p, hp2t⟩ := hcorr p1 hp1
  have hlook : p1.look = p2.look :=
    (Piece.look_eq _ _).2 ⟨(hp2t (Or.inl hp1ne)).symm, hp2c.symm, hp2p.symm⟩
  obtain ⟨hq1m, hq1p⟩ := (Board.getPiece_eq_some _ hwf2 _ _).1 hq1
  obtain ⟨k2, hk2, hk2c, hk2p, hk2t⟩ := hcorr q1 hq1m
  have hk2king : k2.type = PieceType.KING := (hk2t (Or.inr (Or.inl hking))).trans hking
  obtain ⟨m2, hm2, _, q2, hq2, hcap2⟩ :=
    Piece.getMoves_piece_transfer _ _ hview p1 p2 hlook m1 hm1 q1 hq1 hcap1
  have hq2e : q2 = k2 := by
    obtain ⟨hq2m, hq2p⟩ := (Board.getPiece_eq_some _ hwfc _ _).1 hq2
    exact Board.eq_of_position_eq _ hwfc q2 k2 hq2m hk2 (by rw [hq2p, hk2p, hq1p])
  subst hq2e
  -- the copy has one king of the colour
  have huniq : after.KingsUnique := by
    rw [← hst2]
    exact makeMove_kingsUnique _ _ (FENParser.roundTrip_wellFormed g)
      (FENParser.roundTrip_kingsUnique g hs.2.2.2.1) (copyMove_admits g m hs hv)
      (by unfold Game.copyMove; simp) hr2
  -- `isCheck` sees the capture
  unfold Game.isCheck at hck
  cases hall : after.getAllMovesForPlayer m.piece.color.opposite with
  | error e => simp [hall, bind, Except.bind] at hck
  | ok moves =>
    simp only [hall, bind, Except.bind, pure, Except.pure, Except.ok.injEq] at hck
    have hin : m2 ∈ moves := by
      unfold Game.getAllMovesForPlayer at hall
      have hroster := copy_roster g m hs hv after ha p2 hp2
      rw [hp2c, hcol1] at hroster
      obtain ⟨piece, pieceMoves, hby, hfrom, hsub⟩ :=
        movesOfRoster_mem after _ moves hall p2.id hroster
      have hpe : piece = p2 := Board.eq_of_id_eq _ hwfc piece p2
        (Board.pieceById_mem _ _ _ hby) hp2 (Board.pieceById_id _ _ _ hby)
      subst hpe
      have hnk2 : piece.type ≠ PieceType.KING := by
        rw [← ((Piece.look_eq _ _).1 hlook).1]; exact hnk
      rw [getMovesFrom_not_king after piece.position piece
        (Board.getPiece_of_mem _ hwfc piece hp2) hnk2] at hfrom
      cases hfrom
      exact hsub m2 hm2
    obtain ⟨k, hk⟩ : ∃ k, after.board.getKing m.piece.color = some k := by
      cases hgk : after.board.getKing m.piece.color with
      | some k => exact ⟨k, rfl⟩
      | none =>
        unfold Board.getKing at hgk
        have := List.find?_eq_none.1 hgk q2 hk2
        simp [hk2king, hk2c, hq1col] at this
    obtain ⟨hkm, hkt, hkc⟩ := Board.getKing_spec _ _ _ hk
    have hke : k = q2 := huniq k hkm q2 hk2 hkt hk2king (by rw [hkc, hk2c, hq1col])
    subst hke
    have := List.any_eq_false.1 hck m2 hin
    rw [hcap2, hk] at this
    simp at this

/-- What a move of `getLegalMovesFrom` has gone through in a sound state. -/
theorem isLegal_spec (g : Game) (m : Move) (hs : g.Sound) (hl : g.IsLegal m) :
    g.Validates m ∧ (∃ p moves, g.getMovesFrom p = Except.ok moves ∧ m ∈ moves) ∧
    ∃ after, g.afterMove m = Except.ok after ∧
      after.isCheck m.piece.color = Except.ok false := by
  obtain ⟨p, moves, hleg, hm⟩ := hl
  cases hp : g.getPiece p with
  | none =>
    unfold Game.getLegalMovesFrom at hleg
    rw [hp] at hleg
    cases hleg
    cases hm
  | some piece =>
    obtain ⟨hcol, ⟨all, hall, hmall⟩, ⟨after, ha, hck⟩, _⟩ :=
      getLegalMovesFrom_survivor g p piece moves m hp hleg hm
    have hv := getMovesFrom_validates g hs p piece hp hcol all hall m hmall
    refine ⟨hv, ⟨p, all, hall, hmall⟩, after, ha, ?_⟩
    rw [hv.2.2.2.1, ← hcol]
    exact hck

/-- A successful `makeMove` with a move of `getLegalMovesFrom` leads from a sound
state to a sound state. -/
theorem makeMove_sound (g : Game) (m : Move) (hs : g.Sound) (hl : g.IsLegal m)
    (h : (g.makeMove m).raised = none) : (g.makeMove m).state.Sound := by
  obtain ⟨hv, ⟨p, all, hall, hmall⟩, after, ha, hck⟩ := isLegal_spec g m hs hl
  refine ⟨(makeMove_board g m hs.1 hv.1 h).1, makeMove_inBounds g m hs hv h,
    makeMove_castlingConsistent g m hs hv h,
    makeMove_kingsUnique g m hs.1 hs.2.2.2.1 hv.1 hv.2.2.2.2.2.2.1 h,
    makeMove_kingSafe g m hs hv h after ha hck,
    makeMove_flagsConsistent g m hs hv p all hall hmall h, ?_⟩
  refine (makeMove_enPassantConsistent g m hs.1.2 ?_ h).2
  intro hd
  obtain ⟨hpiece, hcap, hpromo, hempty⟩ := getMovesFrom_double_pawn_push g p all hall m hmall hd
  refine ⟨hpiece, ?_, hpromo, ?_⟩
  · intro c hc
    rw [hcap] at hc
    cases hc
  · intro x hx hxpos
    exact absurd hxpos ((Board.getPiece_eq_none g.board m.to_).1 hempty x hx)

theorem Game.kingSafe_of_check (g : Game) (h : g.kingSafeCheck = true) : g.KingSafe := by
  intro p hp hcol m hm q hq
  unfold Game.kingSafeCheck at h
  have h1 := List.all_eq_true.1 h p hp
  simp only [Bool.or_eq_true, decide_eq_true_eq] at h1
  rcases h1 with h1 | h1
  · exact absurd hcol h1
  · have h2 := List.all_eq_true.1 h1 m hm
    rw [hq] at h2
    simpa using h2

set_option maxRecDepth 1000000 in
/-- The starting position is sound. -/
theorem start_sound : Examples.start.Sound := by
  refine ⟨by decide, by decide, ?_, by unfold Game.KingsUnique; decide,
    Game.kingSafe_of_check _ (by rfl), ?_, ?_⟩
  · intro c kingside _
    cases c <;> cases kingside <;> exact ⟨⟨_, by rfl, by decide, by decide⟩, ⟨_, by rfl, by decide, by decide⟩⟩
  · intro q hq hfl
    have : ∀ q ∈ Examples.start.board.pieces, q.isEnPassantTarget = false := by decide
    rw [this q hq] at hfl
    cases hfl
  · intro t ht
    exact absurd ht (by simp [Examples.start, Game.new])

/-- Every state of a play of moves of `getLegalMovesFrom` from a sound state is
sound. -/
theorem reachable_sound (start g : Game) (hs : start.Sound)
    (h : Reachable Game.IsLegal start g) : g.Sound := by
  induction h with
  | start => exact hs
  | step g0 move _ hallowed hok ih => exact makeMove_sound g0 move ih hallowed hok

/-- Where a castling right is set the two functions that test castling read both
pieces and return. -/
theorem possibleCastlingThisRound_of_consistent (g : Game) (h : g.CastlingConsistent) :
    (∃ r, g.possibleKingsideCastlingThisRound = Except.ok r) ∧
    (∃ r, g.possibleQueensideCastlingThisRound = Except.ok r) := by
  constructor
  · cases hr : g.castlingRight g.currentPlayer true with
    | false =>
      exact ⟨_, possibleKingsideCastlingThisRound_no_right g
        ((Game.castlingRight_kingside g).trans hr)⟩
    | true =>
      obtain ⟨⟨k, hk, _⟩, ⟨r, hrk, _⟩⟩ := h _ _ hr
      exact ⟨_, possibleKingsideCastlingThisRound_eq g k r hk hrk⟩
  · cases hr : g.castlingRight g.currentPlayer false with
    | false =>
      exact ⟨_, possibleQueensideCastlingThisRound_no_right g
        ((Game.castlingRight_queenside g).trans hr)⟩
    | true =>
      obtain ⟨⟨k, hk, _⟩, ⟨r, hrk, _⟩⟩ := h _ _ hr
      exact ⟨_, possibleQueensideCastlingThisRound_eq g k r hk hrk⟩

/-- C23: in every state reached from the starting position by successful `makeMove`
calls with moves taken from `getLegalMovesFrom`, whenever a castling right is true the
king of that colour stands on its home square (file 5 of its back rank) and a rook of
that colour on the matching corner; hence `possibleKingsideCastlingThisRound` and
`possibleQueensideCastlingThisRound` read both pieces and return a value, and the
call of `noPiecesBetweenKingAndRook` on the pieces they read does not raise
`invalid_argument`. -/
theorem reachable_castling_rights (whiteName blackName : String) (g : Game)
    (h : Reachable Game.IsLegal (Game.new whiteName blackName) g) :
    (g.canWhiteKingsideCastle = true →
      (∃ k, g.getPiece ⟨1, 5⟩ = some k ∧ k.type = PieceType.KING ∧ k.color = Color.WHITE) ∧
      (∃ r, g.getPiece ⟨1, 8⟩ = some r ∧ r.type = PieceType.ROOK ∧ r.color = Color.WHITE)) ∧
    (g.canWhiteQueensideCastle = true →
      (∃ k, g.getPiece ⟨1, 5⟩ = some k ∧ k.type = PieceType.KING ∧ k.color = Color.WHITE) ∧
      (∃ r, g.getPiece ⟨1, 1⟩ = some r ∧ r.type = PieceType.ROOK ∧ r.color = Color.WHITE)) ∧
    (g.canBlackKingsideCastle = true →
      (∃ k, g.getPiece ⟨8, 5⟩ = some k ∧ k.type = PieceType.KING ∧ k.color = Color.BLACK) ∧
      (∃ r, g.getPiece ⟨8, 8⟩ = some r ∧ r.type = PieceType.ROOK ∧ r.color = Color.BLACK)) ∧
    (g.canBlackQueensideCastle = true →
      (∃ k, g.getPiece ⟨8, 5⟩ = some k ∧ k.type = PieceType.KING ∧ k.color = Color.BLACK) ∧
      (∃ r, g.getPiece ⟨8, 1⟩ = some r ∧ r.type = PieceType.ROOK ∧ r.color = Color.BLACK)) ∧
    (∃ r, g.possibleKingsideCastlingThisRound = Except.ok r) ∧
    (∃ r, g.possibleQueensideCastlingThisRound = Except.ok r) ∧
    (∀ (col : Int) (king rook : Piece),
      g.getPiece ⟨g.currentPlayerBackRank, 5⟩ = some king →
      g.getPiece ⟨g.currentPlayerBackRank, col⟩ = some rook →
      ∃ r, g.noPiecesBetweenKingAndRook king rook = Except.ok r) := by
  rw [Game.new_eq_start] at h
  have hs := reachable_sound Examples.start g start_sound h
  have hcc := hs.2.2.1
  obtain ⟨hks, hqs⟩ := possibleCastlingThisRound_of_consistent g hcc
  refine ⟨hcc Color.WHITE true, hcc Color.WHITE false, hcc Color.BLACK true,
    hcc Color.BLACK false, hks, hqs, ?_⟩
  intro col king rook hk hr
  have pk := Board.getPiece_position _ _ _ hk
  have pr := Board.getPiece_position _ _ _ hr
  unfold Game.noPiecesBetweenKingAndRook
  rw [if_neg (by rw [pk, pr]; exact fun hne => hne rfl)]
  exact ⟨_, rfl⟩

set_option maxRecDepth 1000000 in
/-- The state after 1. e2-e4, a move `getLegalMovesFrom` returns in the starting
position. -/
theorem reachable_castling_rights_witness :
    ((Examples.start.makeMove Examples.pawnE2E4).state.canWhiteKingsideCastle = true →
      (∃ k, (Examples.start.makeMove Examples.pawnE2E4).state.getPiece ⟨1, 5⟩ = some k ∧
        k.type = PieceType.KING ∧ k.color = Color.WHITE) ∧
      (∃ r, (Examples.start.makeMove Examples.pawnE2E4).state.getPiece ⟨1, 8⟩ = some r ∧
        r.type = PieceType.ROOK ∧ r.color = Color.WHITE)) ∧
    ((Examples.start.makeMove Examples.pawnE2E4).state.canWhiteQueensideCastle = true →
      (∃ k, (Examples.start.makeMove Examples.pawnE2E4).state.getPiece ⟨1, 5⟩ = some k ∧
        k.type = PieceType.KING ∧ k.color = Color.WHITE) ∧
      (∃ r, (Examples.start.makeMove Examples.pawnE2E4).state.getPiece ⟨1, 1⟩ = some r ∧
        r.type = PieceType.ROOK ∧ r.color = Color.WHITE)) ∧
    ((Examples.start.makeMove Examples.pawnE2E4).state.canBlackKingsideCastle = true →
      (∃ k, (Examples.start.makeMove Examples.pawnE2E4).state.getPiece ⟨8, 5⟩ = some k ∧
        k.type = PieceType.KING ∧ k.color = Color.BLACK) ∧
      (∃ r, (Examples.start.makeMove Examples.pawnE2E4).state.getPiece ⟨8, 8⟩ = some r ∧
        r.type = PieceType.ROOK ∧ r.color = Color.BLACK)) ∧
    ((Examples.start.makeMove Examples.pawnE2E4).state.canBlackQueensideCastle = true →
      (∃ k, (Examples.start.makeMove Examples.pawnE2E4).state.getPiece ⟨8, 5⟩ = some k ∧
        k.type = PieceType.KING ∧ k.color = Color.BLACK) ∧
      (∃ r, (Examples.start.makeMove Examples.pawnE2E4).state.getPiece ⟨8, 1⟩ = some r ∧
        r.type = PieceType.ROOK ∧ r.color = Color.BLACK)) ∧
    (∃ r, (Examples.start.makeMove Examples.pawnE2E4).state.possibleKingsideCastlingThisRound =
      Except.ok r) ∧
    (∃ r, (Examples.start.makeMove Examples.pawnE2E4).state.possibleQueensideCastlingThisRound =
      Except.ok r) ∧
    (∀ (col : Int) (king rook : Piece),
      (Examples.start.makeMove Examples.pawnE2E4).state.getPiece
        ⟨(Examples.start.makeMove Examples.pawnE2E4).state.currentPlayerBackRank, 5⟩ = some king →
      (Examples.start.makeMove Examples.pawnE2E4).state.getPiece
        ⟨(Examples.start.makeMove Examples.pawnE2E4).state.currentPlayerBackRank, col⟩ = some rook →
      ∃ r, (Examples.start.makeMove Examples.pawnE2E4).state.noPiecesBetweenKingAndRook king rook =
        Except.ok r) :=
  reachable_castling_rights "Player 1" "Player 2"
    (Examples.start.makeMove Examples.pawnE2E4).state
    (Reachable.step Examples.start Examples.pawnE2E4 Reachable.start
      ⟨⟨2, 5⟩,
        [⟨⟨2, 5⟩, ⟨3, 5⟩, ⟨12, PieceType.PAWN, Color.WHITE, ⟨2, 5⟩, false⟩, none, PieceType.NONE⟩,
         Examples.pawnE2E4], by rfl, by decide⟩
      (by decide))

/-! ### The king of the mover after a legal move -/

/-- The king of the side that moves is still on the board after a validated move. -/
theorem makeMove_keeps_own_king (g : Game) (m : Move) (hs : g.Sound) (hv : g.Validates m)
    (h : (g.makeMove m).raised = none) (k : Piece) (hk : k ∈ g.board.pieces)
    (hkt : k.type = PieceType.KING) (hkc : k.color = g.currentPlayer) :
    ∃ k2 ∈ (g.makeMove m).state.board.pieces, k2.type = PieceType.KING ∧ k2.color = k.color := by
  obtain ⟨_, _, hfate⟩ := makeMove_board g m hs.1 hv.1 h
  have hcap : ∀ c, m.capturedPiece = some c → k.position ≠ c.position := by
    intro c hc e
    obtain ⟨hcm, hcc, _⟩ := hv.2.2.2.2.1 c hc
    have := Board.eq_of_position_eq _ hs.1 k c hk hcm e
    rw [← this] at hcc
    exact hcc hkc
  obtain ⟨y, hy, _, hlook⟩ := hfate k hk hcap
  obtain ⟨ht, hc, _⟩ := (Piece.look_eq _ _).1 hlook
  rw [Move.relocate_color] at hc
  refine ⟨y, hy, ?_, hc⟩
  rw [ht]
  rcases Move.relocate_cases m k with ⟨e1, _, e⟩ | ⟨_, _, _, _, e⟩ | ⟨_, _, e⟩
  · rw [e]
    by_cases hp : m.promoteTo = PieceType.NONE
    · rw [if_pos hp]; exact hkt
    · exfalso
      have hpiece := hv.2.2.1
      unfold Game.getPiece at hpiece
      have hke : k = m.piece := Board.eq_of_position_eq _ hs.1 k m.piece hk
        (Board.getPiece_mem _ _ _ hpiece) (e1.trans (Board.getPiece_position _ _ _ hpiece).symm)
      have := (hv.2.2.2.2.2.1 hp).1
      rw [← hke, hkt] at this
      cases this
  · rw [e]; exact hkt
  · rw [e]; exact hkt

/-- A successful `makeMove` with a move that fits the position keeps the roster of each
colour equal to the set of the pieces of that colour on the board. -/
theorem makeMove_rosterMatchesBoard (g : Game) (move : Move)
    (hwf : g.board.WellFormed)
    (hpiece : move.piece ∈ g.board.pieces)
    (hcap : ∀ c, move.capturedPiece = some c → c ∈ g.board.pieces ∧ c.id ≠ move.piece.id)
    (hpromo : move.promoteTo ≠ PieceType.NONE → move.piece.type = PieceType.PAWN ∧
      ∀ x ∈ g.board.pieces, x.position = move.to_ →
        x = move.piece ∨ move.capturedPiece = some x)
    (hW : g.rosterMatchesBoard Color.WHITE = true)
    (hB : g.rosterMatchesBoard Color.BLACK = true)
    (h : (g.makeMove move).raised = none) :
    ∀ c, (g.makeMove move).state.rosterMatchesBoard c = true := by
  have inv : ∀ (c : Color) (i : Nat), i ∈ (g.player c).pieces ↔
      ∃ p ∈ g.board.pieces, p.id = i ∧ p.color = c := by
    intro c
    cases c
    · exact (rosterMatchesBoard_iff g Color.WHITE).1 hW
    · exact (rosterMatchesBoard_iff g Color.BLACK).1 hB
  obtain ⟨hc, g3, hs, _, _, hcur, _, hwp, hbp, _, hboard⟩ := makeMove_success_full g move h
  obtain ⟨s1, _, _, _⟩ := applyToBoard_state (g3.refreshCastlingPossibilites move) move
  obtain ⟨_, _, f3, f4, _, f6, f7, _⟩ := refreshCastlingPossibilites_frame g3 move
  rw [f4] at s1
  have hplayer : ∀ c, (g3.refreshCastlingPossibilites move).player c = g.player c := by
    intro c
    cases c
    · show (g3.refreshCastlingPossibilites move).whitePlayer = g.whitePlayer
      rw [f6, hwp]
    · show (g3.refreshCastlingPossibilites move).blackPlayer = g.blackPlayer
      rw [f7, hbp]
  -- the board before the board step has the same pieces up to the en-passant flag
  have own3 : ∀ (i : Nat) (c : Color), (∃ p ∈ g3.board.pieces, p.id = i ∧ p.color = c) ↔
      (∃ p ∈ g.board.pieces, p.id = i ∧ p.color = c) := by
    intro i c
    rcases hboard with ⟨_, hb⟩ | ⟨old, _, hb⟩
    · rw [hb]
    · rw [hb]; exact Board.setIsEnPassantTarget_owner _ _ _ _ _
  have at3 : ∀ (i : Nat) (pos : Position),
      (∃ p ∈ g3.board.pieces, p.id = i ∧ p.position = pos) ↔
      (∃ p ∈ g.board.pieces, p.id = i ∧ p.position = pos) := by
    intro i pos
    rcases hboard with ⟨_, hb⟩ | ⟨old, _, hb⟩
    · rw [hb]
    · rw [hb]; exact Board.setIsEnPassantTarget_at _ _ _ _ _
  -- the pieces of the final board
  have ownF : ∀ (i : Nat) (c : Color),
      (∃ q ∈ (g.makeMove move).state.board.pieces, q.id = i ∧ q.color = c) ↔
        (∃ p ∈ g.board.pieces, p.id = i ∧ p.color = c) ∧
          ∀ cp, move.capturedPiece = some cp → i ≠ cp.id := by
    intro i c
    rw [hs, s1]
    split_ifs
    · rw [Board.setIsEnPassantTarget_owner, Board.makeMove_owner, own3]
    · rw [Board.makeMove_owner, own3]
  -- the piece found on the destination after a promotion
  have hdest : move.promoteTo ≠ PieceType.NONE →
      ∃ q, (g3.board.makeMove move).getPiece move.to_ = some q ∧ q.id = move.piece.id := by
    intro hp
    obtain ⟨hpawn, hfree⟩ := hpromo hp
    have hcast : move.isCastling = false := by
      unfold Move.isCastling
      simp [hpawn]
    refine Board.makeMove_getPiece_to g3.board move hcast
      ((own3 _ _).2 ⟨move.piece, hpiece, rfl, rfl⟩ |>.imp fun p hp => ⟨hp.1, hp.2.1⟩)
      (fun c hcp => (hcap c hcp).2) ?_
    intro x hx hxpos
    obtain ⟨y, hy, hyid, hypos⟩ := (at3 x.id move.to_).1 ⟨x, hx, rfl, hxpos⟩
    rcases hfree y hy hypos with h1 | h1
    · left; rw [← hyid, h1]
    · right; exact ⟨y, h1, hyid.symm⟩
  have hpid : move.piece.id ∈ (g.player g.currentPlayer).pieces :=
    (inv _ _).2 ⟨move.piece, hpiece, rfl, hc.symm⟩
  -- the rosters after the call
  have roster : ∀ (c : Color) (i : Nat), i ∈ ((g.makeMove move).state.player c).pieces ↔
      i ∈ (g.player c).pieces ∧
        ∀ cp, move.capturedPiece = some cp → c = cp.color → i ≠ cp.id := by
    intro c i
    obtain ⟨r, hr, hroster⟩ := applyToBoard_player (g3.refreshCastlingPossibilites move) move c
    rw [hplayer, f3, hcur, f4] at hr
    rw [hs, hroster]
    have r2 : i ∈ r ↔ i ∈ (g.player c).pieces := by
      rw [hr]
      split_ifs with hp
      · obtain ⟨q, hq, hqid⟩ := hdest hp.1
        rw [hq]
        simp only [List.mem_append, List.mem_filter, List.mem_singleton, hqid]
        rw [hp.2]
        constructor
        · rintro (⟨h1, _⟩ | h1)
          · exact h1
          · rw [h1]; exact hpid
        · intro h1
          by_cases e : i = move.piece.id
          · exact Or.inr e
          · exact Or.inl ⟨h1, by simpa using e⟩
      · rfl
    cases hcp : move.capturedPiece with
    | none =>
      simp only []
      rw [r2]
      simp
    | some cp =>
      simp only []
      split_ifs with hcc
      · rw [List.mem_filter, r2]
        simp [hcc]
      · rw [r2]
        constructor
        · intro h1
          exact ⟨h1, fun cp1 e1 e2 => by cases e1; exact absurd e2 hcc⟩
        · exact fun h1 => h1.1
  have final : ∀ c, (g.makeMove move).state.rosterMatchesBoard c = true := by
    intro c
    rw [rosterMatchesBoard_iff]
    intro i
    rw [roster, ownF, inv]
    constructor
    · rintro ⟨⟨p, hp, hid, hcol⟩, hne⟩
      refine ⟨⟨p, hp, hid, hcol⟩, fun cp hcp => ?_⟩
      by_cases hcc : c = cp.color
      · exact hne cp hcp hcc
      · intro e
        have := Board.eq_of_id_eq g.board hwf p cp hp (hcap cp hcp).1 (hid.trans e)
        rw [this] at hcol
        exact hcc hcol.symm
    · rintro ⟨hex, hne⟩
      exact ⟨hex, fun cp hcp _ => hne cp hcp⟩
  exact final

/-- A validated move fits the position in the sense the roster bookkeeping needs. -/
theorem validates_fits (g : Game) (m : Move) (hs : g.Sound) (hv : g.Validates m) :
    m.piece ∈ g.board.pieces ∧
    (∀ c, m.capturedPiece = some c → c ∈ g.board.pieces ∧ c.id ≠ m.piece.id) ∧
    (m.promoteTo ≠ PieceType.NONE → m.piece.type = PieceType.PAWN ∧
      ∀ x ∈ g.board.pieces, x.position = m.to_ → x = m.piece ∨ m.capturedPiece = some x) := by
  have hpiece := hv.2.2.1
  unfold Game.getPiece at hpiece
  have hpm := Board.getPiece_mem _ _ _ hpiece
  refine ⟨hpm, ?_, ?_⟩
  · intro c hc
    obtain ⟨hcm, hcc, _⟩ := hv.2.2.2.2.1 c hc
    refine ⟨hcm, fun e => ?_⟩
    have := Board.eq_of_id_eq _ hs.1 c m.piece hcm hpm e
    rw [this] at hcc
    exact hcc hv.2.2.2.1
  · intro hp
    refine ⟨(hv.2.2.2.2.2.1 hp).1, fun x hx hxpos => ?_⟩
    rcases hv.1.2.2.2.1 with hnone | ⟨c, hc, hcpos⟩
    · exact absurd hxpos ((Board.getPiece_eq_none _ _).1 hnone x hx)
    · right
      obtain ⟨hcm, _, _⟩ := hv.2.2.2.2.1 c hc
      have := Board.eq_of_position_eq _ hs.1 x c hx hcm (hxpos.trans hcpos.symm)
      rw [this]
      exact hc

/-- The king of the side that does not move is still on the board after a validated
move. -/
theorem makeMove_keeps_other_king (g : Game) (m : Move) (hs : g.Sound) (hv : g.Validates m)
    (h : (g.makeMove m).raised = none) (k : Piece) (hk : k ∈ g.board.pieces)
    (hkt : k.type = PieceType.KING) (hkc : k.color ≠ g.currentPlayer) :
    ∃ k2 ∈ (g.makeMove m).state.board.pieces, k2.type = PieceType.KING ∧ k2.color = k.color := by
  have hpiece := hv.2.2.1
  unfold Game.getPiece at hpiece
  obtain ⟨y, hy, _, hyt, hyc⟩ := makeMove_keeps_piece g m hs hv h k hk
    (by
      intro q hq e
      obtain ⟨hqm, _, hqt⟩ := hv.2.2.2.2.1 q hq
      have := Board.eq_of_position_eq _ hs.1 k q hk hqm e
      rw [← this] at hqt
      exact hqt hkt)
    (by
      intro e
      have := Board.eq_of_position_eq _ hs.1 k m.piece hk (Board.getPiece_mem _ _ _ hpiece)
        (e.trans (Board.getPiece_position _ _ _ hpiece).symm)
      rw [this] at hkc
      exact hkc hv.2.2.2.1)
    (by
      rintro ⟨hc, e⟩
      obtain ⟨_, _, r, hr, hrc⟩ := hv.2.2.2.2.2.2.2.2 hc
      unfold Game.getPiece at hr
      have := Board.eq_of_position_eq _ hs.1 k r hk (Board.getPiece_mem _ _ _ hr)
        (e.trans (Board.getPiece_position _ _ _ hr).symm)
      rw [this] at hkc
      exact hkc hrc)
  unfold Game.getPiece at hy
  exact ⟨y, Board.getPiece_mem _ _ _ hy, hyt.trans hkt, hyc⟩

/-- A successful `makeMove` with a move of `getLegalMovesFrom` in a sound state keeps
the rosters equal to the pieces of the board and both kings on the board. -/
theorem makeMove_manned (g : Game) (m : Move) (hs : g.Sound) (hl : g.IsLegal m)
    (hm : g.Manned) (h : (g.makeMove m).raised = none) : (g.makeMove m).state.Manned := by
  obtain ⟨hv, _, _⟩ := isLegal_spec g m hs hl
  obtain ⟨f1, f2, f3⟩ := validates_fits g m hs hv
  have hr := makeMove_rosterMatchesBoard g m hs.1 f1 f2 f3 hm.1 hm.2.1 h
  refine ⟨hr _, hr _, fun c => ?_⟩
  obtain ⟨k, hk, hkt, hkc⟩ := hm.2.2 c
  by_cases hcc : c = g.currentPlayer
  · obtain ⟨k2, hk2, hk2t, hk2c⟩ := makeMove_keeps_own_king g m hs hv h k hk hkt (hkc.trans hcc)
    exact ⟨k2, hk2, hk2t, hk2c.trans hkc⟩
  · obtain ⟨k2, hk2, hk2t, hk2c⟩ := makeMove_keeps_other_king g m hs hv h k hk hkt
      (by rw [hkc]; exact hcc)
    exact ⟨k2, hk2, hk2t, hk2c.trans hkc⟩

set_option maxRecDepth 1000000 in
/-- In the starting position the rosters are the pieces of the board and both kings
are on the board. -/
theorem start_manned : Examples.start.Manned :=
  ⟨by decide, by decide, fun c => by
    cases c
    · exact ⟨⟨4, PieceType.KING, Color.WHITE, ⟨1, 5⟩, false⟩, by decide, rfl, rfl⟩
    · exact ⟨⟨28, PieceType.KING, Color.BLACK, ⟨8, 5⟩, false⟩, by decide, rfl, rfl⟩⟩

/-- Every state of a play of moves of `getLegalMovesFrom` from the starting position
is sound, with rosters equal to the pieces of the board and both kings on the board. -/
theorem reachable_sound_manned (whiteName blackName : String) (g : Game)
    (h : Reachable Game.IsLegal (Game.new whiteName blackName) g) : g.Sound ∧ g.Manned := by
  rw [Game.new_eq_start] at h
  induction h with
  | start => exact ⟨start_sound, start_manned⟩
  | step g0 move _ hallowed hok ih =>
    exact ⟨makeMove_sound g0 move ih.1 hallowed hok,
      makeMove_manned g0 move ih.1 hallowed ih.2 hok⟩

end Chess
